import Mathlib

/-!
# Square_matrix: a dense matrix library over a runtime-selected scalar kind

Shallow embedding of `field.c`, `field_int.c`, `float_field.c` and `matrix.c`.

Modelling conventions.

* Storage is addressed at the granularity of one scalar cell: a buffer of
  `rows * cols * type->size` bytes is a list of `rows * cols` cells, and
  `memcpy`/`memset` of `type->size` bytes copies/zeroes one cell.
* A cell of the integer kind holds a C `int` (an `Int`, arithmetic wraps to 32
  bits two's complement).  The quotient `INT_MIN / -1` is undefined behaviour in
  C (a trap on x86); `IntDivider` gives it the wrapped value, and the statements
  about a division that the code performs exclude it.
* A cell of the float kind holds a rational number.  The float callbacks are
  given twice: with every result rounded to IEEE 754 binary32
  (`GetFloatFieldInfo_binary32`), which is what `float_field.c` computes as long
  as no result overflows, and over exact field arithmetic (`GetFloatFieldInfo`),
  an idealisation used where no arithmetic is performed and as the reference a
  run without rounding is compared with.  The statements about the results of
  float arithmetic are stated on the rounded callbacks.
* A pointer that may be `NULL` is an `Option`.
* `size_t` values are natural numbers.  The one product that can exceed
  `size_t`, the byte count `rows * cols * type->size` of `Matrix_Create`, is
  given a second time as the code computes it, modulo `2^64`
  (`Matrix_Create_sized`, `Matrix_Multiply_sized`); `Matrix_Create` itself
  allocates the `rows * cols` cells asked for, which is what the code does
  whenever the byte count fits.
* Whether `malloc` succeeds is an explicit argument `alloc` of every operation
  that allocates.
* Reading a cell outside the buffer (undefined behaviour in C) yields the
  all-zero cell and writing outside the buffer is dropped; the theorems below
  are stated for well-formed matrices, where neither happens, apart from those
  that exhibit a matrix whose buffer is shorter than `rows * cols` cells.
* Operations are given on matrix values (a struct together with the content of
  its buffer), where distinct arguments are distinct objects.  Where a claim is
  about which storage a call writes, the operation is given a second time on an
  explicit heap of buffers (`Matrix_Clone_heap`, `Matrix_Set_heap`,
  `Matrix_GaussSolve_heap`, ...), with the same loops on the cells; there two
  arguments may share a buffer.
-/

namespace SquareMatrix

/-! ## matrix.h: status codes -/

/-- Status codes of `matrix.h`. -/
inductive MatrixError where
  | MATRIX_OK
  | MATRIX_ERROR_NULL_POINTER
  | MATRIX_ERROR_MEMORY
  | MATRIX_ERROR_INVALID_SIZE
  | MATRIX_ERROR_TYPE_MISMATCH
  | MATRIX_ERROR_DIMENSION_MISMATCH
  | MATRIX_ERROR_INVALID_INDEX
  | MATRIX_ERROR_SINGULAR_MATRIX
  deriving DecidableEq, Repr

open MatrixError

/-! ## field.h / field.c: scalar-type descriptors -/

/-- Identity (address) of a descriptor object.  `matrix.c` compares descriptor
pointers with the two singletons `GetIntFieldInfo()` / `GetFloatFieldInfo()` and
then reads cells through `int*` / `float*`; a pointer equal to a singleton
therefore fixes the cell type. -/
inductive FieldPtr : Type → Type 1 where
  | g_int_field_info : FieldPtr Int
  | g_float_field_info : FieldPtr ℚ
  | other {α : Type} (addr : Nat) : FieldPtr α

/-- The descriptor `struct FieldInfo` (the `read`/`print` callbacks do text
conversion only and are left out).  `div result a b` is the content of
`*result` after the call, because the dividers leave `*result` alone on a zero
divisor. -/
structure FieldInfo (α : Type) where
  ptr : FieldPtr α
  size : Nat
  name : String
  add : α → α → α
  sub : α → α → α
  mul : α → α → α
  div : α → α → α → α

/-- The function `FieldInfo_Equals`: same pointer (in particular both `NULL`), or
both present with equal `size` and equal `name`.  The C function takes two
`const FieldInfo*`, so the two descriptors may be of different kinds. -/
def FieldInfo_Equals {α β : Type} (a : Option (FieldInfo α)) (b : Option (FieldInfo β)) :
    Bool :=
  match a, b with
  | none, none => true
  | some a, some b => a.size == b.size && a.name == b.name
  | _, _ => false

/-! ## field_int.c -/

/-- Wrap an integer to the range of a 32-bit two's complement `int`. -/
def wrap32 (v : Int) : Int := (v + 2 ^ 31) % 2 ^ 32 - 2 ^ 31

/-- `IntAdder`. -/
def IntAdder (a b : Int) : Int := wrap32 (a + b)

/-- `IntSubtractor`. -/
def IntSubtractor (a b : Int) : Int := wrap32 (a - b)

/-- `IntMultiplier`. -/
def IntMultiplier (a b : Int) : Int := wrap32 (a * b)

/-- `IntDivider`: C division truncates toward zero; a zero divisor leaves
`result` as it was.  The overflowing quotient `INT_MIN / -1` is undefined
behaviour in C and traps on x86; it is given the wrapped value here, and the
statements about a division that the code performs exclude it. -/
def IntDivider (result a b : Int) : Int :=
  if b ≠ 0 then wrap32 (Int.tdiv a b) else result

/-- `CreateIntFieldInfo` / `GetIntFieldInfo`: the integer singleton. -/
def GetIntFieldInfo : FieldInfo Int :=
  { ptr := FieldPtr.g_int_field_info, size := 4, name := "int",
    add := IntAdder, sub := IntSubtractor, mul := IntMultiplier, div := IntDivider }

/-- A descriptor object of the integer kind at an address of its own: the size,
name and callbacks of the integer singleton, a different pointer. -/
def IntFieldInfo_at (addr : Nat) : FieldInfo Int :=
  { GetIntFieldInfo with ptr := FieldPtr.other addr }

/-! ## float_field.c over exact arithmetic (an idealisation) -/

/-- `FloatAdder` without rounding. -/
def FloatAdder (a b : ℚ) : ℚ := a + b

/-- `FloatSubtractor` without rounding. -/
def FloatSubtractor (a b : ℚ) : ℚ := a - b

/-- `FloatMultiplier` without rounding. -/
def FloatMultiplier (a b : ℚ) : ℚ := a * b

/-- `FloatDivider` without rounding: a zero divisor leaves `result` as it was. -/
def FloatDivider (result a b : ℚ) : ℚ :=
  if b ≠ 0 then a / b else result

/-- `CreateFloatFieldInfo` / `GetFloatFieldInfo`: the float singleton, its
callbacks computing without rounding. -/
def GetFloatFieldInfo : FieldInfo ℚ :=
  { ptr := FieldPtr.g_float_field_info, size := 4, name := "float",
    add := FloatAdder, sub := FloatSubtractor, mul := FloatMultiplier, div := FloatDivider }

/-- A descriptor object of the float kind at an address of its own. -/
def FloatFieldInfo_at (addr : Nat) : FieldInfo ℚ :=
  { GetFloatFieldInfo with ptr := FieldPtr.other addr }

/-! ## float_field.c: every result rounded to binary32 -/

/-- Halving `n` until it is below two, at most `fuel` times: the number of
halvings. -/
def halvings : Nat → Nat → Nat
  | 0, _ => 0
  | fuel + 1, n => if n < 2 then 0 else halvings fuel (n / 2) + 1

/-- The position of the leading bit of `n` (zero for `n = 0`). -/
def leading_bit (n : Nat) : Nat := halvings n n

/-- The largest `e` with `2^e ≤ a/d`, for positive `a` and `d`. -/
def floor_log2 (a d : Nat) : Int :=
  let l : Int := (leading_bit a : Int) - (leading_bit d : Int)
  let reaches : Bool :=
    if 0 ≤ l then decide (d * 2 ^ l.toNat ≤ a) else decide (d ≤ a * 2 ^ (-l).toNat)
  if reaches then l else l - 1

/-- The value a C `float` takes when it is assigned the real number `q`: the
nearest IEEE 754 binary32 number (24-bit significand, least exponent `-149`),
ties to the even significand.  Overflow to infinity is left out: beyond the
binary32 range the exponent is taken as unbounded. -/
def round_binary32 (q : ℚ) : ℚ :=
  if q.num = 0 then 0
  else
    let a : Nat := q.num.natAbs
    let d : Nat := q.den
    let ex : Int := max (floor_log2 a d - 23) (-149)
    let sn : Nat := if 0 ≤ ex then a else a * 2 ^ (-ex).toNat
    let sd : Nat := if 0 ≤ ex then d * 2 ^ ex.toNat else d
    let m : Nat := sn / sd
    let r : Nat := sn % sd
    let m2 : Nat :=
      if 2 * r < sd then m else if sd < 2 * r then m + 1 else if m % 2 = 0 then m else m + 1
    let mag : ℚ :=
      if 0 ≤ ex then ((m2 * 2 ^ ex.toNat : Nat) : ℚ) else mkRat m2 (2 ^ (-ex).toNat)
    if q.num < 0 then -mag else mag

/-- `FloatAdder` in binary32: the sum, rounded. -/
def FloatAdder_binary32 (a b : ℚ) : ℚ := round_binary32 (a + b)

/-- `FloatSubtractor` in binary32. -/
def FloatSubtractor_binary32 (a b : ℚ) : ℚ := round_binary32 (a - b)

/-- `FloatMultiplier` in binary32. -/
def FloatMultiplier_binary32 (a b : ℚ) : ℚ := round_binary32 (a * b)

/-- `FloatDivider` in binary32: a zero divisor leaves `result` as it was. -/
def FloatDivider_binary32 (result a b : ℚ) : ℚ :=
  if b ≠ 0 then round_binary32 (a / b) else result

/-- `CreateFloatFieldInfo` / `GetFloatFieldInfo`: the float singleton, every
callback rounding its result to binary32 as the C `float` operations do. -/
def GetFloatFieldInfo_binary32 : FieldInfo ℚ :=
  { ptr := FieldPtr.g_float_field_info, size := 4, name := "float",
    add := FloatAdder_binary32, sub := FloatSubtractor_binary32,
    mul := FloatMultiplier_binary32, div := FloatDivider_binary32 }

/-! ## test_matrix.c: the conversions of `test_gauss_solve_int` -/

/-- The C conversion `(float)val` of an `int`. -/
def int_to_float (val : Int) : ℚ := round_binary32 val

/-- The C conversion `(int)fval` of a `float`: truncation toward zero (a value
beyond the range of `int` is undefined behaviour in C). -/
def float_to_int (fval : ℚ) : Int := Int.tdiv fval.num fval.den

/-- The rounding of `test_gauss_solve_int`: `(int)(fval + 0.5f)`. -/
def round_to_int (fval : ℚ) : Int := float_to_int (FloatAdder_binary32 fval (1 / 2))

/-! ## matrix.c: storage -/

/-- The `Matrix` struct. -/
structure Matrix (α : Type) where
  data : Option (List α)
  rows : Nat
  cols : Nat
  type : Option (FieldInfo α)

/-- Read cell `i` of a buffer. -/
def peek {α : Type} [Zero α] (buf : List α) (i : Nat) : α := buf.getD i 0

/-- Overwrite cell `i` of a buffer. -/
def poke {α : Type} (buf : List α) (i : Nat) (v : α) : List α := buf.set i v

/-- The buffer `m->data` points to.  A `NULL` buffer is read as an empty one
(dereferencing it is undefined behaviour in C). -/
def Matrix.buf {α : Type} (m : Matrix α) : List α := m.data.getD []

/-- `matrix_index`. -/
def matrix_index {α : Type} (m : Matrix α) (row col : Nat) : Nat := row * m.cols + col

/-- The cell `matrix_element_ptr(m, row, col)` points to. -/
def matrix_element {α : Type} [Zero α] (m : Matrix α) (row col : Nat) : α :=
  peek m.buf (matrix_index m row col)

/-- `types_compatible`. -/
def types_compatible {α : Type} (a b : Matrix α) : Bool := FieldInfo_Equals a.type b.type

/-- The data-model invariant of a live matrix: positive dimensions, a descriptor,
and a buffer of exactly `rows * cols` cells. -/
def WellFormed {α : Type} (m : Matrix α) : Prop :=
  0 < m.rows ∧ 0 < m.cols ∧ m.type.isSome = true ∧
    m.data.map List.length = some (m.rows * m.cols)

instance {α : Type} (m : Matrix α) : Decidable (WellFormed m) := by
  unfold WellFormed; infer_instance

/-- A counted loop `for (i = lo; n-- > 0; i++) s = body(i, s)`. -/
def loopFrom {σ : Type} (body : Nat → σ → σ) : Nat → Nat → σ → σ
  | _, 0, s => s
  | i, n + 1, s => loopFrom body (i + 1) n (body i s)

/-- The loop `for (size_t i = lo; i < hi; i++) s = body(i, s)`. -/
def forLoop {σ : Type} (lo hi : Nat) (body : Nat → σ → σ) (s : σ) : σ :=
  loopFrom body lo (hi - lo) s

/-- The loop `for (size_t i = n; i-- > 0; ) s = body(i, s)`. -/
def downLoop {σ : Type} (body : Nat → σ → σ) : Nat → σ → σ
  | 0, s => s
  | i + 1, s => downLoop body i (body i s)

/-- `Matrix_Create`, for a byte count `rows * cols * type->size` that fits
`size_t` (`Matrix_Create_sized` gives the allocation for every byte count). -/
def Matrix_Create {α : Type} [Zero α] (alloc : Bool) (rows cols : Nat)
    (type : Option (FieldInfo α)) : Option (Matrix α) :=
  match type with
  | none => none
  | some t =>
    if rows = 0 ∨ cols = 0 then none
    else if alloc = false then none
    else some { data := some (List.replicate (rows * cols) 0), rows := rows, cols := cols,
                type := some t }

/-- `Matrix_Get`: the status, and the content of `*out` afterwards. -/
def Matrix_Get {α : Type} [Zero α] (m : Option (Matrix α)) (row col : Nat) (out : Option α) :
    MatrixError × Option α :=
  match m, out with
  | some m, some o =>
    match m.data, m.type with
    | some d, some _ =>
      if row ≥ m.rows ∨ col ≥ m.cols then (MATRIX_ERROR_INVALID_INDEX, some o)
      else (MATRIX_OK, some (peek d (matrix_index m row col)))
    | _, _ => (MATRIX_ERROR_TYPE_MISMATCH, some o)
  | _, _ => (MATRIX_ERROR_NULL_POINTER, out)

/-- `Matrix_Set`: the status, and the matrix afterwards. -/
def Matrix_Set {α : Type} (m : Option (Matrix α)) (row col : Nat) (value : Option α) :
    MatrixError × Option (Matrix α) :=
  match m, value with
  | some m, some v =>
    match m.data, m.type with
    | some d, some _ =>
      if row ≥ m.rows ∨ col ≥ m.cols then (MATRIX_ERROR_INVALID_INDEX, some m)
      else (MATRIX_OK, some { m with data := some (poke d (matrix_index m row col) v) })
    | _, _ => (MATRIX_ERROR_TYPE_MISMATCH, some m)
  | _, _ => (MATRIX_ERROR_NULL_POINTER, m)

/-! ## matrix.c: arithmetic -/

/-- `Matrix_Add`: the returned matrix and the status written to `*error`. -/
def Matrix_Add {α : Type} [Zero α] (alloc : Bool) (a b : Option (Matrix α)) :
    Option (Matrix α) × MatrixError :=
  match a, b with
  | some a, some b =>
    if types_compatible a b = false then (none, MATRIX_ERROR_TYPE_MISMATCH)
    else if a.rows ≠ b.rows ∨ a.cols ≠ b.cols then (none, MATRIX_ERROR_DIMENSION_MISMATCH)
    else
      match a.type, Matrix_Create alloc a.rows a.cols a.type with
      | some t, some result =>
        let total := a.rows * a.cols
        let r := forLoop 0 total
          (fun i r => poke r i (t.add (peek a.buf i) (peek b.buf i))) result.buf
        (some { result with data := some r }, MATRIX_OK)
      | _, _ => (none, MATRIX_ERROR_MEMORY)
  | _, _ => (none, MATRIX_ERROR_NULL_POINTER)

/-- The triple loop of `Matrix_Multiply` on the buffer of `result`; `rc` is
`result->cols`. -/
def multiply_loops {α : Type} [Zero α] (t : FieldInfo α) (a b : Matrix α) (rc : Nat)
    (r : List α) : List α :=
  forLoop 0 a.rows (fun i r =>
    forLoop 0 b.cols (fun j r =>
      let r := poke r (i * rc + j) 0
      forLoop 0 a.cols (fun k r =>
        let temp := t.mul (peek a.buf (matrix_index a i k)) (peek b.buf (matrix_index b k j))
        poke r (i * rc + j) (t.add (peek r (i * rc + j)) temp)) r) r) r

/-- `Matrix_Multiply`: the returned matrix and the status written to `*error`. -/
def Matrix_Multiply {α : Type} [Zero α] (alloc : Bool) (a b : Option (Matrix α)) :
    Option (Matrix α) × MatrixError :=
  match a, b with
  | some a, some b =>
    if types_compatible a b = false then (none, MATRIX_ERROR_TYPE_MISMATCH)
    else if a.cols ≠ b.rows then (none, MATRIX_ERROR_DIMENSION_MISMATCH)
    else
      match a.type, Matrix_Create alloc a.rows b.cols a.type with
      | some t, some result =>
        let r := multiply_loops t a b result.cols result.buf
        (some { result with data := some r }, MATRIX_OK)
      | _, _ => (none, MATRIX_ERROR_MEMORY)
  | _, _ => (none, MATRIX_ERROR_NULL_POINTER)

/-! ## matrix.c: Gauss elimination -/

/-- The float literal `1e-10f`: the single-precision number nearest to `10^-10`. -/
def EPS_1e_10f : ℚ := 14411519 / 2 ^ 57

/-- The pivot-search comparison of `Matrix_GaussSolve`: with the descriptor
pointer `p`, does the candidate `cur` replace the current maximum `mx`?  Float
singleton: compare absolute values as floats; integer singleton: compare absolute
values as ints (negation wraps); any other descriptor: neither branch runs. -/
def pivot_exceeds : {α : Type} → FieldPtr α → α → α → Bool
  | _, FieldPtr.g_float_field_info, cur, mx =>
    let cur_val : ℚ := if cur < 0 then -cur else cur
    let max_val : ℚ := if mx < 0 then -mx else mx
    decide (cur_val > max_val)
  | _, FieldPtr.g_int_field_info, cur, mx =>
    let cur_val : Int := if cur < 0 then wrap32 (-cur) else cur
    let max_val : Int := if mx < 0 then wrap32 (-mx) else mx
    decide (cur_val > max_val)
  | _, FieldPtr.other _, _, _ => false

/-- The singularity test of `Matrix_GaussSolve` on the selected pivot. -/
def pivot_is_singular : {α : Type} → FieldPtr α → α → Bool
  | _, FieldPtr.g_float_field_info, pivot =>
    let pivot_abs : ℚ := if pivot < 0 then -pivot else pivot
    decide (pivot_abs < EPS_1e_10f)
  | _, FieldPtr.g_int_field_info, pivot => decide (pivot = 0)
  | _, FieldPtr.other _, _ => false

/-- The zero-skip of the elimination loop, done for the float singleton only. -/
def skip_zero_entry : {α : Type} → FieldPtr α → α → Bool
  | _, FieldPtr.g_float_field_info, e => decide (e = 0)
  | _, FieldPtr.g_int_field_info, _ => false
  | _, FieldPtr.other _, _ => false

/-- The cell `matrix_element_ptr(m, i, j)` points to, for a matrix with `w`
columns and buffer `buf`. -/
def load {α : Type} [Zero α] (w : Nat) (buf : List α) (i j : Nat) : α := peek buf (i * w + j)

/-- Writing `v` through `matrix_element_ptr(m, i, j)`. -/
def store {α : Type} (w : Nat) (buf : List α) (i j : Nat) (v : α) : List α :=
  poke buf (i * w + j) v

/-- Building `[A|b]`: the copy loop of `Matrix_GaussSolve`; `w` is the column
count of the augmented matrix. -/
def gauss_copy {α : Type} [Zero α] (a b : Matrix α) (n w : Nat) (aug : List α) : List α :=
  forLoop 0 n (fun i aug =>
    let aug := forLoop 0 n (fun j aug => store w aug i j (matrix_element a i j)) aug
    store w aug i n (matrix_element b i 0)) aug

/-- The pivot search in column `k`: the final `max_row` (`max_pivot` always
points at cell `(max_row, k)`). -/
def gauss_find_pivot {α : Type} [Zero α] (t : FieldInfo α) (n w k : Nat) (aug : List α) : Nat :=
  forLoop (k + 1) n (fun i max_row =>
    if pivot_exceeds t.ptr (load w aug i k) (load w aug max_row k) then i else max_row) k

/-- The row swap of rows `k` and `max_row` across all `n + 1` columns. -/
def gauss_swap_rows {α : Type} [Zero α] (n w k max_row : Nat) (aug : List α) : List α :=
  if max_row ≠ k then
    forLoop 0 (n + 1) (fun j aug =>
      let temp := load w aug k j
      let aug := store w aug k j (load w aug max_row j)
      store w aug max_row j temp) aug
  else aug

/-- The innermost elimination loop: `row_i[j] -= factor * row_k[j]` for
`j = k .. n`. -/
def gauss_row_update {α : Type} [Zero α] (t : FieldInfo α) (n w k i : Nat) (factor : α)
    (aug : List α) : List α :=
  forLoop k (n + 1) (fun j aug =>
    let temp := t.mul factor (load w aug k j)
    store w aug i j (t.sub (load w aug i j) temp)) aug

/-- Elimination of column `k` from the rows below row `k`. -/
def gauss_eliminate {α : Type} [Zero α] (t : FieldInfo α) (n w k : Nat) (aug : List α) : List α :=
  forLoop (k + 1) n (fun i aug =>
    let elem_i_k := load w aug i k
    if skip_zero_entry t.ptr elem_i_k then aug
    else
      let factor := elem_i_k
      let pivot := load w aug k k
      let factor := t.div factor factor pivot
      gauss_row_update t n w k i factor aug) aug

/-- One iteration of the forward-elimination loop; `none` is the early
`return MATRIX_ERROR_SINGULAR_MATRIX`. -/
def gauss_forward_step {α : Type} [Zero α] (t : FieldInfo α) (n w k : Nat) (aug : List α) :
    Option (List α) :=
  let max_row := gauss_find_pivot t n w k aug
  if pivot_is_singular t.ptr (load w aug max_row k) then none
  else some (gauss_eliminate t n w k (gauss_swap_rows n w k max_row aug))

/-- The forward-elimination loop over the pivot columns `k = 0 .. n-1`. -/
def gauss_forward {α : Type} [Zero α] (t : FieldInfo α) (n w : Nat) (aug : List α) :
    Option (List α) :=
  forLoop 0 n (fun k st => st.bind (gauss_forward_step t n w k)) (some aug)

/-- The inner loop of back substitution: `x_i -= A[i][j] * x_j` for
`j = i+1 .. n-1`. -/
def gauss_back_row {α : Type} [Zero α] (t : FieldInfo α) (n w xc i : Nat) (aug : List α)
    (xbuf : List α) : List α :=
  forLoop (i + 1) n (fun j xbuf =>
    let temp := t.mul (load w aug i j) (load xc xbuf j 0)
    store xc xbuf i 0 (t.sub (load xc xbuf i 0) temp)) xbuf

/-- Back substitution into the buffer of `x`; `xc` is `x->cols`. -/
def gauss_back_substitute {α : Type} [Zero α] (t : FieldInfo α) (n w xc : Nat) (aug : List α)
    (xbuf : List α) : List α :=
  downLoop (fun i xbuf =>
    let xbuf := store xc xbuf i 0 (load w aug i n)
    let xbuf := gauss_back_row t n w xc i aug xbuf
    store xc xbuf i 0 (t.div (load xc xbuf i 0) (load xc xbuf i 0) (load w aug i i))) n xbuf

/-- `Matrix_GaussSolve`: the status, and the matrix `x` afterwards. -/
def Matrix_GaussSolve {α : Type} [Zero α] (alloc : Bool) (a b x : Option (Matrix α)) :
    MatrixError × Option (Matrix α) :=
  match a, b, x with
  | some a, some b, some x =>
    match a.type, b.type, x.type with
    | some t, some _, some _ =>
      if types_compatible a b = false ∨ types_compatible a x = false then
        (MATRIX_ERROR_TYPE_MISMATCH, some x)
      else if a.rows ≠ a.cols then (MATRIX_ERROR_DIMENSION_MISMATCH, some x)
      else if b.cols ≠ 1 then (MATRIX_ERROR_DIMENSION_MISMATCH, some x)
      else if a.rows ≠ b.rows then (MATRIX_ERROR_DIMENSION_MISMATCH, some x)
      else if x.rows ≠ a.rows ∨ x.cols ≠ 1 then (MATRIX_ERROR_DIMENSION_MISMATCH, some x)
      else
        let n := a.rows
        match Matrix_Create alloc n (n + 1) a.type with
        | none => (MATRIX_ERROR_MEMORY, some x)
        | some augmented =>
          let aug := gauss_copy a b n augmented.cols augmented.buf
          match gauss_forward t n augmented.cols aug with
          | none => (MATRIX_ERROR_SINGULAR_MATRIX, some x)
          | some aug =>
            let xdata := Option.map (gauss_back_substitute t n augmented.cols x.cols aug) x.data
            (MATRIX_OK, some { x with data := xdata })
    | _, _, _ => (MATRIX_ERROR_TYPE_MISMATCH, some x)
  | _, _, _ => (MATRIX_ERROR_NULL_POINTER, x)

/-- A matrix with the given contents (row-major) and descriptor. -/
def Matrix.ofList {α : Type} (t : FieldInfo α) (rows cols : Nat) (cells : List α) : Matrix α :=
  { data := some cells, rows := rows, cols := cols, type := some t }

/-! ## matrix.c: clone, scalar multiple, row combination, fill, identity -/

/-- The call `memcpy(dst, src, total * size)`: `total` cells copied from `src` to `dst`. -/
def copy_cells {α : Type} [Zero α] (total : Nat) (src dst : List α) : List α :=
  forLoop 0 total (fun i d => poke d i (peek src i)) dst

/-- The call `memset(buf, 0, total * size)`: `total` cells zeroed. -/
def zero_cells {α : Type} [Zero α] (total : Nat) (buf : List α) : List α :=
  forLoop 0 total (fun i d => poke d i 0) buf

/-- `Matrix_Clone`: the returned matrix and the status written to `*error`. -/
def Matrix_Clone {α : Type} [Zero α] (alloc : Bool) (m : Option (Matrix α)) :
    Option (Matrix α) × MatrixError :=
  match m with
  | none => (none, MATRIX_ERROR_NULL_POINTER)
  | some m =>
    match Matrix_Create alloc m.rows m.cols m.type with
    | none => (none, MATRIX_ERROR_MEMORY)
    | some clone =>
      let d := copy_cells (m.rows * m.cols) m.buf clone.buf
      (some { clone with data := some d }, MATRIX_OK)

/-- The loop of `Matrix_ScalarMultiply`: every cell multiplied in place by the
scalar, `elem = elem * scalar`. -/
def scalar_multiply_cells {α : Type} [Zero α] (t : FieldInfo α) (total : Nat) (scalar : α)
    (buf : List α) : List α :=
  forLoop 0 total (fun i r => poke r i (t.mul (peek r i) scalar)) buf

/-- `Matrix_ScalarMultiply`: the returned matrix and the status written to
`*error` (the status is the one `Matrix_Clone` wrote).  A clone always carries a
descriptor, so the branch without one is never taken. -/
def Matrix_ScalarMultiply {α : Type} [Zero α] (alloc : Bool) (m : Option (Matrix α))
    (scalar : Option α) : Option (Matrix α) × MatrixError :=
  match m, scalar with
  | some m, some s =>
    match Matrix_Clone alloc (some m) with
    | (some result, e) =>
      match result.type with
      | some t =>
        let d := scalar_multiply_cells t (m.rows * m.cols) s result.buf
        (some { result with data := some d }, e)
      | none => (some result, e)
    | (none, e) => (none, e)
  | _, _ => (none, MATRIX_ERROR_NULL_POINTER)

/-- The inner loop of `Matrix_AddLinearCombination` for column `j`: the final
`temp_sum`, accumulated from zero over the rows `k != row_idx`. -/
def linear_combination_sum {α : Type} [Zero α] (t : FieldInfo α) (m : Matrix α)
    (alphas : List α) (row_idx j : Nat) : α :=
  forLoop 0 m.rows (fun k temp_sum =>
    if k = row_idx then temp_sum
    else
      let temp_mul := t.mul (peek alphas k) (matrix_element m k j)
      t.add temp_sum temp_mul) 0

/-- The outer loop of `Matrix_AddLinearCombination` on the buffer of `result`;
`rc` is `result->cols`. -/
def linear_combination_cells {α : Type} [Zero α] (t : FieldInfo α) (m : Matrix α)
    (alphas : List α) (row_idx rc : Nat) (r : List α) : List α :=
  forLoop 0 m.cols (fun j r =>
    let temp_sum := linear_combination_sum t m alphas row_idx j
    store rc r row_idx j (t.add (load rc r row_idx j) temp_sum)) r

/-- `Matrix_AddLinearCombination`: the returned matrix and the status written to
`*error`; `alphas` is the coefficient array (reading past its end is undefined
behaviour in C and yields zero here).  A clone always carries a descriptor, so
the branch without one is never taken. -/
def Matrix_AddLinearCombination {α : Type} [Zero α] (alloc : Bool) (m : Option (Matrix α))
    (row_idx : Nat) (alphas : Option (List α)) : Option (Matrix α) × MatrixError :=
  match m, alphas with
  | some m, some al =>
    if row_idx ≥ m.rows then (none, MATRIX_ERROR_INVALID_INDEX)
    else
      match Matrix_Clone alloc (some m) with
      | (some result, e) =>
        match m.type with
        | some t =>
          let d := linear_combination_cells t m al row_idx result.cols result.buf
          (some { result with data := some d }, e)
        | none => (some result, e)
      | (none, e) => (none, e)
  | _, _ => (none, MATRIX_ERROR_NULL_POINTER)

/-- The loop of `Matrix_Fill`: `value` copied into each of the `total` cells. -/
def fill_cells {α : Type} (total : Nat) (value : α) (buf : List α) : List α :=
  forLoop 0 total (fun i d => poke d i value) buf

/-- `Matrix_Fill`: the status, and the matrix afterwards.  The code does not
check `m->data` and `m->type`: with either of them `NULL` the loop dereferences
`NULL` (undefined behaviour), where the matrix is left as it is here; the
statements about `Matrix_Fill` are for well-formed matrices. -/
def Matrix_Fill {α : Type} (m : Option (Matrix α)) (value : Option α) :
    MatrixError × Option (Matrix α) :=
  match m, value with
  | some m, some v =>
    let d := Option.map (fill_cells (m.rows * m.cols) v) m.data
    (MATRIX_OK, some { m with data := d })
  | _, _ => (MATRIX_ERROR_NULL_POINTER, m)

/-- What a cell holds after `memcpy` from the C object `float one = 1.0f`: the
number one in a float cell, the bit pattern `0x3F800000` read as an `int` in an
integer cell. -/
class FloatOneBytes (α : Type) where
  floatOne : α

instance : FloatOneBytes ℚ := ⟨1⟩

instance : FloatOneBytes Int := ⟨1065353216⟩

/-- The value `Matrix_Identity` copies onto the diagonal: `int one = 1` when the
descriptor pointer is the integer singleton, the bytes of `float one = 1.0f`
otherwise. -/
def identity_one : {α : Type} → [FloatOneBytes α] → Option (FieldPtr α) → α
  | _, _, some FieldPtr.g_int_field_info => (1 : Int)
  | _, inst, _ => inst.floatOne

/-- The writes of `Matrix_Identity`: the whole buffer zeroed, then the diagonal
loop. -/
def identity_cells {α : Type} [Zero α] [FloatOneBytes α] (type : Option (FieldInfo α))
    (rows cols : Nat) (buf : List α) : List α :=
  forLoop 0 rows (fun i d => store cols d i i (identity_one (type.map FieldInfo.ptr)))
    (zero_cells (rows * cols) buf)

/-- `Matrix_Identity`: the status, and the matrix afterwards.  The code does not
check `m->data` and `m->type`: on a square matrix with either of them `NULL` it
dereferences `NULL` (undefined behaviour), where the buffer is left as it is
here; the statements about the cells written are for well-formed matrices. -/
def Matrix_Identity {α : Type} [Zero α] [FloatOneBytes α] (m : Option (Matrix α)) :
    MatrixError × Option (Matrix α) :=
  match m with
  | none => (MATRIX_ERROR_NULL_POINTER, none)
  | some m =>
    if m.rows ≠ m.cols then (MATRIX_ERROR_DIMENSION_MISMATCH, some m)
    else
      let d := Option.map (identity_cells m.type m.rows m.cols) m.data
      (MATRIX_OK, some { m with data := d })

/-! ## The heap: which block each operation reads and writes -/

/-- The heap of scalar buffers: the block at address `p` holds `h[p]`.  `malloc`
hands out the next unused address, so a new block never overlaps a live one. -/
abbrev Heap (α : Type) := List (List α)

/-- The `Matrix` struct with its `data` field as an address into the heap
(`none` is `NULL`). -/
structure MatrixObj (α : Type) where
  data : Option Nat
  rows : Nat
  cols : Nat
  type : Option (FieldInfo α)

/-- The matrix that a struct denotes in a heap: its buffer is the block its
`data` field points to. -/
def MatrixObj.deref {α : Type} (h : Heap α) (m : MatrixObj α) : Matrix α :=
  { data := m.data.bind (fun p => h[p]?), rows := m.rows, cols := m.cols, type := m.type }

/-- Writing through a data pointer: the block at `p` becomes `f` of its content. -/
def heap_update {α : Type} (h : Heap α) (p : Option Nat) (f : List α → List α) : Heap α :=
  match p with
  | none => h
  | some q =>
    match h[q]? with
    | none => h
    | some buf => h.set q (f buf)

/-- `Matrix_Create` on the heap: the new heap and the returned struct. -/
def Matrix_Create_heap {α : Type} [Zero α] (alloc : Bool) (h : Heap α) (rows cols : Nat)
    (type : Option (FieldInfo α)) : Heap α × Option (MatrixObj α) :=
  match type with
  | none => (h, none)
  | some t =>
    if rows = 0 ∨ cols = 0 then (h, none)
    else if alloc = false then (h, none)
    else
      (h ++ [List.replicate (rows * cols) 0],
        some { data := some h.length, rows := rows, cols := cols, type := some t })

/-- `Matrix_Set` on the heap: the new heap and the status. -/
def Matrix_Set_heap {α : Type} (h : Heap α) (m : Option (MatrixObj α)) (row col : Nat)
    (value : Option α) : Heap α × MatrixError :=
  match m, value with
  | some m, some v =>
    match m.data, m.type with
    | some _, some _ =>
      if row ≥ m.rows ∨ col ≥ m.cols then (h, MATRIX_ERROR_INVALID_INDEX)
      else (heap_update h m.data (fun d => poke d (row * m.cols + col) v), MATRIX_OK)
    | _, _ => (h, MATRIX_ERROR_TYPE_MISMATCH)
  | _, _ => (h, MATRIX_ERROR_NULL_POINTER)

/-- `Matrix_Clone` on the heap: the new heap, the returned struct and the status
written to `*error`. -/
def Matrix_Clone_heap {α : Type} [Zero α] (alloc : Bool) (h : Heap α)
    (m : Option (MatrixObj α)) : Heap α × Option (MatrixObj α) × MatrixError :=
  match m with
  | none => (h, none, MATRIX_ERROR_NULL_POINTER)
  | some m =>
    match Matrix_Create_heap alloc h m.rows m.cols m.type with
    | (_, none) => (h, none, MATRIX_ERROR_MEMORY)
    | (h1, some clone) =>
      (heap_update h1 clone.data (copy_cells (m.rows * m.cols) (m.deref h1).buf),
        some clone, MATRIX_OK)

/-- `Matrix_ScalarMultiply` on the heap: the new heap, the returned struct and
the status written to `*error`. -/
def Matrix_ScalarMultiply_heap {α : Type} [Zero α] (alloc : Bool) (h : Heap α)
    (m : Option (MatrixObj α)) (scalar : Option α) :
    Heap α × Option (MatrixObj α) × MatrixError :=
  match m, scalar with
  | some m, some s =>
    match Matrix_Clone_heap alloc h (some m) with
    | (h1, some result, e) =>
      match result.type with
      | some t =>
        (heap_update h1 result.data (scalar_multiply_cells t (m.rows * m.cols) s),
          some result, e)
      | none => (h1, some result, e)
    | (h1, none, e) => (h1, none, e)
  | _, _ => (h, none, MATRIX_ERROR_NULL_POINTER)

/-- `Matrix_Add` on the heap: the new heap, the returned struct and the status
written to `*error`. -/
def Matrix_Add_heap {α : Type} [Zero α] (alloc : Bool) (h : Heap α)
    (a b : Option (MatrixObj α)) : Heap α × Option (MatrixObj α) × MatrixError :=
  match a, b with
  | some a, some b =>
    if FieldInfo_Equals a.type b.type = false then (h, none, MATRIX_ERROR_TYPE_MISMATCH)
    else if a.rows ≠ b.rows ∨ a.cols ≠ b.cols then
      (h, none, MATRIX_ERROR_DIMENSION_MISMATCH)
    else
      match a.type, Matrix_Create_heap alloc h a.rows a.cols a.type with
      | some t, (h1, some result) =>
        let total := a.rows * a.cols
        (heap_update h1 result.data (fun r0 => forLoop 0 total
            (fun i r => poke r i (t.add (peek (a.deref h1).buf i) (peek (b.deref h1).buf i)))
            r0),
          some result, MATRIX_OK)
      | _, _ => (h, none, MATRIX_ERROR_MEMORY)
  | _, _ => (h, none, MATRIX_ERROR_NULL_POINTER)

/-- `Matrix_GaussSolve` on the heap: the new heap and the status.  The working
matrix `augmented` is a new block; `Matrix_Destroy` releases it before every
return, after which no live matrix can observe it, so the block stays in the
heap with the content it had after the copy loop (early return) or after the
forward elimination (normal return). -/
def Matrix_GaussSolve_heap {α : Type} [Zero α] (alloc : Bool) (h : Heap α)
    (a b x : Option (MatrixObj α)) : Heap α × MatrixError :=
  match a, b, x with
  | some a, some b, some x =>
    match a.type, b.type, x.type with
    | some t, some _, some _ =>
      if FieldInfo_Equals a.type b.type = false ∨ FieldInfo_Equals a.type x.type = false then
        (h, MATRIX_ERROR_TYPE_MISMATCH)
      else if a.rows ≠ a.cols then (h, MATRIX_ERROR_DIMENSION_MISMATCH)
      else if b.cols ≠ 1 then (h, MATRIX_ERROR_DIMENSION_MISMATCH)
      else if a.rows ≠ b.rows then (h, MATRIX_ERROR_DIMENSION_MISMATCH)
      else if x.rows ≠ a.rows ∨ x.cols ≠ 1 then (h, MATRIX_ERROR_DIMENSION_MISMATCH)
      else
        let n := a.rows
        match Matrix_Create_heap alloc h n (n + 1) a.type with
        | (_, none) => (h, MATRIX_ERROR_MEMORY)
        | (h1, some augmented) =>
          let h2 := heap_update h1 augmented.data
            (gauss_copy (a.deref h1) (b.deref h1) n augmented.cols)
          match gauss_forward t n augmented.cols (augmented.deref h2).buf with
          | none => (h2, MATRIX_ERROR_SINGULAR_MATRIX)
          | some aug =>
            let h3 := heap_update h2 augmented.data (fun _ => aug)
            (heap_update h3 x.data (gauss_back_substitute t n augmented.cols x.cols aug),
              MATRIX_OK)
    | _, _, _ => (h, MATRIX_ERROR_TYPE_MISMATCH)
  | _, _, _ => (h, MATRIX_ERROR_NULL_POINTER)

/-- The data pointer of a struct is `NULL` or the address of a block of the heap. -/
def MatrixObj.live {α : Type} (h : Heap α) (m : MatrixObj α) : Prop :=
  ∀ p, m.data = some p → p < h.length

/-! ## Specification-level definitions used by the theorems -/

/-- The claim's right-hand side for `Matrix_Multiply`: the sum over
`k = 0 .. a.cols-1` of `a[i][k] * b[k][j]`, accumulated from zero with the
descriptor's `mul` and `add`. -/
def product_entry {α : Type} [Zero α] (t : FieldInfo α) (a b : Matrix α) (i j : Nat) : α :=
  (List.range a.cols).foldl
    (fun acc k => t.add acc (t.mul (matrix_element a i k) (matrix_element b k j))) 0

/-- Row index after exchanging rows `k` and `m`. -/
def swap_index (k m i : Nat) : Nat := if i = k then m else if i = m then k else i

/-- The entry `(i, j)` after eliminating column `k`, from the entries `E` before. -/
def eliminated {α : Type} (t : FieldInfo α) (k : Nat) (E : Nat → Nat → α) (i j : Nat) : α :=
  if k < i ∧ k ≤ j ∧ skip_zero_entry t.ptr (E i k) = false then
    t.sub (E i j) (t.mul (t.div (E i k) (E i k) (E k k)) (E k j))
  else E i j

/-- The vector `x` satisfies every row equation of the working matrix `E`
(`n` rows, right-hand side in column `n`, scaled by `β`: `β = 1` is the system
itself, `β = 0` the homogeneous system). -/
def Solves (β : ℚ) (n : Nat) (E : Nat → Nat → ℚ) (x : Nat → ℚ) : Prop :=
  ∀ i, i < n → ∑ j in Finset.range n, E i j * x j = β * E i n

/-- Subtracting `f i` times row `k` from every row `i > k`. -/
def row_reduced (f : Nat → ℚ) (k : Nat) (E : Nat → Nat → ℚ) (i j : Nat) : ℚ :=
  if k < i then E i j - f i * E k j else E i j

/-- The claim's right-hand side for `Matrix_AddLinearCombination`: the sum over
the rows `k != row_idx`, in increasing order, of `alphas[k] * m[k][j]`,
accumulated from zero with the descriptor's `mul` and `add`. -/
def weighted_sum {α : Type} [Zero α] (t : FieldInfo α) (m : Matrix α) (alphas : List α)
    (row_idx j : Nat) : α :=
  ((List.range m.rows).filter (fun k => decide (k ≠ row_idx))).foldl
    (fun acc k => t.add acc (t.mul (peek alphas k) (matrix_element m k j))) 0

/-- The matrix `m2` has the rows, cols, descriptor and buffer length of `m`
(and a buffer exactly when `m` has one). -/
def same_shape {α : Type} (m m2 : Matrix α) : Prop :=
  m2.rows = m.rows ∧ m2.cols = m.cols ∧ m2.type = m.type ∧
    m2.data.map List.length = m.data.map List.length

/-- The values of a C `int` other than `INT_MIN`: the ones whose negation does
not overflow. -/
def negatable (v : Int) : Prop := -2 ^ 31 < v ∧ v < 2 ^ 31

instance (v : Int) : Decidable (negatable v) := by
  unfold negatable; infer_instance

/-- The working matrix at the start of elimination step `k` of the forward loop
(`none` once a singular pivot made the call return). -/
def gauss_forward_upto {α : Type} [Zero α] (t : FieldInfo α) (n w k : Nat) (aug : List α) :
    Option (List α) :=
  forLoop 0 k (fun k st => st.bind (gauss_forward_step t n w k)) (some aug)

/-- The values of a C `int`. -/
def int_range (v : Int) : Prop := -2 ^ 31 ≤ v ∧ v < 2 ^ 31

instance (v : Int) : Decidable (int_range v) := by
  unfold int_range; infer_instance

/-- Every cell of the buffer holds a value of a C `int`. -/
def int_cells (buf : List Int) : Prop := ∀ v, v ∈ buf → int_range v

instance (buf : List Int) : Decidable (int_cells buf) := by
  unfold int_cells; infer_instance

/-- The elimination of column `k` in the variant that skips every row whose
entry `(i, k)` is zero, whatever the kind. -/
def gauss_eliminate_skip {α : Type} [Zero α] [DecidableEq α] (t : FieldInfo α) (n w k : Nat)
    (aug : List α) : List α :=
  forLoop (k + 1) n (fun i aug =>
    let elem_i_k := load w aug i k
    if elem_i_k = 0 then aug
    else
      let factor := elem_i_k
      let pivot := load w aug k k
      let factor := t.div factor factor pivot
      gauss_row_update t n w k i factor aug) aug

/-- One iteration of the forward loop in the variant that skips zero entries. -/
def gauss_forward_step_skip {α : Type} [Zero α] [DecidableEq α] (t : FieldInfo α)
    (n w k : Nat) (aug : List α) : Option (List α) :=
  let max_row := gauss_find_pivot t n w k aug
  if pivot_is_singular t.ptr (load w aug max_row k) then none
  else some (gauss_eliminate_skip t n w k (gauss_swap_rows n w k max_row aug))

/-- The forward loop in the variant that skips zero entries. -/
def gauss_forward_skip {α : Type} [Zero α] [DecidableEq α] (t : FieldInfo α) (n w : Nat)
    (aug : List α) : Option (List α) :=
  forLoop 0 n (fun k st => st.bind (gauss_forward_step_skip t n w k)) (some aug)

/-- The variant of `Matrix_GaussSolve` that skips, for every kind, the rows whose
entry in the pivot column is zero: the status, and the matrix `x` afterwards. -/
def Matrix_GaussSolve_skip {α : Type} [Zero α] [DecidableEq α] (alloc : Bool)
    (a b x : Option (Matrix α)) : MatrixError × Option (Matrix α) :=
  match a, b, x with
  | some a, some b, some x =>
    match a.type, b.type, x.type with
    | some t, some _, some _ =>
      if types_compatible a b = false ∨ types_compatible a x = false then
        (MATRIX_ERROR_TYPE_MISMATCH, some x)
      else if a.rows ≠ a.cols then (MATRIX_ERROR_DIMENSION_MISMATCH, some x)
      else if b.cols ≠ 1 then (MATRIX_ERROR_DIMENSION_MISMATCH, some x)
      else if a.rows ≠ b.rows then (MATRIX_ERROR_DIMENSION_MISMATCH, some x)
      else if x.rows ≠ a.rows ∨ x.cols ≠ 1 then (MATRIX_ERROR_DIMENSION_MISMATCH, some x)
      else
        let n := a.rows
        match Matrix_Create alloc n (n + 1) a.type with
        | none => (MATRIX_ERROR_MEMORY, some x)
        | some augmented =>
          let aug := gauss_copy a b n augmented.cols augmented.buf
          match gauss_forward_skip t n augmented.cols aug with
          | none => (MATRIX_ERROR_SINGULAR_MATRIX, some x)
          | some aug =>
            let xdata := Option.map (gauss_back_substitute t n augmented.cols x.cols aug) x.data
            (MATRIX_OK, some { x with data := xdata })
    | _, _, _ => (MATRIX_ERROR_TYPE_MISMATCH, some x)
  | _, _, _ => (MATRIX_ERROR_NULL_POINTER, x)

/-- The working matrix inside the elimination of column `k`, when rows
`k+1 .. i-1` are done and row `i` is next. -/
def gauss_eliminate_upto {α : Type} [Zero α] (t : FieldInfo α) (n w k i : Nat)
    (aug : List α) : List α :=
  forLoop (k + 1) i (fun i aug =>
    let elem_i_k := load w aug i k
    if skip_zero_entry t.ptr elem_i_k then aug
    else
      let factor := elem_i_k
      let pivot := load w aug k k
      let factor := t.div factor factor pivot
      gauss_row_update t n w k i factor aug) aug

/-- The working matrix of step `k` when row `i` is next: rows `k` and `max_row`
swapped, rows `k+1 .. i-1` eliminated. -/
def gauss_row_state {α : Type} [Zero α] (t : FieldInfo α) (n w k i : Nat) (aug : List α) :
    List α :=
  gauss_eliminate_upto t n w k i (gauss_swap_rows n w k (gauss_find_pivot t n w k aug) aug)

/-- The factor the elimination loop of step `k` computes for row `i`:
`factor = elem_i_k; div(factor, factor, pivot)`. -/
def gauss_factor {α : Type} [Zero α] (t : FieldInfo α) (n w k i : Nat) (aug : List α) : α :=
  let s := gauss_row_state t n w k i aug
  let elem_i_k := load w s i k
  let pivot := load w s k k
  t.div elem_i_k elem_i_k pivot

/-- The working matrix `[A|b]` the forward loop starts from. -/
def gauss_start {α : Type} [Zero α] (a b : Matrix α) : List α :=
  gauss_copy a b a.rows (a.rows + 1) (List.replicate (a.rows * (a.rows + 1)) 0)

/-! ## matrix.c: allocation with the byte count computed in `size_t` -/

/-- The byte count `rows * cols * type->size` as `Matrix_Create` computes it, in
a 64-bit `size_t`: the product wraps modulo `2^64`. -/
def matrix_total_bytes (rows cols size : Nat) : Nat := rows * cols * size % 2 ^ 64

/-- `Matrix_Create` with the byte count computed in `size_t`: `malloc(total)`
yields a buffer of `total` bytes, that is `total / type->size` whole cells, which
`memset` zeroes; `rows` and `cols` are stored as given. -/
def Matrix_Create_sized {α : Type} [Zero α] (alloc : Bool) (rows cols : Nat)
    (type : Option (FieldInfo α)) : Option (Matrix α) :=
  match type with
  | none => none
  | some t =>
    if rows = 0 ∨ cols = 0 then none
    else if alloc = false then none
    else some { data := some (List.replicate (matrix_total_bytes rows cols t.size / t.size) 0),
                rows := rows, cols := cols, type := some t }

/-- `Matrix_Multiply` with the result allocated by `Matrix_Create_sized`: the
returned matrix and the status written to `*error`. -/
def Matrix_Multiply_sized {α : Type} [Zero α] (alloc : Bool) (a b : Option (Matrix α)) :
    Option (Matrix α) × MatrixError :=
  match a, b with
  | some a, some b =>
    if types_compatible a b = false then (none, MATRIX_ERROR_TYPE_MISMATCH)
    else if a.cols ≠ b.rows then (none, MATRIX_ERROR_DIMENSION_MISMATCH)
    else
      match a.type, Matrix_Create_sized alloc a.rows b.cols a.type with
      | some t, some result =>
        let r := multiply_loops t a b result.cols result.buf
        (some { result with data := some r }, MATRIX_OK)
      | _, _ => (none, MATRIX_ERROR_MEMORY)
  | _, _ => (none, MATRIX_ERROR_NULL_POINTER)

/-! ## Runs of `Matrix_GaussSolve` in which no operation loses precision -/

/-- A value a C `float` holds without rounding: a binary32 number (rounding
leaves it as it is) below the overflow threshold `2^128`. -/
def is_binary32 (q : ℚ) : Prop := round_binary32 q = q ∧ -2 ^ 128 < q ∧ q < 2 ^ 128

instance (q : ℚ) : Decidable (is_binary32 q) := by
  unfold is_binary32; infer_instance

/-- Float kind, row `i` of elimination step `k`, entered with the working matrix
`aug` at the start of the step: no operation on the columns before column `c`
rounds.  The quotient `elem_i_k / pivot`, and for every column `j = k .. c-1`
the product `factor * row_k[j]` and the difference `row_i[j] - product`, are
binary32 numbers.  With `c = n + 1` these are all the operations of the row,
with `c = n` the ones on the columns of `A` (the right-hand side column apart).
A row whose entry `elem_i_k` is zero is skipped and performs no operation. -/
def float_row_exact (n c k i : Nat) (aug : List ℚ) : Prop :=
  load (n + 1) (gauss_row_state GetFloatFieldInfo_binary32 n (n + 1) k i aug) i k ≠ 0 →
    is_binary32
      (load (n + 1) (gauss_row_state GetFloatFieldInfo_binary32 n (n + 1) k i aug) i k /
        load (n + 1) (gauss_row_state GetFloatFieldInfo_binary32 n (n + 1) k i aug) k k) ∧
    ∀ j, j < c → k ≤ j →
      is_binary32
        (load (n + 1) (gauss_row_state GetFloatFieldInfo_binary32 n (n + 1) k i aug) i k /
          load (n + 1) (gauss_row_state GetFloatFieldInfo_binary32 n (n + 1) k i aug) k k *
          load (n + 1) (gauss_row_state GetFloatFieldInfo_binary32 n (n + 1) k i aug) k j) ∧
      is_binary32
        (load (n + 1) (gauss_row_state GetFloatFieldInfo_binary32 n (n + 1) k i aug) i j -
          load (n + 1) (gauss_row_state GetFloatFieldInfo_binary32 n (n + 1) k i aug) i k /
            load (n + 1) (gauss_row_state GetFloatFieldInfo_binary32 n (n + 1) k i aug) k k *
            load (n + 1) (gauss_row_state GetFloatFieldInfo_binary32 n (n + 1) k i aug) k j)

instance (n c k i : Nat) (aug : List ℚ) : Decidable (float_row_exact n c k i aug) := by
  unfold float_row_exact; infer_instance

/-- Float kind: no operation of the forward elimination of the working matrix
`aug` on the columns before column `c` rounds, in any step that eliminates (a
step that reports a singular matrix performs no operation). -/
def float_forward_exact (n c : Nat) (aug : List ℚ) : Prop :=
  ∀ k, k < n → ∀ W, W ∈ gauss_forward_upto GetFloatFieldInfo_binary32 n (n + 1) k aug →
    (gauss_forward_step GetFloatFieldInfo_binary32 n (n + 1) k W).isSome = true →
    ∀ i, i < n → k < i → float_row_exact n c k i W

instance (n c : Nat) (aug : List ℚ) : Decidable (float_forward_exact n c aug) := by
  unfold float_forward_exact; infer_instance

/-- The loop `for (size_t i = n; i-- > lo; ) s = body(i, s)`: the iterations
`i = n-1 .. lo` of `downLoop`. -/
def downLoopTo {σ : Type} (body : Nat → σ → σ) (lo : Nat) : Nat → σ → σ
  | 0, s => s
  | i + 1, s => if i < lo then s else downLoopTo body lo i (body i s)

/-- The buffer of `x` inside back substitution, when rows `n-1 .. i+1` are done
and row `i` is next. -/
def gauss_back_upto {α : Type} [Zero α] (t : FieldInfo α) (n w xc i : Nat) (aug : List α)
    (xbuf : List α) : List α :=
  downLoopTo (fun i xbuf =>
    let xbuf := store xc xbuf i 0 (load w aug i n)
    let xbuf := gauss_back_row t n w xc i aug xbuf
    store xc xbuf i 0 (t.div (load xc xbuf i 0) (load xc xbuf i 0) (load w aug i i)))
    (i + 1) n xbuf

/-- The buffer of `x` inside row `i` of back substitution, when columns
`i+1 .. j-1` are done and column `j` is next. -/
def gauss_back_row_upto {α : Type} [Zero α] (t : FieldInfo α) (w xc i j : Nat) (aug : List α)
    (xbuf : List α) : List α :=
  forLoop (i + 1) j (fun j xbuf =>
    let temp := t.mul (load w aug i j) (load xc xbuf j 0)
    store xc xbuf i 0 (t.sub (load xc xbuf i 0) temp)) xbuf

/-- Float kind, row `i` of back substitution from the working matrix `aug` into
the buffer `xbuf` of `x`: no operation rounds.  For every column `j = i+1 .. n-1`
the product `A[i][j] * x_j` and the difference `x_i - product`, and at the end
the quotient `x_i / A[i][i]`, are binary32 numbers. -/
def float_back_row_exact (n i : Nat) (aug xbuf : List ℚ) : Prop :=
  (∀ j, j < n → i < j →
    is_binary32
      (load (n + 1) aug i j *
        load 1 (gauss_back_row_upto GetFloatFieldInfo_binary32 (n + 1) 1 i j aug
          (store 1 (gauss_back_upto GetFloatFieldInfo_binary32 n (n + 1) 1 i aug xbuf) i 0
            (load (n + 1) aug i n))) j 0) ∧
    is_binary32
      (load 1 (gauss_back_row_upto GetFloatFieldInfo_binary32 (n + 1) 1 i j aug
          (store 1 (gauss_back_upto GetFloatFieldInfo_binary32 n (n + 1) 1 i aug xbuf) i 0
            (load (n + 1) aug i n))) i 0 -
        load (n + 1) aug i j *
          load 1 (gauss_back_row_upto GetFloatFieldInfo_binary32 (n + 1) 1 i j aug
            (store 1 (gauss_back_upto GetFloatFieldInfo_binary32 n (n + 1) 1 i aug xbuf) i 0
              (load (n + 1) aug i n))) j 0)) ∧
  is_binary32
    (load 1 (gauss_back_row GetFloatFieldInfo_binary32 n (n + 1) 1 i aug
        (store 1 (gauss_back_upto GetFloatFieldInfo_binary32 n (n + 1) 1 i aug xbuf) i 0
          (load (n + 1) aug i n))) i 0 /
      load (n + 1) aug i i)

instance (n i : Nat) (aug xbuf : List ℚ) : Decidable (float_back_row_exact n i aug xbuf) := by
  unfold float_back_row_exact; infer_instance

/-- Float kind: no operation of `Matrix_GaussSolve` on `a`, `b`, `x` rounds,
neither in the forward elimination of `[A|b]` nor, when the elimination
completes, in the back substitution into `x`. -/
def float_run_exact (a b x : Matrix ℚ) : Prop :=
  float_forward_exact a.rows (a.rows + 1) (gauss_start a b) ∧
    ∀ U, U ∈ gauss_forward GetFloatFieldInfo_binary32 a.rows (a.rows + 1) (gauss_start a b) →
      ∀ i, i < a.rows → float_back_row_exact a.rows i U x.buf

instance (a b x : Matrix ℚ) : Decidable (float_run_exact a b x) := by
  unfold float_run_exact; infer_instance

/-- Integer kind, row `i` of elimination step `k`, entered with the working
matrix `aug` at the start of the step: no operation on the columns of `A` loses
information.  The pivot divides `elem_i_k` (the quotient is not truncated), the
quotient is an `int` (which excludes `INT_MIN / -1`), and for every column
`j = k .. n-1` the product `factor * row_k[j]` and the difference
`row_i[j] - product` are `int` values (no overflow).  The right-hand side
column `n` is not constrained. -/
def int_row_exact (n k i : Nat) (aug : List Int) : Prop :=
  Int.tdiv (load (n + 1) (gauss_row_state GetIntFieldInfo n (n + 1) k i aug) i k)
      (load (n + 1) (gauss_row_state GetIntFieldInfo n (n + 1) k i aug) k k) *
    load (n + 1) (gauss_row_state GetIntFieldInfo n (n + 1) k i aug) k k =
    load (n + 1) (gauss_row_state GetIntFieldInfo n (n + 1) k i aug) i k ∧
  int_range (Int.tdiv (load (n + 1) (gauss_row_state GetIntFieldInfo n (n + 1) k i aug) i k)
      (load (n + 1) (gauss_row_state GetIntFieldInfo n (n + 1) k i aug) k k)) ∧
  ∀ j, j < n → k ≤ j →
    int_range
      (Int.tdiv (load (n + 1) (gauss_row_state GetIntFieldInfo n (n + 1) k i aug) i k)
          (load (n + 1) (gauss_row_state GetIntFieldInfo n (n + 1) k i aug) k k) *
        load (n + 1) (gauss_row_state GetIntFieldInfo n (n + 1) k i aug) k j) ∧
    int_range
      (load (n + 1) (gauss_row_state GetIntFieldInfo n (n + 1) k i aug) i j -
        Int.tdiv (load (n + 1) (gauss_row_state GetIntFieldInfo n (n + 1) k i aug) i k)
            (load (n + 1) (gauss_row_state GetIntFieldInfo n (n + 1) k i aug) k k) *
          load (n + 1) (gauss_row_state GetIntFieldInfo n (n + 1) k i aug) k j)

instance (n k i : Nat) (aug : List Int) : Decidable (int_row_exact n k i aug) := by
  unfold int_row_exact; infer_instance

/-- Integer kind: no operation of the forward elimination of the working matrix
`aug` truncates a quotient, and none on the columns of `A` overflows, in any
step that eliminates. -/
def int_forward_exact (n : Nat) (aug : List Int) : Prop :=
  ∀ k, k < n → ∀ W, W ∈ gauss_forward_upto GetIntFieldInfo n (n + 1) k aug →
    (gauss_forward_step GetIntFieldInfo n (n + 1) k W).isSome = true →
    ∀ i, i < n → k < i → int_row_exact n k i W

instance (n : Nat) (aug : List Int) : Decidable (int_forward_exact n aug) := by
  unfold int_forward_exact; infer_instance

/-! ## Buffers and loops: basic facts -/

theorem length_poke {α : Type} (l : List α) (i : Nat) (v : α) : (poke l i v).length = l.length := by
  simp [poke]

theorem peek_poke_self {α : Type} [Zero α] (l : List α) (i : Nat) (v : α) (h : i < l.length) :
    peek (poke l i v) i = v := by
  simp [peek, poke, List.getD_eq_getElem?_getD, List.getElem?_set, h]

theorem peek_poke_ne {α : Type} [Zero α] (l : List α) (i j : Nat) (v : α) (h : i ≠ j) :
    peek (poke l i v) j = peek l j := by
  simp [peek, poke, List.getD_eq_getElem?_getD, List.getElem?_set, h]

theorem peek_replicate {α : Type} [Zero α] (n i : Nat) :
    peek (List.replicate n (0 : α)) i = 0 := by
  simp only [peek, List.getD_eq_getElem?_getD, List.getElem?_replicate]
  split <;> rfl

theorem poke_poke {α : Type} (l : List α) (i : Nat) (v w : α) :
    poke (poke l i v) i w = poke l i w := by
  simp [poke, List.set_set]

theorem loopFrom_induction {σ : Type} (P : Nat → σ → Prop) (body : Nat → σ → σ) :
    ∀ (n i : Nat) (s : σ), P i s →
      (∀ j t, i ≤ j → j < i + n → P j t → P (j + 1) (body j t)) →
      P (i + n) (loopFrom body i n s) := by
  intro n
  induction n with
  | zero => intro i s h _; simpa [loopFrom] using h
  | succ n ih =>
    intro i s h hstep
    have h1 : P (i + 1) (body i s) := hstep i s (Nat.le_refl i) (by omega) h
    have h2 := ih (i + 1) (body i s) h1
      (fun j t hj hlt hp => hstep j t (by omega) (by omega) hp)
    have e : i + 1 + n = i + (n + 1) := by omega
    rw [e] at h2
    simpa [loopFrom] using h2

/-- Loop-invariant rule for `forLoop`. -/
theorem forLoop_induction {σ : Type} (P : Nat → σ → Prop) (body : Nat → σ → σ)
    (lo hi : Nat) (s : σ) (hle : lo ≤ hi) (h0 : P lo s)
    (hstep : ∀ j t, lo ≤ j → j < hi → P j t → P (j + 1) (body j t)) :
    P hi (forLoop lo hi body s) := by
  have h := loopFrom_induction P body (hi - lo) lo s h0
    (fun j t hj hlt hp => hstep j t hj (by omega) hp)
  have e : lo + (hi - lo) = hi := by omega
  rw [e] at h
  exact h

theorem forLoop_empty {σ : Type} (body : Nat → σ → σ) (lo hi : Nat) (s : σ) (h : hi ≤ lo) :
    forLoop lo hi body s = s := by
  have e : hi - lo = 0 := by omega
  simp [forLoop, e, loopFrom]

/-- Loop-invariant rule for `downLoop`. -/
theorem downLoop_induction {σ : Type} (P : Nat → σ → Prop) (body : Nat → σ → σ) :
    ∀ (n : Nat) (s : σ), P n s →
      (∀ i t, i < n → P (i + 1) t → P i (body i t)) →
      P 0 (downLoop body n s) := by
  intro n
  induction n with
  | zero => intro s h _; simpa [downLoop] using h
  | succ n ih =>
    intro s h hstep
    have h1 : P n (body n s) := hstep n s (by omega) h
    have h2 := ih (body n s) h1 (fun i t hi hp => hstep i t (by omega) hp)
    simpa [downLoop] using h2

theorem index_lt {r c rows cols : Nat} (hr : r < rows) (hc : c < cols) :
    r * cols + c < rows * cols := by
  have h1 : r * cols + cols ≤ rows * cols := by
    have : (r + 1) * cols ≤ rows * cols := Nat.mul_le_mul_right cols hr
    simpa [Nat.succ_mul] using this
  omega

theorem index_inj {w i j i2 j2 : Nat} (hj : j < w) (hj2 : j2 < w)
    (h : i * w + j = i2 * w + j2) : i = i2 ∧ j = j2 := by
  have hw : 0 < w := by omega
  have e1 : (i * w + j) / w = i := by
    rw [Nat.mul_comm, Nat.mul_add_div hw, Nat.div_eq_of_lt hj]; rfl
  have e2 : (i2 * w + j2) / w = i2 := by
    rw [Nat.mul_comm, Nat.mul_add_div hw, Nat.div_eq_of_lt hj2]; rfl
  have hi : i = i2 := by rw [← e1, ← e2, h]
  subst hi
  exact ⟨rfl, by omega⟩

theorem wellFormed_data {α : Type} {m : Matrix α} (h : WellFormed m) :
    ∃ d, m.data = some d ∧ d.length = m.rows * m.cols := by
  rcases h with ⟨_, _, _, h4⟩
  cases hd : m.data with
  | none => simp [hd] at h4
  | some d => exact ⟨d, rfl, by simpa [hd] using h4⟩

theorem wellFormed_type {α : Type} {m : Matrix α} (h : WellFormed m) :
    ∃ t, m.type = some t := by
  rcases h with ⟨_, _, h3, _⟩
  cases ht : m.type with
  | none => simp [ht] at h3
  | some t => exact ⟨t, rfl⟩

/-! ## Element access and creation -/

theorem Matrix_Set_ok {α : Type} (m : Matrix α) (hm : WellFormed m) (r c : Nat)
    (hr : r < m.rows) (hc : c < m.cols) (v : α) :
    ∃ d, m.data = some d ∧ d.length = m.rows * m.cols ∧
      Matrix_Set (some m) r c (some v) =
        (MATRIX_OK, some { m with data := some (poke d (matrix_index m r c) v) }) := by
  obtain ⟨d, hd, hlen⟩ := wellFormed_data hm
  obtain ⟨t, ht⟩ := wellFormed_type hm
  refine ⟨d, hd, hlen, ?_⟩
  have hb : ¬ (r ≥ m.rows ∨ c ≥ m.cols) := by omega
  simp [Matrix_Set, hd, ht, hb]

theorem Matrix_Get_ok {α : Type} [Zero α] (m : Matrix α) (hm : WellFormed m) (r c : Nat)
    (hr : r < m.rows) (hc : c < m.cols) (o : α) :
    Matrix_Get (some m) r c (some o) = (MATRIX_OK, some (matrix_element m r c)) := by
  obtain ⟨d, hd, _⟩ := wellFormed_data hm
  obtain ⟨t, ht⟩ := wellFormed_type hm
  have hb : ¬ (r ≥ m.rows ∨ c ≥ m.cols) := by omega
  simp [Matrix_Get, hd, ht, hb, matrix_element, Matrix.buf]

theorem Matrix_Create_ok {α : Type} [Zero α] (rows cols : Nat) (hr : 0 < rows) (hc : 0 < cols)
    (t : FieldInfo α) :
    Matrix_Create true rows cols (some t) =
      some { data := some (List.replicate (rows * cols) 0), rows := rows, cols := cols,
             type := some t } := by
  have hb : ¬ (rows = 0 ∨ cols = 0) := by omega
  simp [Matrix_Create, hb]

theorem Matrix_Create_zero_get {α : Type} [Zero α] (rows cols : Nat) (hr : 0 < rows)
    (hc : 0 < cols) (t : FieldInfo α) :
    ∃ m, Matrix_Create true rows cols (some t) = some m ∧ m.rows = rows ∧ m.cols = cols ∧
      ∀ r c o, r < rows → c < cols → Matrix_Get (some m) r c (some o) = (MATRIX_OK, some 0) := by
  refine ⟨_, Matrix_Create_ok rows cols hr hc t, rfl, rfl, ?_⟩
  intro r c o hr2 hc2
  have hb : ¬ (r ≥ rows ∨ c ≥ cols) := by omega
  simp [Matrix_Get, hb, peek_replicate]

/-- C7: on a well-formed matrix, `Matrix_Set` at an in-range index `(r, c)` returns
`MATRIX_OK`, and `Matrix_Get` at the same index on the updated matrix returns
`MATRIX_OK` and writes exactly the value that was set. -/
theorem Matrix_Set_then_Get {α : Type} [Zero α] (m : Matrix α) (hm : WellFormed m) (r c : Nat)
    (hr : r < m.rows) (hc : c < m.cols) (v o : α) :
    (Matrix_Set (some m) r c (some v)).1 = MATRIX_OK ∧
      Matrix_Get (Matrix_Set (some m) r c (some v)).2 r c (some o) = (MATRIX_OK, some v) := by
  obtain ⟨d, hd, hlen, hset⟩ := Matrix_Set_ok m hm r c hr hc v
  obtain ⟨t, ht⟩ := wellFormed_type hm
  have hb : ¬ (r ≥ m.rows ∨ c ≥ m.cols) := by omega
  have hidx : matrix_index m r c < d.length := by
    rw [hlen]; exact index_lt hr hc
  rw [hset]
  refine ⟨rfl, ?_⟩
  simp only [Matrix_Get, ht, hb, if_false]
  simp only [matrix_index] at hidx ⊢
  rw [peek_poke_self d _ v hidx]

/-- Witness for C7: setting 42 at (0,0) of a 2x2 integer matrix and reading it back. -/
theorem Matrix_Set_then_Get_witness :
    (Matrix_Set (some (Matrix.ofList GetIntFieldInfo 2 2 [0, 0, 0, 0])) 0 0 (some 42)).1
        = MATRIX_OK ∧
      Matrix_Get (Matrix_Set (some (Matrix.ofList GetIntFieldInfo 2 2 [0, 0, 0, 0])) 0 0
        (some 42)).2 0 0 (some 0) = (MATRIX_OK, some 42) :=
  Matrix_Set_then_Get (Matrix.ofList GetIntFieldInfo 2 2 [0, 0, 0, 0]) (by decide) 0 0
    (by decide) (by decide) 42 0

/-- C8: on a well-formed matrix with a non-null value pointer, `Matrix_Get` and
`Matrix_Set` return `MATRIX_ERROR_INVALID_INDEX` exactly when `row >= rows` or
`col >= cols`, and in that case `Matrix_Set` leaves the matrix as it was. -/
theorem Matrix_Get_Set_bounds {α : Type} [Zero α] (m : Matrix α) (hm : WellFormed m)
    (row col : Nat) (v o : α) :
    ((Matrix_Get (some m) row col (some o)).1 = MATRIX_ERROR_INVALID_INDEX ↔
        (row ≥ m.rows ∨ col ≥ m.cols)) ∧
      ((Matrix_Set (some m) row col (some v)).1 = MATRIX_ERROR_INVALID_INDEX ↔
        (row ≥ m.rows ∨ col ≥ m.cols)) ∧
      ((row ≥ m.rows ∨ col ≥ m.cols) → (Matrix_Set (some m) row col (some v)).2 = some m) := by
  obtain ⟨d, hd, _⟩ := wellFormed_data hm
  obtain ⟨t, ht⟩ := wellFormed_type hm
  by_cases hb : row ≥ m.rows ∨ col ≥ m.cols
  · simp [Matrix_Get, Matrix_Set, hd, ht, hb]
  · simp [Matrix_Get, Matrix_Set, hd, ht, hb]

/-- Witness for C8: `Matrix_Get` at (5,5) on a 2x2 matrix. -/
theorem Matrix_Get_Set_bounds_witness :
    ((Matrix_Get (some (Matrix.ofList GetIntFieldInfo 2 2 [1, 2, 3, 4])) 5 5 (some 0)).1
        = MATRIX_ERROR_INVALID_INDEX ↔ (5 ≥ 2 ∨ 5 ≥ 2)) ∧
      ((Matrix_Set (some (Matrix.ofList GetIntFieldInfo 2 2 [1, 2, 3, 4])) 5 5 (some 9)).1
        = MATRIX_ERROR_INVALID_INDEX ↔ (5 ≥ 2 ∨ 5 ≥ 2)) ∧
      ((5 ≥ 2 ∨ 5 ≥ 2) →
        (Matrix_Set (some (Matrix.ofList GetIntFieldInfo 2 2 [1, 2, 3, 4])) 5 5 (some 9)).2
          = some (Matrix.ofList GetIntFieldInfo 2 2 [1, 2, 3, 4])) :=
  Matrix_Get_Set_bounds (Matrix.ofList GetIntFieldInfo 2 2 [1, 2, 3, 4]) (by decide) 5 5 9 0

/-- Counterexample to C9 as stated: with the matrix handle and the out pointer
present but the buffer absent, `Matrix_Get` and `Matrix_Set` do not report
`MATRIX_ERROR_NULL_POINTER`; they report `MATRIX_ERROR_TYPE_MISMATCH`. -/
theorem Matrix_Get_Set_null_buffer_status :
    (Matrix_Get (some ({ data := none, rows := 2, cols := 2, type := some GetIntFieldInfo } :
        Matrix Int)) 0 0 (some 0)).1 = MATRIX_ERROR_TYPE_MISMATCH ∧
      (Matrix_Set (some ({ data := none, rows := 2, cols := 2, type := some GetIntFieldInfo } :
        Matrix Int)) 0 0 (some 7)).1 = MATRIX_ERROR_TYPE_MISMATCH ∧
      MATRIX_ERROR_TYPE_MISMATCH ≠ MATRIX_ERROR_NULL_POINTER := by
  refine ⟨rfl, rfl, by decide⟩

/-- C9 (amended): `Matrix_Get` and `Matrix_Set` report `MATRIX_ERROR_NULL_POINTER`
when the matrix handle or the value/out pointer is absent; when both are present
and the buffer or the descriptor is absent they report
`MATRIX_ERROR_TYPE_MISMATCH`. -/
theorem Matrix_Get_Set_absent_pointer_status {α : Type} [Zero α] (m : Option (Matrix α))
    (rows cols row col : Nat) (data : Option (List α)) (type : Option (FieldInfo α))
    (p : Option α) (v : α) :
    (Matrix_Get (none : Option (Matrix α)) row col p).1 = MATRIX_ERROR_NULL_POINTER ∧
      (Matrix_Get m row col (none : Option α)).1 = MATRIX_ERROR_NULL_POINTER ∧
      (Matrix_Set (none : Option (Matrix α)) row col p).1 = MATRIX_ERROR_NULL_POINTER ∧
      (Matrix_Set m row col (none : Option α)).1 = MATRIX_ERROR_NULL_POINTER ∧
      (Matrix_Get (some { data := none, rows := rows, cols := cols, type := type }) row col
        (some v)).1 = MATRIX_ERROR_TYPE_MISMATCH ∧
      (Matrix_Get (some { data := data, rows := rows, cols := cols, type := none }) row col
        (some v)).1 = MATRIX_ERROR_TYPE_MISMATCH ∧
      (Matrix_Set (some { data := none, rows := rows, cols := cols, type := type }) row col
        (some v)).1 = MATRIX_ERROR_TYPE_MISMATCH ∧
      (Matrix_Set (some { data := data, rows := rows, cols := cols, type := none }) row col
        (some v)).1 = MATRIX_ERROR_TYPE_MISMATCH := by
  refine ⟨rfl, ?_, rfl, ?_, rfl, ?_, rfl, ?_⟩
  · cases m <;> rfl
  · cases m <;> rfl
  · cases data <;> rfl
  · cases data <;> rfl

/-! ## Matrix_Add and Matrix_Multiply -/

theorem poke_peek_same {α : Type} [Zero α] (l : List α) (i : Nat) : poke l i (peek l i) = l := by
  apply List.ext_getElem?
  intro j
  by_cases h : i = j
  · subst h
    by_cases hl : i < l.length
    · simp [poke, peek, List.getElem?_set, hl, List.getD_eq_getElem?_getD]
    · have hl2 : l.length ≤ i := by omega
      simp [poke, List.getElem?_set, hl, hl2]
  · simp [poke, List.getElem?_set, h]

/-- A loop that writes `g j` into cell `base + j` for `j = 0 .. n-1`. -/
theorem fill_loop {α : Type} [Zero α] (body : Nat → List α → List α) (g : Nat → α)
    (base n : Nat) (r0 : List α) (hlen : base + n ≤ r0.length)
    (hbody : ∀ j r, j < n → r.length = r0.length → body j r = poke r (base + j) (g j)) :
    (forLoop 0 n body r0).length = r0.length ∧
      (∀ j, j < n → peek (forLoop 0 n body r0) (base + j) = g j) ∧
      (∀ idx, idx < base ∨ base + n ≤ idx → peek (forLoop 0 n body r0) idx = peek r0 idx) := by
  have h := forLoop_induction
    (fun (i : Nat) (r : List α) => r.length = r0.length ∧
      (∀ j, j < i → peek r (base + j) = g j) ∧
      (∀ idx, idx < base ∨ base + n ≤ idx → peek r idx = peek r0 idx))
    body 0 n r0 (Nat.zero_le n)
    ⟨rfl, fun j hj => absurd hj (Nat.not_lt_zero j), fun _ _ => rfl⟩
    (by
      intro j r _ hjn ⟨hl, hdone, hrest⟩
      rw [hbody j r hjn hl]
      refine ⟨by rw [length_poke, hl], ?_, ?_⟩
      · intro j2 hj2
        by_cases e : j2 = j
        · subst e
          exact peek_poke_self r _ _ (by omega)
        · rw [peek_poke_ne r _ _ _ (by omega)]
          exact hdone j2 (by omega)
      · intro idx hidx
        rw [peek_poke_ne r _ _ _ (by omega)]
        exact hrest idx hidx)
  exact h

/-- A loop that accumulates `f 0, f 1, ..` into one cell with `add`. -/
theorem accumulate_loop {α : Type} [Zero α] (add : α → α → α) (f : Nat → α) (idx m : Nat)
    (r0 : List α) (hidx : idx < r0.length) :
    forLoop 0 m (fun k r => poke r idx (add (peek r idx) (f k))) r0 =
      poke r0 idx ((List.range m).foldl (fun acc k => add acc (f k)) (peek r0 idx)) := by
  have h := forLoop_induction
    (fun (k : Nat) (r : List α) =>
      r = poke r0 idx ((List.range k).foldl (fun acc k => add acc (f k)) (peek r0 idx)))
    (fun k r => poke r idx (add (peek r idx) (f k))) 0 m r0 (Nat.zero_le m)
    (by simp [poke_peek_same])
    (by
      intro k r _ _ hr
      show poke r idx (add (peek r idx) (f k)) = _
      rw [hr, peek_poke_self r0 idx _ hidx, poke_poke, List.range_succ, List.foldl_append]
      rfl)
  exact h

theorem Matrix_Add_ok {α : Type} [Zero α] (a b : Matrix α) (t : FieldInfo α)
    (ha : WellFormed a) (hta : a.type = some t)
    (hty : types_compatible a b = true) (hrows : a.rows = b.rows) (hcols : a.cols = b.cols) :
    ∃ r : List α, r.length = a.rows * a.cols ∧
      (∀ i, i < a.rows * a.cols → peek r i = t.add (peek a.buf i) (peek b.buf i)) ∧
      Matrix_Add true (some a) (some b) =
        (some { data := some r, rows := a.rows, cols := a.cols, type := some t },
          MATRIX_OK) := by
  have hdim : ¬ (a.rows ≠ b.rows ∨ a.cols ≠ b.cols) := by
    simp [hrows, hcols]
  have hpos : ¬ (a.rows = 0 ∨ a.cols = 0) := by
    have h1 := ha.1
    have h2 := ha.2.1
    omega
  obtain ⟨hl, hv, _⟩ := fill_loop
    (fun i r => poke r i (t.add (peek a.buf i) (peek b.buf i)))
    (fun i => t.add (peek a.buf i) (peek b.buf i)) 0 (a.rows * a.cols)
    (List.replicate (a.rows * a.cols) (0 : α)) (by simp)
    (by intro j r _ _; simp)
  refine ⟨forLoop 0 (a.rows * a.cols)
      (fun i r => poke r i (t.add (peek a.buf i) (peek b.buf i)))
      (List.replicate (a.rows * a.cols) (0 : α)), ?_, ?_, ?_⟩
  · simpa using hl
  · intro i hi
    simpa using hv i hi
  · simp [Matrix_Add, hty, hdim, hta, Matrix_Create, hpos, Matrix.buf]

theorem Matrix_Add_spec {α : Type} [Zero α] (a b : Matrix α) (t : FieldInfo α)
    (ha : WellFormed a) (hb : WellFormed b) (hta : a.type = some t)
    (hty : types_compatible a b = true) (hrows : a.rows = b.rows) (hcols : a.cols = b.cols) :
    ∃ c, Matrix_Add true (some a) (some b) = (some c, MATRIX_OK) ∧
      c.rows = a.rows ∧ c.cols = a.cols ∧
      ∀ i j o, i < a.rows → j < a.cols →
        Matrix_Get (some c) i j (some o) =
          (MATRIX_OK, some (t.add (matrix_element a i j) (matrix_element b i j))) := by
  obtain ⟨r, hlen, hval, heq⟩ := Matrix_Add_ok a b t ha hta hty hrows hcols
  have _ := hb
  refine ⟨_, heq, rfl, rfl, ?_⟩
  intro i j o hi hj
  have hbnd : ¬ (i ≥ a.rows ∨ j ≥ a.cols) := by omega
  have hidx : i * a.cols + j < a.rows * a.cols := index_lt hi hj
  simp only [Matrix_Get, hbnd, if_false, matrix_index, matrix_element]
  rw [hval _ hidx, ← hcols]

/-- C5: for well-formed `a` and `b` of equal type and equal dimensions
(allocation succeeding), `Matrix_Add` reports `MATRIX_OK` and returns a matrix of
the same dimensions whose element `(i, j)` is the descriptor's sum of `a[i][j]`
and `b[i][j]`. -/
theorem Matrix_Add_elementwise {α : Type} [Zero α] (a b : Matrix α) (t : FieldInfo α)
    (ha : WellFormed a) (hb : WellFormed b) (hta : a.type = some t)
    (hty : types_compatible a b = true) (hrows : a.rows = b.rows) (hcols : a.cols = b.cols) :
    ∃ c, Matrix_Add true (some a) (some b) = (some c, MATRIX_OK) ∧
      c.rows = a.rows ∧ c.cols = a.cols ∧
      ∀ i j o, i < a.rows → j < a.cols →
        Matrix_Get (some c) i j (some o) =
          (MATRIX_OK, some (t.add (matrix_element a i j) (matrix_element b i j))) :=
  Matrix_Add_spec a b t ha hb hta hty hrows hcols

/-- Witness for C5: `[[1,2],[3,4]] + [[5,6],[7,8]] = [[6,8],[10,12]]`. -/
theorem Matrix_Add_elementwise_witness :
    (∃ c, Matrix_Add true (some (Matrix.ofList GetIntFieldInfo 2 2 [1, 2, 3, 4]))
          (some (Matrix.ofList GetIntFieldInfo 2 2 [5, 6, 7, 8])) = (some c, MATRIX_OK) ∧
        c.rows = 2 ∧ c.cols = 2 ∧
        ∀ i j o, i < 2 → j < 2 →
          Matrix_Get (some c) i j (some o) =
            (MATRIX_OK, some (IntAdder
              (matrix_element (Matrix.ofList GetIntFieldInfo 2 2 [1, 2, 3, 4]) i j)
              (matrix_element (Matrix.ofList GetIntFieldInfo 2 2 [5, 6, 7, 8]) i j)))) ∧
      (Matrix_Add true (some (Matrix.ofList GetIntFieldInfo 2 2 [1, 2, 3, 4]))
          (some (Matrix.ofList GetIntFieldInfo 2 2 [5, 6, 7, 8]))).1.map Matrix.buf
        = some [6, 8, 10, 12] :=
  ⟨Matrix_Add_elementwise (Matrix.ofList GetIntFieldInfo 2 2 [1, 2, 3, 4])
      (Matrix.ofList GetIntFieldInfo 2 2 [5, 6, 7, 8]) GetIntFieldInfo
      (by decide) (by decide) rfl rfl rfl rfl, by decide⟩

/-- C6: `Matrix_Add` is commutative on integer matrices: for well-formed integer
matrices of equal dimensions (allocation succeeding) both `Matrix_Add(a, b)` and
`Matrix_Add(b, a)` report `MATRIX_OK`, and the two results have the same
dimensions and the same element at every index. -/
theorem Matrix_Add_comm_int (a b : Matrix Int) (ha : WellFormed a) (hb : WellFormed b)
    (hta : a.type = some GetIntFieldInfo) (htb : b.type = some GetIntFieldInfo)
    (hrows : a.rows = b.rows) (hcols : a.cols = b.cols) :
    ∃ c d, Matrix_Add true (some a) (some b) = (some c, MATRIX_OK) ∧
      Matrix_Add true (some b) (some a) = (some d, MATRIX_OK) ∧
      c.rows = d.rows ∧ c.cols = d.cols ∧
      ∀ i j o, i < c.rows → j < c.cols →
        ∃ v, Matrix_Get (some c) i j (some o) = (MATRIX_OK, some v) ∧
          Matrix_Get (some d) i j (some o) = (MATRIX_OK, some v) := by
  have hab : types_compatible a b = true := by simp [types_compatible, hta, htb, FieldInfo_Equals]
  have hba : types_compatible b a = true := by simp [types_compatible, hta, htb, FieldInfo_Equals]
  obtain ⟨c, hc, hcr, hcc, hcv⟩ := Matrix_Add_spec a b GetIntFieldInfo ha hb hta hab hrows hcols
  obtain ⟨d, hd, hdr, hdc, hdv⟩ :=
    Matrix_Add_spec b a GetIntFieldInfo hb ha htb hba hrows.symm hcols.symm
  refine ⟨c, d, hc, hd, by omega, by omega, ?_⟩
  intro i j o hi hj
  refine ⟨_, hcv i j o (by omega) (by omega), ?_⟩
  rw [hdv i j o (by omega) (by omega)]
  simp [GetIntFieldInfo, IntAdder, Int.add_comm]

/-- Witness for C6: `[[1,2],[3,4]]` and `[[5,6],[7,8]]` added in both orders. -/
theorem Matrix_Add_comm_int_witness :
    ∃ c d, Matrix_Add true (some (Matrix.ofList GetIntFieldInfo 2 2 [1, 2, 3, 4]))
        (some (Matrix.ofList GetIntFieldInfo 2 2 [5, 6, 7, 8])) = (some c, MATRIX_OK) ∧
      Matrix_Add true (some (Matrix.ofList GetIntFieldInfo 2 2 [5, 6, 7, 8]))
        (some (Matrix.ofList GetIntFieldInfo 2 2 [1, 2, 3, 4])) = (some d, MATRIX_OK) ∧
      c.rows = d.rows ∧ c.cols = d.cols ∧
      ∀ i j o, i < c.rows → j < c.cols →
        ∃ v, Matrix_Get (some c) i j (some o) = (MATRIX_OK, some v) ∧
          Matrix_Get (some d) i j (some o) = (MATRIX_OK, some v) :=
  Matrix_Add_comm_int (Matrix.ofList GetIntFieldInfo 2 2 [1, 2, 3, 4])
    (Matrix.ofList GetIntFieldInfo 2 2 [5, 6, 7, 8]) (by decide) (by decide) rfl rfl rfl rfl

/-- An outer loop whose iteration `i` fills row `i` with `g i` and leaves the
other rows alone. -/
theorem rows_fill_loop {α : Type} [Zero α] (body : Nat → List α → List α) (g : Nat → Nat → α)
    (rows c : Nat) (r0 : List α)
    (hbody : ∀ i r, i < rows → r.length = r0.length →
      (body i r).length = r0.length ∧
      (∀ j, j < c → peek (body i r) (i * c + j) = g i j) ∧
      (∀ idx, idx < i * c ∨ i * c + c ≤ idx → peek (body i r) idx = peek r idx)) :
    (forLoop 0 rows body r0).length = r0.length ∧
      ∀ i j, i < rows → j < c → peek (forLoop 0 rows body r0) (i * c + j) = g i j := by
  have h := forLoop_induction
    (fun (i : Nat) (r : List α) => r.length = r0.length ∧
      ∀ i2 j, i2 < i → j < c → peek r (i2 * c + j) = g i2 j)
    body 0 rows r0 (Nat.zero_le rows)
    ⟨rfl, fun i2 _ hi2 => absurd hi2 (Nat.not_lt_zero i2)⟩
    (by
      intro i r _ hi ⟨hl, hdone⟩
      obtain ⟨h1, h2, h3⟩ := hbody i r hi hl
      refine ⟨h1, ?_⟩
      intro i2 j hi2 hj
      by_cases e : i2 = i
      · subst e
        exact h2 j hj
      · have hlt : i2 < i := by omega
        rw [h3 _ (Or.inl (index_lt hlt hj))]
        exact hdone i2 j hlt hj)
  exact ⟨h.1, fun i j hi hj => h.2 i j hi hj⟩

theorem multiply_row {α : Type} [Zero α] (t : FieldInfo α) (a b : Matrix α) (L i : Nat)
    (r : List α) (hl : r.length = L) (hrow : i * b.cols + b.cols ≤ L) :
    (forLoop 0 b.cols (fun j r =>
        let r := poke r (i * b.cols + j) 0
        forLoop 0 a.cols (fun k r =>
          let temp := t.mul (peek a.buf (matrix_index a i k)) (peek b.buf (matrix_index b k j))
          poke r (i * b.cols + j) (t.add (peek r (i * b.cols + j)) temp)) r) r).length = L ∧
    (∀ j, j < b.cols → peek (forLoop 0 b.cols (fun j r =>
        let r := poke r (i * b.cols + j) 0
        forLoop 0 a.cols (fun k r =>
          let temp := t.mul (peek a.buf (matrix_index a i k)) (peek b.buf (matrix_index b k j))
          poke r (i * b.cols + j) (t.add (peek r (i * b.cols + j)) temp)) r) r)
        (i * b.cols + j) = product_entry t a b i j) ∧
    (∀ idx, idx < i * b.cols ∨ i * b.cols + b.cols ≤ idx →
      peek (forLoop 0 b.cols (fun j r =>
        let r := poke r (i * b.cols + j) 0
        forLoop 0 a.cols (fun k r =>
          let temp := t.mul (peek a.buf (matrix_index a i k)) (peek b.buf (matrix_index b k j))
          poke r (i * b.cols + j) (t.add (peek r (i * b.cols + j)) temp)) r) r) idx
        = peek r idx) := by
  have h := fill_loop (fun j r =>
        let r := poke r (i * b.cols + j) 0
        forLoop 0 a.cols (fun k r =>
          let temp := t.mul (peek a.buf (matrix_index a i k)) (peek b.buf (matrix_index b k j))
          poke r (i * b.cols + j) (t.add (peek r (i * b.cols + j)) temp)) r)
    (fun j => product_entry t a b i j) (i * b.cols) b.cols r (by omega)
    (by
      intro j r2 hj hl2
      have hidx : i * b.cols + j < (poke r2 (i * b.cols + j) (0 : α)).length := by
        rw [length_poke, hl2]; omega
      have hidx2 : i * b.cols + j < r2.length := by
        rw [hl2]; omega
      show forLoop 0 a.cols (fun k r =>
          poke r (i * b.cols + j) (t.add (peek r (i * b.cols + j))
            (t.mul (peek a.buf (matrix_index a i k)) (peek b.buf (matrix_index b k j)))))
          (poke r2 (i * b.cols + j) 0) = _
      rw [accumulate_loop t.add
        (fun k => t.mul (peek a.buf (matrix_index a i k)) (peek b.buf (matrix_index b k j)))
        (i * b.cols + j) a.cols _ hidx, peek_poke_self r2 _ _ hidx2, poke_poke]
      rfl)
  exact ⟨by rw [h.1, hl], h.2.1, h.2.2⟩

theorem multiply_loops_spec {α : Type} [Zero α] (t : FieldInfo α) (a b : Matrix α)
    (r0 : List α) (hl : r0.length = a.rows * b.cols) :
    (multiply_loops t a b b.cols r0).length = a.rows * b.cols ∧
      ∀ i j, i < a.rows → j < b.cols →
        peek (multiply_loops t a b b.cols r0) (i * b.cols + j) = product_entry t a b i j := by
  have h := rows_fill_loop (fun i r =>
      forLoop 0 b.cols (fun j r =>
        let r := poke r (i * b.cols + j) 0
        forLoop 0 a.cols (fun k r =>
          let temp := t.mul (peek a.buf (matrix_index a i k)) (peek b.buf (matrix_index b k j))
          poke r (i * b.cols + j) (t.add (peek r (i * b.cols + j)) temp)) r) r)
    (fun i j => product_entry t a b i j) a.rows b.cols r0
    (by
      intro i r hi hlr
      have hrow : i * b.cols + b.cols ≤ r0.length := by
        rw [hl]
        have : (i + 1) * b.cols ≤ a.rows * b.cols := Nat.mul_le_mul_right _ hi
        simpa [Nat.succ_mul] using this
      exact multiply_row t a b r0.length i r hlr hrow)
  exact ⟨by rw [← hl]; exact h.1, h.2⟩

theorem Matrix_Multiply_spec {α : Type} [Zero α] (a b : Matrix α) (t : FieldInfo α)
    (ha : WellFormed a) (hb : WellFormed b) (hta : a.type = some t)
    (hty : types_compatible a b = true) (hdim : a.cols = b.rows) :
    ∃ c, Matrix_Multiply true (some a) (some b) = (some c, MATRIX_OK) ∧
      c.rows = a.rows ∧ c.cols = b.cols ∧
      ∀ i j o, i < a.rows → j < b.cols →
        Matrix_Get (some c) i j (some o) = (MATRIX_OK, some (product_entry t a b i j)) := by
  have hd : ¬ (a.cols ≠ b.rows) := by simp [hdim]
  have hpos : ¬ (a.rows = 0 ∨ b.cols = 0) := by
    have h1 := ha.1
    have h2 := hb.2.1
    omega
  obtain ⟨_, hval⟩ := multiply_loops_spec t a b (List.replicate (a.rows * b.cols) (0 : α))
    (by simp)
  have hrun : Matrix_Multiply true (some a) (some b) =
      (some (Matrix.mk (some (multiply_loops t a b b.cols
        (List.replicate (a.rows * b.cols) (0 : α)))) a.rows b.cols (some t)), MATRIX_OK) := by
    simp [Matrix_Multiply, hty, hd, hta, Matrix_Create, hpos, Matrix.buf]
  refine ⟨_, hrun, rfl, rfl, ?_⟩
  intro i j o hi hj
  have hbnd : ¬ (i ≥ a.rows ∨ j ≥ b.cols) := by omega
  simp only [Matrix_Get, hbnd, if_false, matrix_index]
  rw [hval i j hi hj]

/-! ## Gauss elimination: what each loop does to the working matrix -/

theorem length_store {α : Type} (w : Nat) (buf : List α) (i j : Nat) (v : α) :
    (store w buf i j v).length = buf.length := by
  simp [store, length_poke]

theorem load_store {α : Type} [Zero α] (w : Nat) (buf : List α) (i j i2 j2 : Nat) (v : α)
    (hj : j < w) (hj2 : j2 < w) (hlen : i * w + j < buf.length) :
    load w (store w buf i j v) i2 j2 = if i2 = i ∧ j2 = j then v else load w buf i2 j2 := by
  by_cases h : i2 = i ∧ j2 = j
  · obtain ⟨h1, h2⟩ := h
    subst h1; subst h2
    simp [load, store, peek_poke_self _ _ _ hlen]
  · have hne : i * w + j ≠ i2 * w + j2 := by
      intro e
      have := index_inj hj hj2 e
      exact h ⟨this.1.symm, this.2.symm⟩
    simp [load, store, peek_poke_ne _ _ _ _ hne, h]

theorem gauss_find_pivot_range {α : Type} [Zero α] (t : FieldInfo α) (n w k : Nat)
    (aug : List α) (hk : k < n) :
    k ≤ gauss_find_pivot t n w k aug ∧ gauss_find_pivot t n w k aug < n := by
  have h := forLoop_induction (fun (i : Nat) (m : Nat) => k ≤ m ∧ m < i)
    (fun i max_row =>
      if pivot_exceeds t.ptr (load w aug i k) (load w aug max_row k) then i else max_row)
    (k + 1) n k (by omega) ⟨Nat.le_refl k, by omega⟩
    (by
      intro j m hj _ ⟨h1, h2⟩
      show k ≤ (if _ then j else m) ∧ (if _ then j else m) < j + 1
      split <;> omega)
  exact h

theorem gauss_swap_rows_spec {α : Type} [Zero α] (n k m : Nat) (aug : List α)
    (hlen : aug.length = n * (n + 1)) (hk : k < n) (hm : m < n) :
    (gauss_swap_rows n (n + 1) k m aug).length = n * (n + 1) ∧
      ∀ i j, i < n → j ≤ n →
        load (n + 1) (gauss_swap_rows n (n + 1) k m aug) i j
          = load (n + 1) aug (swap_index k m i) j := by
  by_cases hmk : m = k
  · subst hmk
    refine ⟨by simp [gauss_swap_rows, hlen], ?_⟩
    intro i j _ _
    have e : swap_index m m i = i := by
      unfold swap_index; split <;> simp_all
    simp [gauss_swap_rows, e]
  · have h := forLoop_induction
      (fun (j : Nat) (r : List α) => r.length = n * (n + 1) ∧
        ∀ i j2, i < n → j2 ≤ n →
          load (n + 1) r i j2 =
            if j2 < j then load (n + 1) aug (swap_index k m i) j2 else load (n + 1) aug i j2)
      (fun j aug =>
        let temp := load (n + 1) aug k j
        let aug := store (n + 1) aug k j (load (n + 1) aug m j)
        store (n + 1) aug m j temp)
      0 (n + 1) aug (Nat.zero_le _)
      ⟨hlen, by intro i j2 _ _; simp⟩
      (by
        intro j r _ hj ⟨hl, hv⟩
        have hkidx : k * (n + 1) + j < r.length := by rw [hl]; exact index_lt hk hj
        have hmidx : m * (n + 1) + j < (store (n + 1) r k j (load (n + 1) r m j)).length := by
          rw [length_store, hl]; exact index_lt hm hj
        refine ⟨by simp [length_store, hl], ?_⟩
        intro i j2 hi hj2
        show load (n + 1) (store (n + 1) (store (n + 1) r k j (load (n + 1) r m j)) m j
          (load (n + 1) r k j)) i j2 = _
        rw [load_store _ _ _ _ _ _ _ hj (by omega) hmidx,
          load_store _ _ _ _ _ _ _ hj (by omega) hkidx,
          hv k j hk (by omega), hv m j hm (by omega), hv i j2 hi hj2]
        simp only [Nat.lt_irrefl, if_false]
        unfold swap_index
        by_cases e1 : j2 = j
        · subst e1
          by_cases e2 : i = m
          · subst e2; simp [hmk]
          · by_cases e3 : i = k
            · subst e3; simp [e2]
            · simp [e2, e3]
        · have e4 : (j2 < j + 1) = (j2 < j) := by
            apply propext; constructor <;> intro h <;> omega
          simp [e1, e4])
    have hrun : gauss_swap_rows n (n + 1) k m aug = forLoop 0 (n + 1) (fun j aug =>
        let temp := load (n + 1) aug k j
        let aug := store (n + 1) aug k j (load (n + 1) aug m j)
        store (n + 1) aug m j temp) aug := by
      simp [gauss_swap_rows, hmk]
    rw [hrun]
    refine ⟨h.1, ?_⟩
    intro i j hi hj
    have := h.2 i j hi hj
    rw [this]
    simp [Nat.lt_succ_of_le hj]

theorem gauss_row_update_spec {α : Type} [Zero α] (t : FieldInfo α) (n k i : Nat) (f : α)
    (r0 : List α) (hlen : r0.length = n * (n + 1)) (hk : k < n) (hi : i < n) (hik : i ≠ k) :
    (gauss_row_update t n (n + 1) k i f r0).length = n * (n + 1) ∧
      ∀ i2 j2, i2 < n → j2 ≤ n →
        load (n + 1) (gauss_row_update t n (n + 1) k i f r0) i2 j2 =
          if i2 = i ∧ k ≤ j2 then
            t.sub (load (n + 1) r0 i j2) (t.mul f (load (n + 1) r0 k j2))
          else load (n + 1) r0 i2 j2 := by
  have h := forLoop_induction
    (fun (j : Nat) (r : List α) => r.length = n * (n + 1) ∧
      ∀ i2 j2, i2 < n → j2 ≤ n →
        load (n + 1) r i2 j2 =
          if i2 = i ∧ k ≤ j2 ∧ j2 < j then
            t.sub (load (n + 1) r0 i j2) (t.mul f (load (n + 1) r0 k j2))
          else load (n + 1) r0 i2 j2)
    (fun j aug =>
      let temp := t.mul f (load (n + 1) aug k j)
      store (n + 1) aug i j (t.sub (load (n + 1) aug i j) temp))
    k (n + 1) r0 (by omega)
    ⟨hlen, by
      intro i2 j2 _ _
      have : ¬ (i2 = i ∧ k ≤ j2 ∧ j2 < k) := by omega
      simp [this]⟩
    (by
      intro j r hkj hj ⟨hl, hv⟩
      have hidx : i * (n + 1) + j < r.length := by rw [hl]; exact index_lt hi hj
      refine ⟨by simp [length_store, hl], ?_⟩
      intro i2 j2 hi2 hj2
      show load (n + 1) (store (n + 1) r i j
        (t.sub (load (n + 1) r i j) (t.mul f (load (n + 1) r k j)))) i2 j2 = _
      rw [load_store _ _ _ _ _ _ _ hj (by omega) hidx, hv i j hi (by omega),
        hv k j hk (by omega), hv i2 j2 hi2 hj2]
      have c1 : ¬ (i = i ∧ k ≤ j ∧ j < j) := by omega
      have c2 : ¬ (k = i ∧ k ≤ j ∧ j < j) := by omega
      rw [if_neg c1, if_neg c2]
      by_cases e : i2 = i ∧ j2 = j
      · obtain ⟨e1, e2⟩ := e
        subst e1; subst e2
        have c3 : i2 = i2 ∧ k ≤ j2 ∧ j2 < j2 + 1 := ⟨rfl, hkj, by omega⟩
        simp [c3]
      · rw [if_neg e]
        refine if_congr ?_ rfl rfl
        constructor
        · rintro ⟨a, b, c⟩
          exact ⟨a, b, by omega⟩
        · rintro ⟨a, b, c⟩
          refine ⟨a, b, ?_⟩
          by_contra hc
          exact e ⟨a, by omega⟩)
  unfold gauss_row_update
  refine ⟨h.1, ?_⟩
  intro i2 j2 hi2 hj2
  have := h.2 i2 j2 hi2 hj2
  rw [this]
  refine if_congr ?_ rfl rfl
  constructor
  · rintro ⟨a, b, _⟩; exact ⟨a, b⟩
  · rintro ⟨a, b⟩; exact ⟨a, b, by omega⟩

theorem gauss_eliminate_spec {α : Type} [Zero α] (t : FieldInfo α) (n k : Nat)
    (aug : List α) (hlen : aug.length = n * (n + 1)) (hk : k < n) :
    (gauss_eliminate t n (n + 1) k aug).length = n * (n + 1) ∧
      ∀ i j, i < n → j ≤ n →
        load (n + 1) (gauss_eliminate t n (n + 1) k aug) i j =
          eliminated t k (load (n + 1) aug) i j := by
  have h := forLoop_induction
    (fun (i : Nat) (r : List α) => r.length = n * (n + 1) ∧
      ∀ i2 j2, i2 < n → j2 ≤ n →
        load (n + 1) r i2 j2 =
          if i2 < i then eliminated t k (load (n + 1) aug) i2 j2 else load (n + 1) aug i2 j2)
    (fun i aug =>
      let elem_i_k := load (n + 1) aug i k
      if skip_zero_entry t.ptr elem_i_k then aug
      else
        let factor := elem_i_k
        let pivot := load (n + 1) aug k k
        let factor := t.div factor factor pivot
        gauss_row_update t n (n + 1) k i factor aug)
    (k + 1) n aug (by omega)
    ⟨hlen, by
      intro i2 j2 _ _
      by_cases c : i2 < k + 1
      · have c2 : ¬ (k < i2 ∧ k ≤ j2 ∧ skip_zero_entry t.ptr (load (n + 1) aug i2 k) = false) := by
          omega
        simp [c, eliminated, c2]
      · simp [c]⟩
    (by
      intro i r hki hi ⟨hl, hv⟩
      have hik : load (n + 1) r i k = load (n + 1) aug i k := by
        rw [hv i k hi (by omega)]; simp
      have hkk : load (n + 1) r k k = load (n + 1) aug k k := by
        rw [hv k k hk (by omega)]
        have c2 : ¬ (k < k ∧ k ≤ k ∧ skip_zero_entry t.ptr (load (n + 1) aug k k) = false) := by
          omega
        simp [eliminated, c2]
      show (fun r2 => r2.length = n * (n + 1) ∧
        ∀ i2 j2, i2 < n → j2 ≤ n →
          load (n + 1) r2 i2 j2 =
            if i2 < i + 1 then eliminated t k (load (n + 1) aug) i2 j2
            else load (n + 1) aug i2 j2)
        (if skip_zero_entry t.ptr (load (n + 1) r i k) then r
          else gauss_row_update t n (n + 1) k i
            (t.div (load (n + 1) r i k) (load (n + 1) r i k) (load (n + 1) r k k)) r)
      rw [hik, hkk]
      by_cases hs : skip_zero_entry t.ptr (load (n + 1) aug i k) = true
      · rw [if_pos hs]
        refine ⟨hl, ?_⟩
        intro i2 j2 hi2 hj2
        rw [hv i2 j2 hi2 hj2]
        by_cases e : i2 = i
        · subst e
          have c2 : ¬ (k < i2 ∧ k ≤ j2 ∧
              skip_zero_entry t.ptr (load (n + 1) aug i2 k) = false) := by
            simp [hs]
          simp [eliminated, c2]
        · refine if_congr ?_ rfl rfl
          omega
      · rw [if_neg hs]
        obtain ⟨h1, h2⟩ := gauss_row_update_spec t n k i
          (t.div (load (n + 1) aug i k) (load (n + 1) aug i k) (load (n + 1) aug k k)) r hl hk hi
          (by omega)
        refine ⟨h1, ?_⟩
        intro i2 j2 hi2 hj2
        rw [h2 i2 j2 hi2 hj2]
        by_cases e : i2 = i
        · subst e
          have hrow : ∀ j, j ≤ n → load (n + 1) r i2 j = load (n + 1) aug i2 j := by
            intro j hj; rw [hv i2 j hi2 hj]; simp
          have hrowk : ∀ j, j ≤ n → load (n + 1) r k j = load (n + 1) aug k j := by
            intro j hj
            rw [hv k j hk hj]
            have c2 : ¬ (k < k ∧ k ≤ j ∧
                skip_zero_entry t.ptr (load (n + 1) aug k k) = false) := by omega
            simp [eliminated, c2]
          rw [hrow j2 hj2, hrowk j2 hj2]
          have hs2 : skip_zero_entry t.ptr (load (n + 1) aug i2 k) = false := by
            simpa using hs
          by_cases c : k ≤ j2
          · have c5 : k < i2 ∧ k ≤ j2 ∧
                skip_zero_entry t.ptr (load (n + 1) aug i2 k) = false := ⟨by omega, c, hs2⟩
            simp [eliminated, c5, c]
          · have c5 : ¬ (k < i2 ∧ k ≤ j2 ∧
                skip_zero_entry t.ptr (load (n + 1) aug i2 k) = false) := by omega
            simp [eliminated, c5, c]
        · have c4 : ¬ (i2 = i ∧ k ≤ j2) := by simp [e]
          rw [if_neg c4, hv i2 j2 hi2 hj2]
          refine if_congr ?_ rfl rfl
          omega)
  unfold gauss_eliminate
  refine ⟨h.1, ?_⟩
  intro i j hi hj
  have := h.2 i j hi hj
  rw [this, if_pos hi]

theorem gauss_copy_spec {α : Type} [Zero α] (a b : Matrix α) (n : Nat) (r0 : List α)
    (hlen : r0.length = n * (n + 1)) :
    (gauss_copy a b n (n + 1) r0).length = n * (n + 1) ∧
      ∀ i j, i < n → j < n + 1 →
        load (n + 1) (gauss_copy a b n (n + 1) r0) i j =
          if j < n then matrix_element a i j else matrix_element b i 0 := by
  have h := rows_fill_loop
    (fun i aug =>
      let aug := forLoop 0 n (fun j aug => store (n + 1) aug i j (matrix_element a i j)) aug
      store (n + 1) aug i n (matrix_element b i 0))
    (fun i j => if j < n then matrix_element a i j else matrix_element b i 0) n (n + 1) r0
    (by
      intro i r hi hl
      have hrow : i * (n + 1) + (n + 1) ≤ r.length := by
        rw [hl, hlen]
        have : (i + 1) * (n + 1) ≤ n * (n + 1) := Nat.mul_le_mul_right _ hi
        simpa [Nat.succ_mul] using this
      obtain ⟨f1, f2, f3⟩ := fill_loop
        (fun j aug => store (n + 1) aug i j (matrix_element a i j))
        (fun j => matrix_element a i j) (i * (n + 1)) n r (by omega)
        (by intro j r2 _ _; rfl)
      show (store (n + 1) (forLoop 0 n (fun j aug => store (n + 1) aug i j (matrix_element a i j)) r)
          i n (matrix_element b i 0)).length = r0.length ∧
        (∀ j, j < n + 1 → peek (store (n + 1) (forLoop 0 n
            (fun j aug => store (n + 1) aug i j (matrix_element a i j)) r)
          i n (matrix_element b i 0)) (i * (n + 1) + j) =
            if j < n then matrix_element a i j else matrix_element b i 0) ∧
        (∀ idx, idx < i * (n + 1) ∨ i * (n + 1) + (n + 1) ≤ idx →
          peek (store (n + 1) (forLoop 0 n
            (fun j aug => store (n + 1) aug i j (matrix_element a i j)) r)
          i n (matrix_element b i 0)) idx = peek r idx)
      refine ⟨by rw [length_store, f1, hl], ?_, ?_⟩
      · intro j hj
        by_cases e : j < n
        · rw [if_pos e]
          show peek (poke _ (i * (n + 1) + n) _) _ = _
          rw [peek_poke_ne _ _ _ _ (by omega)]
          exact f2 j e
        · have e2 : j = n := by omega
          rw [if_neg e, e2]
          show peek (poke _ (i * (n + 1) + n) _) _ = _
          exact peek_poke_self _ _ _ (by rw [f1]; omega)
      · intro idx hidx
        show peek (poke _ (i * (n + 1) + n) _) _ = _
        rw [peek_poke_ne _ _ _ _ (by omega)]
        exact f3 idx (by omega))
  unfold gauss_copy
  exact ⟨by rw [h.1, hlen], fun i j hi hj => h.2 i j hi hj⟩

theorem eliminated_congr {α : Type} (t : FieldInfo α) (n k : Nat) (E E2 : Nat → Nat → α)
    (hE : ∀ i j, i < n → j ≤ n → E i j = E2 i j) (hk : k < n) (i j : Nat) (hi : i < n)
    (hj : j ≤ n) : eliminated t k E i j = eliminated t k E2 i j := by
  unfold eliminated
  rw [hE i j hi hj, hE i k hi (by omega), hE k k hk (by omega), hE k j hk hj]

theorem gauss_forward_step_spec {α : Type} [Zero α] (t : FieldInfo α) (n k : Nat)
    (aug aug2 : List α) (hlen : aug.length = n * (n + 1)) (hk : k < n)
    (h : gauss_forward_step t n (n + 1) k aug = some aug2) :
    ∃ m, k ≤ m ∧ m < n ∧ pivot_is_singular t.ptr (load (n + 1) aug m k) = false ∧
      aug2.length = n * (n + 1) ∧
      ∀ i j, i < n → j ≤ n →
        load (n + 1) aug2 i j =
          eliminated t k (fun i j => load (n + 1) aug (swap_index k m i) j) i j := by
  unfold gauss_forward_step at h
  obtain ⟨hm1, hm2⟩ := gauss_find_pivot_range t n (n + 1) k aug hk
  refine ⟨gauss_find_pivot t n (n + 1) k aug, hm1, hm2, ?_⟩
  by_cases hs : pivot_is_singular t.ptr
      (load (n + 1) aug (gauss_find_pivot t n (n + 1) k aug) k) = true
  · simp [hs] at h
  · have hs2 : pivot_is_singular t.ptr
        (load (n + 1) aug (gauss_find_pivot t n (n + 1) k aug) k) = false := by
      simpa using hs
    simp only [hs2, Bool.false_eq_true, if_false, Option.some.injEq] at h
    obtain ⟨s1, s2⟩ := gauss_swap_rows_spec n k (gauss_find_pivot t n (n + 1) k aug) aug hlen hk hm2
    obtain ⟨e1, e2⟩ := gauss_eliminate_spec t n k _ s1 hk
    subst h
    refine ⟨hs2, e1, ?_⟩
    intro i j hi hj
    rw [e2 i j hi hj]
    exact eliminated_congr t n k _ _ s2 hk i j hi hj

theorem gauss_forward_step_none {α : Type} [Zero α] (t : FieldInfo α) (n w k : Nat)
    (aug : List α)
    (h : pivot_is_singular t.ptr (load w aug (gauss_find_pivot t n w k aug) k) = true) :
    gauss_forward_step t n w k aug = none := by
  simp [gauss_forward_step, h]

/-! ## Gauss elimination: the linear algebra of exact row reduction -/

theorem solves_congr (β : ℚ) (n : Nat) (E E2 : Nat → Nat → ℚ) (x : Nat → ℚ)
    (hE : ∀ i j, i < n → j ≤ n → E i j = E2 i j) : Solves β n E x ↔ Solves β n E2 x := by
  have key : ∀ i, i < n →
      (∑ j in Finset.range n, E i j * x j = β * E i n ↔
        ∑ j in Finset.range n, E2 i j * x j = β * E2 i n) := by
    intro i hi
    have e1 : ∑ j in Finset.range n, E i j * x j = ∑ j in Finset.range n, E2 i j * x j := by
      apply Finset.sum_congr rfl
      intro j hj
      rw [hE i j hi (Nat.le_of_lt (Finset.mem_range.mp hj))]
    rw [e1, hE i n hi (Nat.le_refl n)]
  constructor
  · intro h i hi; exact (key i hi).mp (h i hi)
  · intro h i hi; exact (key i hi).mpr (h i hi)

theorem swap_index_lt (n k m i : Nat) (hk : k < n) (hm : m < n) (hi : i < n) :
    swap_index k m i < n := by
  unfold swap_index
  split
  · exact hm
  · split
    · exact hk
    · exact hi

theorem swap_index_involutive (k m i : Nat) : swap_index k m (swap_index k m i) = i := by
  unfold swap_index
  by_cases h1 : i = k
  · by_cases h2 : m = k
    · simp [h1, h2]
    · simp [h1, h2]
  · by_cases h3 : i = m
    · simp [h1, h3]
    · simp [h1, h3]

theorem solves_swap (β : ℚ) (n k m : Nat) (E : Nat → Nat → ℚ) (x : Nat → ℚ)
    (hk : k < n) (hm : m < n) :
    Solves β n (fun i j => E (swap_index k m i) j) x ↔ Solves β n E x := by
  constructor
  · intro h i hi
    have := h (swap_index k m i) (swap_index_lt n k m i hk hm hi)
    simpa [swap_index_involutive] using this
  · intro h i hi
    exact h (swap_index k m i) (swap_index_lt n k m i hk hm hi)

theorem solves_row_reduced (β : ℚ) (n k : Nat) (f : Nat → ℚ) (E : Nat → Nat → ℚ)
    (x : Nat → ℚ) (hk : k < n) :
    Solves β n (row_reduced f k E) x ↔ Solves β n E x := by
  have hrowk : ∀ j, row_reduced f k E k j = E k j := by
    intro j; simp [row_reduced]
  have hsum : ∀ i, k < i →
      ∑ j in Finset.range n, row_reduced f k E i j * x j =
        ∑ j in Finset.range n, E i j * x j - f i * ∑ j in Finset.range n, E k j * x j := by
    intro i hi
    rw [Finset.mul_sum, ← Finset.sum_sub_distrib]
    apply Finset.sum_congr rfl
    intro j _
    simp only [row_reduced, hi, if_true]
    ring
  constructor
  · intro h i hi
    by_cases c : k < i
    · have h1 := h i hi
      have h2 := h k hk
      rw [hsum i c] at h1
      simp only [hrowk] at h2
      simp only [row_reduced, c, if_true] at h1
      rw [h2] at h1
      linarith
    · have h1 := h i hi
      simpa [row_reduced, c] using h1
  · intro h i hi
    by_cases c : k < i
    · rw [hsum i c, h i hi, h k hk]
      simp only [row_reduced, c, if_true]
      ring
    · have h1 := h i hi
      simpa [row_reduced, c] using h1

theorem EPS_1e_10f_pos : 0 < EPS_1e_10f := by
  norm_num [EPS_1e_10f]

theorem swap_index_of_lt (k m i : Nat) (hi : i < k) (hm : k ≤ m) : swap_index k m i = i := by
  unfold swap_index
  have h1 : i ≠ k := by omega
  have h2 : i ≠ m := by omega
  simp [h1, h2]

theorem swap_index_ge (k m i : Nat) (hi : k ≤ i) (hm : k ≤ m) : k ≤ swap_index k m i := by
  unfold swap_index
  split
  · exact hm
  · split
    · exact Nat.le_refl k
    · exact hi

theorem swap_index_self (k m : Nat) : swap_index k m k = m := by
  simp [swap_index]

theorem row_sum_split (n i : Nat) (f : Nat → ℚ) (hi : i < n) :
    ∑ j in Finset.range n, f j =
      ∑ j in Finset.range i, f j + f i + ∑ j in Finset.Ico (i + 1) n, f j := by
  rw [Finset.range_eq_Ico, ← Finset.sum_Ico_consecutive f (Nat.zero_le i) (Nat.le_of_lt hi),
    Finset.sum_eq_sum_Ico_succ_bot hi]
  ring

theorem upper_row_sum (n : Nat) (E : Nat → Nat → ℚ) (x : Nat → ℚ)
    (hz : ∀ i j, j < i → i < n → E i j = 0) (i : Nat) (hi : i < n) :
    ∑ j in Finset.range n, E i j * x j =
      E i i * x i + ∑ j in Finset.Ico (i + 1) n, E i j * x j := by
  rw [row_sum_split n i (fun j => E i j * x j) hi]
  have h0 : ∑ j in Finset.range i, E i j * x j = 0 := by
    apply Finset.sum_eq_zero
    intro j hj
    rw [hz i j (Finset.mem_range.mp hj) hi]
    ring
  rw [h0]
  ring

theorem upper_kernel_trivial (n : Nat) (E : Nat → Nat → ℚ) (v : Nat → ℚ)
    (hz : ∀ i j, j < i → i < n → E i j = 0) (hd : ∀ j, j < n → E j j ≠ 0)
    (h : Solves 0 n E v) : ∀ j, j < n → v j = 0 := by
  have key : ∀ d i, i < n → n - i ≤ d → v i = 0 := by
    intro d
    induction d with
    | zero => intro i hi hle; omega
    | succ d ih =>
      intro i hi hle
      have hrow := h i hi
      rw [upper_row_sum n E v hz i hi] at hrow
      have hs : ∑ j in Finset.Ico (i + 1) n, E i j * v j = 0 := by
        apply Finset.sum_eq_zero
        intro j hj
        have hj2 := Finset.mem_Ico.mp hj
        rw [ih j hj2.2 (by omega)]
        ring
      rw [hs] at hrow
      have : E i i * v i = 0 := by linarith
      rcases mul_eq_zero.mp this with h1 | h1
      · exact absurd h1 (hd i hi)
      · exact h1
  intro j hj
  exact key n j hj (by omega)

theorem gauss_back_row_float (n i : Nat) (U xb : List ℚ) (hx : xb.length = n) (hi : i < n) :
    (gauss_back_row GetFloatFieldInfo n (n + 1) 1 i U xb).length = n ∧
      (∀ j, j ≠ i → load 1 (gauss_back_row GetFloatFieldInfo n (n + 1) 1 i U xb) j 0
        = load 1 xb j 0) ∧
      load 1 (gauss_back_row GetFloatFieldInfo n (n + 1) 1 i U xb) i 0 =
        load 1 xb i 0 - ∑ j in Finset.Ico (i + 1) n, load (n + 1) U i j * load 1 xb j 0 := by
  have h := forLoop_induction
    (fun (j : Nat) (r : List ℚ) => r.length = n ∧
      (∀ j2, j2 ≠ i → load 1 r j2 0 = load 1 xb j2 0) ∧
      load 1 r i 0 =
        load 1 xb i 0 - ∑ j2 in Finset.Ico (i + 1) j, load (n + 1) U i j2 * load 1 xb j2 0)
    (fun j xbuf =>
      let temp := GetFloatFieldInfo.mul (load (n + 1) U i j) (load 1 xbuf j 0)
      store 1 xbuf i 0 (GetFloatFieldInfo.sub (load 1 xbuf i 0) temp))
    (i + 1) n xb (by omega)
    ⟨hx, fun _ _ => rfl, by simp⟩
    (by
      intro j r hij hj ⟨hl, hother, hval⟩
      have hidx : i * 1 + 0 < r.length := by rw [hl]; omega
      refine ⟨by rw [length_store, hl], ?_, ?_⟩
      · intro j2 hj2
        show load 1 (store 1 r i 0 _) j2 0 = _
        rw [load_store 1 r i 0 j2 0 _ (by omega) (by omega) hidx]
        simp [hj2, hother j2 hj2]
      · show load 1 (store 1 r i 0 _) i 0 = _
        rw [load_store 1 r i 0 i 0 _ (by omega) (by omega) hidx]
        simp only [and_self, if_true]
        rw [hval, hother j (by omega), Finset.sum_Ico_succ_top (by omega)]
        simp only [GetFloatFieldInfo, FloatSubtractor, FloatMultiplier]
        ring)
  unfold gauss_back_row
  exact h

theorem gauss_back_substitute_float (n : Nat) (U xb : List ℚ) (hx : xb.length = n)
    (hd : ∀ j, j < n → load (n + 1) U j j ≠ 0) :
    (gauss_back_substitute GetFloatFieldInfo n (n + 1) 1 U xb).length = n ∧
      ∀ i, i < n →
        load (n + 1) U i i * load 1 (gauss_back_substitute GetFloatFieldInfo n (n + 1) 1 U xb) i 0
          + ∑ j in Finset.Ico (i + 1) n, load (n + 1) U i j *
              load 1 (gauss_back_substitute GetFloatFieldInfo n (n + 1) 1 U xb) j 0
          = load (n + 1) U i n := by
  have h := downLoop_induction
    (fun (i : Nat) (r : List ℚ) => r.length = n ∧
      ∀ i2, i ≤ i2 → i2 < n →
        load (n + 1) U i2 i2 * load 1 r i2 0
          + ∑ j in Finset.Ico (i2 + 1) n, load (n + 1) U i2 j * load 1 r j 0
          = load (n + 1) U i2 n)
    (fun i xbuf =>
      let xbuf := store 1 xbuf i 0 (load (n + 1) U i n)
      let xbuf := gauss_back_row GetFloatFieldInfo n (n + 1) 1 i U xbuf
      store 1 xbuf i 0 (GetFloatFieldInfo.div (load 1 xbuf i 0) (load 1 xbuf i 0)
        (load (n + 1) U i i)))
    n xb ⟨hx, fun i2 h1 h2 => by omega⟩
    (by
      intro i r hi ⟨hl, hdone⟩
      have hidx : i * 1 + 0 < r.length := by rw [hl]; omega
      have hl1 : (store 1 r i 0 (load (n + 1) U i n)).length = n := by
        rw [length_store, hl]
      obtain ⟨b1, b2, b3⟩ := gauss_back_row_float n i U _ hl1 hi
      have hidx2 : i * 1 + 0 <
          (gauss_back_row GetFloatFieldInfo n (n + 1) 1 i U
            (store 1 r i 0 (load (n + 1) U i n))).length := by rw [b1]; omega
      have hother : ∀ j, j ≠ i →
          load 1 (store 1 (gauss_back_row GetFloatFieldInfo n (n + 1) 1 i U
            (store 1 r i 0 (load (n + 1) U i n))) i 0
            (GetFloatFieldInfo.div
              (load 1 (gauss_back_row GetFloatFieldInfo n (n + 1) 1 i U
                (store 1 r i 0 (load (n + 1) U i n))) i 0)
              (load 1 (gauss_back_row GetFloatFieldInfo n (n + 1) 1 i U
                (store 1 r i 0 (load (n + 1) U i n))) i 0)
              (load (n + 1) U i i))) j 0 = load 1 r j 0 := by
        intro j hj
        rw [load_store 1 _ i 0 j 0 _ (by omega) (by omega) hidx2]
        simp only [hj, false_and, if_false]
        rw [b2 j hj, load_store 1 r i 0 j 0 _ (by omega) (by omega) hidx]
        simp [hj]
      have hsum : ∀ i2, i ≤ i2 →
          ∑ j in Finset.Ico (i2 + 1) n, load (n + 1) U i2 j *
            load 1 (store 1 (gauss_back_row GetFloatFieldInfo n (n + 1) 1 i U
              (store 1 r i 0 (load (n + 1) U i n))) i 0
              (GetFloatFieldInfo.div
                (load 1 (gauss_back_row GetFloatFieldInfo n (n + 1) 1 i U
                  (store 1 r i 0 (load (n + 1) U i n))) i 0)
                (load 1 (gauss_back_row GetFloatFieldInfo n (n + 1) 1 i U
                  (store 1 r i 0 (load (n + 1) U i n))) i 0)
                (load (n + 1) U i i))) j 0
          = ∑ j in Finset.Ico (i2 + 1) n, load (n + 1) U i2 j * load 1 r j 0 := by
        intro i2 hi2
        apply Finset.sum_congr rfl
        intro j hj
        have hj2 := Finset.mem_Ico.mp hj
        rw [hother j (by omega)]
      refine ⟨by rw [length_store, b1], ?_⟩
      intro i2 hi2 hi2n
      show load (n + 1) U i2 i2 * load 1 (store 1 _ i 0 _) i2 0
        + ∑ j in Finset.Ico (i2 + 1) n, load (n + 1) U i2 j * load 1 (store 1 _ i 0 _) j 0 = _
      rw [hsum i2 hi2]
      by_cases e : i2 = i
      · subst e
        rw [load_store 1 _ i2 0 i2 0 _ (by omega) (by omega) hidx2]
        simp only [and_self, if_true]
        rw [b3, load_store 1 r i2 0 i2 0 _ (by omega) (by omega) hidx]
        simp only [and_self, if_true]
        have hs2 : ∑ j in Finset.Ico (i2 + 1) n, load (n + 1) U i2 j *
            load 1 (store 1 r i2 0 (load (n + 1) U i2 n)) j 0
            = ∑ j in Finset.Ico (i2 + 1) n, load (n + 1) U i2 j * load 1 r j 0 := by
          apply Finset.sum_congr rfl
          intro j hj
          have hj2 := Finset.mem_Ico.mp hj
          rw [load_store 1 r i2 0 j 0 _ (by omega) (by omega) hidx]
          have : ¬ (j = i2 ∧ 0 = 0) := by omega
          rw [if_neg this]
        rw [hs2]
        have hne := hd i2 hi
        simp only [GetFloatFieldInfo, FloatDivider, hne, ne_eq, not_false_eq_true, if_true]
        field_simp
      · rw [hother i2 e]
        exact hdone i2 (by omega) hi2n)
  unfold gauss_back_substitute
  exact ⟨h.1, fun i hi => h.2 i (Nat.zero_le i) hi⟩

theorem upper_solves (n : Nat) (E : Nat → Nat → ℚ) (x : Nat → ℚ)
    (hz : ∀ i j, j < i → i < n → E i j = 0)
    (h : ∀ i, i < n → E i i * x i + ∑ j in Finset.Ico (i + 1) n, E i j * x j = E i n) :
    Solves 1 n E x := by
  intro i hi
  rw [upper_row_sum n E x hz i hi, h i hi]
  ring

/-- Rows that are linearly dependent give a nonzero vector in the kernel. -/
theorem exists_kernel_of_row_dependent (n : Nat) (A : Nat → Nat → ℚ) (c : Nat → ℚ)
    (hc : ∃ i, i < n ∧ c i ≠ 0)
    (hdep : ∀ j, j < n → ∑ i in Finset.range n, c i * A i j = 0) :
    ∃ v : Nat → ℚ, (∃ j, j < n ∧ v j ≠ 0) ∧
      ∀ i, i < n → ∑ j in Finset.range n, A i j * v j = 0 := by
  have hdet : (Matrix.of fun (i j : Fin n) => A i j).det = 0 := by
    rw [← Matrix.exists_vecMul_eq_zero_iff]
    refine ⟨fun i => c i, ?_, ?_⟩
    · obtain ⟨i, hi, hci⟩ := hc
      intro h0
      exact hci (by simpa using congrFun h0 ⟨i, hi⟩)
    · funext j
      have := hdep j j.2
      rw [Finset.sum_range] at this
      simpa [Matrix.vecMul, Matrix.dotProduct] using this
  obtain ⟨v, hv0, hv⟩ := Matrix.exists_mulVec_eq_zero_iff.mpr hdet
  refine ⟨fun j => if h : j < n then v ⟨j, h⟩ else 0, ?_, ?_⟩
  · by_contra hcon
    apply hv0
    funext j
    by_contra hj
    exact hcon ⟨j, j.2, by simpa using hj⟩
  · intro i hi
    have := congrFun hv ⟨i, hi⟩
    rw [Finset.sum_range]
    simpa [Matrix.mulVec, Matrix.dotProduct] using this

/-- With valid shapes, compatible descriptors and a successful allocation,
`Matrix_GaussSolve` reports `MATRIX_ERROR_SINGULAR_MATRIX` and leaves `x` alone
when the forward elimination stops early. -/
theorem Matrix_GaussSolve_run_singular {α : Type} [Zero α] (a b x : Matrix α)
    (t tb tx : FieldInfo α)
    (hta : a.type = some t) (htb : b.type = some tb) (htx : x.type = some tx)
    (hab : types_compatible a b = true) (hax : types_compatible a x = true)
    (hn : 0 < a.rows) (hsq : a.rows = a.cols) (hbc : b.cols = 1) (hbr : a.rows = b.rows)
    (hxr : x.rows = a.rows) (hxc : x.cols = 1)
    (hf : gauss_forward t a.rows (a.rows + 1)
      (gauss_copy a b a.rows (a.rows + 1) (List.replicate (a.rows * (a.rows + 1)) 0)) = none) :
    Matrix_GaussSolve true (some a) (some b) (some x) =
      (MATRIX_ERROR_SINGULAR_MATRIX, some x) := by
  have h1 : ¬ (a.rows ≠ a.cols) := by simp [← hsq]
  have h2 : ¬ (b.cols ≠ 1) := by simp [hbc]
  have h3 : ¬ (a.rows ≠ b.rows) := by simp [← hbr]
  have h4 : ¬ (x.rows ≠ a.rows ∨ x.cols ≠ 1) := by simp [hxr, hxc]
  have h5 : ¬ (a.rows = 0) := by omega
  simp [Matrix_GaussSolve, hta, htb, htx, hab, hax, h1, h2, h3, h4, Matrix_Create, h5,
    Matrix.buf, hxc, hf]
  exact hxr

/-- With valid shapes, compatible descriptors and a successful allocation,
`Matrix_GaussSolve` reports `MATRIX_OK` and back-substitutes into `x` when the
forward elimination runs through. -/
theorem Matrix_GaussSolve_run_ok {α : Type} [Zero α] (a b x : Matrix α)
    (t tb tx : FieldInfo α) (U : List α)
    (hta : a.type = some t) (htb : b.type = some tb) (htx : x.type = some tx)
    (hab : types_compatible a b = true) (hax : types_compatible a x = true)
    (hn : 0 < a.rows) (hsq : a.rows = a.cols) (hbc : b.cols = 1) (hbr : a.rows = b.rows)
    (hxr : x.rows = a.rows) (hxc : x.cols = 1)
    (hf : gauss_forward t a.rows (a.rows + 1)
      (gauss_copy a b a.rows (a.rows + 1) (List.replicate (a.rows * (a.rows + 1)) 0))
        = some U) :
    Matrix_GaussSolve true (some a) (some b) (some x) =
      (MATRIX_OK,
        some (Matrix.mk (Option.map (gauss_back_substitute t a.rows (a.rows + 1) 1 U) x.data)
          x.rows x.cols x.type)) := by
  have h1 : ¬ (a.rows ≠ a.cols) := by simp [← hsq]
  have h2 : ¬ (b.cols ≠ 1) := by simp [hbc]
  have h3 : ¬ (a.rows ≠ b.rows) := by simp [← hbr]
  have h4 : ¬ (x.rows ≠ a.rows ∨ x.cols ≠ 1) := by simp [hxr, hxc]
  have h5 : ¬ (a.rows = 0) := by omega
  simp [Matrix_GaussSolve, hta, htb, htx, hab, hax, h1, h2, h3, h4, Matrix_Create, h5,
    Matrix.buf, hxc, hf]
  exact hxr

/-- What a `MATRIX_OK` return of `Matrix_GaussSolve` tells about the call. -/
theorem Matrix_GaussSolve_ok_inv {α : Type} [Zero α] (alloc : Bool) (a b x : Matrix α)
    (t : FieldInfo α) (hta : a.type = some t)
    (h : (Matrix_GaussSolve alloc (some a) (some b) (some x)).1 = MATRIX_OK) :
    0 < a.rows ∧ x.rows = a.rows ∧ x.cols = 1 ∧
      ∃ U, gauss_forward t a.rows (a.rows + 1)
          (gauss_copy a b a.rows (a.rows + 1)
            (List.replicate (a.rows * (a.rows + 1)) 0)) = some U ∧
        Matrix_GaussSolve alloc (some a) (some b) (some x) =
          (MATRIX_OK,
            some (Matrix.mk
              (Option.map (gauss_back_substitute t a.rows (a.rows + 1) 1 U) x.data)
              x.rows x.cols x.type)) := by
  unfold Matrix_GaussSolve at h ⊢
  simp only [hta] at h ⊢
  cases htb : b.type with
  | none => simp [htb] at h
  | some tb =>
    cases htx : x.type with
    | none => simp [htb, htx] at h
    | some tx =>
      simp only [htb, htx] at h ⊢
      by_cases c0 : types_compatible a b = false ∨ types_compatible a x = false
      · simp [c0] at h
      · by_cases c1 : a.rows ≠ a.cols
        · simp [c0, c1] at h
        · by_cases c2 : b.cols ≠ 1
          · simp [c0, c1, c2] at h
          · by_cases c3 : a.rows ≠ b.rows
            · simp [c0, c1, c2, c3] at h
            · by_cases c4 : x.rows ≠ a.rows ∨ x.cols ≠ 1
              · simp [c0, c1, c2, c3, c4] at h
              · simp only [c0, c1, c2, c3, c4, if_false] at h ⊢
                have hxr : x.rows = a.rows := by
                  by_contra hcon; exact c4 (Or.inl hcon)
                have hxc : x.cols = 1 := by
                  by_contra hcon; exact c4 (Or.inr hcon)
                by_cases c5 : a.rows = 0
                · simp [Matrix_Create, c5] at h
                · cases alloc with
                  | false => simp [Matrix_Create, c5] at h
                  | true =>
                    simp only [Matrix_Create, c5, false_or, Nat.add_one_ne_zero, if_false,
                      Bool.true_eq_false, Matrix.buf, Option.getD_some] at h ⊢
                    refine ⟨by omega, hxr, hxc, ?_⟩
                    cases hf : gauss_forward t a.rows (a.rows + 1)
                        (gauss_copy a b a.rows (a.rows + 1)
                          (List.replicate (a.rows * (a.rows + 1)) 0)) with
                    | none => simp [hf] at h
                    | some U =>
                      refine ⟨U, rfl, ?_⟩
                      simp only [hxc]

/-! ## Integer elimination: zero and the pivot -/

theorem wrap32_zero : wrap32 0 = 0 := by decide

theorem int_pivot_nonzero (p : Int)
    (h : pivot_is_singular GetIntFieldInfo.ptr p = false) : p ≠ 0 := by
  intro e
  subst e
  simp [pivot_is_singular, GetIntFieldInfo] at h

/-! ## Integer Matrix_GaussSolve on dependent rows -/

/-- Counterexample to C3 as stated: the rows of the integer matrix
`A = [[1,2],[2,4]]` are linearly dependent (twice row 0 minus row 1 is zero), yet
with `b = [5,10]` the integer solve returns `MATRIX_OK` and writes `x = [1,2]`:
the truncated factor `1/2 = 0` leaves the second pivot at 2. -/
theorem Matrix_GaussSolve_int_dependent_rows_ok :
    (∀ j, j < 2 →
        2 * matrix_element (Matrix.ofList GetIntFieldInfo 2 2 [1, 2, 2, 4]) 0 j
          - matrix_element (Matrix.ofList GetIntFieldInfo 2 2 [1, 2, 2, 4]) 1 j = 0) ∧
      (Matrix_GaussSolve true
        (some (Matrix.ofList GetIntFieldInfo 2 2 [1, 2, 2, 4]))
        (some (Matrix.ofList GetIntFieldInfo 2 1 [5, 10]))
        (some (Matrix.ofList GetIntFieldInfo 2 1 [0, 0]))).1 = MATRIX_OK ∧
      (Matrix_GaussSolve true
        (some (Matrix.ofList GetIntFieldInfo 2 2 [1, 2, 2, 4]))
        (some (Matrix.ofList GetIntFieldInfo 2 1 [5, 10]))
        (some (Matrix.ofList GetIntFieldInfo 2 1 [0, 0]))).2.map Matrix.buf = some [1, 2] := by
  decide

/-! ## Cell-wise loops -/

/-- A loop that replaces cell `base + j` by `g j` of its content, for
`j = 0 .. n-1`. -/
theorem update_loop {α : Type} [Zero α] (body : Nat → List α → List α) (g : Nat → α → α)
    (base n : Nat) (r0 : List α) (hlen : base + n ≤ r0.length)
    (hbody : ∀ j r, j < n → r.length = r0.length →
      body j r = poke r (base + j) (g j (peek r (base + j)))) :
    (forLoop 0 n body r0).length = r0.length ∧
      (∀ j, j < n → peek (forLoop 0 n body r0) (base + j) = g j (peek r0 (base + j))) ∧
      (∀ idx, idx < base ∨ base + n ≤ idx → peek (forLoop 0 n body r0) idx = peek r0 idx) := by
  have h := forLoop_induction
    (fun (i : Nat) (r : List α) => r.length = r0.length ∧
      (∀ j, j < i → peek r (base + j) = g j (peek r0 (base + j))) ∧
      (∀ idx, idx < base ∨ base + i ≤ idx → peek r idx = peek r0 idx))
    body 0 n r0 (Nat.zero_le n)
    ⟨rfl, fun j hj => absurd hj (Nat.not_lt_zero j), fun _ _ => rfl⟩
    (by
      intro j r _ hjn ⟨hl, hdone, hrest⟩
      rw [hbody j r hjn hl]
      refine ⟨by rw [length_poke, hl], ?_, ?_⟩
      · intro j2 hj2
        by_cases e : j2 = j
        · subst e
          rw [peek_poke_self r _ _ (by omega), hrest _ (Or.inr (Nat.le_refl _))]
        · rw [peek_poke_ne r _ _ _ (by omega)]
          exact hdone j2 (by omega)
      · intro idx hidx
        rw [peek_poke_ne r _ _ _ (by omega)]
        exact hrest idx (by omega))
  exact h

theorem copy_cells_spec {α : Type} [Zero α] (total : Nat) (src dst : List α)
    (hlen : total ≤ dst.length) :
    (copy_cells total src dst).length = dst.length ∧
      ∀ i, i < total → peek (copy_cells total src dst) i = peek src i := by
  obtain ⟨h1, h2, _⟩ := update_loop (fun i d => poke d i (peek src i))
    (fun i _ => peek src i) 0 total dst (by omega) (by intro j r _ _; simp)
  exact ⟨h1, fun i hi => by simpa using h2 i hi⟩

theorem fill_cells_spec {α : Type} [Zero α] (total : Nat) (v : α) (buf : List α)
    (hlen : total ≤ buf.length) :
    (fill_cells total v buf).length = buf.length ∧
      ∀ i, i < total → peek (fill_cells total v buf) i = v := by
  obtain ⟨h1, h2, _⟩ := update_loop (fun i d => poke d i v)
    (fun _ _ => v) 0 total buf (by omega) (by intro j r _ _; simp)
  exact ⟨h1, fun i hi => by simpa using h2 i hi⟩

theorem zero_cells_spec {α : Type} [Zero α] (total : Nat) (buf : List α)
    (hlen : total ≤ buf.length) :
    (zero_cells total buf).length = buf.length ∧
      ∀ i, i < total → peek (zero_cells total buf) i = 0 := by
  obtain ⟨h1, h2, _⟩ := update_loop (fun i d => poke d i (0 : α))
    (fun _ _ => (0 : α)) 0 total buf (by omega) (by intro j r _ _; simp)
  exact ⟨h1, fun i hi => by simpa using h2 i hi⟩

theorem scalar_multiply_cells_spec {α : Type} [Zero α] (t : FieldInfo α) (total : Nat) (s : α)
    (buf : List α) (hlen : total ≤ buf.length) :
    (scalar_multiply_cells t total s buf).length = buf.length ∧
      ∀ i, i < total → peek (scalar_multiply_cells t total s buf) i = t.mul (peek buf i) s := by
  obtain ⟨h1, h2, _⟩ := update_loop (fun i r => poke r i (t.mul (peek r i) s))
    (fun _ x => t.mul x s) 0 total buf (by omega) (by intro j r _ _; simp)
  exact ⟨h1, fun i hi => by simpa using h2 i hi⟩

theorem linear_combination_sum_eq {α : Type} [Zero α] (t : FieldInfo α) (m : Matrix α)
    (alphas : List α) (row_idx j : Nat) :
    linear_combination_sum t m alphas row_idx j = weighted_sum t m alphas row_idx j := by
  have h := forLoop_induction
    (fun (k : Nat) (s : α) =>
      s = ((List.range k).filter (fun k => decide (k ≠ row_idx))).foldl
        (fun acc k => t.add acc (t.mul (peek alphas k) (matrix_element m k j))) 0)
    (fun k temp_sum =>
      if k = row_idx then temp_sum
      else
        let temp_mul := t.mul (peek alphas k) (matrix_element m k j)
        t.add temp_sum temp_mul)
    0 m.rows 0 (Nat.zero_le _) (by simp)
    (by
      intro k s _ _ hs
      rw [List.range_succ, List.filter_append, List.foldl_append, ← hs]
      by_cases e : k = row_idx
      · simp [e]
      · simp [e])
  exact h

theorem linear_combination_cells_spec {α : Type} [Zero α] (t : FieldInfo α) (m : Matrix α)
    (alphas : List α) (row_idx : Nat) (r0 : List α)
    (hlen : r0.length = m.rows * m.cols) (hrow : row_idx < m.rows) :
    (linear_combination_cells t m alphas row_idx m.cols r0).length = m.rows * m.cols ∧
      ∀ i j, i < m.rows → j < m.cols →
        peek (linear_combination_cells t m alphas row_idx m.cols r0) (i * m.cols + j) =
          if i = row_idx then
            t.add (peek r0 (row_idx * m.cols + j)) (weighted_sum t m alphas row_idx j)
          else peek r0 (i * m.cols + j) := by
  have hbound : row_idx * m.cols + m.cols ≤ r0.length := by
    rw [hlen]
    have : (row_idx + 1) * m.cols ≤ m.rows * m.cols := Nat.mul_le_mul_right _ hrow
    simpa [Nat.succ_mul] using this
  obtain ⟨h1, h2, h3⟩ := update_loop
    (fun j r =>
      let temp_sum := linear_combination_sum t m alphas row_idx j
      store m.cols r row_idx j (t.add (load m.cols r row_idx j) temp_sum))
    (fun j x => t.add x (weighted_sum t m alphas row_idx j)) (row_idx * m.cols) m.cols r0 hbound
    (by
      intro j r _ _
      simp only [store, load, linear_combination_sum_eq])
  unfold linear_combination_cells
  refine ⟨by rw [h1, hlen], ?_⟩
  intro i j hi hj
  by_cases e : i = row_idx
  · subst e
    rw [if_pos rfl]
    exact h2 j hj
  · rw [if_neg e]
    apply h3
    rcases Nat.lt_or_gt_of_ne e with hlt | hgt
    · left; exact index_lt hlt hj
    · right
      have : (row_idx + 1) * m.cols ≤ i * m.cols := Nat.mul_le_mul_right _ hgt
      have h4 : row_idx * m.cols + m.cols ≤ i * m.cols := by simpa [Nat.succ_mul] using this
      omega

/-! ## Matrix_Clone, Matrix_AddLinearCombination, Matrix_Fill -/

theorem wellFormed_buf {α : Type} {m : Matrix α} (h : WellFormed m) :
    m.buf.length = m.rows * m.cols := by
  obtain ⟨d, hd, hlen⟩ := wellFormed_data h
  simp [Matrix.buf, hd, hlen]

theorem Matrix_Clone_spec {α : Type} [Zero α] (m : Matrix α) (t : FieldInfo α)
    (hm : WellFormed m) (ht : m.type = some t) :
    Matrix_Clone true (some m) =
        (some (Matrix.mk (some (copy_cells (m.rows * m.cols) m.buf
          (List.replicate (m.rows * m.cols) 0))) m.rows m.cols (some t)), MATRIX_OK) ∧
      (copy_cells (m.rows * m.cols) m.buf (List.replicate (m.rows * m.cols) 0)).length
        = m.rows * m.cols ∧
      ∀ i, i < m.rows * m.cols →
        peek (copy_cells (m.rows * m.cols) m.buf (List.replicate (m.rows * m.cols) 0)) i
          = peek m.buf i := by
  have hpos : ¬ (m.rows = 0 ∨ m.cols = 0) := by
    have h1 := hm.1
    have h2 := hm.2.1
    omega
  obtain ⟨c1, c2⟩ := copy_cells_spec (m.rows * m.cols) m.buf
    (List.replicate (m.rows * m.cols) (0 : α)) (by simp)
  refine ⟨?_, by simpa using c1, c2⟩
  simp [Matrix_Clone, Matrix_Create, ht, hpos, Matrix.buf]

/-- `Matrix_Clone` reports `MATRIX_OK` with a matrix, or a failure that is not
`MATRIX_ERROR_INVALID_INDEX`. -/
theorem Matrix_Clone_status {α : Type} [Zero α] (alloc : Bool) (m : Matrix α) :
    (∃ c, Matrix_Clone alloc (some m) = (some c, MATRIX_OK)) ∨
      Matrix_Clone alloc (some m) = (none, MATRIX_ERROR_MEMORY) := by
  cases hc : Matrix_Create alloc m.rows m.cols m.type with
  | none => right; simp [Matrix_Clone, hc]
  | some c =>
    left
    refine ⟨Matrix.mk (some (copy_cells (m.rows * m.cols) m.buf c.buf)) c.rows c.cols c.type, ?_⟩
    simp only [Matrix_Clone, hc]

theorem Matrix_AddLinearCombination_spec {α : Type} [Zero α] (m : Matrix α) (t : FieldInfo α)
    (row_idx : Nat) (al : List α) (hm : WellFormed m) (ht : m.type = some t)
    (hrow : row_idx < m.rows) :
    ∃ r, Matrix_AddLinearCombination true (some m) row_idx (some al) = (some r, MATRIX_OK) ∧
      r.rows = m.rows ∧ r.cols = m.cols ∧
      ∀ i j o, i < m.rows → j < m.cols →
        Matrix_Get (some r) i j (some o) =
          (MATRIX_OK, some (if i = row_idx then
              t.add (matrix_element m row_idx j) (weighted_sum t m al row_idx j)
            else matrix_element m i j)) := by
  obtain ⟨hclone, clen, cval⟩ := Matrix_Clone_spec m t hm ht
  obtain ⟨l1, l2⟩ := linear_combination_cells_spec t m al row_idx _ clen hrow
  have hge : ¬ (row_idx ≥ m.rows) := by omega
  have hrun : Matrix_AddLinearCombination true (some m) row_idx (some al) =
      (some (Matrix.mk (some (linear_combination_cells t m al row_idx m.cols
        (copy_cells (m.rows * m.cols) m.buf (List.replicate (m.rows * m.cols) 0))))
        m.rows m.cols (some t)), MATRIX_OK) := by
    simp [Matrix_AddLinearCombination, hge, hclone, ht, Matrix.buf]
  refine ⟨_, hrun, rfl, rfl, ?_⟩
  intro i j o hi hj
  have hbnd : ¬ (i ≥ m.rows ∨ j ≥ m.cols) := by omega
  simp only [Matrix_Get, hbnd, if_false, matrix_index]
  rw [l2 i j hi hj, cval _ (index_lt hrow hj), cval _ (index_lt hi hj)]
  rfl

theorem Matrix_AddLinearCombination_index {α : Type} [Zero α] (alloc : Bool) (m : Matrix α)
    (row_idx : Nat) (al : List α) :
    Matrix_AddLinearCombination alloc (some m) row_idx (some al)
        = (none, MATRIX_ERROR_INVALID_INDEX) ↔ row_idx ≥ m.rows := by
  constructor
  · intro h
    by_contra hlt
    simp only [Matrix_AddLinearCombination, hlt, if_false] at h
    rcases Matrix_Clone_status alloc m with ⟨c, hc⟩ | hc
    · rw [hc] at h
      cases ht : m.type <;> simp [ht] at h
    · rw [hc] at h
      simp at h
  · intro h
    simp [Matrix_AddLinearCombination, h]

theorem Matrix_Fill_spec {α : Type} [Zero α] (m : Matrix α) (v : α) (hm : WellFormed m) :
    ∃ m2, Matrix_Fill (some m) (some v) = (MATRIX_OK, some m2) ∧
      m2.rows = m.rows ∧ m2.cols = m.cols ∧
      ∀ r c o, r < m.rows → c < m.cols →
        Matrix_Get (some m2) r c (some o) = (MATRIX_OK, some v) := by
  obtain ⟨d, hd, hlen⟩ := wellFormed_data hm
  obtain ⟨t, ht⟩ := wellFormed_type hm
  obtain ⟨_, f2⟩ := fill_cells_spec (m.rows * m.cols) v d (by omega)
  refine ⟨_, rfl, rfl, rfl, ?_⟩
  intro r c o hr hc
  have hbnd : ¬ (r ≥ m.rows ∨ c ≥ m.cols) := by omega
  simp only [Matrix_Get, hd, ht, Option.map_some', hbnd, if_false, matrix_index]
  rw [f2 _ (index_lt hr hc)]

/-! ## Matrix_Identity -/

theorem identity_cells_spec {α : Type} [Zero α] [FloatOneBytes α] (type : Option (FieldInfo α))
    (n : Nat) (d : List α) (hlen : d.length = n * n) :
    (identity_cells type n n d).length = n * n ∧
      ∀ i j, i < n → j < n →
        peek (identity_cells type n n d) (i * n + j) =
          if i = j then identity_one (type.map FieldInfo.ptr) else 0 := by
  obtain ⟨z1, z2⟩ := zero_cells_spec (n * n) d (by omega)
  have h := forLoop_induction
    (fun (k : Nat) (r : List α) => r.length = n * n ∧
      ∀ i j, i < n → j < n →
        load n r i j = if i = j ∧ i < k then identity_one (type.map FieldInfo.ptr) else 0)
    (fun i d => store n d i i (identity_one (type.map FieldInfo.ptr)))
    0 n (zero_cells (n * n) d) (Nat.zero_le n)
    ⟨by rw [z1, hlen], by
      intro i j hi hj
      have c : ¬ (i = j ∧ i < 0) := by omega
      rw [if_neg c]
      exact z2 _ (index_lt hi hj)⟩
    (by
      intro k r _ hk ⟨hl, hv⟩
      have hidx : k * n + k < r.length := by rw [hl]; exact index_lt hk hk
      refine ⟨by rw [length_store, hl], ?_⟩
      intro i j hi hj
      show load n (store n r k k _) i j = _
      rw [load_store n r k k i j _ hk hj hidx, hv i j hi hj]
      by_cases e : i = k ∧ j = k
      · obtain ⟨e1, e2⟩ := e
        have c : i = j ∧ i < k + 1 := ⟨by omega, by omega⟩
        rw [if_pos ⟨e1, e2⟩, if_pos c]
      · rw [if_neg e]
        refine if_congr ?_ rfl rfl
        constructor
        · rintro ⟨a, b⟩; exact ⟨a, by omega⟩
        · rintro ⟨a, b⟩
          refine ⟨a, ?_⟩
          by_contra hc
          exact e ⟨by omega, by omega⟩)
  unfold identity_cells
  refine ⟨h.1, ?_⟩
  intro i j hi hj
  have := h.2 i j hi hj
  show load n _ i j = _
  rw [this]
  refine if_congr ?_ rfl rfl
  constructor
  · rintro ⟨a, _⟩; exact a
  · intro a; exact ⟨a, hi⟩

theorem Matrix_Identity_spec {α : Type} [Zero α] [FloatOneBytes α] (m : Matrix α)
    (hm : WellFormed m) (hsq : m.rows = m.cols) :
    ∃ m2, Matrix_Identity (some m) = (MATRIX_OK, some m2) ∧
      m2.rows = m.rows ∧ m2.cols = m.cols ∧
      ∀ i j o, i < m.rows → j < m.rows →
        Matrix_Get (some m2) i j (some o) =
          (MATRIX_OK, some (if i = j then identity_one (m.type.map FieldInfo.ptr) else 0)) := by
  obtain ⟨d, hd, hlen⟩ := wellFormed_data hm
  obtain ⟨t, ht⟩ := wellFormed_type hm
  have hne : ¬ (m.rows ≠ m.cols) := by simp [hsq]
  rw [← hsq] at hlen
  obtain ⟨_, i2⟩ := identity_cells_spec m.type m.rows d hlen
  have hrun : Matrix_Identity (some m) =
      (MATRIX_OK, some (Matrix.mk (some (identity_cells m.type m.rows m.rows d))
        m.rows m.cols m.type)) := by
    simp only [Matrix_Identity, hne, if_false, hd, Option.map_some']
    rw [← hsq]
  refine ⟨_, hrun, rfl, rfl, ?_⟩
  intro i j o hi hj
  have hbnd : ¬ (i ≥ m.rows ∨ j ≥ m.cols) := by omega
  have i3 := i2 i j hi hj
  rw [ht] at i3
  simp only [Matrix_Get, ht, hbnd, if_false, matrix_index]
  rw [← hsq, i3]

theorem Matrix_Identity_mismatch {α : Type} [Zero α] [FloatOneBytes α] (m : Matrix α) :
    ((Matrix_Identity (some m)).1 = MATRIX_ERROR_DIMENSION_MISMATCH ↔ m.rows ≠ m.cols) ∧
      (m.rows ≠ m.cols → (Matrix_Identity (some m)).2 = some m) := by
  by_cases h : m.rows ≠ m.cols
  · simp [Matrix_Identity, h]
  · simp [Matrix_Identity, h]

/-! ## The heap: blocks other than the one written keep their content -/

theorem heap_update_other {α : Type} (h : Heap α) (p : Option Nat) (f : List α → List α)
    (q : Nat) (hq : p ≠ some q) : (heap_update h p f)[q]? = h[q]? := by
  cases p with
  | none => rfl
  | some p0 =>
    have hne : p0 ≠ q := by
      intro e; exact hq (by rw [e])
    cases hb : h[p0]? with
    | none => simp [heap_update, hb]
    | some buf => simp [heap_update, hb, List.getElem?_set, hne]

theorem heap_update_self {α : Type} (h : Heap α) (p : Nat) (f : List α → List α)
    (buf : List α) (hb : h[p]? = some buf) :
    (heap_update h (some p) f)[p]? = some (f buf) := by
  have hlt : p < h.length := by
    by_contra hc
    have : h[p]? = none := List.getElem?_eq_none (by omega)
    rw [this] at hb
    exact Option.noConfusion hb
  simp [heap_update, hb, List.getElem?_set, hlt]

theorem heap_append_old {α : Type} (h : Heap α) (buf : List α) (q : Nat) (hq : q < h.length) :
    (h ++ [buf])[q]? = h[q]? := by
  exact List.getElem?_append_left hq

theorem heap_append_new {α : Type} (h : Heap α) (buf : List α) :
    (h ++ [buf])[h.length]? = some buf := by
  simp

theorem heap_live_lt {α : Type} (h : Heap α) (p : Nat) (buf : List α) (hb : h[p]? = some buf) :
    p < h.length := by
  by_contra hc
  have : h[p]? = none := List.getElem?_eq_none (by omega)
  rw [this] at hb
  exact Option.noConfusion hb

/-- A struct denotes the same matrix in two heaps that agree on its block. -/
theorem deref_congr {α : Type} (h h2 : Heap α) (m : MatrixObj α)
    (hsame : ∀ p, m.data = some p → h2[p]? = h[p]?) : m.deref h2 = m.deref h := by
  unfold MatrixObj.deref
  cases hd : m.data with
  | none => rfl
  | some p => simp [hsame p hd]

/-- The block a well-formed struct points to. -/
theorem wellFormed_deref {α : Type} (h : Heap α) (m : MatrixObj α)
    (hm : WellFormed (m.deref h)) :
    ∃ p d, m.data = some p ∧ h[p]? = some d ∧ p < h.length ∧ d.length = m.rows * m.cols ∧
      (m.deref h).buf = d := by
  obtain ⟨d, hd, hlen⟩ := wellFormed_data hm
  cases hp : m.data with
  | none => simp [MatrixObj.deref, hp] at hd
  | some p =>
    have hd2 : h[p]? = some d := by simpa [MatrixObj.deref, hp] using hd
    exact ⟨p, d, rfl, hd2, heap_live_lt h p d hd2, hlen, by simp [Matrix.buf, hd]⟩

/-- `Matrix_Set` on the heap leaves every block other than the matrix's own as
it was. -/
theorem Matrix_Set_heap_other {α : Type} (h : Heap α) (m : MatrixObj α) (row col : Nat)
    (value : Option α) (q : Nat) (hq : m.data ≠ some q) :
    (Matrix_Set_heap h (some m) row col value).1[q]? = h[q]? := by
  cases value with
  | none => rfl
  | some v =>
    cases hd : m.data with
    | none => simp [Matrix_Set_heap, hd]
    | some p =>
      cases ht : m.type with
      | none => simp [Matrix_Set_heap, hd, ht]
      | some t =>
        by_cases hb : row ≥ m.rows ∨ col ≥ m.cols
        · simp [Matrix_Set_heap, hd, ht, hb]
        · simp only [Matrix_Set_heap, hd, ht, hb, if_false]
          exact heap_update_other h (some p) _ q (by rw [← hd]; exact hq)

/-- The run of `Matrix_Clone` on the heap for a well-formed matrix, allocation
succeeding: one new block at address `h.length`, holding the copied cells. -/
theorem Matrix_Clone_heap_run {α : Type} [Zero α] (h : Heap α) (m : MatrixObj α)
    (t : FieldInfo α) (p : Nat) (d : List α)
    (hm : WellFormed (m.deref h)) (ht : m.type = some t)
    (hp : m.data = some p) (hd : h[p]? = some d) :
    ∃ h1, Matrix_Clone_heap true h (some m) =
        (h1, some (MatrixObj.mk (some h.length) m.rows m.cols (some t)), MATRIX_OK) ∧
      h1[h.length]? =
        some (copy_cells (m.rows * m.cols) d (List.replicate (m.rows * m.cols) 0)) ∧
      ∀ q, q < h.length → h1[q]? = h[q]? := by
  have hpos : ¬ (m.rows = 0 ∨ m.cols = 0) := by
    have h1 := hm.1
    have h2 := hm.2.1
    simp only [MatrixObj.deref] at h1 h2
    omega
  have hplt := heap_live_lt h p d hd
  have hbuf : (m.deref (h ++ [List.replicate (m.rows * m.cols) (0 : α)])).buf = d := by
    simp [MatrixObj.deref, Matrix.buf, hp, heap_append_old h _ p hplt, hd]
  refine ⟨heap_update (h ++ [List.replicate (m.rows * m.cols) (0 : α)]) (some h.length)
    (copy_cells (m.rows * m.cols) d), ?_, ?_, ?_⟩
  · simp only [Matrix_Clone_heap, Matrix_Create_heap, ht, hpos, if_false, Bool.true_eq_false,
      hbuf]
  · exact heap_update_self _ _ _ _ (heap_append_new h _)
  · intro q hq
    rw [heap_update_other _ _ _ q (by simp; omega)]
    exact heap_append_old h _ q hq

theorem Matrix_Get_deref {α : Type} [Zero α] (h : Heap α) (m : MatrixObj α) (t : FieldInfo α)
    (p : Nat) (d : List α) (hp : m.data = some p) (hd : h[p]? = some d) (ht : m.type = some t)
    (i j : Nat) (o : α) (hi : i < m.rows) (hj : j < m.cols) :
    Matrix_Get (some (m.deref h)) i j (some o) = (MATRIX_OK, some (peek d (i * m.cols + j))) := by
  have hbnd : ¬ (i ≥ m.rows ∨ j ≥ m.cols) := by omega
  simp [Matrix_Get, MatrixObj.deref, hp, hd, ht, hbnd, matrix_index]

theorem matrix_element_deref {α : Type} [Zero α] (h : Heap α) (m : MatrixObj α)
    (p : Nat) (d : List α) (hp : m.data = some p) (hd : h[p]? = some d) (i j : Nat) :
    matrix_element (m.deref h) i j = peek d (i * m.cols + j) := by
  simp [matrix_element, MatrixObj.deref, Matrix.buf, hp, hd, matrix_index]

theorem Matrix_Clone_heap_spec {α : Type} [Zero α] (h : Heap α) (m : MatrixObj α)
    (hm : WellFormed (m.deref h)) :
    ∃ h1 c, Matrix_Clone_heap true h (some m) = (h1, some c, MATRIX_OK) ∧
      c.rows = m.rows ∧ c.cols = m.cols ∧ c.type = m.type ∧
      (∀ i j o, i < m.rows → j < m.cols →
        Matrix_Get (some (c.deref h1)) i j (some o) =
          (MATRIX_OK, some (matrix_element (m.deref h) i j))) ∧
      m.deref h1 = m.deref h ∧
      (∀ row col v, m.deref (Matrix_Set_heap h1 (some c) row col v).1 = m.deref h) ∧
      (∀ row col v, c.deref (Matrix_Set_heap h1 (some m) row col v).1 = c.deref h1) := by
  obtain ⟨p, d, hp, hd, hplt, hdlen, hbuf⟩ := wellFormed_deref h m hm
  obtain ⟨t, ht⟩ := wellFormed_type hm
  have ht2 : m.type = some t := ht
  obtain ⟨h1, hrun, hnew, hold⟩ := Matrix_Clone_heap_run h m t p d hm ht2 hp hd
  obtain ⟨_, cval⟩ := copy_cells_spec (m.rows * m.cols) d
    (List.replicate (m.rows * m.cols) (0 : α)) (by simp)
  have hm1 : m.deref h1 = m.deref h :=
    deref_congr h h1 m (fun q hq => by
      have e : q = p := by rw [hp] at hq; exact (Option.some.inj hq).symm
      rw [e]; exact hold p hplt)
  refine ⟨h1, _, hrun, rfl, rfl, ht2.symm, ?_, hm1, ?_, ?_⟩
  · intro i j o hi hj
    rw [Matrix_Get_deref h1 (MatrixObj.mk (some h.length) m.rows m.cols (some t)) t h.length _
      rfl hnew rfl i j o hi hj, cval _ (index_lt hi hj), matrix_element_deref h m p d hp hd]
  · intro row col v
    rw [← hm1]
    apply deref_congr
    intro q hq
    have e : q = p := by rw [hp] at hq; exact (Option.some.inj hq).symm
    rw [e]
    apply Matrix_Set_heap_other
    intro hcon
    have : h.length = p := Option.some.inj hcon
    omega
  · intro row col v
    apply deref_congr
    intro q hq
    have e : q = h.length := (Option.some.inj hq).symm
    rw [e]
    apply Matrix_Set_heap_other
    rw [hp]
    intro hcon
    have : p = h.length := Option.some.inj hcon
    omega

theorem Matrix_ScalarMultiply_heap_spec {α : Type} [Zero α] (h : Heap α) (m : MatrixObj α)
    (t : FieldInfo α) (s : α) (hm : WellFormed (m.deref h)) (ht : m.type = some t) :
    ∃ h1 r, Matrix_ScalarMultiply_heap true h (some m) (some s) = (h1, some r, MATRIX_OK) ∧
      r.rows = m.rows ∧ r.cols = m.cols ∧
      (∀ i j o, i < m.rows → j < m.cols →
        Matrix_Get (some (r.deref h1)) i j (some o) =
          (MATRIX_OK, some (t.mul (matrix_element (m.deref h) i j) s))) ∧
      m.deref h1 = m.deref h := by
  obtain ⟨p, d, hp, hd, hplt, hdlen, hbuf⟩ := wellFormed_deref h m hm
  obtain ⟨hc, hrun, hnew, hold⟩ := Matrix_Clone_heap_run h m t p d hm ht hp hd
  obtain ⟨clen, cval⟩ := copy_cells_spec (m.rows * m.cols) d
    (List.replicate (m.rows * m.cols) (0 : α)) (by simp)
  obtain ⟨_, sval⟩ := scalar_multiply_cells_spec t (m.rows * m.cols) s
    (copy_cells (m.rows * m.cols) d (List.replicate (m.rows * m.cols) (0 : α)))
    (by rw [clen]; simp)
  refine ⟨heap_update hc (some h.length) (scalar_multiply_cells t (m.rows * m.cols) s),
    MatrixObj.mk (some h.length) m.rows m.cols (some t), ?_, rfl, rfl, ?_, ?_⟩
  · simp only [Matrix_ScalarMultiply_heap, hrun]
  · intro i j o hi hj
    rw [Matrix_Get_deref _ (MatrixObj.mk (some h.length) m.rows m.cols (some t)) t h.length _
      rfl (heap_update_self hc h.length _ _ hnew) rfl i j o hi hj,
      sval _ (index_lt hi hj), cval _ (index_lt hi hj), matrix_element_deref h m p d hp hd]
  · apply deref_congr
    intro q hq
    have e : q = p := by rw [hp] at hq; exact (Option.some.inj hq).symm
    rw [e, heap_update_other hc (some h.length) _ p (by simp; omega)]
    exact hold p hplt

theorem Matrix_Add_heap_errors {α : Type} [Zero α] (alloc : Bool) (h : Heap α)
    (a b : MatrixObj α) :
    (FieldInfo_Equals a.type b.type = false →
        Matrix_Add_heap alloc h (some a) (some b) = (h, none, MATRIX_ERROR_TYPE_MISMATCH) ∧
        Matrix_Add alloc (some (a.deref h)) (some (b.deref h))
          = (none, MATRIX_ERROR_TYPE_MISMATCH)) ∧
      (FieldInfo_Equals a.type b.type = true → (a.rows ≠ b.rows ∨ a.cols ≠ b.cols) →
        Matrix_Add_heap alloc h (some a) (some b)
          = (h, none, MATRIX_ERROR_DIMENSION_MISMATCH) ∧
        Matrix_Add alloc (some (a.deref h)) (some (b.deref h))
          = (none, MATRIX_ERROR_DIMENSION_MISMATCH)) := by
  constructor
  · intro hty
    constructor
    · simp [Matrix_Add_heap, hty]
    · simp [Matrix_Add, types_compatible, MatrixObj.deref, hty]
  · intro hty hdim
    constructor
    · simp only [Matrix_Add_heap, hty, Bool.true_eq_false, if_false]
      rw [if_pos hdim]
    · simp only [Matrix_Add, types_compatible, MatrixObj.deref, hty, Bool.true_eq_false,
        if_false]
      rw [if_pos hdim]

theorem Matrix_Multiply_errors {α : Type} [Zero α] (alloc : Bool) (a b : Matrix α) :
    (types_compatible a b = true →
        (Matrix_Multiply alloc (some a) (some b) = (none, MATRIX_ERROR_DIMENSION_MISMATCH)
          ↔ a.cols ≠ b.rows)) ∧
      (types_compatible a b = false →
        Matrix_Multiply alloc (some a) (some b) = (none, MATRIX_ERROR_TYPE_MISMATCH)) := by
  constructor
  · intro hty
    constructor
    · intro hr
      by_contra hd
      simp only [Matrix_Multiply, hty, Bool.true_eq_false, if_false, hd] at hr
      cases ht : a.type with
      | none => simp [ht] at hr
      | some t =>
        cases hc : Matrix_Create alloc a.rows b.cols (some t) with
        | none => simp [ht, hc] at hr
        | some c => simp [ht, hc] at hr
    · intro hd
      simp only [Matrix_Multiply, hty, Bool.true_eq_false, if_false]
      rw [if_pos hd]
  · intro hty
    simp [Matrix_Multiply, hty]

theorem Matrix_Create_validity {α : Type} [Zero α] (alloc : Bool) (rows cols : Nat)
    (type : Option (FieldInfo α)) :
    ((rows = 0 ∨ cols = 0 ∨ type = none) → Matrix_Create alloc rows cols type = none) ∧
      ((0 < rows ∧ 0 < cols ∧ type.isSome = true) →
        (Matrix_Create true rows cols type).isSome = true) := by
  constructor
  · intro hbad
    cases type with
    | none => rfl
    | some t =>
      have hz : rows = 0 ∨ cols = 0 := by
        rcases hbad with h1 | h1 | h1
        · exact Or.inl h1
        · exact Or.inr h1
        · exact Option.noConfusion h1
      simp [Matrix_Create, hz]
  · rintro ⟨hr, hc, ht⟩
    cases type with
    | none => simp at ht
    | some t => rw [Matrix_Create_ok rows cols hr hc t]; rfl

/-! ## The heap operations agree with the operations on matrix values -/

/-- On a well-formed matrix, `Matrix_Clone` on the heap returns the struct whose
matrix is the one `Matrix_Clone` computes. -/
theorem Matrix_Clone_heap_agrees {α : Type} [Zero α] (h : Heap α) (m : MatrixObj α)
    (hm : WellFormed (m.deref h)) :
    ∃ h1 c, Matrix_Clone_heap true h (some m) = (h1, some c, MATRIX_OK) ∧
      Matrix_Clone true (some (m.deref h)) = (some (c.deref h1), MATRIX_OK) := by
  obtain ⟨p, d, hp, hd, hplt, hdlen, hbuf⟩ := wellFormed_deref h m hm
  obtain ⟨t, ht⟩ := wellFormed_type hm
  have ht2 : m.type = some t := ht
  obtain ⟨h1, hrun, hnew, _⟩ := Matrix_Clone_heap_run h m t p d hm ht2 hp hd
  obtain ⟨hval, _, _⟩ := Matrix_Clone_spec (m.deref h) t hm ht
  refine ⟨h1, _, hrun, ?_⟩
  rw [hval, hbuf]
  simp [MatrixObj.deref, hnew]

/-- On a well-formed matrix, `Matrix_ScalarMultiply` on the heap returns the
struct whose matrix is the one `Matrix_ScalarMultiply` computes. -/
theorem Matrix_ScalarMultiply_heap_agrees {α : Type} [Zero α] (h : Heap α) (m : MatrixObj α)
    (s : α) (hm : WellFormed (m.deref h)) :
    ∃ h1 r, Matrix_ScalarMultiply_heap true h (some m) (some s) = (h1, some r, MATRIX_OK) ∧
      Matrix_ScalarMultiply true (some (m.deref h)) (some s) = (some (r.deref h1), MATRIX_OK) := by
  obtain ⟨p, d, hp, hd, hplt, hdlen, hbuf⟩ := wellFormed_deref h m hm
  obtain ⟨t, ht⟩ := wellFormed_type hm
  have ht2 : m.type = some t := ht
  obtain ⟨hc, hrun, hnew, _⟩ := Matrix_Clone_heap_run h m t p d hm ht2 hp hd
  obtain ⟨hval, _, _⟩ := Matrix_Clone_spec (m.deref h) t hm ht
  refine ⟨heap_update hc (some h.length) (scalar_multiply_cells t (m.rows * m.cols) s),
    MatrixObj.mk (some h.length) m.rows m.cols (some t), ?_, ?_⟩
  · simp only [Matrix_ScalarMultiply_heap, hrun]
  · simp only [Matrix_ScalarMultiply, hval, hbuf]
    simp [MatrixObj.deref, heap_update_self hc h.length _ _ hnew, Matrix.buf]

/-- `Matrix_Set` on the heap reports the status of `Matrix_Set`, and on a matrix
whose block is live it leaves the struct denoting the matrix `Matrix_Set`
returns. -/
theorem Matrix_Set_heap_agrees {α : Type} (h : Heap α) (m : MatrixObj α) (row col : Nat)
    (v : α) (p : Nat) (d : List α) (hp : m.data = some p) (hd : h[p]? = some d) :
    (Matrix_Set_heap h (some m) row col (some v)).2
        = (Matrix_Set (some (m.deref h)) row col (some v)).1 ∧
      some (m.deref (Matrix_Set_heap h (some m) row col (some v)).1)
        = (Matrix_Set (some (m.deref h)) row col (some v)).2 := by
  cases ht : m.type with
  | none => simp [Matrix_Set_heap, Matrix_Set, MatrixObj.deref, hp, hd, ht]
  | some t =>
    by_cases hb : row ≥ m.rows ∨ col ≥ m.cols
    · simp [Matrix_Set_heap, Matrix_Set, MatrixObj.deref, hp, hd, ht, hb]
    · simp [Matrix_Set_heap, Matrix_Set, MatrixObj.deref, hp, hd, ht, hb,
        heap_update_self h p _ d hd, matrix_index]

theorem deref_append {α : Type} (h : Heap α) (m : MatrixObj α) (buf : List α)
    (hm : WellFormed (m.deref h)) : m.deref (h ++ [buf]) = m.deref h := by
  obtain ⟨p, d, hp, hd, hplt, _, _⟩ := wellFormed_deref h m hm
  apply deref_congr
  intro q hq
  have e : q = p := by rw [hp] at hq; exact (Option.some.inj hq).symm
  rw [e]
  exact heap_append_old h buf p hplt

/-- On well-formed operands of equal type and dimensions, `Matrix_Add` on the
heap returns the struct whose matrix is the one `Matrix_Add` computes, and both
operands denote the same matrices as before. -/
theorem Matrix_Add_heap_agrees {α : Type} [Zero α] (h : Heap α) (a b : MatrixObj α)
    (ha : WellFormed (a.deref h)) (hb : WellFormed (b.deref h))
    (hty : FieldInfo_Equals a.type b.type = true)
    (hrows : a.rows = b.rows) (hcols : a.cols = b.cols) :
    ∃ h1 r, Matrix_Add_heap true h (some a) (some b) = (h1, some r, MATRIX_OK) ∧
      Matrix_Add true (some (a.deref h)) (some (b.deref h)) = (some (r.deref h1), MATRIX_OK) ∧
      a.deref h1 = a.deref h ∧ b.deref h1 = b.deref h := by
  obtain ⟨pa, da, hpa, hda, hpalt, _, _⟩ := wellFormed_deref h a ha
  obtain ⟨pb, db, hpb, hdb, hpblt, _, _⟩ := wellFormed_deref h b hb
  obtain ⟨t, ht⟩ := wellFormed_type ha
  have ht2 : a.type = some t := ht
  have hdim : ¬ (a.rows ≠ b.rows ∨ a.cols ≠ b.cols) := by simp [hrows, hcols]
  have hpos : ¬ (a.rows = 0 ∨ a.cols = 0) := by
    have h1 := ha.1
    have h2 := ha.2.1
    simp only [MatrixObj.deref] at h1 h2
    omega
  have ea := deref_append h a (List.replicate (a.rows * a.cols) (0 : α)) ha
  have eb := deref_append h b (List.replicate (a.rows * a.cols) (0 : α)) hb
  have hnew := heap_append_new h (List.replicate (a.rows * a.cols) (0 : α))
  refine ⟨heap_update (h ++ [List.replicate (a.rows * a.cols) (0 : α)]) (some h.length)
      (fun r0 => forLoop 0 (a.rows * a.cols)
        (fun i r => poke r i (t.add (peek (a.deref h).buf i) (peek (b.deref h).buf i))) r0),
    MatrixObj.mk (some h.length) a.rows a.cols (some t), ?_, ?_, ?_, ?_⟩
  · have hty3 : FieldInfo_Equals (some t) b.type = true := by rw [← ht2]; exact hty
    simp only [Matrix_Add_heap, hty, Bool.true_eq_false, if_false, hdim, ht2,
      Matrix_Create_heap, hpos, ea, eb, hty3]
  · have hty2 : types_compatible (a.deref h) (b.deref h) = true := hty
    have hdim2 : ¬ ((a.deref h).rows ≠ (b.deref h).rows ∨ (a.deref h).cols ≠ (b.deref h).cols) :=
      hdim
    have hpos2 : ¬ ((a.deref h).rows = 0 ∨ (a.deref h).cols = 0) := hpos
    simp only [Matrix_Add, hty2, Bool.true_eq_false, if_false, hdim2, ht, Matrix_Create, hpos2]
    simp [MatrixObj.deref, heap_update_self _ h.length _ _ hnew, Matrix.buf]
  · apply deref_congr
    intro q hq
    have e : q = pa := by rw [hpa] at hq; exact (Option.some.inj hq).symm
    rw [e, heap_update_other _ (some h.length) _ pa (by simp; omega)]
    exact heap_append_old h _ pa hpalt
  · apply deref_congr
    intro q hq
    have e : q = pb := by rw [hpb] at hq; exact (Option.some.inj hq).symm
    rw [e, heap_update_other _ (some h.length) _ pb (by simp; omega)]
    exact heap_append_old h _ pb hpblt

/-! ## Creation, clone, scalar multiple, row combination, fill, identity: the claims -/

/-- C11: `Matrix_Create` returns no matrix whenever `rows == 0` or `cols == 0` or
the descriptor is absent (whatever the allocator does), and with allocation
succeeding it returns a matrix for every `rows > 0`, `cols > 0` and present
descriptor. -/
theorem Matrix_Create_rejects_invalid {α : Type} [Zero α] (alloc : Bool) (rows cols : Nat)
    (type : Option (FieldInfo α)) :
    ((rows = 0 ∨ cols = 0 ∨ type = none) → Matrix_Create alloc rows cols type = none) ∧
      ((0 < rows ∧ 0 < cols ∧ type.isSome = true) →
        (Matrix_Create true rows cols type).isSome = true) :=
  Matrix_Create_validity alloc rows cols type

/-- Witness for C11: a 0x3 request is refused, a 2x3 request is served. -/
theorem Matrix_Create_rejects_invalid_witness :
    Matrix_Create true 0 3 (some GetIntFieldInfo) = none ∧
      (Matrix_Create true 2 3 (some GetIntFieldInfo)).isSome = true :=
  ⟨(Matrix_Create_rejects_invalid true 0 3 (some GetIntFieldInfo)).1 (Or.inl rfl),
    (Matrix_Create_rejects_invalid true 2 3 (some GetIntFieldInfo)).2
      ⟨by decide, by decide, rfl⟩⟩

/-- C12: for a well-formed matrix `m` in the heap and a scalar `s` (allocation
succeeding), `Matrix_ScalarMultiply` reports `MATRIX_OK` and returns a new matrix
with the dimensions of `m` whose element `(i, j)` is the descriptor's product
`m[i][j] * s`, and `m` denotes the same matrix after the call as before. -/
theorem Matrix_ScalarMultiply_correct {α : Type} [Zero α] (h : Heap α) (m : MatrixObj α)
    (t : FieldInfo α) (s : α) (hm : WellFormed (m.deref h)) (ht : m.type = some t) :
    ∃ h1 r, Matrix_ScalarMultiply_heap true h (some m) (some s) = (h1, some r, MATRIX_OK) ∧
      r.rows = m.rows ∧ r.cols = m.cols ∧
      (∀ i j o, i < m.rows → j < m.cols →
        Matrix_Get (some (r.deref h1)) i j (some o) =
          (MATRIX_OK, some (t.mul (matrix_element (m.deref h) i j) s))) ∧
      m.deref h1 = m.deref h :=
  Matrix_ScalarMultiply_heap_spec h m t s hm ht

/-- Witness for C12: `3 * [[1,2],[3,4]] = [[3,6],[9,12]]`, the source block
still holding `[1,2,3,4]`. -/
theorem Matrix_ScalarMultiply_correct_witness :
    (∃ h1 r, Matrix_ScalarMultiply_heap true [[1, 2, 3, 4]]
          (some (MatrixObj.mk (some 0) 2 2 (some GetIntFieldInfo))) (some 3)
          = (h1, some r, MATRIX_OK) ∧
        r.rows = 2 ∧ r.cols = 2 ∧
        (∀ i j o, i < 2 → j < 2 →
          Matrix_Get (some (r.deref h1)) i j (some o) =
            (MATRIX_OK, some (IntMultiplier
              (matrix_element ((MatrixObj.mk (some 0) 2 2 (some GetIntFieldInfo)).deref
                [[1, 2, 3, 4]]) i j) 3))) ∧
        (MatrixObj.mk (some 0) 2 2 (some GetIntFieldInfo)).deref h1 =
          (MatrixObj.mk (some 0) 2 2 (some GetIntFieldInfo)).deref [[1, 2, 3, 4]]) ∧
      (Matrix_ScalarMultiply_heap true [[1, 2, 3, 4]]
          (some (MatrixObj.mk (some 0) 2 2 (some GetIntFieldInfo))) (some 3)).1
        = [[1, 2, 3, 4], [3, 6, 9, 12]] :=
  ⟨Matrix_ScalarMultiply_correct [[1, 2, 3, 4]]
      (MatrixObj.mk (some 0) 2 2 (some GetIntFieldInfo)) GetIntFieldInfo 3 (by decide) rfl,
    by decide⟩

/-- C13: for a well-formed `m`, a row index `row_idx < rows` and a coefficient
array of length `rows` (allocation succeeding), `Matrix_AddLinearCombination`
reports `MATRIX_OK` and returns a matrix of the same dimensions that equals `m`
in every row other than `row_idx` and whose row `row_idx` holds, at column `j`,
`m[row_idx][j]` plus the sum over `k != row_idx` of `alphas[k] * m[k][j]`. -/
theorem Matrix_AddLinearCombination_correct {α : Type} [Zero α] (m : Matrix α)
    (t : FieldInfo α) (row_idx : Nat) (al : List α) (hm : WellFormed m) (ht : m.type = some t)
    (hrow : row_idx < m.rows) (hal : al.length = m.rows) :
    ∃ r, Matrix_AddLinearCombination true (some m) row_idx (some al) = (some r, MATRIX_OK) ∧
      r.rows = m.rows ∧ r.cols = m.cols ∧
      ∀ i j o, i < m.rows → j < m.cols →
        Matrix_Get (some r) i j (some o) =
          (MATRIX_OK, some (if i = row_idx then
              t.add (matrix_element m row_idx j) (weighted_sum t m al row_idx j)
            else matrix_element m i j)) :=
  have _ := hal
  Matrix_AddLinearCombination_spec m t row_idx al hm ht hrow

/-- Witness for C13: `[[1,2,3],[4,5,6],[7,8,9]]`, row 0, coefficients `{0,2,1}`
gives row 0 `= [16,20,24]` and leaves rows 1 and 2. -/
theorem Matrix_AddLinearCombination_correct_witness :
    (∃ r, Matrix_AddLinearCombination true
          (some (Matrix.ofList GetIntFieldInfo 3 3 [1, 2, 3, 4, 5, 6, 7, 8, 9])) 0
          (some [0, 2, 1]) = (some r, MATRIX_OK) ∧
        r.rows = 3 ∧ r.cols = 3 ∧
        ∀ i j o, i < 3 → j < 3 →
          Matrix_Get (some r) i j (some o) =
            (MATRIX_OK, some (if i = 0 then
                IntAdder
                  (matrix_element (Matrix.ofList GetIntFieldInfo 3 3 [1, 2, 3, 4, 5, 6, 7, 8, 9])
                    0 j)
                  (weighted_sum GetIntFieldInfo
                    (Matrix.ofList GetIntFieldInfo 3 3 [1, 2, 3, 4, 5, 6, 7, 8, 9]) [0, 2, 1] 0 j)
              else matrix_element (Matrix.ofList GetIntFieldInfo 3 3 [1, 2, 3, 4, 5, 6, 7, 8, 9])
                i j))) ∧
      (Matrix_AddLinearCombination true
          (some (Matrix.ofList GetIntFieldInfo 3 3 [1, 2, 3, 4, 5, 6, 7, 8, 9])) 0
          (some [0, 2, 1])).1.map Matrix.buf = some [16, 20, 24, 4, 5, 6, 7, 8, 9] :=
  ⟨Matrix_AddLinearCombination_correct
      (Matrix.ofList GetIntFieldInfo 3 3 [1, 2, 3, 4, 5, 6, 7, 8, 9]) GetIntFieldInfo 0 [0, 2, 1]
      (by decide) rfl (by decide) rfl, by decide⟩

/-- C14: with `m` and `alphas` present, `Matrix_AddLinearCombination` returns no
matrix and reports `MATRIX_ERROR_INVALID_INDEX` if and only if
`row_idx >= m.rows`. -/
theorem Matrix_AddLinearCombination_invalid_index {α : Type} [Zero α] (alloc : Bool)
    (m : Matrix α) (row_idx : Nat) (al : List α) :
    Matrix_AddLinearCombination alloc (some m) row_idx (some al)
        = (none, MATRIX_ERROR_INVALID_INDEX) ↔ row_idx ≥ m.rows :=
  Matrix_AddLinearCombination_index alloc m row_idx al

/-- C15: on a well-formed square matrix of either built-in kind, whatever it
held before, `Matrix_Identity` returns `MATRIX_OK` and leaves element `(i, j)`
equal to one when `i = j` and to zero otherwise. -/
theorem Matrix_Identity_correct :
    (∀ m : Matrix Int, WellFormed m → m.rows = m.cols → m.type = some GetIntFieldInfo →
        ∃ m2, Matrix_Identity (some m) = (MATRIX_OK, some m2) ∧
          ∀ i j o, i < m.rows → j < m.rows →
            Matrix_Get (some m2) i j (some o) = (MATRIX_OK, some (if i = j then 1 else 0))) ∧
      (∀ m : Matrix ℚ, WellFormed m → m.rows = m.cols → m.type = some GetFloatFieldInfo →
        ∃ m2, Matrix_Identity (some m) = (MATRIX_OK, some m2) ∧
          ∀ i j o, i < m.rows → j < m.rows →
            Matrix_Get (some m2) i j (some o) = (MATRIX_OK, some (if i = j then 1 else 0))) := by
  constructor
  · intro m hm hsq ht
    obtain ⟨m2, h1, _, _, h4⟩ := Matrix_Identity_spec m hm hsq
    refine ⟨m2, h1, ?_⟩
    intro i j o hi hj
    rw [h4 i j o hi hj, ht]
    rfl
  · intro m hm hsq ht
    obtain ⟨m2, h1, _, _, h4⟩ := Matrix_Identity_spec m hm hsq
    refine ⟨m2, h1, ?_⟩
    intro i j o hi hj
    rw [h4 i j o hi hj, ht]
    rfl

/-- Witness for C15: a 3x3 integer matrix holding `1..9` becomes
`[1,0,0,0,1,0,0,0,1]`. -/
theorem Matrix_Identity_correct_witness :
    (∃ m2, Matrix_Identity (some (Matrix.ofList GetIntFieldInfo 3 3 [1, 2, 3, 4, 5, 6, 7, 8, 9]))
          = (MATRIX_OK, some m2) ∧
        ∀ i j o, i < 3 → j < 3 →
          Matrix_Get (some m2) i j (some o) = (MATRIX_OK, some (if i = j then 1 else 0))) ∧
      (Matrix_Identity (some (Matrix.ofList GetIntFieldInfo 3 3 [1, 2, 3, 4, 5, 6, 7, 8, 9]))).2.map
          Matrix.buf = some [1, 0, 0, 0, 1, 0, 0, 0, 1] :=
  ⟨Matrix_Identity_correct.1 (Matrix.ofList GetIntFieldInfo 3 3 [1, 2, 3, 4, 5, 6, 7, 8, 9])
      (by decide) rfl rfl, by decide⟩

/-- C16: on a present matrix `Matrix_Identity` returns
`MATRIX_ERROR_DIMENSION_MISMATCH` if and only if `rows != cols`, and in that case
the matrix is left as it was. -/
theorem Matrix_Identity_dimension_mismatch {α : Type} [Zero α] [FloatOneBytes α]
    (m : Matrix α) :
    ((Matrix_Identity (some m)).1 = MATRIX_ERROR_DIMENSION_MISMATCH ↔ m.rows ≠ m.cols) ∧
      (m.rows ≠ m.cols → (Matrix_Identity (some m)).2 = some m) :=
  Matrix_Identity_mismatch m

/-- Witness for C16: a 2x3 integer matrix. -/
theorem Matrix_Identity_dimension_mismatch_witness :
    (Matrix_Identity (some (Matrix.ofList GetIntFieldInfo 2 3 [1, 2, 3, 4, 5, 6]))).1
        = MATRIX_ERROR_DIMENSION_MISMATCH ∧
      (Matrix_Identity (some (Matrix.ofList GetIntFieldInfo 2 3 [1, 2, 3, 4, 5, 6]))).2
        = some (Matrix.ofList GetIntFieldInfo 2 3 [1, 2, 3, 4, 5, 6]) :=
  ⟨(Matrix_Identity_dimension_mismatch
      (Matrix.ofList GetIntFieldInfo 2 3 [1, 2, 3, 4, 5, 6])).1.2 (by decide),
    (Matrix_Identity_dimension_mismatch
      (Matrix.ofList GetIntFieldInfo 2 3 [1, 2, 3, 4, 5, 6])).2 (by decide)⟩

/-- C17: for a well-formed matrix `m` in the heap (allocation succeeding),
`Matrix_Clone` reports `MATRIX_OK` and returns a matrix with the rows, cols and
descriptor of `m` and with every element equal to that of `m`; `m` is untouched
by the call; a later `Matrix_Set` on the clone leaves `m` as it was, and a later
`Matrix_Set` on `m` leaves the clone as it was. -/
theorem Matrix_Clone_independent {α : Type} [Zero α] (h : Heap α) (m : MatrixObj α)
    (hm : WellFormed (m.deref h)) :
    ∃ h1 c, Matrix_Clone_heap true h (some m) = (h1, some c, MATRIX_OK) ∧
      c.rows = m.rows ∧ c.cols = m.cols ∧ c.type = m.type ∧
      (∀ i j o, i < m.rows → j < m.cols →
        Matrix_Get (some (c.deref h1)) i j (some o) =
          (MATRIX_OK, some (matrix_element (m.deref h) i j))) ∧
      m.deref h1 = m.deref h ∧
      (∀ row col v, m.deref (Matrix_Set_heap h1 (some c) row col v).1 = m.deref h) ∧
      (∀ row col v, c.deref (Matrix_Set_heap h1 (some m) row col v).1 = c.deref h1) :=
  Matrix_Clone_heap_spec h m hm

/-- Witness for C17: cloning the 2x2 integer matrix `[[1,2],[3,4]]`; the heap
then holds two separate blocks, and setting 9 at (0,0) of the clone changes only
the second. -/
theorem Matrix_Clone_independent_witness :
    (∃ h1 c, Matrix_Clone_heap true [[1, 2, 3, 4]]
          (some (MatrixObj.mk (some 0) 2 2 (some GetIntFieldInfo))) = (h1, some c, MATRIX_OK) ∧
        c.rows = 2 ∧ c.cols = 2 ∧ c.type = some GetIntFieldInfo ∧
        (∀ i j o, i < 2 → j < 2 →
          Matrix_Get (some (c.deref h1)) i j (some o) =
            (MATRIX_OK, some (matrix_element
              ((MatrixObj.mk (some 0) 2 2 (some GetIntFieldInfo)).deref [[1, 2, 3, 4]]) i j))) ∧
        (MatrixObj.mk (some 0) 2 2 (some GetIntFieldInfo)).deref h1 =
          (MatrixObj.mk (some 0) 2 2 (some GetIntFieldInfo)).deref [[1, 2, 3, 4]] ∧
        (∀ row col v,
          (MatrixObj.mk (some 0) 2 2 (some GetIntFieldInfo)).deref
              (Matrix_Set_heap h1 (some c) row col v).1 =
            (MatrixObj.mk (some 0) 2 2 (some GetIntFieldInfo)).deref [[1, 2, 3, 4]]) ∧
        (∀ row col v,
          c.deref (Matrix_Set_heap h1
              (some (MatrixObj.mk (some 0) 2 2 (some GetIntFieldInfo))) row col v).1 =
            c.deref h1)) ∧
      (Matrix_Set_heap
          (Matrix_Clone_heap true [[1, 2, 3, 4]]
            (some (MatrixObj.mk (some 0) 2 2 (some GetIntFieldInfo)))).1
          (some (MatrixObj.mk (some 1) 2 2 (some GetIntFieldInfo))) 0 0 (some 9)).1
        = [[1, 2, 3, 4], [9, 2, 3, 4]] :=
  ⟨Matrix_Clone_independent [[1, 2, 3, 4]] (MatrixObj.mk (some 0) 2 2 (some GetIntFieldInfo))
      (by decide), by decide⟩

/-- C18: on a well-formed matrix and a present value `v`, `Matrix_Fill` returns
`MATRIX_OK`, leaves rows and cols as they were, and afterwards `Matrix_Get` at
every in-range `(r, c)` returns `MATRIX_OK` and exactly `v`. -/
theorem Matrix_Fill_correct {α : Type} [Zero α] (m : Matrix α) (v : α) (hm : WellFormed m) :
    ∃ m2, Matrix_Fill (some m) (some v) = (MATRIX_OK, some m2) ∧
      m2.rows = m.rows ∧ m2.cols = m.cols ∧
      ∀ r c o, r < m.rows → c < m.cols →
        Matrix_Get (some m2) r c (some o) = (MATRIX_OK, some v) :=
  Matrix_Fill_spec m v hm

/-- Witness for C18: filling a 2x2 integer matrix with 7. -/
theorem Matrix_Fill_correct_witness :
    (∃ m2, Matrix_Fill (some (Matrix.ofList GetIntFieldInfo 2 2 [1, 2, 3, 4])) (some 7)
          = (MATRIX_OK, some m2) ∧
        m2.rows = 2 ∧ m2.cols = 2 ∧
        ∀ r c o, r < 2 → c < 2 →
          Matrix_Get (some m2) r c (some o) = (MATRIX_OK, some (7 : Int))) ∧
      (Matrix_Fill (some (Matrix.ofList GetIntFieldInfo 2 2 [1, 2, 3, 4])) (some 7)).2.map
          Matrix.buf = some [7, 7, 7, 7] :=
  ⟨Matrix_Fill_correct (Matrix.ofList GetIntFieldInfo 2 2 [1, 2, 3, 4]) 7 (by decide),
    by decide⟩

/-- C19: with both operands present, `Matrix_Add` returns no matrix and reports
`MATRIX_ERROR_TYPE_MISMATCH` when the descriptors are not equal under
`FieldInfo_Equals` (whatever the dimensions), and returns no matrix and reports
`MATRIX_ERROR_DIMENSION_MISMATCH` when the descriptors are equal but rows or
cols differ; in both cases the heap, hence each operand, is as it was. -/
theorem Matrix_Add_error_reporting {α : Type} [Zero α] (alloc : Bool) (h : Heap α)
    (a b : MatrixObj α) :
    (FieldInfo_Equals a.type b.type = false →
        Matrix_Add_heap alloc h (some a) (some b) = (h, none, MATRIX_ERROR_TYPE_MISMATCH) ∧
        Matrix_Add alloc (some (a.deref h)) (some (b.deref h))
          = (none, MATRIX_ERROR_TYPE_MISMATCH)) ∧
      (FieldInfo_Equals a.type b.type = true → (a.rows ≠ b.rows ∨ a.cols ≠ b.cols) →
        Matrix_Add_heap alloc h (some a) (some b)
          = (h, none, MATRIX_ERROR_DIMENSION_MISMATCH) ∧
        Matrix_Add alloc (some (a.deref h)) (some (b.deref h))
          = (none, MATRIX_ERROR_DIMENSION_MISMATCH)) :=
  Matrix_Add_heap_errors alloc h a b

/-- Witness for C19: a 2x2 matrix against a 1x2 matrix, once with a float-named
descriptor on the second operand and once with the integer descriptor on both. -/
theorem Matrix_Add_error_reporting_witness :
    (Matrix_Add_heap true [[1, 2, 3, 4], [5, 6]]
          (some (MatrixObj.mk (some 0) 2 2 (some GetIntFieldInfo)))
          (some (MatrixObj.mk (some 1) 1 2
            (some (FieldInfo.mk (FieldPtr.other 7) 4 "float" IntAdder IntSubtractor IntMultiplier
              IntDivider))))
        = ([[1, 2, 3, 4], [5, 6]], none, MATRIX_ERROR_TYPE_MISMATCH)) ∧
      (Matrix_Add_heap true [[1, 2, 3, 4], [5, 6]]
          (some (MatrixObj.mk (some 0) 2 2 (some GetIntFieldInfo)))
          (some (MatrixObj.mk (some 1) 1 2 (some GetIntFieldInfo)))
        = ([[1, 2, 3, 4], [5, 6]], none, MATRIX_ERROR_DIMENSION_MISMATCH)) :=
  ⟨((Matrix_Add_error_reporting true [[1, 2, 3, 4], [5, 6]]
      (MatrixObj.mk (some 0) 2 2 (some GetIntFieldInfo))
      (MatrixObj.mk (some 1) 1 2
        (some (FieldInfo.mk (FieldPtr.other 7) 4 "float" IntAdder IntSubtractor IntMultiplier
          IntDivider)))).1 (by decide)).1,
    ((Matrix_Add_error_reporting true [[1, 2, 3, 4], [5, 6]]
      (MatrixObj.mk (some 0) 2 2 (some GetIntFieldInfo))
      (MatrixObj.mk (some 1) 1 2 (some GetIntFieldInfo))).2 (by decide) (by decide)).1⟩

/-- C20: with both operands present and of equal type, `Matrix_Multiply` returns
no matrix and reports `MATRIX_ERROR_DIMENSION_MISMATCH` if and only if
`a.cols != b.rows`; operands of unequal type are rejected with
`MATRIX_ERROR_TYPE_MISMATCH` whatever their shapes. -/
theorem Matrix_Multiply_error_reporting {α : Type} [Zero α] (alloc : Bool) (a b : Matrix α) :
    (types_compatible a b = true →
        (Matrix_Multiply alloc (some a) (some b) = (none, MATRIX_ERROR_DIMENSION_MISMATCH)
          ↔ a.cols ≠ b.rows)) ∧
      (types_compatible a b = false →
        Matrix_Multiply alloc (some a) (some b) = (none, MATRIX_ERROR_TYPE_MISMATCH)) :=
  Matrix_Multiply_errors alloc a b

/-- Witness for C20: a 2x2 matrix times a 1x2 matrix. -/
theorem Matrix_Multiply_error_reporting_witness :
    (Matrix_Multiply true (some (Matrix.ofList GetIntFieldInfo 2 2 [1, 2, 3, 4]))
          (some (Matrix.ofList GetIntFieldInfo 1 2 [5, 6]))
        = (none, MATRIX_ERROR_DIMENSION_MISMATCH)) ∧
      (Matrix_Multiply true (some (Matrix.ofList GetIntFieldInfo 2 2 [1, 2, 3, 4]))
          (some (Matrix.ofList (FieldInfo.mk (FieldPtr.other 7) 4 "float" IntAdder IntSubtractor
            IntMultiplier IntDivider) 2 2 [5, 6, 7, 8]))
        = (none, MATRIX_ERROR_TYPE_MISMATCH)) :=
  ⟨((Matrix_Multiply_error_reporting true (Matrix.ofList GetIntFieldInfo 2 2 [1, 2, 3, 4])
      (Matrix.ofList GetIntFieldInfo 1 2 [5, 6])).1 (by decide)).2 (by decide),
    (Matrix_Multiply_error_reporting true (Matrix.ofList GetIntFieldInfo 2 2 [1, 2, 3, 4])
      (Matrix.ofList (FieldInfo.mk (FieldPtr.other 7) 4 "float" IntAdder IntSubtractor
        IntMultiplier IntDivider) 2 2 [5, 6, 7, 8])).2 (by decide)⟩

/-! ## Descriptors and dividers -/

theorem FieldInfo_Equals_present {α β : Type} (a : FieldInfo α) (b : FieldInfo β) :
    FieldInfo_Equals (some a) (some b) = true ↔ a.size = b.size ∧ a.name = b.name := by
  simp [FieldInfo_Equals]

theorem FieldInfo_Equals_builtin :
    FieldInfo_Equals (some GetIntFieldInfo) (some GetIntFieldInfo) = true ∧
    FieldInfo_Equals (some GetFloatFieldInfo) (some GetFloatFieldInfo) = true ∧
    (∀ addr, FieldInfo_Equals (some GetIntFieldInfo) (some (IntFieldInfo_at addr)) = true) ∧
    (∀ addr, FieldInfo_Equals (some GetFloatFieldInfo) (some (FloatFieldInfo_at addr)) = true) ∧
    FieldInfo_Equals (some GetIntFieldInfo) (some GetFloatFieldInfo) = false ∧
    FieldInfo_Equals (some GetFloatFieldInfo) (some GetIntFieldInfo) = false ∧
    (∀ addr addr2, FieldInfo_Equals (some (IntFieldInfo_at addr)) (some (FloatFieldInfo_at addr2)) = false) := by
  refine ⟨by decide, by decide, fun _ => rfl, fun _ => rfl, by decide, by decide,
    fun _ _ => rfl⟩

theorem IntDivider_zero (result x : Int) : IntDivider result x 0 = result := by
  simp [IntDivider]

theorem FloatDivider_zero (result x : ℚ) : FloatDivider result x 0 = result := by
  simp [FloatDivider]

theorem FloatDivider_binary32_zero (result x : ℚ) :
    FloatDivider_binary32 result x 0 = result := by
  simp [FloatDivider_binary32]

/-! ## Loops that only overwrite cells keep the buffer length -/

theorem forLoop_length {α : Type} (body : Nat → List α → List α)
    (hb : ∀ i l, (body i l).length = l.length) (lo hi : Nat) (l : List α) :
    (forLoop lo hi body l).length = l.length := by
  by_cases hle : lo ≤ hi
  · exact forLoop_induction (fun _ s => s.length = l.length) body lo hi l hle rfl
      (fun j t _ _ ht => (hb j t).trans ht)
  · rw [forLoop_empty body lo hi l (by omega)]

theorem downLoop_length {α : Type} (body : Nat → List α → List α)
    (hb : ∀ i l, (body i l).length = l.length) (n : Nat) (l : List α) :
    (downLoop body n l).length = l.length :=
  downLoop_induction (fun _ s => s.length = l.length) body n l rfl
    (fun i t _ ht => (hb i t).trans ht)

theorem copy_cells_length {α : Type} [Zero α] (total : Nat) (src dst : List α) :
    (copy_cells total src dst).length = dst.length :=
  forLoop_length _ (fun _ _ => length_poke _ _ _) 0 total dst

theorem zero_cells_length {α : Type} [Zero α] (total : Nat) (buf : List α) :
    (zero_cells total buf).length = buf.length :=
  forLoop_length _ (fun _ _ => length_poke _ _ _) 0 total buf

theorem fill_cells_length {α : Type} (total : Nat) (v : α) (buf : List α) :
    (fill_cells total v buf).length = buf.length :=
  forLoop_length _ (fun _ _ => length_poke _ _ _) 0 total buf

theorem scalar_multiply_cells_length {α : Type} [Zero α] (t : FieldInfo α) (total : Nat)
    (s : α) (buf : List α) : (scalar_multiply_cells t total s buf).length = buf.length :=
  forLoop_length _ (fun _ _ => length_poke _ _ _) 0 total buf

theorem linear_combination_cells_length {α : Type} [Zero α] (t : FieldInfo α) (m : Matrix α)
    (al : List α) (row_idx rc : Nat) (r : List α) :
    (linear_combination_cells t m al row_idx rc r).length = r.length :=
  forLoop_length _ (fun _ _ => length_store _ _ _ _ _) 0 m.cols r

theorem identity_cells_length {α : Type} [Zero α] [FloatOneBytes α]
    (type : Option (FieldInfo α)) (rows cols : Nat) (buf : List α) :
    (identity_cells type rows cols buf).length = buf.length := by
  unfold identity_cells
  rw [forLoop_length _ (fun _ _ => length_store _ _ _ _ _), zero_cells_length]

theorem multiply_loops_length {α : Type} [Zero α] (t : FieldInfo α) (a b : Matrix α)
    (rc : Nat) (r : List α) : (multiply_loops t a b rc r).length = r.length := by
  unfold multiply_loops
  apply forLoop_length
  intro i l
  apply forLoop_length
  intro j l2
  show (forLoop 0 a.cols _ (poke l2 (i * rc + j) 0)).length = l2.length
  rw [forLoop_length _ (fun _ _ => length_poke _ _ _), length_poke]

theorem gauss_back_row_length {α : Type} [Zero α] (t : FieldInfo α) (n w xc i : Nat)
    (aug xbuf : List α) : (gauss_back_row t n w xc i aug xbuf).length = xbuf.length :=
  forLoop_length _ (fun _ _ => length_store _ _ _ _ _) (i + 1) n xbuf

theorem gauss_back_substitute_length {α : Type} [Zero α] (t : FieldInfo α) (n w xc : Nat)
    (aug xbuf : List α) : (gauss_back_substitute t n w xc aug xbuf).length = xbuf.length := by
  unfold gauss_back_substitute
  apply downLoop_length
  intro i l
  show (store xc (gauss_back_row t n w xc i aug (store xc l i 0 (load w aug i n))) i 0 _).length
    = l.length
  rw [length_store, gauss_back_row_length, length_store]

/-! ## Every returned matrix meets the data-model invariant -/

theorem Matrix_Create_wellFormed {α : Type} [Zero α] (alloc : Bool) (rows cols : Nat)
    (type : Option (FieldInfo α)) (r : Matrix α)
    (h : Matrix_Create alloc rows cols type = some r) :
    WellFormed r ∧ r.rows = rows ∧ r.cols = cols ∧ r.type = type := by
  cases type with
  | none => simp [Matrix_Create] at h
  | some t =>
    by_cases hz : rows = 0 ∨ cols = 0
    · simp [Matrix_Create, hz] at h
    · cases alloc with
      | false => simp [Matrix_Create, hz] at h
      | true =>
        simp only [Matrix_Create, hz, if_false, Bool.true_eq_false, Option.some.injEq] at h
        subst h
        refine ⟨⟨?_, ?_, rfl, by simp⟩, rfl, rfl, rfl⟩
        · show 0 < rows
          omega
        · show 0 < cols
          omega

/-- Replacing the buffer of a well-formed matrix by one of the same length keeps
it well formed. -/
theorem wellFormed_with_data {α : Type} (r : Matrix α) (d : List α) (hr : WellFormed r)
    (hd : d.length = r.buf.length) :
    WellFormed (Matrix.mk (some d) r.rows r.cols r.type) := by
  refine ⟨hr.1, hr.2.1, hr.2.2.1, ?_⟩
  simp [hd, wellFormed_buf hr]

/-! ## Allocating operations: what is returned -/

/-- An allocating operation either returns a well-formed matrix with `MATRIX_OK`,
or no matrix with a failure status. -/
theorem result_cases {α : Type} (p : Option (Matrix α) × MatrixError)
    (h : (∃ r, p = (some r, MATRIX_OK) ∧ WellFormed r) ∨
      (∃ e, e ≠ MATRIX_OK ∧ p = (none, e))) :
    (p.1 = none ↔ p.2 ≠ MATRIX_OK) ∧ ∀ r, p.1 = some r → WellFormed r := by
  rcases h with ⟨r, hp, hw⟩ | ⟨e, he, hp⟩
  · rw [hp]
    refine ⟨by simp, ?_⟩
    intro r2 h2
    have e2 : r = r2 := by simpa using h2
    rw [← e2]
    exact hw
  · rw [hp]
    exact ⟨by simp [he], by simp⟩

theorem Matrix_Add_result {α : Type} [Zero α] (alloc : Bool) (a b : Option (Matrix α)) :
    (∃ r, Matrix_Add alloc a b = (some r, MATRIX_OK) ∧ WellFormed r) ∨
      (∃ e, e ≠ MATRIX_OK ∧ Matrix_Add alloc a b = (none, e)) := by
  cases a with
  | none => right; exact ⟨MATRIX_ERROR_NULL_POINTER, by decide, by simp [Matrix_Add]⟩
  | some a =>
    cases b with
    | none => right; exact ⟨MATRIX_ERROR_NULL_POINTER, by decide, by simp [Matrix_Add]⟩
    | some b =>
      by_cases c0 : types_compatible a b = false
      · right; exact ⟨MATRIX_ERROR_TYPE_MISMATCH, by decide, by simp [Matrix_Add, c0]⟩
      · have c0t : types_compatible a b = true := by simpa using c0
        by_cases c1 : a.rows ≠ b.rows ∨ a.cols ≠ b.cols
        · right
          refine ⟨MATRIX_ERROR_DIMENSION_MISMATCH, by decide, ?_⟩
          simp only [Matrix_Add, c0t, Bool.true_eq_false, if_false]
          rw [if_pos c1]
        · cases ht : a.type with
          | none =>
            right
            refine ⟨MATRIX_ERROR_MEMORY, by decide, ?_⟩
            simp only [Matrix_Add, c0t, Bool.true_eq_false, if_false, ht]
            rw [if_neg c1]
          | some t =>
            cases hc : Matrix_Create alloc a.rows a.cols (some t) with
            | none =>
              right
              refine ⟨MATRIX_ERROR_MEMORY, by decide, ?_⟩
              simp only [Matrix_Add, c0t, Bool.true_eq_false, if_false, ht, hc]
              rw [if_neg c1]
            | some r =>
              left
              obtain ⟨hw, _, _, _⟩ := Matrix_Create_wellFormed alloc _ _ _ r hc
              refine ⟨Matrix.mk (some (forLoop 0 (a.rows * a.cols)
                (fun i r => poke r i (t.add (peek a.buf i) (peek b.buf i))) r.buf))
                r.rows r.cols r.type, ?_, ?_⟩
              · simp only [Matrix_Add, c0t, Bool.true_eq_false, if_false, ht, hc]
                rw [if_neg c1]
              · exact wellFormed_with_data r _ hw
                  (forLoop_length _ (fun _ _ => length_poke _ _ _) _ _ _)

theorem Matrix_Multiply_result {α : Type} [Zero α] (alloc : Bool) (a b : Option (Matrix α)) :
    (∃ r, Matrix_Multiply alloc a b = (some r, MATRIX_OK) ∧ WellFormed r) ∨
      (∃ e, e ≠ MATRIX_OK ∧ Matrix_Multiply alloc a b = (none, e)) := by
  cases a with
  | none => right; exact ⟨MATRIX_ERROR_NULL_POINTER, by decide, by simp [Matrix_Multiply]⟩
  | some a =>
    cases b with
    | none => right; exact ⟨MATRIX_ERROR_NULL_POINTER, by decide, by simp [Matrix_Multiply]⟩
    | some b =>
      by_cases c0 : types_compatible a b = false
      · right; exact ⟨MATRIX_ERROR_TYPE_MISMATCH, by decide, by simp [Matrix_Multiply, c0]⟩
      · have c0t : types_compatible a b = true := by simpa using c0
        by_cases c1 : a.cols ≠ b.rows
        · right
          refine ⟨MATRIX_ERROR_DIMENSION_MISMATCH, by decide, ?_⟩
          simp only [Matrix_Multiply, c0t, Bool.true_eq_false, if_false]
          rw [if_pos c1]
        · cases ht : a.type with
          | none =>
            right
            refine ⟨MATRIX_ERROR_MEMORY, by decide, ?_⟩
            simp only [Matrix_Multiply, c0t, Bool.true_eq_false, if_false, ht]
            rw [if_neg c1]
          | some t =>
            cases hc : Matrix_Create alloc a.rows b.cols (some t) with
            | none =>
              right
              refine ⟨MATRIX_ERROR_MEMORY, by decide, ?_⟩
              simp only [Matrix_Multiply, c0t, Bool.true_eq_false, if_false, ht, hc]
              rw [if_neg c1]
            | some r =>
              left
              obtain ⟨hw, _, _, _⟩ := Matrix_Create_wellFormed alloc _ _ _ r hc
              refine ⟨Matrix.mk (some (multiply_loops t a b r.cols r.buf))
                r.rows r.cols r.type, ?_, ?_⟩
              · simp only [Matrix_Multiply, c0t, Bool.true_eq_false, if_false, ht, hc]
                rw [if_neg c1]
              · exact wellFormed_with_data r _ hw (multiply_loops_length _ _ _ _ _)

theorem Matrix_Clone_result {α : Type} [Zero α] (alloc : Bool) (m : Option (Matrix α)) :
    (∃ r, Matrix_Clone alloc m = (some r, MATRIX_OK) ∧ WellFormed r ∧
        ∀ m0, m = some m0 → r.rows = m0.rows ∧ r.cols = m0.cols ∧ r.type = m0.type) ∨
      (∃ e, e ≠ MATRIX_OK ∧ Matrix_Clone alloc m = (none, e)) := by
  cases m with
  | none => right; exact ⟨MATRIX_ERROR_NULL_POINTER, by decide, by simp [Matrix_Clone]⟩
  | some m =>
    cases hc : Matrix_Create alloc m.rows m.cols m.type with
    | none => right; exact ⟨MATRIX_ERROR_MEMORY, by decide, by simp [Matrix_Clone, hc]⟩
    | some r =>
      left
      obtain ⟨hw, h1, h2, h3⟩ := Matrix_Create_wellFormed alloc _ _ _ r hc
      refine ⟨Matrix.mk (some (copy_cells (m.rows * m.cols) m.buf r.buf))
        r.rows r.cols r.type, ?_, ?_, ?_⟩
      · simp only [Matrix_Clone, hc]
      · exact wellFormed_with_data r _ hw (copy_cells_length _ _ _)
      · intro m0 hm0
        have e : m = m0 := by simpa using hm0
        subst e
        exact ⟨h1, h2, h3⟩

theorem Matrix_ScalarMultiply_result {α : Type} [Zero α] (alloc : Bool)
    (m : Option (Matrix α)) (scalar : Option α) :
    (∃ r, Matrix_ScalarMultiply alloc m scalar = (some r, MATRIX_OK) ∧ WellFormed r) ∨
      (∃ e, e ≠ MATRIX_OK ∧ Matrix_ScalarMultiply alloc m scalar = (none, e)) := by
  cases m with
  | none =>
    right; exact ⟨MATRIX_ERROR_NULL_POINTER, by decide, by simp [Matrix_ScalarMultiply]⟩
  | some m =>
    cases scalar with
    | none =>
      right; exact ⟨MATRIX_ERROR_NULL_POINTER, by decide, by simp [Matrix_ScalarMultiply]⟩
    | some s =>
      rcases Matrix_Clone_result alloc (some m) with ⟨r, hr, hw, _⟩ | ⟨e, he, hr⟩
      · left
        obtain ⟨t, ht⟩ := wellFormed_type hw
        refine ⟨Matrix.mk (some (scalar_multiply_cells t (m.rows * m.cols) s r.buf))
          r.rows r.cols r.type, ?_, ?_⟩
        · simp only [Matrix_ScalarMultiply, hr, ht]
        · exact wellFormed_with_data r _ hw (scalar_multiply_cells_length _ _ _ _)
      · right
        exact ⟨e, he, by simp only [Matrix_ScalarMultiply, hr]⟩

theorem Matrix_AddLinearCombination_result {α : Type} [Zero α] (alloc : Bool)
    (m : Option (Matrix α)) (row_idx : Nat) (alphas : Option (List α)) :
    (∃ r, Matrix_AddLinearCombination alloc m row_idx alphas = (some r, MATRIX_OK) ∧
        WellFormed r) ∨
      (∃ e, e ≠ MATRIX_OK ∧ Matrix_AddLinearCombination alloc m row_idx alphas = (none, e)) := by
  cases m with
  | none =>
    right
    exact ⟨MATRIX_ERROR_NULL_POINTER, by decide, by simp [Matrix_AddLinearCombination]⟩
  | some m =>
    cases alphas with
    | none =>
      right
      exact ⟨MATRIX_ERROR_NULL_POINTER, by decide, by simp [Matrix_AddLinearCombination]⟩
    | some al =>
      by_cases c0 : row_idx ≥ m.rows
      · right
        refine ⟨MATRIX_ERROR_INVALID_INDEX, by decide, ?_⟩
        simp only [Matrix_AddLinearCombination]
        rw [if_pos c0]
      · rcases Matrix_Clone_result alloc (some m) with ⟨r, hr, hw, hsame⟩ | ⟨e, he, hr⟩
        · left
          obtain ⟨t, ht⟩ := wellFormed_type hw
          have ht2 : m.type = some t := by rw [← (hsame m rfl).2.2]; exact ht
          refine ⟨Matrix.mk (some (linear_combination_cells t m al row_idx r.cols r.buf))
            r.rows r.cols r.type, ?_, ?_⟩
          · simp only [Matrix_AddLinearCombination]
            rw [if_neg c0]
            simp only [hr, ht2]
          · exact wellFormed_with_data r _ hw (linear_combination_cells_length _ _ _ _ _ _)
        · right
          refine ⟨e, he, ?_⟩
          simp only [Matrix_AddLinearCombination]
          rw [if_neg c0]
          simp only [hr]

/-! ## Matrix_GaussSolve on the heap -/

/-- The three ways `Matrix_GaussSolve` on the heap can end: a failure before
any write, a singular pivot with only the working block written, or success
with the working block and the block of `x` written. -/
theorem Matrix_GaussSolve_heap_shape {α : Type} [Zero α] (alloc : Bool) (h : Heap α)
    (a b x : Option (MatrixObj α)) :
    ((Matrix_GaussSolve_heap alloc h a b x).2 ≠ MATRIX_OK ∧
        (Matrix_GaussSolve_heap alloc h a b x).1 = h) ∨
    (∃ aug0 f, (Matrix_GaussSolve_heap alloc h a b x).2 = MATRIX_ERROR_SINGULAR_MATRIX ∧
        (Matrix_GaussSolve_heap alloc h a b x).1 = heap_update (h ++ [aug0]) (some h.length) f) ∨
    (∃ xm t n w aug0 f aug, x = some xm ∧
        (Matrix_GaussSolve_heap alloc h a b x).2 = MATRIX_OK ∧
        (Matrix_GaussSolve_heap alloc h a b x).1 =
          heap_update (heap_update (heap_update (h ++ [aug0]) (some h.length) f)
            (some h.length) (fun _ => aug)) xm.data
            (gauss_back_substitute t n w xm.cols aug)) := by
  cases a with
  | none => left; simp [Matrix_GaussSolve_heap]
  | some a =>
  cases b with
  | none => left; simp [Matrix_GaussSolve_heap]
  | some b =>
  cases x with
  | none => left; simp [Matrix_GaussSolve_heap]
  | some x =>
  cases hta : a.type with
  | none => left; simp [Matrix_GaussSolve_heap, hta]
  | some t =>
  cases htb : b.type with
  | none => left; simp [Matrix_GaussSolve_heap, hta, htb]
  | some tb =>
  cases htx : x.type with
  | none => left; simp [Matrix_GaussSolve_heap, hta, htb, htx]
  | some tx =>
  simp only [Matrix_GaussSolve_heap, hta, htb, htx]
  by_cases c0 : FieldInfo_Equals (some t) (some tb) = false ∨
      FieldInfo_Equals (some t) (some tx) = false
  · left; rw [if_pos c0]; simp
  · rw [if_neg c0]
    by_cases c1 : a.rows ≠ a.cols
    · left; rw [if_pos c1]; simp
    · rw [if_neg c1]
      by_cases c2 : b.cols ≠ 1
      · left; rw [if_pos c2]; simp
      · rw [if_neg c2]
        by_cases c3 : a.rows ≠ b.rows
        · left; rw [if_pos c3]; simp
        · rw [if_neg c3]
          by_cases c4 : x.rows ≠ a.rows ∨ x.cols ≠ 1
          · left; rw [if_pos c4]; simp
          · rw [if_neg c4]
            by_cases c5 : a.rows = 0
            · left; simp [Matrix_Create_heap, c5]
            · cases alloc with
              | false => left; simp [Matrix_Create_heap, c5]
              | true =>
                right
                simp only [Matrix_Create_heap, c5, false_or, Nat.add_one_ne_zero, if_false,
                  Bool.true_eq_false]
                cases hf : gauss_forward t a.rows (a.rows + 1)
                    (MatrixObj.deref
                      (heap_update (h ++ [List.replicate (a.rows * (a.rows + 1)) 0])
                        (some h.length)
                        (gauss_copy
                          (a.deref (h ++ [List.replicate (a.rows * (a.rows + 1)) 0]))
                          (b.deref (h ++ [List.replicate (a.rows * (a.rows + 1)) 0]))
                          a.rows (a.rows + 1)))
                      (MatrixObj.mk (some h.length) a.rows (a.rows + 1) (some t))).buf with
                | none =>
                  left
                  exact ⟨_, _, rfl, rfl⟩
                | some aug =>
                  right
                  exact ⟨x, t, a.rows, a.rows + 1, _, _, aug, rfl, rfl, rfl⟩

theorem heap_update_length {α : Type} (h : Heap α) (p : Option Nat) (f : List α → List α) :
    (heap_update h p f).length = h.length := by
  cases p with
  | none => rfl
  | some q =>
    cases hb : h[q]? with
    | none => simp [heap_update, hb]
    | some buf => simp [heap_update, hb]

/-- Writing a block through a function that keeps its length keeps the length of
every block. -/
theorem heap_update_block_length {α : Type} (h : Heap α) (p : Option Nat)
    (f : List α → List α) (hf : ∀ l, (f l).length = l.length) (q : Nat) :
    (heap_update h p f)[q]?.map List.length = h[q]?.map List.length := by
  by_cases e : p = some q
  · cases hb : h[q]? with
    | none => simp [e, heap_update, hb]
    | some buf => rw [e, heap_update_self h q f buf hb]; simp [hf]
  · rw [heap_update_other h p f q e]

/-- `Matrix_GaussSolve` on the heap leaves every block that was live before the
call as it was, the block of `x` apart; on a failure it leaves that one too. -/
theorem Matrix_GaussSolve_heap_frame {α : Type} [Zero α] (alloc : Bool) (h : Heap α)
    (a b x : Option (MatrixObj α)) (p : Nat) (hp : p < h.length) :
    ((Matrix_GaussSolve_heap alloc h a b x).2 ≠ MATRIX_OK →
        (Matrix_GaussSolve_heap alloc h a b x).1[p]? = h[p]?) ∧
      ((∀ xm, x = some xm → xm.data ≠ some p) →
        (Matrix_GaussSolve_heap alloc h a b x).1[p]? = h[p]?) ∧
      (Matrix_GaussSolve_heap alloc h a b x).1[p]?.map List.length = h[p]?.map List.length := by
  have hne : (some h.length : Option Nat) ≠ some p := by
    intro e
    have := Option.some.inj e
    omega
  rcases Matrix_GaussSolve_heap_shape alloc h a b x with
    ⟨h1, h2⟩ | ⟨aug0, f, h1, h2⟩ | ⟨xm, t, n, w, aug0, f, aug, hx, h1, h2⟩
  · rw [h2]
    exact ⟨fun _ => rfl, fun _ => rfl, rfl⟩
  · have e : (Matrix_GaussSolve_heap alloc h a b x).1[p]? = h[p]? := by
      rw [h2, heap_update_other _ _ _ p hne]
      exact heap_append_old h aug0 p hp
    exact ⟨fun _ => e, fun _ => e, by rw [e]⟩
  · have e3 : (heap_update (heap_update (h ++ [aug0]) (some h.length) f) (some h.length)
        (fun _ => aug))[p]? = h[p]? := by
      rw [heap_update_other _ _ _ p hne, heap_update_other _ _ _ p hne]
      exact heap_append_old h aug0 p hp
    refine ⟨fun hno => absurd h1 hno, ?_, ?_⟩
    · intro hsep
      rw [h2, heap_update_other _ _ _ p (hsep xm hx)]
      exact e3
    · rw [h2, heap_update_block_length _ _ _
        (fun l => gauss_back_substitute_length t n w xm.cols aug l), e3]

/-- A live struct denotes the same matrix in two heaps that agree on every block
of the first. -/
theorem deref_live {α : Type} (h h2 : Heap α) (m : MatrixObj α) (hm : m.live h)
    (hsame : ∀ p, p < h.length → m.data = some p → h2[p]? = h[p]?) :
    m.deref h2 = m.deref h :=
  deref_congr h h2 m (fun p hp => hsame p (hm p hp) hp)

theorem deref_append_live {α : Type} (h : Heap α) (m : MatrixObj α) (buf : List α)
    (hm : m.live h) : m.deref (h ++ [buf]) = m.deref h :=
  deref_live h _ m hm (fun p hp _ => heap_append_old h buf p hp)

/-- `Matrix_GaussSolve` on the heap reports the status `Matrix_GaussSolve` computes
on the matrices the three structs denote, and leaves in the block of `x` the
matrix it returns. -/
theorem Matrix_GaussSolve_heap_agrees {α : Type} [Zero α] (alloc : Bool) (h : Heap α)
    (a b x : MatrixObj α) (ha : a.live h) (hb : b.live h) (hx : x.live h) :
    Matrix_GaussSolve alloc (some (a.deref h)) (some (b.deref h)) (some (x.deref h)) =
      ((Matrix_GaussSolve_heap alloc h (some a) (some b) (some x)).2,
        some (x.deref (Matrix_GaussSolve_heap alloc h (some a) (some b) (some x)).1)) := by
  cases hta : a.type with
  | none => simp [Matrix_GaussSolve, Matrix_GaussSolve_heap, MatrixObj.deref, hta]
  | some t =>
  cases htb : b.type with
  | none => simp [Matrix_GaussSolve, Matrix_GaussSolve_heap, MatrixObj.deref, hta, htb]
  | some tb =>
  cases htx : x.type with
  | none => simp [Matrix_GaussSolve, Matrix_GaussSolve_heap, MatrixObj.deref, hta, htb, htx]
  | some tx =>
  have hta2 : (a.deref h).type = some t := hta
  have htb2 : (b.deref h).type = some tb := htb
  have htx2 : (x.deref h).type = some tx := htx
  simp only [Matrix_GaussSolve, Matrix_GaussSolve_heap, hta, htb, htx, hta2, htb2, htx2,
    types_compatible]
  have r1 : (a.deref h).rows = a.rows := rfl
  have r2 : (a.deref h).cols = a.cols := rfl
  have r3 : (b.deref h).rows = b.rows := rfl
  have r4 : (b.deref h).cols = b.cols := rfl
  have r5 : (x.deref h).rows = x.rows := rfl
  have r6 : (x.deref h).cols = x.cols := rfl
  rw [r1, r2, r3, r4, r5, r6]
  by_cases c0 : FieldInfo_Equals (some t) (some tb) = false ∨
      FieldInfo_Equals (some t) (some tx) = false
  · rw [if_pos c0, if_pos c0]
  · rw [if_neg c0, if_neg c0]
    by_cases c1 : a.rows ≠ a.cols
    · rw [if_pos c1, if_pos c1]
    · rw [if_neg c1, if_neg c1]
      by_cases c2 : b.cols ≠ 1
      · rw [if_pos c2, if_pos c2]
      · rw [if_neg c2, if_neg c2]
        by_cases c3 : a.rows ≠ b.rows
        · rw [if_pos c3, if_pos c3]
        · rw [if_neg c3, if_neg c3]
          by_cases c4 : x.rows ≠ a.rows ∨ x.cols ≠ 1
          · rw [if_pos c4, if_pos c4]
          · rw [if_neg c4, if_neg c4]
            by_cases c5 : a.rows = 0
            · simp [Matrix_Create_heap, Matrix_Create, c5]
            · cases alloc with
              | false => simp [Matrix_Create_heap, Matrix_Create, c5]
              | true =>
                have ea := deref_append_live h a
                  (List.replicate (a.rows * (a.rows + 1)) (0 : α)) ha
                have eb := deref_append_live h b
                  (List.replicate (a.rows * (a.rows + 1)) (0 : α)) hb
                have hnew := heap_append_new h (List.replicate (a.rows * (a.rows + 1)) (0 : α))
                have hbuf : (MatrixObj.deref
                    (heap_update (h ++ [List.replicate (a.rows * (a.rows + 1)) 0])
                      (some h.length)
                      (gauss_copy (a.deref h) (b.deref h) a.rows (a.rows + 1)))
                    (MatrixObj.mk (some h.length) a.rows (a.rows + 1) (some t))).buf =
                    gauss_copy (a.deref h) (b.deref h) a.rows (a.rows + 1)
                      (List.replicate (a.rows * (a.rows + 1)) 0) := by
                  simp [MatrixObj.deref, Matrix.buf, heap_update_self _ h.length _ _ hnew]
                simp only [Matrix.buf] at hbuf
                simp only [Matrix_Create_heap, Matrix_Create, c5, false_or,
                  Nat.add_one_ne_zero, if_false, Bool.true_eq_false, ea, eb, hbuf, Matrix.buf,
                  Option.getD_some]
                have hold : ∀ (f : List α → List α) (p : Nat), p < h.length →
                    (heap_update (h ++ [List.replicate (a.rows * (a.rows + 1)) 0])
                      (some h.length) f)[p]? = h[p]? := by
                  intro f p hp
                  rw [heap_update_other _ _ _ p (by simp; omega)]
                  exact heap_append_old h _ p hp
                cases hf : gauss_forward t a.rows (a.rows + 1)
                    (gauss_copy (a.deref h) (b.deref h) a.rows (a.rows + 1)
                      (List.replicate (a.rows * (a.rows + 1)) 0)) with
                | none =>
                  simp only []
                  rw [deref_live h _ x hx (fun p hp _ => hold _ p hp)]
                | some aug =>
                  simp only []
                  congr 2
                  cases hxd : x.data with
                  | none => simp [MatrixObj.deref, hxd, heap_update, htx]
                  | some p =>
                    have hp : p < h.length := hx p hxd
                    obtain ⟨buf, hbufp⟩ : ∃ buf, h[p]? = some buf :=
                      ⟨h[p], List.getElem?_eq_getElem hp⟩
                    have h3 : (heap_update
                        (heap_update (h ++ [List.replicate (a.rows * (a.rows + 1)) 0])
                          (some h.length)
                          (gauss_copy (a.deref h) (b.deref h) a.rows (a.rows + 1)))
                        (some h.length) (fun _ => aug))[p]? = some buf := by
                      rw [heap_update_other _ _ _ p (by simp; omega), hold _ p hp]
                      exact hbufp
                    simp only [MatrixObj.deref] at h3 ⊢
                    simp [hxd, hbufp, heap_update_self _ p _ buf h3, htx]

/-! ## Operations that write in place keep the shape -/

theorem same_shape_refl {α : Type} (m : Matrix α) : same_shape m m :=
  ⟨rfl, rfl, rfl, rfl⟩

theorem same_shape_map {α : Type} (m : Matrix α) (f : List α → List α)
    (hf : ∀ l, (f l).length = l.length) :
    same_shape m (Matrix.mk (Option.map f m.data) m.rows m.cols m.type) := by
  refine ⟨rfl, rfl, rfl, ?_⟩
  cases m.data with
  | none => rfl
  | some d => simp [hf]

theorem Matrix_Set_shape {α : Type} (m : Matrix α) (row col : Nat) (value : Option α) :
    ∃ m2, (Matrix_Set (some m) row col value).2 = some m2 ∧ same_shape m m2 := by
  cases value with
  | none => exact ⟨m, rfl, same_shape_refl m⟩
  | some v =>
    cases hd : m.data with
    | none => exact ⟨m, by simp [Matrix_Set, hd], same_shape_refl m⟩
    | some d =>
      cases ht : m.type with
      | none => exact ⟨m, by simp [Matrix_Set, hd, ht], same_shape_refl m⟩
      | some t =>
        by_cases hb : row ≥ m.rows ∨ col ≥ m.cols
        · refine ⟨m, ?_, same_shape_refl m⟩
          simp only [Matrix_Set, hd, ht]
          rw [if_pos hb]
        · refine ⟨Matrix.mk (some (poke d (matrix_index m row col) v)) m.rows m.cols m.type,
            ?_, ⟨rfl, rfl, rfl, by simp [hd, length_poke]⟩⟩
          simp only [Matrix_Set, hd, ht]
          rw [if_neg hb]

theorem Matrix_Fill_shape {α : Type} (m : Matrix α) (value : Option α) :
    ∃ m2, (Matrix_Fill (some m) value).2 = some m2 ∧ same_shape m m2 := by
  cases value with
  | none => exact ⟨m, rfl, same_shape_refl m⟩
  | some v =>
    exact ⟨_, rfl, same_shape_map m _ (fun l => fill_cells_length _ v l)⟩

theorem Matrix_Identity_shape {α : Type} [Zero α] [FloatOneBytes α] (m : Matrix α) :
    ∃ m2, (Matrix_Identity (some m)).2 = some m2 ∧ same_shape m m2 := by
  by_cases hd : m.rows ≠ m.cols
  · refine ⟨m, ?_, same_shape_refl m⟩
    simp only [Matrix_Identity]
    rw [if_pos hd]
  · refine ⟨Matrix.mk (Option.map (identity_cells m.type m.rows m.cols) m.data)
      m.rows m.cols m.type, ?_, same_shape_map m _ (fun l => identity_cells_length _ _ _ l)⟩
    simp only [Matrix_Identity]
    rw [if_neg hd]

/-- The matrix `x` after `Matrix_GaussSolve`: `x` itself on every failure, and
`x` with the back substitution run on its buffer on success. -/
theorem Matrix_GaussSolve_result {α : Type} [Zero α] (alloc : Bool) (a b x : Matrix α) :
    ((Matrix_GaussSolve alloc (some a) (some b) (some x)).1 ≠ MATRIX_OK ∧
        (Matrix_GaussSolve alloc (some a) (some b) (some x)).2 = some x) ∨
      (∃ t aug, Matrix_GaussSolve alloc (some a) (some b) (some x) =
        (MATRIX_OK, some (Matrix.mk
          (Option.map (gauss_back_substitute t a.rows (a.rows + 1) x.cols aug) x.data)
          x.rows x.cols x.type))) := by
  cases hta : a.type with
  | none => left; simp [Matrix_GaussSolve, hta]
  | some t =>
  cases htb : b.type with
  | none => left; simp [Matrix_GaussSolve, hta, htb]
  | some tb =>
  cases htx : x.type with
  | none => left; simp [Matrix_GaussSolve, hta, htb, htx]
  | some tx =>
  simp only [Matrix_GaussSolve, hta, htb, htx]
  by_cases c0 : types_compatible a b = false ∨ types_compatible a x = false
  · left; rw [if_pos c0]; simp
  · rw [if_neg c0]
    by_cases c1 : a.rows ≠ a.cols
    · left; rw [if_pos c1]; simp
    · rw [if_neg c1]
      by_cases c2 : b.cols ≠ 1
      · left; rw [if_pos c2]; simp
      · rw [if_neg c2]
        by_cases c3 : a.rows ≠ b.rows
        · left; rw [if_pos c3]; simp
        · rw [if_neg c3]
          by_cases c4 : x.rows ≠ a.rows ∨ x.cols ≠ 1
          · left; rw [if_pos c4]; simp
          · rw [if_neg c4]
            by_cases c5 : a.rows = 0
            · left; simp [Matrix_Create, c5]
            · cases alloc with
              | false => left; simp [Matrix_Create, c5]
              | true =>
                simp only [Matrix_Create, c5, false_or, Nat.add_one_ne_zero, if_false,
                  Bool.true_eq_false, Matrix.buf, Option.getD_some]
                cases hf : gauss_forward t a.rows (a.rows + 1)
                    (gauss_copy a b a.rows (a.rows + 1)
                      (List.replicate (a.rows * (a.rows + 1)) 0)) with
                | none => left; simp
                | some aug => right; exact ⟨t, aug, by simp [htx]⟩

theorem Matrix_GaussSolve_shape {α : Type} [Zero α] (alloc : Bool) (a b x : Matrix α) :
    ∃ x2, (Matrix_GaussSolve alloc (some a) (some b) (some x)).2 = some x2 ∧
      same_shape x x2 := by
  rcases Matrix_GaussSolve_result alloc a b x with ⟨_, h2⟩ | ⟨t, aug, h2⟩
  · exact ⟨x, h2, same_shape_refl x⟩
  · rw [h2]
    exact ⟨_, rfl, same_shape_map x _ (fun l => gauss_back_substitute_length _ _ _ _ _ l)⟩

/-- The validation of `Matrix_GaussSolve`, whatever the allocator would do. -/
theorem Matrix_GaussSolve_validation_spec {α : Type} [Zero α] (alloc : Bool)
    (a b x : Matrix α) :
    ((a.type.isSome = false ∨ b.type.isSome = false ∨ x.type.isSome = false ∨
        FieldInfo_Equals a.type b.type = false ∨ FieldInfo_Equals a.type x.type = false) →
      Matrix_GaussSolve alloc (some a) (some b) (some x)
        = (MATRIX_ERROR_TYPE_MISMATCH, some x)) ∧
    (¬ (a.type.isSome = false ∨ b.type.isSome = false ∨ x.type.isSome = false ∨
        FieldInfo_Equals a.type b.type = false ∨ FieldInfo_Equals a.type x.type = false) →
      ((Matrix_GaussSolve alloc (some a) (some b) (some x)).1
          = MATRIX_ERROR_DIMENSION_MISMATCH ↔
        ¬ (a.rows = a.cols ∧ b.cols = 1 ∧ b.rows = a.rows ∧ x.rows = a.rows ∧ x.cols = 1)) ∧
      ((Matrix_GaussSolve alloc (some a) (some b) (some x)).1
          = MATRIX_ERROR_DIMENSION_MISMATCH →
        Matrix_GaussSolve alloc (some a) (some b) (some x)
          = (MATRIX_ERROR_DIMENSION_MISMATCH, some x))) := by
  cases hta : a.type with
  | none => simp [Matrix_GaussSolve, hta]
  | some t =>
  cases htb : b.type with
  | none => simp [Matrix_GaussSolve, hta, htb]
  | some tb =>
  cases htx : x.type with
  | none => simp [Matrix_GaussSolve, hta, htb, htx]
  | some tx =>
  simp only [Matrix_GaussSolve, hta, htb, htx, types_compatible]
  by_cases c0 : FieldInfo_Equals (some t) (some tb) = false ∨
      FieldInfo_Equals (some t) (some tx) = false
  · rw [if_pos c0]
    refine ⟨fun _ => rfl, fun hno => absurd ?_ hno⟩
    exact Or.inr (Or.inr (Or.inr c0))
  · rw [if_neg c0]
    refine ⟨fun hyes => absurd ?_ c0, fun _ => ?_⟩
    · rcases hyes with h1 | h1 | h1 | h1
      · exact Bool.noConfusion h1
      · exact Bool.noConfusion h1
      · exact Bool.noConfusion h1
      · exact h1
    · by_cases c1 : a.rows ≠ a.cols
      · rw [if_pos c1]
        exact ⟨⟨fun _ hd => c1 hd.1, fun _ => rfl⟩, fun _ => rfl⟩
      · rw [if_neg c1]
        by_cases c2 : b.cols ≠ 1
        · rw [if_pos c2]
          exact ⟨⟨fun _ hd => c2 hd.2.1, fun _ => rfl⟩, fun _ => rfl⟩
        · rw [if_neg c2]
          by_cases c3 : a.rows ≠ b.rows
          · rw [if_pos c3]
            exact ⟨⟨fun _ hd => c3 hd.2.2.1.symm, fun _ => rfl⟩, fun _ => rfl⟩
          · rw [if_neg c3]
            by_cases c4 : x.rows ≠ a.rows ∨ x.cols ≠ 1
            · rw [if_pos c4]
              refine ⟨⟨fun _ hd => ?_, fun _ => rfl⟩, fun _ => rfl⟩
              rcases c4 with c4 | c4
              · exact c4 hd.2.2.2.1
              · exact c4 hd.2.2.2.2
            · rw [if_neg c4]
              have hgood : a.rows = a.cols ∧ b.cols = 1 ∧ b.rows = a.rows ∧ x.rows = a.rows ∧
                  x.cols = 1 := by
                refine ⟨?_, ?_, ?_, ?_, ?_⟩
                · by_contra hc; exact c1 hc
                · by_contra hc; exact c2 hc
                · by_contra hc; exact c3 (fun e => hc e.symm)
                · by_contra hc; exact c4 (Or.inl hc)
                · by_contra hc; exact c4 (Or.inr hc)
              have hnot : (match Matrix_Create alloc a.rows (a.rows + 1) (some t) with
                  | none => (MATRIX_ERROR_MEMORY, some x)
                  | some augmented =>
                    match gauss_forward t a.rows augmented.cols
                        (gauss_copy a b a.rows augmented.cols augmented.buf) with
                    | none => (MATRIX_ERROR_SINGULAR_MATRIX, some x)
                    | some aug =>
                      (MATRIX_OK, some (Matrix.mk
                        (Option.map (gauss_back_substitute t a.rows augmented.cols x.cols aug)
                          x.data) x.rows x.cols (some tx)))).1
                  ≠ MATRIX_ERROR_DIMENSION_MISMATCH := by
                cases Matrix_Create alloc a.rows (a.rows + 1) (some t) with
                | none => simp
                | some augmented =>
                  simp only []
                  split <;> simp
              exact ⟨⟨fun hd => absurd hd hnot, fun hd => absurd hgood hd⟩,
                fun hd => absurd hd hnot⟩

/-! ## Integer pivot search -/

theorem wrap32_of_range (v : Int) (h1 : -2 ^ 31 ≤ v) (h2 : v < 2 ^ 31) : wrap32 v = v := by
  unfold wrap32
  rw [Int.emod_eq_of_lt (by omega) (by omega)]
  omega

/-- On values whose negation does not overflow, the integer pivot comparison is
the comparison of absolute values. -/
theorem pivot_exceeds_int (cur mx : Int) (hc : negatable cur) (hm : negatable mx) :
    pivot_exceeds GetIntFieldInfo.ptr cur mx = decide (|cur| > |mx|) := by
  obtain ⟨c1, c2⟩ := hc
  obtain ⟨m1, m2⟩ := hm
  have ec : (if cur < 0 then wrap32 (-cur) else cur) = |cur| := by
    by_cases h : cur < 0
    · rw [if_pos h, wrap32_of_range _ (by omega) (by omega), abs_of_neg h]
    · rw [if_neg h, abs_of_nonneg (by omega)]
  have em : (if mx < 0 then wrap32 (-mx) else mx) = |mx| := by
    by_cases h : mx < 0
    · rw [if_pos h, wrap32_of_range _ (by omega) (by omega), abs_of_neg h]
    · rw [if_neg h, abs_of_nonneg (by omega)]
  show decide ((if cur < 0 then wrap32 (-cur) else cur) > (if mx < 0 then wrap32 (-mx) else mx))
    = decide (|cur| > |mx|)
  rw [ec, em]

/-- A maximum search with a strict comparison of absolute values ends on an
index of largest absolute value. -/
theorem max_search_loop (f : Nat → Int) (cmp : Int → Int → Bool) (k n : Nat) (hk : k < n)
    (hcmp : ∀ i m, k ≤ i → i < n → k ≤ m → m < n →
      cmp (f i) (f m) = decide (|f i| > |f m|)) :
    ∀ i, k ≤ i → i < n →
      |f i| ≤ |f (forLoop (k + 1) n (fun i m => if cmp (f i) (f m) then i else m) k)| := by
  have h := forLoop_induction
    (fun (i : Nat) (m : Nat) => k ≤ m ∧ m < i ∧ ∀ j, k ≤ j → j < i → |f j| ≤ |f m|)
    (fun i m => if cmp (f i) (f m) then i else m)
    (k + 1) n k (by omega)
    ⟨Nat.le_refl k, by omega, by
      intro j hj1 hj2
      have e : j = k := by omega
      rw [e]⟩
    (by
      intro j m hj1 hj2 ⟨h1, h2, h3⟩
      have hc := hcmp j m (by omega) hj2 h1 (by omega)
      by_cases hgt : |f j| > |f m|
      · have e : (if cmp (f j) (f m) then j else m) = j := by
          rw [hc]; simp [hgt]
        show k ≤ (if cmp (f j) (f m) then j else m) ∧ (if cmp (f j) (f m) then j else m) < j + 1 ∧
          ∀ j2, k ≤ j2 → j2 < j + 1 → |f j2| ≤ |f (if cmp (f j) (f m) then j else m)|
        rw [e]
        refine ⟨by omega, by omega, ?_⟩
        intro j2 hj3 hj4
        by_cases e2 : j2 = j
        · rw [e2]
        · exact le_trans (h3 j2 hj3 (by omega)) (le_of_lt hgt)
      · have e : (if cmp (f j) (f m) then j else m) = m := by
          rw [hc]; simp [hgt]
        show k ≤ (if cmp (f j) (f m) then j else m) ∧ (if cmp (f j) (f m) then j else m) < j + 1 ∧
          ∀ j2, k ≤ j2 → j2 < j + 1 → |f j2| ≤ |f (if cmp (f j) (f m) then j else m)|
        rw [e]
        refine ⟨h1, by omega, ?_⟩
        intro j2 hj3 hj4
        by_cases e2 : j2 = j
        · rw [e2]; exact not_lt.mp hgt
        · exact h3 j2 hj3 (by omega))
  exact h.2.2

/-- Integer pivot search: when no entry of column `k` in rows `k..n-1` is
`INT_MIN`, the selected row holds an entry of largest absolute value. -/
theorem gauss_find_pivot_int_max (n w k : Nat) (aug : List Int) (hk : k < n)
    (hr : ∀ i, k ≤ i → i < n → negatable (load w aug i k)) :
    ∀ i, k ≤ i → i < n →
      |load w aug i k| ≤ |load w aug (gauss_find_pivot GetIntFieldInfo n w k aug) k| := by
  unfold gauss_find_pivot
  exact max_search_loop (fun i => load w aug i k) (pivot_exceeds GetIntFieldInfo.ptr) k n hk
    (fun i m hi1 hi2 hm1 hm2 => pivot_exceeds_int _ _ (hr i hi1 hi2) (hr m hm1 hm2))

/-- Integer pivot search without `INT_MIN` in the column: the selected pivot is
zero exactly when every entry of the column in rows `k..n-1` is zero. -/
theorem gauss_find_pivot_int_zero (n w k : Nat) (aug : List Int) (hk : k < n)
    (hr : ∀ i, k ≤ i → i < n → negatable (load w aug i k)) :
    load w aug (gauss_find_pivot GetIntFieldInfo n w k aug) k = 0 ↔
      ∀ i, k ≤ i → i < n → load w aug i k = 0 := by
  obtain ⟨r1, r2⟩ := gauss_find_pivot_range GetIntFieldInfo n w k aug hk
  constructor
  · intro h0 i hi1 hi2
    have hmax := gauss_find_pivot_int_max n w k aug hk hr i hi1 hi2
    rw [h0, abs_zero] at hmax
    exact abs_eq_zero.mp (le_antisymm hmax (abs_nonneg _))
  · intro hall
    exact hall _ r1 r2

/-- The integer kind reports a singular step exactly when the selected pivot is
zero. -/
theorem gauss_forward_step_int_none (n w k : Nat) (aug : List Int) :
    gauss_forward_step GetIntFieldInfo n w k aug = none ↔
      load w aug (gauss_find_pivot GetIntFieldInfo n w k aug) k = 0 := by
  unfold gauss_forward_step
  by_cases h0 : load w aug (gauss_find_pivot GetIntFieldInfo n w k aug) k = 0
  · simp [pivot_is_singular, GetIntFieldInfo, h0]
  · simp [pivot_is_singular, GetIntFieldInfo, h0]

/-! ## The forward loop, step by step -/

theorem loopFrom_succ {σ : Type} (body : Nat → σ → σ) :
    ∀ (n i : Nat) (s : σ), loopFrom body i (n + 1) s = body (i + n) (loopFrom body i n s) := by
  intro n
  induction n with
  | zero => intro i s; simp [loopFrom]
  | succ n ih =>
    intro i s
    have e : i + (n + 1) = i + 1 + n := by omega
    have h1 : loopFrom body i (n + 1 + 1) s = loopFrom body (i + 1) (n + 1) (body i s) := rfl
    have h2 : loopFrom body i (n + 1) s = loopFrom body (i + 1) n (body i s) := rfl
    rw [h1, h2, e]
    exact ih (i + 1) (body i s)

theorem forLoop_succ {σ : Type} (body : Nat → σ → σ) (k : Nat) (s : σ) :
    forLoop 0 (k + 1) body s = body k (forLoop 0 k body s) := by
  unfold forLoop
  have h := loopFrom_succ body k 0 s
  simpa using h

theorem gauss_forward_upto_zero {α : Type} [Zero α] (t : FieldInfo α) (n w : Nat)
    (aug : List α) : gauss_forward_upto t n w 0 aug = some aug := by
  simp [gauss_forward_upto, forLoop, loopFrom]

theorem gauss_forward_upto_succ {α : Type} [Zero α] (t : FieldInfo α) (n w k : Nat)
    (aug : List α) :
    gauss_forward_upto t n w (k + 1) aug =
      (gauss_forward_upto t n w k aug).bind (gauss_forward_step t n w k) := by
  unfold gauss_forward_upto
  rw [forLoop_succ]

theorem gauss_forward_upto_full {α : Type} [Zero α] (t : FieldInfo α) (n w : Nat)
    (aug : List α) : gauss_forward_upto t n w n aug = gauss_forward t n w aug := rfl

/-- The forward loop returns early exactly when some step, run on the working
matrix the steps before it left, finds a singular pivot. -/
theorem gauss_forward_upto_none {α : Type} [Zero α] (t : FieldInfo α) (n w : Nat)
    (aug : List α) (m : Nat) :
    gauss_forward_upto t n w m aug = none ↔
      ∃ k, k < m ∧ ∃ W, gauss_forward_upto t n w k aug = some W ∧
        gauss_forward_step t n w k W = none := by
  induction m with
  | zero =>
    rw [gauss_forward_upto_zero]
    constructor
    · intro h; exact Option.noConfusion h
    · rintro ⟨k, hk, _⟩; omega
  | succ m ih =>
    rw [gauss_forward_upto_succ]
    cases hp : gauss_forward_upto t n w m aug with
    | none =>
      constructor
      · intro _
        obtain ⟨k, hk, W, h1, h2⟩ := ih.mp hp
        exact ⟨k, by omega, W, h1, h2⟩
      · intro _; rfl
    | some V =>
      constructor
      · intro h
        exact ⟨m, by omega, V, hp, by simpa using h⟩
      · rintro ⟨k, hk, W, h1, h2⟩
        by_cases e : k = m
        · subst e
          rw [hp] at h1
          have e2 : V = W := by simpa using h1
          rw [e2]
          simpa using h2
        · have hnone := ih.mpr ⟨k, by omega, W, h1, h2⟩
          rw [hp] at hnone
          exact Option.noConfusion hnone

/-- Integer kind, valid shapes, allocation succeeding: the call returns
`MATRIX_ERROR_SINGULAR_MATRIX` exactly when at some step the selected pivot of
the working matrix is zero, and `MATRIX_OK` otherwise. -/
theorem gauss_int_status (a b x : Matrix Int)
    (ha : WellFormed a) (hb : WellFormed b) (hx : WellFormed x)
    (hta : a.type = some GetIntFieldInfo)
    (hab : types_compatible a b = true) (hax : types_compatible a x = true)
    (hsq : a.rows = a.cols) (hbc : b.cols = 1) (hbr : b.rows = a.rows)
    (hxr : x.rows = a.rows) (hxc : x.cols = 1) :
    ((Matrix_GaussSolve true (some a) (some b) (some x)).1 = MATRIX_ERROR_SINGULAR_MATRIX ↔
      ∃ k, k < a.rows ∧ ∃ W,
        gauss_forward_upto GetIntFieldInfo a.rows (a.rows + 1) k
          (gauss_copy a b a.rows (a.rows + 1) (List.replicate (a.rows * (a.rows + 1)) 0))
            = some W ∧
        load (a.rows + 1) W (gauss_find_pivot GetIntFieldInfo a.rows (a.rows + 1) k W) k = 0) ∧
    ((Matrix_GaussSolve true (some a) (some b) (some x)).1 ≠ MATRIX_ERROR_SINGULAR_MATRIX →
      (Matrix_GaussSolve true (some a) (some b) (some x)).1 = MATRIX_OK) := by
  obtain ⟨tb, htb⟩ := wellFormed_type hb
  obtain ⟨tx, htx⟩ := wellFormed_type hx
  have hiff := gauss_forward_upto_none GetIntFieldInfo a.rows (a.rows + 1)
    (gauss_copy a b a.rows (a.rows + 1) (List.replicate (a.rows * (a.rows + 1)) 0)) a.rows
  rw [gauss_forward_upto_full] at hiff
  cases hf : gauss_forward GetIntFieldInfo a.rows (a.rows + 1)
      (gauss_copy a b a.rows (a.rows + 1) (List.replicate (a.rows * (a.rows + 1)) 0)) with
  | none =>
    rw [Matrix_GaussSolve_run_singular a b x GetIntFieldInfo tb tx hta htb htx hab hax ha.1 hsq
      hbc hbr.symm hxr hxc hf]
    refine ⟨⟨fun _ => ?_, fun _ => rfl⟩, fun h => absurd rfl h⟩
    obtain ⟨k, hk, W, h1, h2⟩ := hiff.mp hf
    exact ⟨k, hk, W, h1, (gauss_forward_step_int_none _ _ _ _).mp h2⟩
  | some U =>
    rw [Matrix_GaussSolve_run_ok a b x GetIntFieldInfo tb tx U hta htb htx hab hax ha.1 hsq
      hbc hbr.symm hxr hxc hf]
    refine ⟨⟨fun h => ?_, ?_⟩, fun _ => rfl⟩
    · exact MatrixError.noConfusion h
    · rintro ⟨k, hk, W, h1, h2⟩
      have hnone := hiff.mpr ⟨k, hk, W, h1, (gauss_forward_step_int_none _ _ _ _).mpr h2⟩
      rw [hf] at hnone
      exact Option.noConfusion hnone

/-! ## Binary32 rounding: known values -/

section
attribute [local semireducible] Rat.add Rat.mul Rat.inv Rat.sub

/-- Known binary32 values: `0.1f`, `1.0f/3.0f`, the literal `1e-10f`, and the two
neighbours of `2^24 + 2` (a tie goes to the even significand). -/
theorem round_binary32_examples :
    round_binary32 (1 / 10) = 13421773 / 2 ^ 27 ∧
    round_binary32 (1 / 3) = 11184811 / 2 ^ 25 ∧
    round_binary32 (1 / 10 ^ 10) = EPS_1e_10f ∧
    round_binary32 16777217 = 16777216 ∧
    round_binary32 16777219 = 16777220 ∧
    round_binary32 (-7 / 2) = -7 / 2 := by
  decide

/-- In exact arithmetic the system of `test_gauss_solve_int` has the solution
`(7/2, 3/2, 3/2)`: two components sit on the rounding boundary of
`(int)(fval + 0.5f)`. -/
theorem gauss_float_copy_exact :
    (Matrix_GaussSolve true
      (some (Matrix.ofList GetFloatFieldInfo 3 3 [2, 1, -1, 1, 3, 2, 3, 2, -3]))
      (some (Matrix.ofList GetFloatFieldInfo 3 1 [7, 11, 9]))
      (some (Matrix.ofList GetFloatFieldInfo 3 1 [0, 0, 0]))).2.map Matrix.buf
      = some [7 / 2, 3 / 2, 3 / 2] := by
  decide

end

/-! ## Validation, atomicity, descriptors, status agreement: the claims -/

/-- Counterexample to C21 as stated: three matrices without a descriptor have
equal descriptors for `FieldInfo_Equals` (`NULL == NULL`), and `a` is 1x2, not
square, yet the call returns `MATRIX_ERROR_TYPE_MISMATCH`, not
`MATRIX_ERROR_DIMENSION_MISMATCH`: the guard on absent descriptors comes
first. -/
theorem Matrix_GaussSolve_absent_descriptors_status :
    FieldInfo_Equals (Matrix.mk (some [0, 0]) 1 2 (none : Option (FieldInfo Int))).type
        (Matrix.mk (some [0]) 1 1 (none : Option (FieldInfo Int))).type = true ∧
      ¬ ((Matrix.mk (some [0, 0]) 1 2 (none : Option (FieldInfo Int))).rows
          = (Matrix.mk (some [0, 0]) 1 2 (none : Option (FieldInfo Int))).cols) ∧
      (Matrix_GaussSolve true
        (some (Matrix.mk (some [0, 0]) 1 2 (none : Option (FieldInfo Int))))
        (some (Matrix.mk (some [0]) 1 1 (none : Option (FieldInfo Int))))
        (some (Matrix.mk (some [0]) 1 1 (none : Option (FieldInfo Int))))).1
        = MATRIX_ERROR_TYPE_MISMATCH := by
  decide

/-- C21 (amended): `Matrix_GaussSolve` with non-null `a`, `b`, `x`: if a
descriptor is absent, or the descriptor of `b` or of `x` is not equal to that of
`a` (`FieldInfo_Equals`), the call returns `MATRIX_ERROR_TYPE_MISMATCH`;
otherwise it returns `MATRIX_ERROR_DIMENSION_MISMATCH` if and only if it is not
the case that `a.rows == a.cols`, `b.cols == 1`, `b.rows == a.rows`,
`x.rows == a.rows` and `x.cols == 1`.  Both outcomes are the same whether or not
the allocation of the working matrix would succeed, and leave `x` as it was. -/
theorem Matrix_GaussSolve_validation {α : Type} [Zero α] (alloc : Bool) (a b x : Matrix α) :
    ((a.type.isSome = false ∨ b.type.isSome = false ∨ x.type.isSome = false ∨
        FieldInfo_Equals a.type b.type = false ∨ FieldInfo_Equals a.type x.type = false) →
      Matrix_GaussSolve alloc (some a) (some b) (some x)
        = (MATRIX_ERROR_TYPE_MISMATCH, some x)) ∧
    (¬ (a.type.isSome = false ∨ b.type.isSome = false ∨ x.type.isSome = false ∨
        FieldInfo_Equals a.type b.type = false ∨ FieldInfo_Equals a.type x.type = false) →
      ((Matrix_GaussSolve alloc (some a) (some b) (some x)).1
          = MATRIX_ERROR_DIMENSION_MISMATCH ↔
        ¬ (a.rows = a.cols ∧ b.cols = 1 ∧ b.rows = a.rows ∧ x.rows = a.rows ∧ x.cols = 1)) ∧
      ((Matrix_GaussSolve alloc (some a) (some b) (some x)).1
          = MATRIX_ERROR_DIMENSION_MISMATCH →
        Matrix_GaussSolve alloc (some a) (some b) (some x)
          = (MATRIX_ERROR_DIMENSION_MISMATCH, some x))) :=
  Matrix_GaussSolve_validation_spec alloc a b x

/-- Witness for C21 (amended): an integer 2x2 `a` and 2x1 `b` with a 3x1 `x` give
`MATRIX_ERROR_DIMENSION_MISMATCH` although the allocator would fail; with `b`
tagged by a descriptor of another name the call gives
`MATRIX_ERROR_TYPE_MISMATCH`. -/
theorem Matrix_GaussSolve_validation_witness :
    (Matrix_GaussSolve false
        (some (Matrix.ofList GetIntFieldInfo 2 2 [1, 2, 3, 4]))
        (some (Matrix.ofList GetIntFieldInfo 2 1 [5, 6]))
        (some (Matrix.ofList GetIntFieldInfo 3 1 [0, 0, 0]))).1
        = MATRIX_ERROR_DIMENSION_MISMATCH ∧
      (Matrix_GaussSolve false
        (some (Matrix.ofList GetIntFieldInfo 2 2 [1, 2, 3, 4]))
        (some (Matrix.ofList
          (FieldInfo.mk (FieldPtr.other 9) 8 "long" IntAdder IntSubtractor IntMultiplier
            IntDivider) 2 1 [5, 6]))
        (some (Matrix.ofList GetIntFieldInfo 2 1 [0, 0]))).1
        = MATRIX_ERROR_TYPE_MISMATCH :=
  ⟨((Matrix_GaussSolve_validation false
      (Matrix.ofList GetIntFieldInfo 2 2 [1, 2, 3, 4])
      (Matrix.ofList GetIntFieldInfo 2 1 [5, 6])
      (Matrix.ofList GetIntFieldInfo 3 1 [0, 0, 0])).2 (by decide)).1.mpr (by decide),
    congrArg Prod.fst ((Matrix_GaussSolve_validation false
      (Matrix.ofList GetIntFieldInfo 2 2 [1, 2, 3, 4])
      (Matrix.ofList
        (FieldInfo.mk (FieldPtr.other 9) 8 "long" IntAdder IntSubtractor IntMultiplier
          IntDivider) 2 1 [5, 6])
      (Matrix.ofList GetIntFieldInfo 2 1 [0, 0])).1 (by decide))⟩

/-- On the heap: after a failed `Matrix_GaussSolve` the three structs denote the
matrices they denoted before; after any call `a` and `b` do, when their buffer
is not the buffer of `x`. -/
theorem Matrix_GaussSolve_heap_atomic {α : Type} [Zero α] (alloc : Bool) (h : Heap α)
    (a b x : MatrixObj α) (ha : a.live h) (hb : b.live h) (hx : x.live h) :
    ((Matrix_GaussSolve_heap alloc h (some a) (some b) (some x)).2 ≠ MATRIX_OK →
      x.deref (Matrix_GaussSolve_heap alloc h (some a) (some b) (some x)).1 = x.deref h ∧
      a.deref (Matrix_GaussSolve_heap alloc h (some a) (some b) (some x)).1 = a.deref h ∧
      b.deref (Matrix_GaussSolve_heap alloc h (some a) (some b) (some x)).1 = b.deref h) ∧
    (a.data ≠ x.data →
      a.deref (Matrix_GaussSolve_heap alloc h (some a) (some b) (some x)).1 = a.deref h) ∧
    (b.data ≠ x.data →
      b.deref (Matrix_GaussSolve_heap alloc h (some a) (some b) (some x)).1 = b.deref h) := by
  refine ⟨fun hfail => ⟨?_, ?_, ?_⟩, fun hsep => ?_, fun hsep => ?_⟩
  · exact deref_live h _ x hx (fun p hp _ =>
      (Matrix_GaussSolve_heap_frame alloc h (some a) (some b) (some x) p hp).1 hfail)
  · exact deref_live h _ a ha (fun p hp _ =>
      (Matrix_GaussSolve_heap_frame alloc h (some a) (some b) (some x) p hp).1 hfail)
  · exact deref_live h _ b hb (fun p hp _ =>
      (Matrix_GaussSolve_heap_frame alloc h (some a) (some b) (some x) p hp).1 hfail)
  · refine deref_live h _ a ha (fun p hp hap =>
      (Matrix_GaussSolve_heap_frame alloc h (some a) (some b) (some x) p hp).2.1 ?_)
    intro xm hxm hxp
    have e : x = xm := by simpa using hxm
    apply hsep
    rw [hap, e, hxp]
  · refine deref_live h _ b hb (fun p hp hbp =>
      (Matrix_GaussSolve_heap_frame alloc h (some a) (some b) (some x) p hp).2.1 ?_)
    intro xm hxm hxp
    have e : x = xm := by simpa using hxm
    apply hsep
    rw [hbp, e, hxp]

theorem Matrix_GaussSolve_heap_null {α : Type} [Zero α] (alloc : Bool) (h : Heap α)
    (a b x : Option (MatrixObj α)) (hnull : a = none ∨ b = none ∨ x = none) :
    Matrix_GaussSolve_heap alloc h a b x = (h, MATRIX_ERROR_NULL_POINTER) := by
  rcases hnull with e | e | e
  · subst e; simp [Matrix_GaussSolve_heap]
  · subst e; cases a <;> simp [Matrix_GaussSolve_heap]
  · subst e; cases a <;> cases b <;> simp [Matrix_GaussSolve_heap]

/-- C22 (amended): `Matrix_GaussSolve` is atomic on failure.  On the heap, with
the data pointers of `a`, `b`, `x` null or live: whenever the status is not
`MATRIX_OK`
(in particular `MATRIX_ERROR_TYPE_MISMATCH`, `MATRIX_ERROR_DIMENSION_MISMATCH`,
`MATRIX_ERROR_SINGULAR_MATRIX`, `MATRIX_ERROR_MEMORY`), `x`, `a` and `b` denote
the matrices they denoted before the call; with a null argument the call returns
`MATRIX_ERROR_NULL_POINTER` and the heap as it was; and in every case, success
included, `a` and `b` denote the matrices they denoted before, for `a` and `b`
whose buffer is not the buffer of `x`.  The status, and the matrix `x` denotes
afterwards, are the ones `Matrix_GaussSolve` computes on matrix values. -/
theorem Matrix_GaussSolve_atomic {α : Type} [Zero α] (alloc : Bool) (h : Heap α)
    (a b x : MatrixObj α) (ha : a.live h) (hb : b.live h) (hx : x.live h) :
    ((Matrix_GaussSolve_heap alloc h (some a) (some b) (some x)).2 ≠ MATRIX_OK →
      x.deref (Matrix_GaussSolve_heap alloc h (some a) (some b) (some x)).1 = x.deref h ∧
      a.deref (Matrix_GaussSolve_heap alloc h (some a) (some b) (some x)).1 = a.deref h ∧
      b.deref (Matrix_GaussSolve_heap alloc h (some a) (some b) (some x)).1 = b.deref h) ∧
    (a.data ≠ x.data →
      a.deref (Matrix_GaussSolve_heap alloc h (some a) (some b) (some x)).1 = a.deref h) ∧
    (b.data ≠ x.data →
      b.deref (Matrix_GaussSolve_heap alloc h (some a) (some b) (some x)).1 = b.deref h) ∧
    (∀ a0 b0 x0 : Option (MatrixObj α), (a0 = none ∨ b0 = none ∨ x0 = none) →
      Matrix_GaussSolve_heap alloc h a0 b0 x0 = (h, MATRIX_ERROR_NULL_POINTER)) ∧
    Matrix_GaussSolve alloc (some (a.deref h)) (some (b.deref h)) (some (x.deref h)) =
      ((Matrix_GaussSolve_heap alloc h (some a) (some b) (some x)).2,
        some (x.deref (Matrix_GaussSolve_heap alloc h (some a) (some b) (some x)).1)) :=
  ⟨(Matrix_GaussSolve_heap_atomic alloc h a b x ha hb hx).1,
    (Matrix_GaussSolve_heap_atomic alloc h a b x ha hb hx).2.1,
    (Matrix_GaussSolve_heap_atomic alloc h a b x ha hb hx).2.2,
    fun a0 b0 x0 hnull => Matrix_GaussSolve_heap_null alloc h a0 b0 x0 hnull,
    Matrix_GaussSolve_heap_agrees alloc h a b x ha hb hx⟩

/-- Witness for C22 (amended): heap `[[0,0,0,0], [4,6], [7,8]]` with the integer matrices
`a = [[0,0],[0,0]]` at block 0, `b = [4,6]` at block 1, `x = [7,8]` at block 2:
the call reports `MATRIX_ERROR_SINGULAR_MATRIX` and `x` still holds `[7,8]`.
With `a = [[2,0],[0,2]]` instead the call reports `MATRIX_OK`, writes
`x = [2,3]` and `a` still holds `[2,0,0,2]`. -/
theorem Matrix_GaussSolve_atomic_witness :
    (Matrix_GaussSolve_heap true [[0, 0, 0, 0], [4, 6], [7, 8]]
        (some (MatrixObj.mk (some 0) 2 2 (some GetIntFieldInfo)))
        (some (MatrixObj.mk (some 1) 2 1 (some GetIntFieldInfo)))
        (some (MatrixObj.mk (some 2) 2 1 (some GetIntFieldInfo)))).2
        = MATRIX_ERROR_SINGULAR_MATRIX ∧
      ((MatrixObj.mk (some 2) 2 1 (some GetIntFieldInfo)).deref
        (Matrix_GaussSolve_heap true [[0, 0, 0, 0], [4, 6], [7, 8]]
          (some (MatrixObj.mk (some 0) 2 2 (some GetIntFieldInfo)))
          (some (MatrixObj.mk (some 1) 2 1 (some GetIntFieldInfo)))
          (some (MatrixObj.mk (some 2) 2 1 (some GetIntFieldInfo)))).1).buf = [7, 8] ∧
      (Matrix_GaussSolve_heap true [[2, 0, 0, 2], [4, 6], [7, 8]]
        (some (MatrixObj.mk (some 0) 2 2 (some GetIntFieldInfo)))
        (some (MatrixObj.mk (some 1) 2 1 (some GetIntFieldInfo)))
        (some (MatrixObj.mk (some 2) 2 1 (some GetIntFieldInfo)))).2 = MATRIX_OK ∧
      ((MatrixObj.mk (some 2) 2 1 (some GetIntFieldInfo)).deref
        (Matrix_GaussSolve_heap true [[2, 0, 0, 2], [4, 6], [7, 8]]
          (some (MatrixObj.mk (some 0) 2 2 (some GetIntFieldInfo)))
          (some (MatrixObj.mk (some 1) 2 1 (some GetIntFieldInfo)))
          (some (MatrixObj.mk (some 2) 2 1 (some GetIntFieldInfo)))).1).buf = [2, 3] ∧
      ((MatrixObj.mk (some 0) 2 2 (some GetIntFieldInfo)).deref
        (Matrix_GaussSolve_heap true [[2, 0, 0, 2], [4, 6], [7, 8]]
          (some (MatrixObj.mk (some 0) 2 2 (some GetIntFieldInfo)))
          (some (MatrixObj.mk (some 1) 2 1 (some GetIntFieldInfo)))
          (some (MatrixObj.mk (some 2) 2 1 (some GetIntFieldInfo)))).1).buf
        = [2, 0, 0, 2] :=
  ⟨by decide,
    (congrArg Matrix.buf
      (((Matrix_GaussSolve_atomic true [[0, 0, 0, 0], [4, 6], [7, 8]]
        (MatrixObj.mk (some 0) 2 2 (some GetIntFieldInfo))
        (MatrixObj.mk (some 1) 2 1 (some GetIntFieldInfo))
        (MatrixObj.mk (some 2) 2 1 (some GetIntFieldInfo))
        (fun p hp => by cases hp; decide) (fun p hp => by cases hp; decide)
        (fun p hp => by cases hp; decide)).1 (by decide)).1)).trans (by decide),
    by decide, by decide,
    (congrArg Matrix.buf
      ((Matrix_GaussSolve_atomic true [[2, 0, 0, 2], [4, 6], [7, 8]]
        (MatrixObj.mk (some 0) 2 2 (some GetIntFieldInfo))
        (MatrixObj.mk (some 1) 2 1 (some GetIntFieldInfo))
        (MatrixObj.mk (some 2) 2 1 (some GetIntFieldInfo))
        (fun p hp => by cases hp; decide) (fun p hp => by cases hp; decide)
        (fun p hp => by cases hp; decide)).2.1 (by decide))).trans (by decide)⟩

/-- C23: `FieldInfo_Equals` on two present descriptors is true if and only if
their sizes are equal and their names are equal; the built-in integer and float
descriptors each compare equal to themselves and to a descriptor object of the
same kind at any other address, and compare unequal to each other. -/
theorem FieldInfo_Equals_structural {α β : Type} (a : FieldInfo α) (b : FieldInfo β) :
    (FieldInfo_Equals (some a) (some b) = true ↔ a.size = b.size ∧ a.name = b.name) ∧
    FieldInfo_Equals (some GetIntFieldInfo) (some GetIntFieldInfo) = true ∧
    FieldInfo_Equals (some GetFloatFieldInfo) (some GetFloatFieldInfo) = true ∧
    (∀ addr, FieldInfo_Equals (some GetIntFieldInfo) (some (IntFieldInfo_at addr)) = true) ∧
    (∀ addr,
      FieldInfo_Equals (some GetFloatFieldInfo) (some (FloatFieldInfo_at addr)) = true) ∧
    FieldInfo_Equals (some GetIntFieldInfo) (some GetFloatFieldInfo) = false ∧
    FieldInfo_Equals (some GetFloatFieldInfo) (some GetIntFieldInfo) = false ∧
    (∀ addr addr2,
      FieldInfo_Equals (some (IntFieldInfo_at addr)) (some (FloatFieldInfo_at addr2))
        = false) :=
  ⟨FieldInfo_Equals_present a b, FieldInfo_Equals_builtin⟩

/-- Counterexample to C24 as stated: for `FieldInfo_Equals` the descriptor
object `IntFieldInfo_at 1` equals the built-in integer descriptor, yet
`Matrix_Identity` puts 1 on the diagonal of a 2x2 matrix tagged with the built-in
one and 1065353216 (the bytes of `1.0f`) with the other; on `A = [[0,1],[1,0]]`,
`b = [1,2]` `Matrix_GaussSolve` writes `x = [2,1]` with the built-in one and
`x = [2,-1]` with the other; on `A = [[0]]`, `b = [3]` it reports
`MATRIX_ERROR_SINGULAR_MATRIX` with the built-in one and `MATRIX_OK` with the
other. -/
theorem Matrix_descriptor_instance_divergence :
    FieldInfo_Equals (some GetIntFieldInfo) (some (IntFieldInfo_at 1)) = true ∧
    (Matrix_Identity (some (Matrix.ofList GetIntFieldInfo 2 2 [5, 6, 7, 8]))).2.map Matrix.buf
      = some [1, 0, 0, 1] ∧
    (Matrix_Identity (some (Matrix.ofList (IntFieldInfo_at 1) 2 2 [5, 6, 7, 8]))).2.map
      Matrix.buf = some [1065353216, 0, 0, 1065353216] ∧
    (Matrix_GaussSolve true
      (some (Matrix.ofList GetIntFieldInfo 2 2 [0, 1, 1, 0]))
      (some (Matrix.ofList GetIntFieldInfo 2 1 [1, 2]))
      (some (Matrix.ofList GetIntFieldInfo 2 1 [0, 0]))).2.map Matrix.buf = some [2, 1] ∧
    (Matrix_GaussSolve true
      (some (Matrix.ofList (IntFieldInfo_at 1) 2 2 [0, 1, 1, 0]))
      (some (Matrix.ofList (IntFieldInfo_at 1) 2 1 [1, 2]))
      (some (Matrix.ofList (IntFieldInfo_at 1) 2 1 [0, 0]))).2.map Matrix.buf
      = some [2, -1] ∧
    (Matrix_GaussSolve true
      (some (Matrix.ofList GetIntFieldInfo 1 1 [0]))
      (some (Matrix.ofList GetIntFieldInfo 1 1 [3]))
      (some (Matrix.ofList GetIntFieldInfo 1 1 [9]))).1 = MATRIX_ERROR_SINGULAR_MATRIX ∧
    (Matrix_GaussSolve true
      (some (Matrix.ofList (IntFieldInfo_at 1) 1 1 [0]))
      (some (Matrix.ofList (IntFieldInfo_at 1) 1 1 [3]))
      (some (Matrix.ofList (IntFieldInfo_at 1) 1 1 [9]))).1 = MATRIX_OK := by
  decide

/-- C25: division by an exact-zero divisor is a no-op: for the integer
descriptor and for the float descriptor (in exact arithmetic and in binary32),
`div(result, x, y)` with `y` zero leaves `result` with the value it had, for
every `x` and every prior `result`. -/
theorem div_by_zero_noop :
    (∀ result x : Int, GetIntFieldInfo.div result x 0 = result) ∧
    (∀ result x : ℚ, GetFloatFieldInfo.div result x 0 = result) ∧
    (∀ result x : ℚ, GetFloatFieldInfo_binary32.div result x 0 = result) :=
  ⟨fun r x => IntDivider_zero r x, fun r x => FloatDivider_zero r x,
    fun r x => FloatDivider_binary32_zero r x⟩

/-- C26: status/result agreement: for `Matrix_Add`, `Matrix_Multiply`,
`Matrix_ScalarMultiply`, `Matrix_AddLinearCombination` and `Matrix_Clone`, on
every input, the returned matrix is null if and only if the reported status is
not `MATRIX_OK`. -/
theorem status_result_agreement {α : Type} [Zero α] (alloc : Bool) (a b : Option (Matrix α))
    (scalar : Option α) (row_idx : Nat) (alphas : Option (List α)) :
    ((Matrix_Add alloc a b).1 = none ↔ (Matrix_Add alloc a b).2 ≠ MATRIX_OK) ∧
    ((Matrix_Multiply alloc a b).1 = none ↔ (Matrix_Multiply alloc a b).2 ≠ MATRIX_OK) ∧
    ((Matrix_ScalarMultiply alloc a scalar).1 = none ↔
      (Matrix_ScalarMultiply alloc a scalar).2 ≠ MATRIX_OK) ∧
    ((Matrix_AddLinearCombination alloc a row_idx alphas).1 = none ↔
      (Matrix_AddLinearCombination alloc a row_idx alphas).2 ≠ MATRIX_OK) ∧
    ((Matrix_Clone alloc a).1 = none ↔ (Matrix_Clone alloc a).2 ≠ MATRIX_OK) := by
  refine ⟨(result_cases _ (Matrix_Add_result alloc a b)).1,
    (result_cases _ (Matrix_Multiply_result alloc a b)).1,
    (result_cases _ (Matrix_ScalarMultiply_result alloc a scalar)).1,
    (result_cases _ (Matrix_AddLinearCombination_result alloc a row_idx alphas)).1, ?_⟩
  rcases Matrix_Clone_result alloc a with ⟨r, hr, _, _⟩ | ⟨e, he, hr⟩
  · rw [hr]; simp
  · rw [hr]; simp [he]

/-- Row-major layout of a well-formed matrix: cell `(r, c)` is at position
`r * cols + c`, inside the buffer, and distinct cells are at distinct
positions. -/
theorem wellFormed_row_major {α : Type} [Zero α] (m : Matrix α) (hm : WellFormed m)
    (r c : Nat) (hr : r < m.rows) (hc : c < m.cols) :
    matrix_index m r c = r * m.cols + c ∧ matrix_index m r c < m.buf.length ∧
      matrix_element m r c = peek m.buf (r * m.cols + c) ∧
      ∀ r2 c2, r2 < m.rows → c2 < m.cols → matrix_index m r2 c2 = matrix_index m r c →
        r2 = r ∧ c2 = c := by
  refine ⟨rfl, ?_, rfl, ?_⟩
  · rw [wellFormed_buf hm]
    exact index_lt hr hc
  · intro r2 c2 _ hc2 he
    exact index_inj hc2 hc he

/-- C29, the code at the failing input: `A = [[1,1],[INT_MIN,1]]`, `b = [1,1]`,
working matrix `[[1,1,1],[INT_MIN,1,1]]`.  At step 0 the pivot search keeps row 0
(the negation of `INT_MIN` wraps to `INT_MIN`, which is not greater than 1), the
swap moves nothing, and the entry 1 in position `(0,0)` is smaller in absolute
value than the entry `INT_MIN` of row 1. -/
theorem gauss_find_pivot_int_min_skipped :
    gauss_copy (Matrix.ofList GetIntFieldInfo 2 2 [1, 1, -2147483648, 1])
      (Matrix.ofList GetIntFieldInfo 2 1 [1, 1]) 2 3 (List.replicate 6 0)
      = [1, 1, 1, -2147483648, 1, 1] ∧
    gauss_find_pivot GetIntFieldInfo 2 3 0 [1, 1, 1, -2147483648, 1, 1] = 0 ∧
    gauss_swap_rows 2 3 0 (gauss_find_pivot GetIntFieldInfo 2 3 0
      [1, 1, 1, -2147483648, 1, 1]) [1, 1, 1, -2147483648, 1, 1]
      = [1, 1, 1, -2147483648, 1, 1] ∧
    |load 3 [1, 1, 1, -2147483648, 1, 1] 0 0| < |load 3 [1, 1, 1, -2147483648, 1, 1] 1 0| ∧
    pivot_exceeds GetIntFieldInfo.ptr (-2147483648) 1 = false := by
  decide

/-- C30, the code at the failing input: `A = [[0,1],[INT_MIN,1]]`, `b = [1,1]`.
Column 0 holds the non-zero entry `INT_MIN` in row 1, yet the pivot selected at
step 0 is the zero of row 0 and the call returns
`MATRIX_ERROR_SINGULAR_MATRIX`. -/
theorem Matrix_GaussSolve_int_min_singular :
    matrix_element (Matrix.ofList GetIntFieldInfo 2 2 [0, 1, -2147483648, 1]) 1 0 ≠ 0 ∧
    gauss_find_pivot GetIntFieldInfo 2 3 0 [0, 1, 1, -2147483648, 1, 1] = 0 ∧
    (Matrix_GaussSolve true
      (some (Matrix.ofList GetIntFieldInfo 2 2 [0, 1, -2147483648, 1]))
      (some (Matrix.ofList GetIntFieldInfo 2 1 [1, 1]))
      (some (Matrix.ofList GetIntFieldInfo 2 1 [0, 0]))).1 = MATRIX_ERROR_SINGULAR_MATRIX := by
  decide

section
attribute [local semireducible] Rat.add Rat.mul Rat.inv Rat.sub
set_option maxRecDepth 8192

/-- C28: solving the float copy of the integer system
`A = [[2,1,-1],[1,3,2],[3,2,-3]]`, `b = [7,11,9]` with `Matrix_GaussSolve`, every
float operation rounding to binary32, returns `MATRIX_OK`; the computed solution
is `(3.5, 1.5 - 2^-23, 1.5 + 2^-23)`, and `(int)(v + 0.5f)` on each component
yields `[4, 1, 2]`. -/
theorem Matrix_GaussSolve_float_copy_rounded :
    (Matrix_GaussSolve true
      (some (Matrix.ofList GetFloatFieldInfo_binary32 3 3
        ([2, 1, -1, 1, 3, 2, 3, 2, -3].map int_to_float)))
      (some (Matrix.ofList GetFloatFieldInfo_binary32 3 1 ([7, 11, 9].map int_to_float)))
      (some (Matrix.ofList GetFloatFieldInfo_binary32 3 1 [0, 0, 0]))).1 = MATRIX_OK ∧
    (Matrix_GaussSolve true
      (some (Matrix.ofList GetFloatFieldInfo_binary32 3 3
        ([2, 1, -1, 1, 3, 2, 3, 2, -3].map int_to_float)))
      (some (Matrix.ofList GetFloatFieldInfo_binary32 3 1 ([7, 11, 9].map int_to_float)))
      (some (Matrix.ofList GetFloatFieldInfo_binary32 3 1 [0, 0, 0]))).2.map Matrix.buf
      = some [7 / 2, 3 / 2 - 1 / 2 ^ 23, 3 / 2 + 1 / 2 ^ 23] ∧
    (Matrix_GaussSolve true
      (some (Matrix.ofList GetFloatFieldInfo_binary32 3 3
        ([2, 1, -1, 1, 3, 2, 3, 2, -3].map int_to_float)))
      (some (Matrix.ofList GetFloatFieldInfo_binary32 3 1 ([7, 11, 9].map int_to_float)))
      (some (Matrix.ofList GetFloatFieldInfo_binary32 3 1 [0, 0, 0]))).2.map
        (fun x => x.buf.map round_to_int) = some [4, 1, 2] := by
  decide

end

/-! ## Integer cells stay in the range of `int` -/

theorem wrap32_range (v : Int) : int_range (wrap32 v) := by
  unfold wrap32 int_range
  have h1 := Int.emod_nonneg (v + 2 ^ 31) (by norm_num : (2 : Int) ^ 32 ≠ 0)
  have h2 := Int.emod_lt_of_pos (v + 2 ^ 31) (by norm_num : (0 : Int) < 2 ^ 32)
  constructor <;> omega

theorem wrap32_id (v : Int) (h : int_range v) : wrap32 v = v :=
  wrap32_of_range v h.1 h.2

theorem int_range_zero : int_range 0 := by decide

theorem peek_int_range (buf : List Int) (h : int_cells buf) (i : Nat) :
    int_range (peek buf i) := by
  unfold peek
  rw [List.getD_eq_getElem?_getD]
  cases hi : buf[i]? with
  | none => simpa using int_range_zero
  | some v =>
    have hm : v ∈ buf := List.getElem?_mem hi
    simpa using h v hm

theorem load_int_range (w : Nat) (buf : List Int) (h : int_cells buf) (i j : Nat) :
    int_range (load w buf i j) :=
  peek_int_range buf h _

theorem poke_int_cells (buf : List Int) (h : int_cells buf) (i : Nat) (v : Int)
    (hv : int_range v) : int_cells (poke buf i v) := by
  intro u hu
  unfold poke at hu
  rcases List.mem_or_eq_of_mem_set hu with h1 | h1
  · exact h u h1
  · rw [h1]; exact hv

theorem store_int_cells (w : Nat) (buf : List Int) (h : int_cells buf) (i j : Nat) (v : Int)
    (hv : int_range v) : int_cells (store w buf i j v) :=
  poke_int_cells buf h _ v hv

theorem replicate_int_cells (n : Nat) : int_cells (List.replicate n 0) := by
  intro v hv
  rw [List.eq_of_mem_replicate hv]
  exact int_range_zero

/-- A loop whose body keeps a property of the state keeps it. -/
theorem forLoop_preserves {σ : Type} (P : σ → Prop) (body : Nat → σ → σ)
    (hb : ∀ i s, P s → P (body i s)) (lo hi : Nat) (s : σ) (hs : P s) :
    P (forLoop lo hi body s) := by
  by_cases hle : lo ≤ hi
  · exact forLoop_induction (fun _ s => P s) body lo hi s hle hs (fun j t _ _ ht => hb j t ht)
  · rw [forLoop_empty body lo hi s (by omega)]
    exact hs

/-- Two loops whose bodies agree on the states that satisfy an invariant of the
first compute the same state. -/
theorem loopFrom_congr {σ : Type} (P : σ → Prop) (body body2 : Nat → σ → σ)
    (hb : ∀ i s, P s → P (body i s)) (he : ∀ i s, P s → body i s = body2 i s) :
    ∀ (n i : Nat) (s : σ), P s → loopFrom body i n s = loopFrom body2 i n s := by
  intro n
  induction n with
  | zero => intro i s _; rfl
  | succ n ih =>
    intro i s hs
    show loopFrom body (i + 1) n (body i s) = loopFrom body2 (i + 1) n (body2 i s)
    rw [← he i s hs]
    exact ih (i + 1) (body i s) (hb i s hs)

theorem forLoop_congr {σ : Type} (P : σ → Prop) (body body2 : Nat → σ → σ)
    (hb : ∀ i s, P s → P (body i s)) (he : ∀ i s, P s → body i s = body2 i s)
    (lo hi : Nat) (s : σ) (hs : P s) : forLoop lo hi body s = forLoop lo hi body2 s :=
  loopFrom_congr P body body2 hb he (hi - lo) lo s hs

theorem gauss_copy_int_cells (a b : Matrix Int) (n w : Nat) (aug : List Int)
    (ha : int_cells a.buf) (hb : int_cells b.buf) (h : int_cells aug) :
    int_cells (gauss_copy a b n w aug) := by
  unfold gauss_copy
  apply forLoop_preserves int_cells _ _ 0 n aug h
  intro i s hs
  apply store_int_cells
  · apply forLoop_preserves int_cells _ _ 0 n s hs
    intro j s2 hs2
    exact store_int_cells _ _ hs2 _ _ _ (peek_int_range _ ha _)
  · exact peek_int_range _ hb _

theorem gauss_swap_rows_int_cells (n w k m : Nat) (aug : List Int) (h : int_cells aug) :
    int_cells (gauss_swap_rows n w k m aug) := by
  unfold gauss_swap_rows
  split
  · apply forLoop_preserves int_cells _ _ 0 (n + 1) aug h
    intro j s hs
    exact store_int_cells _ _
      (store_int_cells _ _ hs _ _ _ (load_int_range _ _ hs _ _)) _ _ _
      (load_int_range _ _ hs _ _)
  · exact h

theorem gauss_row_update_int_cells (n w k i : Nat) (f : Int) (aug : List Int)
    (h : int_cells aug) : int_cells (gauss_row_update GetIntFieldInfo n w k i f aug) := by
  unfold gauss_row_update
  apply forLoop_preserves int_cells _ _ k (n + 1) aug h
  intro j s hs
  exact store_int_cells _ _ hs _ _ _ (wrap32_range _)

theorem gauss_eliminate_int_cells (n w k : Nat) (aug : List Int) (h : int_cells aug) :
    int_cells (gauss_eliminate GetIntFieldInfo n w k aug) := by
  unfold gauss_eliminate
  apply forLoop_preserves int_cells _ _ (k + 1) n aug h
  intro i s hs
  show int_cells (if skip_zero_entry GetIntFieldInfo.ptr (load w s i k) = true then s
    else gauss_row_update GetIntFieldInfo n w k i _ s)
  split
  · exact hs
  · exact gauss_row_update_int_cells n w k i _ s hs

theorem gauss_forward_step_int_cells (n w k : Nat) (aug U : List Int) (h : int_cells aug)
    (hs : gauss_forward_step GetIntFieldInfo n w k aug = some U) : int_cells U := by
  unfold gauss_forward_step at hs
  by_cases c : pivot_is_singular GetIntFieldInfo.ptr
      (load w aug (gauss_find_pivot GetIntFieldInfo n w k aug) k) = true
  · simp [c] at hs
  · simp only [c, Bool.false_eq_true, if_false, Option.some.injEq] at hs
    rw [← hs]
    exact gauss_eliminate_int_cells n w k _ (gauss_swap_rows_int_cells n w k _ aug h)

/-- With a zero factor the integer row update writes back what each cell holds. -/
theorem gauss_row_update_int_zero (n w k i : Nat) (aug : List Int) (h : int_cells aug) :
    gauss_row_update GetIntFieldInfo n w k i 0 aug = aug := by
  unfold gauss_row_update
  have hc := forLoop_congr int_cells
    (fun j aug =>
      let temp := GetIntFieldInfo.mul 0 (load w aug k j)
      store w aug i j (GetIntFieldInfo.sub (load w aug i j) temp))
    (fun _ aug => aug)
    (fun j s hs => store_int_cells _ _ hs _ _ _ (wrap32_range _))
    (fun j s hs => by
      show store w s i j (IntSubtractor (load w s i j) (IntMultiplier 0 (load w s k j))) = s
      have e : IntSubtractor (load w s i j) (IntMultiplier 0 (load w s k j)) = load w s i j := by
        simp only [IntSubtractor, IntMultiplier, zero_mul, wrap32_zero, sub_zero]
        exact wrap32_id _ (load_int_range _ _ hs _ _)
      rw [e]
      exact poke_peek_same _ _)
    k (n + 1) aug h
  rw [hc]
  exact forLoop_preserves (fun s => s = aug) (fun _ s => s) (fun _ s hs => hs) k (n + 1) aug rfl

/-- The factor the integer elimination computes from a zero entry is zero. -/
theorem IntDivider_zero_dividend (p : Int) : IntDivider 0 0 p = 0 := by
  unfold IntDivider
  split
  · simp [wrap32_zero]
  · rfl

/-- On integer cells the elimination of a column does what the variant that
skips zero entries does. -/
theorem gauss_eliminate_int_skip (n w k : Nat) (aug : List Int) (h : int_cells aug) :
    gauss_eliminate GetIntFieldInfo n w k aug = gauss_eliminate_skip GetIntFieldInfo n w k aug := by
  unfold gauss_eliminate gauss_eliminate_skip
  apply forLoop_congr int_cells _ _ _ _ (k + 1) n aug h
  · intro i s hs
    show int_cells (if skip_zero_entry GetIntFieldInfo.ptr (load w s i k) = true then s
      else gauss_row_update GetIntFieldInfo n w k i _ s)
    split
    · exact hs
    · exact gauss_row_update_int_cells n w k i _ s hs
  · intro i s hs
    show (if skip_zero_entry GetIntFieldInfo.ptr (load w s i k) = true then s
        else gauss_row_update GetIntFieldInfo n w k i
          (GetIntFieldInfo.div (load w s i k) (load w s i k) (load w s k k)) s) =
      (if load w s i k = 0 then s
        else gauss_row_update GetIntFieldInfo n w k i
          (GetIntFieldInfo.div (load w s i k) (load w s i k) (load w s k k)) s)
    have hskip : skip_zero_entry GetIntFieldInfo.ptr (load w s i k) = false := rfl
    rw [hskip]
    simp only [Bool.false_eq_true, if_false]
    by_cases hz : load w s i k = 0
    · rw [if_pos hz, hz]
      show gauss_row_update GetIntFieldInfo n w k i (IntDivider 0 0 (load w s k k)) s = s
      rw [IntDivider_zero_dividend]
      exact gauss_row_update_int_zero n w k i s hs
    · rw [if_neg hz]

theorem gauss_forward_step_int_skip (n w k : Nat) (aug : List Int) (h : int_cells aug) :
    gauss_forward_step GetIntFieldInfo n w k aug =
      gauss_forward_step_skip GetIntFieldInfo n w k aug := by
  unfold gauss_forward_step gauss_forward_step_skip
  simp only []
  rw [gauss_eliminate_int_skip n w k _ (gauss_swap_rows_int_cells n w k _ aug h)]

theorem gauss_forward_int_skip (n w : Nat) (aug : List Int) (h : int_cells aug) :
    gauss_forward GetIntFieldInfo n w aug = gauss_forward_skip GetIntFieldInfo n w aug := by
  unfold gauss_forward gauss_forward_skip
  apply forLoop_congr (fun (st : Option (List Int)) => ∀ W, st = some W → int_cells W)
    _ _ _ _ 0 n (some aug)
  · intro W hW
    have e : aug = W := by simpa using hW
    rw [← e]; exact h
  · intro k st hst U hU
    cases st with
    | none => simp at hU
    | some V => exact gauss_forward_step_int_cells n w k V U (hst V rfl) (by simpa using hU)
  · intro k st hst
    cases st with
    | none => rfl
    | some V => exact gauss_forward_step_int_skip n w k V (hst V rfl)

/-- Integer kind: `Matrix_GaussSolve` returns the status and the `x` that the
variant skipping zero entries returns. -/
theorem gauss_int_skip_agrees (alloc : Bool) (a b x : Matrix Int)
    (hta : a.type = some GetIntFieldInfo) (ha : int_cells a.buf) (hb : int_cells b.buf) :
    Matrix_GaussSolve alloc (some a) (some b) (some x) =
      Matrix_GaussSolve_skip alloc (some a) (some b) (some x) := by
  cases htb : b.type with
  | none => simp [Matrix_GaussSolve, Matrix_GaussSolve_skip, hta, htb]
  | some tb =>
  cases htx : x.type with
  | none => simp [Matrix_GaussSolve, Matrix_GaussSolve_skip, hta, htb, htx]
  | some tx =>
  simp only [Matrix_GaussSolve, Matrix_GaussSolve_skip, hta, htb, htx]
  by_cases c0 : types_compatible a b = false ∨ types_compatible a x = false
  · rw [if_pos c0, if_pos c0]
  · rw [if_neg c0, if_neg c0]
    by_cases c1 : a.rows ≠ a.cols
    · rw [if_pos c1, if_pos c1]
    · rw [if_neg c1, if_neg c1]
      by_cases c2 : b.cols ≠ 1
      · rw [if_pos c2, if_pos c2]
      · rw [if_neg c2, if_neg c2]
        by_cases c3 : a.rows ≠ b.rows
        · rw [if_pos c3, if_pos c3]
        · rw [if_neg c3, if_neg c3]
          by_cases c4 : x.rows ≠ a.rows ∨ x.cols ≠ 1
          · rw [if_pos c4, if_pos c4]
          · rw [if_neg c4, if_neg c4]
            cases hc : Matrix_Create alloc a.rows (a.rows + 1) (some GetIntFieldInfo) with
            | none => rfl
            | some augmented =>
              have hbuf : int_cells augmented.buf := by
                by_cases c5 : a.rows = 0
                · simp [Matrix_Create, c5] at hc
                · cases alloc with
                  | false => simp [Matrix_Create, c5] at hc
                  | true =>
                    simp only [Matrix_Create, c5, false_or, Nat.add_one_ne_zero, if_false,
                      Bool.true_eq_false, Option.some.injEq] at hc
                    rw [← hc]
                    exact replicate_int_cells _
              simp only []
              rw [gauss_forward_int_skip a.rows augmented.cols _
                (gauss_copy_int_cells a b a.rows augmented.cols augmented.buf ha hb hbuf)]

/-! ## Matrix_Set writes one cell -/

theorem same_shape_wellFormed {α : Type} (m m2 : Matrix α) (hs : same_shape m m2)
    (hm : WellFormed m) : WellFormed m2 := by
  obtain ⟨h1, h2, h3, h4⟩ := hs
  refine ⟨by rw [h1]; exact hm.1, by rw [h2]; exact hm.2.1, by rw [h3]; exact hm.2.2.1, ?_⟩
  rw [h4, h1, h2]
  exact hm.2.2.2

/-- On a well-formed matrix `Matrix_Set` at a valid index succeeds, keeps the
shape, and leaves the cell of every other valid index as it was. -/
theorem Matrix_Set_frame {α : Type} [Zero α] (m : Matrix α) (hm : WellFormed m) (r c : Nat)
    (hr : r < m.rows) (hc : c < m.cols) (v : α) :
    ∃ m2, Matrix_Set (some m) r c (some v) = (MATRIX_OK, some m2) ∧ same_shape m m2 ∧
      ∀ r2 c2, r2 < m.rows → c2 < m.cols → ¬ (r2 = r ∧ c2 = c) →
        matrix_index m r2 c2 ≠ matrix_index m r c ∧
        matrix_element m2 r2 c2 = matrix_element m r2 c2 ∧
        ∀ o, Matrix_Get (some m2) r2 c2 (some o) = Matrix_Get (some m) r2 c2 (some o) := by
  obtain ⟨d, hd, hlen, hset⟩ := Matrix_Set_ok m hm r c hr hc v
  have hshape : same_shape m (Matrix.mk (some (poke d (matrix_index m r c) v))
      m.rows m.cols m.type) := ⟨rfl, rfl, rfl, by simp [hd, length_poke]⟩
  refine ⟨Matrix.mk (some (poke d (matrix_index m r c) v)) m.rows m.cols m.type, hset,
    hshape, ?_⟩
  intro r2 c2 hr2 hc2 hne
  have hidx : matrix_index m r c ≠ matrix_index m r2 c2 := by
    intro e
    have := index_inj hc hc2 e
    exact hne ⟨this.1.symm, this.2.symm⟩
  have hel : matrix_element (Matrix.mk (some (poke d (matrix_index m r c) v))
      m.rows m.cols m.type) r2 c2 = matrix_element m r2 c2 := by
    simp only [matrix_element, Matrix.buf, hd, Option.getD_some]
    exact peek_poke_ne d _ _ v hidx
  refine ⟨fun e => hidx e.symm, hel, ?_⟩
  intro o
  rw [Matrix_Get_ok _ (same_shape_wellFormed m _ hshape hm) r2 c2 hr2 hc2 o,
    Matrix_Get_ok m hm r2 c2 hr2 hc2 o, hel]

/-! ## Matrix_AddLinearCombination does not read the coefficient of the target row -/

theorem linear_combination_sum_congr {α : Type} [Zero α] (t : FieldInfo α) (m : Matrix α)
    (al al2 : List α) (row_idx j : Nat)
    (hal : ∀ k, k < m.rows → k ≠ row_idx → peek al k = peek al2 k) :
    linear_combination_sum t m al row_idx j = linear_combination_sum t m al2 row_idx j := by
  rw [linear_combination_sum_eq, linear_combination_sum_eq]
  unfold weighted_sum
  apply List.foldl_ext
  intro acc k hk
  have hk2 := List.mem_filter.mp hk
  have h1 : k < m.rows := List.mem_range.mp hk2.1
  have h2 : k ≠ row_idx := by simpa using hk2.2
  rw [hal k h1 h2]

theorem linear_combination_cells_congr {α : Type} [Zero α] (t : FieldInfo α) (m : Matrix α)
    (al al2 : List α) (row_idx rc : Nat) (r : List α)
    (hal : ∀ k, k < m.rows → k ≠ row_idx → peek al k = peek al2 k) :
    linear_combination_cells t m al row_idx rc r =
      linear_combination_cells t m al2 row_idx rc r := by
  unfold linear_combination_cells
  have hf : (fun j => linear_combination_sum t m al row_idx j) =
      (fun j => linear_combination_sum t m al2 row_idx j) :=
    funext (fun j => linear_combination_sum_congr t m al al2 row_idx j hal)
  simp only [congrFun hf]

/-- Two coefficient arrays that agree at every row other than `row_idx` give the
same result and the same status. -/
theorem Matrix_AddLinearCombination_congr {α : Type} [Zero α] (alloc : Bool) (m : Matrix α)
    (row_idx : Nat) (al al2 : List α)
    (hal : ∀ k, k < m.rows → k ≠ row_idx → peek al k = peek al2 k) :
    Matrix_AddLinearCombination alloc (some m) row_idx (some al) =
      Matrix_AddLinearCombination alloc (some m) row_idx (some al2) := by
  have hc : ∀ (t : FieldInfo α) (rc : Nat) (r : List α),
      linear_combination_cells t m al row_idx rc r =
        linear_combination_cells t m al2 row_idx rc r :=
    fun t rc r => linear_combination_cells_congr t m al al2 row_idx rc r hal
  simp only [Matrix_AddLinearCombination, hc]

/-! ## Integer division truncates toward zero -/

/-- The truncating quotient: the remainder is smaller in absolute value than the
divisor and has the sign of the dividend. -/
theorem tdiv_toward_zero (x y : Int) (hy : y ≠ 0) :
    |x - y * Int.tdiv x y| < |y| ∧ 0 ≤ (x - y * Int.tdiv x y) * x := by
  have hnn : ∀ a b : Int, 0 ≤ a → 0 < b →
      0 ≤ a - b * Int.tdiv a b ∧ a - b * Int.tdiv a b < b := by
    intro a b ha hb
    rw [Int.tdiv_eq_ediv ha (le_of_lt hb), ← Int.emod_def]
    exact ⟨Int.emod_nonneg a (ne_of_gt hb), Int.emod_lt_of_pos a hb⟩
  rcases lt_or_gt_of_ne hy with hyn | hyp
  · rcases le_or_lt 0 x with hx | hx
    · obtain ⟨h1, h2⟩ := hnn x (-y) hx (by omega)
      rw [Int.tdiv_neg] at h1 h2
      have e : x - -y * -Int.tdiv x y = x - y * Int.tdiv x y := by ring
      rw [e] at h1 h2
      constructor
      · rw [abs_of_neg hyn, abs_of_nonneg (by linarith)]
        linarith
      · exact mul_nonneg (by linarith) hx
    · obtain ⟨h1, h2⟩ := hnn (-x) (-y) (by omega) (by omega)
      rw [Int.neg_tdiv_neg] at h1 h2
      constructor
      · rw [abs_of_neg hyn, abs_of_nonpos (by linarith)]
        linarith
      · exact mul_nonneg_of_nonpos_of_nonpos (by linarith) (le_of_lt hx)
  · rcases le_or_lt 0 x with hx | hx
    · obtain ⟨h1, h2⟩ := hnn x y hx hyp
      constructor
      · rw [abs_of_pos hyp, abs_of_nonneg h1]
        exact h2
      · exact mul_nonneg h1 hx
    · obtain ⟨h1, h2⟩ := hnn (-x) y (by omega) hyp
      rw [Int.neg_tdiv] at h1 h2
      constructor
      · rw [abs_of_pos hyp, abs_of_nonpos (by linarith)]
        linarith
      · exact mul_nonneg_of_nonpos_of_nonpos (by linarith) (le_of_lt hx)

/-- The truncating quotient of two `int` values is an `int` value, the quotient
`INT_MIN / -1` apart. -/
theorem tdiv_int_range (x y : Int) (hx : int_range x) (hy0 : y ≠ 0)
    (hov : ¬ (x = -2 ^ 31 ∧ y = -1)) : int_range (Int.tdiv x y) := by
  obtain ⟨x1, x2⟩ := hx
  have hq := Int.natAbs_tdiv x y
  have hdiv : (x.natAbs).div (y.natAbs) = x.natAbs / y.natAbs := rfl
  rw [hdiv] at hq
  by_cases h1 : y = 1
  · subst h1
    rw [Int.tdiv_one]
    exact ⟨x1, x2⟩
  · by_cases h2 : y = -1
    · subst h2
      have e : Int.tdiv x (-1) = -x := by
        rw [Int.tdiv_neg, Int.tdiv_one]
      rw [e]
      have hx3 : x ≠ -2 ^ 31 := fun e3 => hov ⟨e3, rfl⟩
      constructor <;> omega
    · have hy2 : 2 ≤ y.natAbs := by omega
      have hle : x.natAbs / y.natAbs ≤ x.natAbs / 2 := Nat.div_le_div_left hy2 (by omega)
      have hx4 : x.natAbs ≤ 2 ^ 31 := by omega
      have hq2 : (Int.tdiv x y).natAbs ≤ 2 ^ 30 := by
        rw [hq]
        omega
      constructor <;> omega

/-- `IntDivider` with a non-zero divisor writes the truncating quotient. -/
theorem IntDivider_tdiv (result x y : Int) (hx : int_range x) (hy0 : y ≠ 0)
    (hov : ¬ (x = -2 ^ 31 ∧ y = -1)) : IntDivider result x y = Int.tdiv x y := by
  unfold IntDivider
  rw [if_pos hy0]
  exact wrap32_id _ (tdiv_int_range x y hx hy0 hov)

/-- The integer solve of the 1x1 system `[[a]] x = [[c]]` with `a` non-zero. -/
theorem gauss_int_one_by_one (a c x0 : Int) (ha : a ≠ 0) :
    Matrix_GaussSolve true
        (some (Matrix.ofList GetIntFieldInfo 1 1 [a]))
        (some (Matrix.ofList GetIntFieldInfo 1 1 [c]))
        (some (Matrix.ofList GetIntFieldInfo 1 1 [x0])) =
      (MATRIX_OK, some (Matrix.ofList GetIntFieldInfo 1 1 [IntDivider c c a])) := by
  have hf : gauss_forward GetIntFieldInfo 1 2
      (gauss_copy (Matrix.ofList GetIntFieldInfo 1 1 [a]) (Matrix.ofList GetIntFieldInfo 1 1 [c])
        1 2 (List.replicate (1 * (1 + 1)) 0)) = some [a, c] := by
    simp [gauss_forward, gauss_copy, forLoop, loopFrom, gauss_forward_step, gauss_find_pivot,
      pivot_is_singular, gauss_swap_rows, gauss_eliminate, store, poke, load, peek,
      matrix_element, matrix_index, Matrix.buf, Matrix.ofList, GetIntFieldInfo, ha]
  have h := Matrix_GaussSolve_run_ok (Matrix.ofList GetIntFieldInfo 1 1 [a])
    (Matrix.ofList GetIntFieldInfo 1 1 [c]) (Matrix.ofList GetIntFieldInfo 1 1 [x0])
    GetIntFieldInfo GetIntFieldInfo GetIntFieldInfo [a, c] rfl rfl rfl rfl rfl Nat.one_pos
    rfl rfl rfl rfl rfl hf
  rw [h]
  simp [gauss_back_substitute, downLoop, gauss_back_row, forLoop, loopFrom, store, poke, load,
    peek, Matrix.ofList, GetIntFieldInfo]

/-! ## The integer identity matrix is neutral for the product -/

/-- Accumulating `f k * [k = j]` over `k = 0 .. n-1` in `int` arithmetic. -/
theorem fold_unit_right (f : Nat → Int) (j n : Nat) (hf : int_range (f j)) :
    (List.range n).foldl
      (fun acc k => IntAdder acc (IntMultiplier (f k) (if k = j then 1 else 0))) 0
      = if j < n then f j else 0 := by
  induction n with
  | zero => simp
  | succ n ih =>
    rw [List.range_succ, List.foldl_append, ih]
    simp only [List.foldl_cons, List.foldl_nil]
    by_cases e : n = j
    · subst e
      simp only [lt_irrefl, if_false, if_true, Nat.lt_succ_self, IntAdder, IntMultiplier,
        mul_one, zero_add]
      rw [wrap32_id _ hf, wrap32_id _ hf]
    · simp only [e, if_false, IntAdder, IntMultiplier, mul_zero, wrap32_zero, add_zero]
      by_cases hj : j < n
      · have hj2 : j < n + 1 := by omega
        rw [if_pos hj, if_pos hj2]
        exact wrap32_id _ hf
      · have hj2 : ¬ j < n + 1 := by omega
        rw [if_neg hj, if_neg hj2]
        exact wrap32_zero

/-- Accumulating `[i = k] * g k` over `k = 0 .. n-1` in `int` arithmetic. -/
theorem fold_unit_left (g : Nat → Int) (i n : Nat) (hg : int_range (g i)) :
    (List.range n).foldl
      (fun acc k => IntAdder acc (IntMultiplier (if i = k then 1 else 0) (g k))) 0
      = if i < n then g i else 0 := by
  induction n with
  | zero => simp
  | succ n ih =>
    rw [List.range_succ, List.foldl_append, ih]
    simp only [List.foldl_cons, List.foldl_nil]
    by_cases e : i = n
    · subst e
      simp only [lt_irrefl, if_false, if_true, Nat.lt_succ_self, IntAdder, IntMultiplier,
        one_mul, zero_add]
      rw [wrap32_id _ hg, wrap32_id _ hg]
    · simp only [e, if_false, IntAdder, IntMultiplier, zero_mul, wrap32_zero, add_zero]
      by_cases hi : i < n
      · have hi2 : i < n + 1 := by omega
        rw [if_pos hi, if_pos hi2]
        exact wrap32_id _ hg
      · have hi2 : ¬ i < n + 1 := by omega
        rw [if_neg hi, if_neg hi2]
        exact wrap32_zero

theorem matrix_element_int_range (m : Matrix Int) (h : int_cells m.buf) (i j : Nat) :
    int_range (matrix_element m i j) :=
  peek_int_range _ h _

/-- `Matrix_Identity` on a well-formed square matrix tagged with the built-in
integer descriptor: the returned matrix is well formed and holds 1 on the
diagonal and 0 elsewhere. -/
theorem Matrix_Identity_int (m : Matrix Int) (hm : WellFormed m)
    (ht : m.type = some GetIntFieldInfo) (hsq : m.rows = m.cols) :
    ∃ e, Matrix_Identity (some m) = (MATRIX_OK, some e) ∧ WellFormed e ∧
      e.rows = m.rows ∧ e.cols = m.cols ∧ e.type = some GetIntFieldInfo ∧
      ∀ i j, i < m.rows → j < m.rows → matrix_element e i j = if i = j then 1 else 0 := by
  obtain ⟨e, he, h1, h2, h3⟩ := Matrix_Identity_spec m hm hsq
  obtain ⟨e2, he2, hs⟩ := Matrix_Identity_shape m
  have ee : e2 = e := by
    rw [he] at he2
    exact (Option.some.inj he2).symm
  rw [ee] at hs
  have hwe : WellFormed e := same_shape_wellFormed m e hs hm
  refine ⟨e, he, hwe, h1, h2, by rw [hs.2.2.1, ht], ?_⟩
  intro i j hi hj
  have hg := h3 i j 0 hi hj
  rw [Matrix_Get_ok e hwe i j (by omega) (by omega) 0] at hg
  have hv := Option.some.inj (congrArg Prod.snd hg)
  rw [hv, ht]
  rfl

/-- The product of an integer matrix and the integer identity, on either side,
succeeds and has the elements of the matrix. -/
theorem Matrix_Multiply_identity_int (a ir ic : Matrix Int) (ha : WellFormed a)
    (hta : a.type = some GetIntFieldInfo) (hcells : int_cells a.buf)
    (hir : WellFormed ir) (htr : ir.type = some GetIntFieldInfo)
    (hrr : ir.rows = a.rows) (hrc : ir.cols = a.rows)
    (hic : WellFormed ic) (htc : ic.type = some GetIntFieldInfo)
    (hcr : ic.rows = a.cols) (hcc : ic.cols = a.cols)
    (her : ∀ i j, i < a.rows → j < a.rows → matrix_element ir i j = if i = j then 1 else 0)
    (hec : ∀ i j, i < a.cols → j < a.cols → matrix_element ic i j = if i = j then 1 else 0) :
    (∃ p, Matrix_Multiply true (some a) (some ic) = (some p, MATRIX_OK) ∧
      p.rows = a.rows ∧ p.cols = a.cols ∧
      ∀ i j o, i < a.rows → j < a.cols →
        Matrix_Get (some p) i j (some o) = (MATRIX_OK, some (matrix_element a i j))) ∧
    (∃ p, Matrix_Multiply true (some ir) (some a) = (some p, MATRIX_OK) ∧
      p.rows = a.rows ∧ p.cols = a.cols ∧
      ∀ i j o, i < a.rows → j < a.cols →
        Matrix_Get (some p) i j (some o) = (MATRIX_OK, some (matrix_element a i j))) := by
  constructor
  · have hty : types_compatible a ic = true := by
      simp [types_compatible, hta, htc, FieldInfo_Equals]
    obtain ⟨p, hp, p1, p2, p3⟩ :=
      Matrix_Multiply_spec a ic GetIntFieldInfo ha hic hta hty hcr.symm
    refine ⟨p, hp, p1, by rw [p2, hcc], ?_⟩
    intro i j o hi hj
    rw [p3 i j o hi (by omega)]
    have hpe : product_entry GetIntFieldInfo a ic i j = matrix_element a i j := by
      unfold product_entry
      have hfun : (List.range a.cols).foldl
          (fun acc k => GetIntFieldInfo.add acc
            (GetIntFieldInfo.mul (matrix_element a i k) (matrix_element ic k j))) 0
          = (List.range a.cols).foldl
          (fun acc k => IntAdder acc
            (IntMultiplier (matrix_element a i k) (if k = j then 1 else 0))) 0 := by
        apply List.foldl_ext
        intro acc k hk
        have hk2 : k < a.cols := List.mem_range.mp hk
        rw [hec k j hk2 hj]
        rfl
      rw [hfun, fold_unit_right (fun k => matrix_element a i k) j a.cols
        (matrix_element_int_range a hcells i j), if_pos hj]
    rw [hpe]
  · have hty : types_compatible ir a = true := by
      simp [types_compatible, hta, htr, FieldInfo_Equals]
    obtain ⟨p, hp, p1, p2, p3⟩ :=
      Matrix_Multiply_spec ir a GetIntFieldInfo hir ha htr hty hrc
    refine ⟨p, hp, by rw [p1, hrr], p2, ?_⟩
    intro i j o hi hj
    rw [p3 i j o (by omega) hj]
    have hpe : product_entry GetIntFieldInfo ir a i j = matrix_element a i j := by
      unfold product_entry
      have hfun : (List.range ir.cols).foldl
          (fun acc k => GetIntFieldInfo.add acc
            (GetIntFieldInfo.mul (matrix_element ir i k) (matrix_element a k j))) 0
          = (List.range a.rows).foldl
          (fun acc k => IntAdder acc
            (IntMultiplier (if i = k then 1 else 0) (matrix_element a k j))) 0 := by
        rw [hrc]
        apply List.foldl_ext
        intro acc k hk
        have hk2 : k < a.rows := List.mem_range.mp hk
        rw [her i k hi hk2]
        rfl
      rw [hfun, fold_unit_left (fun k => matrix_element a k j) i a.rows
        (matrix_element_int_range a hcells i j), if_pos hi]
    rw [hpe]

/-! ## The divisors of the integer solve -/

theorem gauss_eliminate_upto_full {α : Type} [Zero α] (t : FieldInfo α) (n w k : Nat)
    (aug : List α) : gauss_eliminate_upto t n w k n aug = gauss_eliminate t n w k aug := rfl

/-- Inside the elimination of column `k`, the pivot row and the rows not yet
processed hold what they held after the swap. -/
theorem gauss_eliminate_upto_rows {α : Type} [Zero α] (t : FieldInfo α) (n k i : Nat)
    (aug : List α) (hlen : aug.length = n * (n + 1)) (hk : k < n) (hki : k < i) (hin : i ≤ n) :
    (gauss_eliminate_upto t n (n + 1) k i aug).length = n * (n + 1) ∧
      ∀ i2 j, i2 < n → j ≤ n → (i2 ≤ k ∨ i ≤ i2) →
        load (n + 1) (gauss_eliminate_upto t n (n + 1) k i aug) i2 j = load (n + 1) aug i2 j := by
  have h := forLoop_induction
    (fun (i : Nat) (r : List α) => r.length = n * (n + 1) ∧
      ∀ i2 j, i2 < n → j ≤ n → (i2 ≤ k ∨ i ≤ i2) → load (n + 1) r i2 j = load (n + 1) aug i2 j)
    (fun i aug =>
      let elem_i_k := load (n + 1) aug i k
      if skip_zero_entry t.ptr elem_i_k then aug
      else
        let factor := elem_i_k
        let pivot := load (n + 1) aug k k
        let factor := t.div factor factor pivot
        gauss_row_update t n (n + 1) k i factor aug)
    (k + 1) i aug (by omega) ⟨hlen, fun _ _ _ _ _ => rfl⟩
    (by
      intro i1 r h1 h2 ⟨hl, hrows⟩
      show (if skip_zero_entry t.ptr (load (n + 1) r i1 k) = true then r
          else gauss_row_update t n (n + 1) k i1 _ r).length = n * (n + 1) ∧
        ∀ i2 j, i2 < n → j ≤ n → (i2 ≤ k ∨ i1 + 1 ≤ i2) →
          load (n + 1) (if skip_zero_entry t.ptr (load (n + 1) r i1 k) = true then r
            else gauss_row_update t n (n + 1) k i1 _ r) i2 j = load (n + 1) aug i2 j
      split
      · exact ⟨hl, fun i2 j hi2 hj hc => hrows i2 j hi2 hj (by omega)⟩
      · obtain ⟨u1, u2⟩ := gauss_row_update_spec t n k i1
          (t.div (load (n + 1) r i1 k) (load (n + 1) r i1 k) (load (n + 1) r k k)) r hl hk
          (by omega) (by omega)
        refine ⟨u1, ?_⟩
        intro i2 j hi2 hj hc
        rw [u2 i2 j hi2 hj]
        have hne : ¬ (i2 = i1 ∧ k ≤ j) := by omega
        rw [if_neg hne]
        exact hrows i2 j hi2 hj (by omega))
  exact h

/-- The working matrix at the start of every step has the size of the augmented
matrix. -/
theorem gauss_forward_upto_length {α : Type} [Zero α] (t : FieldInfo α) (n : Nat)
    (aug : List α) (hlen : aug.length = n * (n + 1)) :
    ∀ k, k ≤ n → ∀ W, gauss_forward_upto t n (n + 1) k aug = some W →
      W.length = n * (n + 1) := by
  intro k
  induction k with
  | zero =>
    intro _ W hW
    rw [gauss_forward_upto_zero] at hW
    rw [← Option.some.inj hW]
    exact hlen
  | succ k ih =>
    intro hk W hW
    rw [gauss_forward_upto_succ] at hW
    cases hV : gauss_forward_upto t n (n + 1) k aug with
    | none => rw [hV] at hW; simp at hW
    | some V =>
      rw [hV] at hW
      have hstep : gauss_forward_step t n (n + 1) k V = some W := by simpa using hW
      obtain ⟨m, _, _, _, hl, _⟩ :=
        gauss_forward_step_spec t n k V W (ih (by omega) V hV) (by omega) hstep
      exact hl

/-- Integer kind: when step `k` begins, the diagonal entries of the rows above
row `k` are non-zero. -/
theorem gauss_forward_upto_int_diagonal (n : Nat) (aug : List Int)
    (hlen : aug.length = n * (n + 1)) :
    ∀ k, k ≤ n → ∀ W, gauss_forward_upto GetIntFieldInfo n (n + 1) k aug = some W →
      ∀ i, i < k → load (n + 1) W i i ≠ 0 := by
  intro k
  induction k with
  | zero => intro _ W _ i hi; omega
  | succ k ih =>
    intro hk W hW i hi
    rw [gauss_forward_upto_succ] at hW
    cases hV : gauss_forward_upto GetIntFieldInfo n (n + 1) k aug with
    | none => rw [hV] at hW; simp at hW
    | some V =>
      rw [hV] at hW
      have hstep : gauss_forward_step GetIntFieldInfo n (n + 1) k V = some W := by
        simpa using hW
      have hlV := gauss_forward_upto_length GetIntFieldInfo n aug hlen k (by omega) V hV
      obtain ⟨m, hm1, hm2, hns, _, hload⟩ :=
        gauss_forward_step_spec GetIntFieldInfo n k V W hlV (by omega) hstep
      rw [hload i i (by omega) (by omega)]
      have hno : ¬ (k < i ∧ k ≤ i ∧
          skip_zero_entry GetIntFieldInfo.ptr (load (n + 1) V (swap_index k m i) k) = false) := by
        omega
      unfold eliminated
      rw [if_neg hno]
      show load (n + 1) V (swap_index k m i) i ≠ 0
      by_cases e : i = k
      · rw [e, swap_index_self]
        exact int_pivot_nonzero _ hns
      · rw [swap_index_of_lt k m i (by omega) hm1]
        exact ih (by omega) V hV i (by omega)

/-- Integer kind: in a step that does not report a singular matrix, the pivot
read as divisor for each row is the non-zero pivot the search selected. -/
theorem gauss_step_int_pivot_divisor (n k : Nat) (W U : List Int)
    (hlen : W.length = n * (n + 1)) (hk : k < n)
    (hstep : gauss_forward_step GetIntFieldInfo n (n + 1) k W = some U) (i : Nat)
    (hki : k < i) (hin : i ≤ n) :
    load (n + 1) (gauss_eliminate_upto GetIntFieldInfo n (n + 1) k i
        (gauss_swap_rows n (n + 1) k (gauss_find_pivot GetIntFieldInfo n (n + 1) k W) W)) k k
      = load (n + 1) W (gauss_find_pivot GetIntFieldInfo n (n + 1) k W) k ∧
    load (n + 1) W (gauss_find_pivot GetIntFieldInfo n (n + 1) k W) k ≠ 0 := by
  obtain ⟨r1, r2⟩ := gauss_find_pivot_range GetIntFieldInfo n (n + 1) k W hk
  obtain ⟨s1, s2⟩ := gauss_swap_rows_spec n k
    (gauss_find_pivot GetIntFieldInfo n (n + 1) k W) W hlen hk r2
  obtain ⟨_, u2⟩ := gauss_eliminate_upto_rows GetIntFieldInfo n k i _ s1 hk hki hin
  constructor
  · rw [u2 k k hk (by omega) (Or.inl (Nat.le_refl k)), s2 k k hk (by omega), swap_index_self]
  · intro h0
    have hnone := (gauss_forward_step_int_none n (n + 1) k W).mpr h0
    rw [hnone] at hstep
    exact Option.noConfusion hstep

/-- A truncating quotient whose dividend is not larger in absolute value than
the divisor is -1, 0 or 1. -/
theorem tdiv_small (e p : Int) (hle : |e| ≤ |p|) :
    Int.tdiv e p = -1 ∨ Int.tdiv e p = 0 ∨ Int.tdiv e p = 1 := by
  have hq := Int.natAbs_tdiv e p
  have hdiv : (e.natAbs).div (p.natAbs) = e.natAbs / p.natAbs := rfl
  rw [hdiv] at hq
  have hle2 : e.natAbs ≤ p.natAbs := by
    have h1 := Int.abs_eq_natAbs e
    have h2 := Int.abs_eq_natAbs p
    omega
  have hq1 : e.natAbs / p.natAbs ≤ 1 := Nat.div_le_of_le_mul (by omega)
  omega

/-- Integer kind: in a step whose pivot column holds no `INT_MIN`, the entry
below the pivot read for row `i` is not larger in absolute value than the pivot,
and the factor computed from them is -1, 0 or 1. -/
theorem gauss_step_int_factor (n k : Nat) (W U : List Int)
    (hlen : W.length = n * (n + 1)) (hk : k < n)
    (hr : ∀ i, k ≤ i → i < n → negatable (load (n + 1) W i k))
    (hstep : gauss_forward_step GetIntFieldInfo n (n + 1) k W = some U) (i : Nat)
    (hki : k < i) (hin : i < n) :
    |load (n + 1) (gauss_eliminate_upto GetIntFieldInfo n (n + 1) k i
        (gauss_swap_rows n (n + 1) k (gauss_find_pivot GetIntFieldInfo n (n + 1) k W) W)) i k|
      ≤ |load (n + 1) (gauss_eliminate_upto GetIntFieldInfo n (n + 1) k i
        (gauss_swap_rows n (n + 1) k (gauss_find_pivot GetIntFieldInfo n (n + 1) k W) W)) k k| ∧
    (GetIntFieldInfo.div
        (load (n + 1) (gauss_eliminate_upto GetIntFieldInfo n (n + 1) k i
          (gauss_swap_rows n (n + 1) k (gauss_find_pivot GetIntFieldInfo n (n + 1) k W) W)) i k)
        (load (n + 1) (gauss_eliminate_upto GetIntFieldInfo n (n + 1) k i
          (gauss_swap_rows n (n + 1) k (gauss_find_pivot GetIntFieldInfo n (n + 1) k W) W)) i k)
        (load (n + 1) (gauss_eliminate_upto GetIntFieldInfo n (n + 1) k i
          (gauss_swap_rows n (n + 1) k (gauss_find_pivot GetIntFieldInfo n (n + 1) k W) W)) k k) = -1 ∨
      GetIntFieldInfo.div
        (load (n + 1) (gauss_eliminate_upto GetIntFieldInfo n (n + 1) k i
          (gauss_swap_rows n (n + 1) k (gauss_find_pivot GetIntFieldInfo n (n + 1) k W) W)) i k)
        (load (n + 1) (gauss_eliminate_upto GetIntFieldInfo n (n + 1) k i
          (gauss_swap_rows n (n + 1) k (gauss_find_pivot GetIntFieldInfo n (n + 1) k W) W)) i k)
        (load (n + 1) (gauss_eliminate_upto GetIntFieldInfo n (n + 1) k i
          (gauss_swap_rows n (n + 1) k (gauss_find_pivot GetIntFieldInfo n (n + 1) k W) W)) k k) = 0 ∨
      GetIntFieldInfo.div
        (load (n + 1) (gauss_eliminate_upto GetIntFieldInfo n (n + 1) k i
          (gauss_swap_rows n (n + 1) k (gauss_find_pivot GetIntFieldInfo n (n + 1) k W) W)) i k)
        (load (n + 1) (gauss_eliminate_upto GetIntFieldInfo n (n + 1) k i
          (gauss_swap_rows n (n + 1) k (gauss_find_pivot GetIntFieldInfo n (n + 1) k W) W)) i k)
        (load (n + 1) (gauss_eliminate_upto GetIntFieldInfo n (n + 1) k i
          (gauss_swap_rows n (n + 1) k (gauss_find_pivot GetIntFieldInfo n (n + 1) k W) W)) k k) = 1) := by
  obtain ⟨r1, r2⟩ := gauss_find_pivot_range GetIntFieldInfo n (n + 1) k W hk
  obtain ⟨s1, s2⟩ := gauss_swap_rows_spec n k
    (gauss_find_pivot GetIntFieldInfo n (n + 1) k W) W hlen hk r2
  obtain ⟨_, u2⟩ := gauss_eliminate_upto_rows GetIntFieldInfo n k i _ s1 hk hki (by omega)
  obtain ⟨d1, d2⟩ := gauss_step_int_pivot_divisor n k W U hlen hk hstep i hki (by omega)
  have hrow : load (n + 1) (gauss_eliminate_upto GetIntFieldInfo n (n + 1) k i
      (gauss_swap_rows n (n + 1) k (gauss_find_pivot GetIntFieldInfo n (n + 1) k W) W)) i k
      = load (n + 1) W
        (swap_index k (gauss_find_pivot GetIntFieldInfo n (n + 1) k W) i) k := by
    rw [u2 i k hin (by omega) (Or.inr (Nat.le_refl i)), s2 i k hin (by omega)]
  have hsi1 := swap_index_ge k (gauss_find_pivot GetIntFieldInfo n (n + 1) k W) i (by omega) r1
  have hsi2 := swap_index_lt n k (gauss_find_pivot GetIntFieldInfo n (n + 1) k W) i hk r2 hin
  have hmax := gauss_find_pivot_int_max n (n + 1) k W hk hr _ hsi1 hsi2
  rw [hrow, d1]
  refine ⟨hmax, ?_⟩
  have hq := tdiv_small _ _ hmax
  have hw : ∀ e p : Int, p ≠ 0 → (Int.tdiv e p = -1 ∨ Int.tdiv e p = 0 ∨ Int.tdiv e p = 1) →
      (GetIntFieldInfo.div e e p = -1 ∨ GetIntFieldInfo.div e e p = 0 ∨
        GetIntFieldInfo.div e e p = 1) := by
    intro e p hp hq
    show IntDivider e e p = -1 ∨ IntDivider e e p = 0 ∨ IntDivider e e p = 1
    unfold IntDivider
    rw [if_pos hp]
    rcases hq with h | h | h <;> rw [h] <;> simp [wrap32]
  exact hw _ _ d2 hq

/-! ## Solving against the integer identity -/

theorem gauss_copy_int_cells_of_elements (a b : Matrix Int) (n w : Nat) (aug : List Int)
    (ha : ∀ i j, i < n → j < n → int_range (matrix_element a i j))
    (hb : ∀ i, i < n → int_range (matrix_element b i 0)) (h : int_cells aug) :
    int_cells (gauss_copy a b n w aug) := by
  unfold gauss_copy
  refine forLoop_induction (fun _ s => int_cells s) _ 0 n aug (Nat.zero_le n) h ?_
  intro i s _ hi hs
  apply store_int_cells
  · refine forLoop_induction (fun _ s2 => int_cells s2) _ 0 n s (Nat.zero_le n) hs ?_
    intro j s2 _ hj hs2
    exact store_int_cells _ _ hs2 _ _ _ (ha i j hi hj)
  · exact hb i hi

/-- A column with 1 on the diagonal and 0 below it: the pivot search stays on
row `k`. -/
theorem gauss_find_pivot_int_unit (n w k : Nat) (aug : List Int)
    (hd : load w aug k k = 1) (hz : ∀ i, k < i → i < n → load w aug i k = 0) :
    gauss_find_pivot GetIntFieldInfo n w k aug = k := by
  unfold gauss_find_pivot
  by_cases hle : k + 1 ≤ n
  · refine forLoop_induction (fun _ (m : Nat) => m = k) _ (k + 1) n k hle rfl ?_
    intro i m hi1 hi2 hm
    show (if pivot_exceeds GetIntFieldInfo.ptr (load w aug i k) (load w aug m k) = true then i
      else m) = k
    rw [hm, hd, hz i (by omega) hi2]
    have hp : pivot_exceeds GetIntFieldInfo.ptr 0 1 = false := by decide
    rw [hp]
    rfl
  · exact forLoop_empty _ _ _ _ (by omega)

/-- A column with 0 below the diagonal: the integer elimination changes
nothing. -/
theorem gauss_eliminate_int_zero_column (n w k : Nat) (aug : List Int) (h : int_cells aug)
    (hz : ∀ i, k < i → i < n → load w aug i k = 0) :
    gauss_eliminate GetIntFieldInfo n w k aug = aug := by
  rw [gauss_eliminate_int_skip n w k aug h]
  unfold gauss_eliminate_skip
  by_cases hle : k + 1 ≤ n
  · refine forLoop_induction (fun _ (s : List Int) => s = aug) _ (k + 1) n aug hle rfl ?_
    intro i s hi1 hi2 hs
    show (if load w s i k = 0 then s else _) = aug
    rw [hs, if_pos (hz i (by omega) hi2)]
  · exact forLoop_empty _ _ _ _ (by omega)

theorem gauss_forward_step_int_unit (n w k : Nat) (aug : List Int) (h : int_cells aug)
    (hd : load w aug k k = 1) (hz : ∀ i, k < i → i < n → load w aug i k = 0) :
    gauss_forward_step GetIntFieldInfo n w k aug = some aug := by
  unfold gauss_forward_step
  simp only []
  rw [gauss_find_pivot_int_unit n w k aug hd hz, hd]
  have hp : pivot_is_singular GetIntFieldInfo.ptr (1 : Int) = false := by decide
  rw [hp]
  simp only [Bool.false_eq_true, if_false]
  have hs : gauss_swap_rows n w k k aug = aug := by simp [gauss_swap_rows]
  rw [hs, gauss_eliminate_int_zero_column n w k aug h hz]

/-- Forward elimination leaves a working matrix with a unit lower-triangular
left part as it is. -/
theorem gauss_forward_int_unit (n w : Nat) (aug : List Int) (h : int_cells aug)
    (hd : ∀ k, k < n → load w aug k k = 1)
    (hz : ∀ k i, k < i → i < n → load w aug i k = 0) :
    gauss_forward GetIntFieldInfo n w aug = some aug := by
  unfold gauss_forward
  refine forLoop_induction (fun _ (st : Option (List Int)) => st = some aug) _ 0 n (some aug)
    (Nat.zero_le n) rfl ?_
  intro k st _ hk hst
  rw [hst]
  exact gauss_forward_step_int_unit n w k aug h (hd k hk) (hz k)

/-- Back substitution through a row whose entries right of the diagonal are
zero leaves `x` as it is. -/
theorem gauss_back_row_int_zero (n w i : Nat) (aug xb : List Int)
    (hz : ∀ j, i < j → j < n → load w aug i j = 0) (hv : int_range (load 1 xb i 0)) :
    gauss_back_row GetIntFieldInfo n w 1 i aug xb = xb := by
  unfold gauss_back_row
  by_cases hle : i + 1 ≤ n
  · refine forLoop_induction (fun _ (s : List Int) => s = xb) _ (i + 1) n xb hle rfl ?_
    intro j s hj1 hj2 hs
    show store 1 s i 0 (IntSubtractor (load 1 s i 0)
      (IntMultiplier (load w aug i j) (load 1 s j 0))) = xb
    rw [hs, hz j (by omega) hj2]
    have e : IntSubtractor (load 1 xb i 0) (IntMultiplier 0 (load 1 xb j 0)) = load 1 xb i 0 := by
      simp only [IntSubtractor, IntMultiplier, zero_mul, wrap32_zero, sub_zero]
      exact wrap32_id _ hv
    rw [e]
    exact poke_peek_same _ _
  · exact forLoop_empty _ _ _ _ (by omega)

/-- Back substitution through the identity copies the right-hand side. -/
theorem gauss_back_substitute_int_unit (n : Nat) (aug xb : List Int) (hx : xb.length = n)
    (hd : ∀ i, i < n → load (n + 1) aug i i = 1)
    (hz : ∀ i j, i < j → j < n → load (n + 1) aug i j = 0)
    (hb : ∀ i, i < n → int_range (load (n + 1) aug i n)) :
    (gauss_back_substitute GetIntFieldInfo n (n + 1) 1 aug xb).length = n ∧
      ∀ i, i < n →
        load 1 (gauss_back_substitute GetIntFieldInfo n (n + 1) 1 aug xb) i 0
          = load (n + 1) aug i n := by
  have h := downLoop_induction
    (fun (i : Nat) (r : List Int) => r.length = n ∧
      ∀ i2, i ≤ i2 → i2 < n → load 1 r i2 0 = load (n + 1) aug i2 n)
    (fun i xbuf =>
      let xbuf := store 1 xbuf i 0 (load (n + 1) aug i n)
      let xbuf := gauss_back_row GetIntFieldInfo n (n + 1) 1 i aug xbuf
      store 1 xbuf i 0 (GetIntFieldInfo.div (load 1 xbuf i 0) (load 1 xbuf i 0)
        (load (n + 1) aug i i)))
    n xb ⟨hx, fun i2 h1 h2 => by omega⟩
    (by
      intro i r hi ⟨hl, hdone⟩
      have hidx : i * 1 + 0 < r.length := by rw [hl]; omega
      have hv : load 1 (store 1 r i 0 (load (n + 1) aug i n)) i 0 = load (n + 1) aug i n := by
        rw [load_store 1 r i 0 i 0 _ (by omega) (by omega) hidx]
        simp
      have hrow : gauss_back_row GetIntFieldInfo n (n + 1) 1 i aug
          (store 1 r i 0 (load (n + 1) aug i n)) = store 1 r i 0 (load (n + 1) aug i n) :=
        gauss_back_row_int_zero n (n + 1) i aug _ (hz i) (by rw [hv]; exact hb i hi)
      have hdiv : GetIntFieldInfo.div (load (n + 1) aug i n) (load (n + 1) aug i n) 1
          = load (n + 1) aug i n := by
        show IntDivider (load (n + 1) aug i n) (load (n + 1) aug i n) 1 = load (n + 1) aug i n
        unfold IntDivider
        rw [if_pos (by decide), Int.tdiv_one]
        exact wrap32_id _ (hb i hi)
      show (store 1 (gauss_back_row GetIntFieldInfo n (n + 1) 1 i aug
          (store 1 r i 0 (load (n + 1) aug i n))) i 0 _).length = n ∧
        ∀ i2, i ≤ i2 → i2 < n →
          load 1 (store 1 (gauss_back_row GetIntFieldInfo n (n + 1) 1 i aug
            (store 1 r i 0 (load (n + 1) aug i n))) i 0 _) i2 0 = load (n + 1) aug i2 n
      rw [hrow, hv, hd i hi, hdiv]
      have hidx2 : i * 1 + 0 < (store 1 r i 0 (load (n + 1) aug i n)).length := by
        rw [length_store]; exact hidx
      refine ⟨by rw [length_store, length_store, hl], ?_⟩
      intro i2 h1 h2
      rw [load_store 1 _ i 0 i2 0 _ (by omega) (by omega) hidx2]
      by_cases e : i2 = i
      · simp [e]
      · have hne : ¬ (i2 = i ∧ 0 = 0) := by omega
        rw [if_neg hne, load_store 1 r i 0 i2 0 _ (by omega) (by omega) hidx, if_neg hne]
        exact hdone i2 (by omega) h2)
  unfold gauss_back_substitute
  exact ⟨h.1, fun i hi => h.2 i (Nat.zero_le i) hi⟩

/-- Solving against a well-formed integer matrix that holds the identity:
`MATRIX_OK`, and `x` holds the right-hand side. -/
theorem gauss_int_identity (e b x : Matrix Int)
    (he : WellFormed e) (hb : WellFormed b) (hx : WellFormed x)
    (hte : e.type = some GetIntFieldInfo)
    (hab : types_compatible e b = true) (hax : types_compatible e x = true)
    (hsq : e.rows = e.cols) (hbc : b.cols = 1) (hbr : b.rows = e.rows)
    (hxr : x.rows = e.rows) (hxc : x.cols = 1)
    (hid : ∀ i j, i < e.rows → j < e.rows → matrix_element e i j = if i = j then 1 else 0)
    (hcells : int_cells b.buf) :
    ∃ x2, Matrix_GaussSolve true (some e) (some b) (some x) = (MATRIX_OK, some x2) ∧
      x2.rows = x.rows ∧ x2.cols = x.cols ∧ x2.type = x.type ∧
      ∀ i o, i < e.rows →
        Matrix_Get (some x2) i 0 (some o) = (MATRIX_OK, some (matrix_element b i 0)) := by
  obtain ⟨tb, htb⟩ := wellFormed_type hb
  obtain ⟨tx, htx⟩ := wellFormed_type hx
  obtain ⟨xd, hxd, hxlen⟩ := wellFormed_data hx
  obtain ⟨c1, c2⟩ := gauss_copy_spec e b e.rows
    (List.replicate (e.rows * (e.rows + 1)) (0 : Int)) (by simp)
  have hel : ∀ i j, i < e.rows → j < e.rows → int_range (matrix_element e i j) := by
    intro i j hi hj
    rw [hid i j hi hj]
    split <;> decide
  have hcl : int_cells (gauss_copy e b e.rows (e.rows + 1)
      (List.replicate (e.rows * (e.rows + 1)) 0)) :=
    gauss_copy_int_cells_of_elements e b e.rows (e.rows + 1) _ hel
      (fun i _ => matrix_element_int_range b hcells i 0) (replicate_int_cells _)
  have hd : ∀ k, k < e.rows → load (e.rows + 1) (gauss_copy e b e.rows (e.rows + 1)
      (List.replicate (e.rows * (e.rows + 1)) 0)) k k = 1 := by
    intro k hk
    rw [c2 k k hk (by omega), if_pos hk, hid k k hk hk, if_pos rfl]
  have hz : ∀ i j, i ≠ j → i < e.rows → j < e.rows →
      load (e.rows + 1) (gauss_copy e b e.rows (e.rows + 1)
        (List.replicate (e.rows * (e.rows + 1)) 0)) i j = 0 := by
    intro i j hne hi hj
    rw [c2 i j hi (by omega), if_pos hj, hid i j hi hj, if_neg hne]
  have hrhs : ∀ i, i < e.rows → load (e.rows + 1) (gauss_copy e b e.rows (e.rows + 1)
      (List.replicate (e.rows * (e.rows + 1)) 0)) i e.rows = matrix_element b i 0 := by
    intro i hi
    rw [c2 i e.rows hi (by omega), if_neg (by omega)]
  have hf := gauss_forward_int_unit e.rows (e.rows + 1) _ hcl hd
    (fun k i hki hi => hz i k (by omega) hi (by omega))
  have hrun := Matrix_GaussSolve_run_ok e b x GetIntFieldInfo tb tx _ hte htb htx hab hax he.1
    hsq hbc hbr.symm hxr hxc hf
  have hxl : xd.length = e.rows := by rw [hxlen, hxr, hxc]; omega
  obtain ⟨s1, s2⟩ := gauss_back_substitute_int_unit e.rows _ xd hxl hd
    (fun i j hij hj => hz i j (by omega) (by omega) hj)
    (fun i hi => by rw [hrhs i hi]; exact matrix_element_int_range b hcells i 0)
  refine ⟨_, hrun, rfl, rfl, rfl, ?_⟩
  intro i o hi
  have hbnd : ¬ (i ≥ x.rows ∨ 0 ≥ 1) := by omega
  simp only [Matrix_Get, hxd, Option.map_some', htx, matrix_index, hxc]
  rw [if_neg hbnd]
  have h1 := s2 i hi
  have h2 := hrhs i hi
  unfold load at h1 h2
  rw [h1, h2]

theorem gauss_start_length {α : Type} [Zero α] (a b : Matrix α) :
    (gauss_start a b).length = a.rows * (a.rows + 1) :=
  (gauss_copy_spec a b a.rows (List.replicate (a.rows * (a.rows + 1)) (0 : α)) (by simp)).1

/-- Integer kind: the divisors of a solve that does not report a singular
matrix are non-zero. -/
theorem gauss_int_divisors (a b : Matrix Int) :
    (∀ k W U, k < a.rows →
      gauss_forward_upto GetIntFieldInfo a.rows (a.rows + 1) k (gauss_start a b) = some W →
      gauss_forward_step GetIntFieldInfo a.rows (a.rows + 1) k W = some U →
      ∀ i, k < i → i < a.rows →
        load (a.rows + 1) (gauss_row_state GetIntFieldInfo a.rows (a.rows + 1) k i W) k k ≠ 0) ∧
    (∀ U, gauss_forward GetIntFieldInfo a.rows (a.rows + 1) (gauss_start a b) = some U →
      ∀ i, i < a.rows → load (a.rows + 1) U i i ≠ 0) := by
  constructor
  · intro k W U hk hW hU i hki hin
    have hl := gauss_forward_upto_length GetIntFieldInfo a.rows (gauss_start a b)
      (gauss_start_length a b) k (by omega) W hW
    obtain ⟨d1, d2⟩ := gauss_step_int_pivot_divisor a.rows k W U hl hk hU i hki (by omega)
    unfold gauss_row_state
    rw [d1]
    exact d2
  · intro U hU i hi
    rw [← gauss_forward_upto_full] at hU
    exact gauss_forward_upto_int_diagonal a.rows (gauss_start a b) (gauss_start_length a b)
      a.rows (Nat.le_refl _) U hU i hi

/-- Integer kind: the factors of a step whose pivot column holds no `INT_MIN`. -/
theorem gauss_int_factors (a b : Matrix Int) (k : Nat) (W U : List Int) (hk : k < a.rows)
    (hW : gauss_forward_upto GetIntFieldInfo a.rows (a.rows + 1) k (gauss_start a b) = some W)
    (hU : gauss_forward_step GetIntFieldInfo a.rows (a.rows + 1) k W = some U)
    (hr : ∀ i, k ≤ i → i < a.rows → negatable (load (a.rows + 1) W i k))
    (i : Nat) (hki : k < i) (hin : i < a.rows) :
    |load (a.rows + 1) (gauss_row_state GetIntFieldInfo a.rows (a.rows + 1) k i W) i k|
      ≤ |load (a.rows + 1) (gauss_row_state GetIntFieldInfo a.rows (a.rows + 1) k i W) k k| ∧
    (gauss_factor GetIntFieldInfo a.rows (a.rows + 1) k i W = -1 ∨
      gauss_factor GetIntFieldInfo a.rows (a.rows + 1) k i W = 0 ∨
      gauss_factor GetIntFieldInfo a.rows (a.rows + 1) k i W = 1) := by
  have hl := gauss_forward_upto_length GetIntFieldInfo a.rows (gauss_start a b)
    (gauss_start_length a b) k (by omega) W hW
  exact gauss_step_int_factor a.rows k W U hl hk hr hU i hki hin

/-- `Matrix_GaussSolve` starts the forward loop from `gauss_start` and back
substitutes from what the loop leaves. -/
theorem Matrix_GaussSolve_ok_start {α : Type} [Zero α] (alloc : Bool) (a b x : Matrix α)
    (t : FieldInfo α) (hta : a.type = some t)
    (h : (Matrix_GaussSolve alloc (some a) (some b) (some x)).1 = MATRIX_OK) :
    ∃ U, gauss_forward t a.rows (a.rows + 1) (gauss_start a b) = some U ∧
      Matrix_GaussSolve alloc (some a) (some b) (some x) =
        (MATRIX_OK, some (Matrix.mk
          (Option.map (gauss_back_substitute t a.rows (a.rows + 1) 1 U) x.data)
          x.rows x.cols x.type)) := by
  obtain ⟨_, _, _, U, h1, h2⟩ := Matrix_GaussSolve_ok_inv alloc a b x t hta h
  exact ⟨U, h1, h2⟩

/-! ## Integer elimination, element frame, identity: the claims -/

/-- C31: the zero-skip affects only performance for the integer kind.  With
integer cells, the unskipped step on a row whose entry `(i,k)` is zero (factor
`0 / pivot`, then `row_i[j] -= factor * row_k[j]` for `j = k..n`) leaves the
working matrix as it is, and `Matrix_GaussSolve` on matrices tagged with the
built-in integer descriptor returns the status and the `x` of the variant that
skips such rows. -/
theorem Matrix_GaussSolve_int_zero_skip (alloc : Bool) (a b x : Matrix Int)
    (hta : a.type = some GetIntFieldInfo) (ha : int_cells a.buf) (hb : int_cells b.buf) :
    (∀ (n w k i : Nat) (aug : List Int) (pivot : Int), int_cells aug →
      gauss_row_update GetIntFieldInfo n w k i (GetIntFieldInfo.div 0 0 pivot) aug = aug) ∧
    Matrix_GaussSolve alloc (some a) (some b) (some x) =
      Matrix_GaussSolve_skip alloc (some a) (some b) (some x) := by
  refine ⟨?_, gauss_int_skip_agrees alloc a b x hta ha hb⟩
  intro n w k i aug pivot haug
  have e : GetIntFieldInfo.div 0 0 pivot = 0 := IntDivider_zero_dividend pivot
  rw [e]
  exact gauss_row_update_int_zero n w k i aug haug

/-- Witness for C31: `A = [[2,1],[0,3]]`, `b = [4,6]`, where entry `(1,0)` is
zero. -/
theorem Matrix_GaussSolve_int_zero_skip_witness :
    Matrix_GaussSolve true
        (some (Matrix.ofList GetIntFieldInfo 2 2 [2, 1, 0, 3]))
        (some (Matrix.ofList GetIntFieldInfo 2 1 [4, 6]))
        (some (Matrix.ofList GetIntFieldInfo 2 1 [0, 0])) =
      Matrix_GaussSolve_skip true
        (some (Matrix.ofList GetIntFieldInfo 2 2 [2, 1, 0, 3]))
        (some (Matrix.ofList GetIntFieldInfo 2 1 [4, 6]))
        (some (Matrix.ofList GetIntFieldInfo 2 1 [0, 0])) :=
  (Matrix_GaussSolve_int_zero_skip true
    (Matrix.ofList GetIntFieldInfo 2 2 [2, 1, 0, 3])
    (Matrix.ofList GetIntFieldInfo 2 1 [4, 6])
    (Matrix.ofList GetIntFieldInfo 2 1 [0, 0]) rfl (by decide) (by decide)).2

/-- C32: integer division truncates toward zero.  For the integer descriptor,
an `int` dividend `x` and a non-zero divisor `y` (the quotient `INT_MIN / -1`
excluded), `div` writes the quotient of `x` by `y` rounded toward zero: the
remainder is smaller than `y` in absolute value and has the sign of `x`
(`-7 / 2 = -3`); and `Matrix_GaussSolve` on the 1x1 integer system `A = [[y]]`,
`b = [[x]]` returns `MATRIX_OK` with that quotient in `x`, whatever `x` held. -/
theorem IntDivider_truncates (result x y : Int) (hx : int_range x) (hy0 : y ≠ 0)
    (hov : ¬ (x = -2 ^ 31 ∧ y = -1)) :
    GetIntFieldInfo.div result x y = Int.tdiv x y ∧
    |x - y * Int.tdiv x y| < |y| ∧ 0 ≤ (x - y * Int.tdiv x y) * x ∧
    GetIntFieldInfo.div result (-7) 2 = -3 ∧
    ∀ x0, Matrix_GaussSolve true
        (some (Matrix.ofList GetIntFieldInfo 1 1 [y]))
        (some (Matrix.ofList GetIntFieldInfo 1 1 [x]))
        (some (Matrix.ofList GetIntFieldInfo 1 1 [x0])) =
      (MATRIX_OK, some (Matrix.ofList GetIntFieldInfo 1 1 [Int.tdiv x y])) := by
  refine ⟨IntDivider_tdiv result x y hx hy0 hov, (tdiv_toward_zero x y hy0).1,
    (tdiv_toward_zero x y hy0).2,
    (IntDivider_tdiv result (-7) 2 (by decide) (by decide) (by decide)).trans (by decide), ?_⟩
  intro x0
  rw [gauss_int_one_by_one y x x0 hy0, IntDivider_tdiv x x y hx hy0 hov]

/-- Witness for C32: `-7 / 2`. -/
theorem IntDivider_truncates_witness :
    GetIntFieldInfo.div 0 (-7) 2 = Int.tdiv (-7) 2 :=
  (IntDivider_truncates 0 (-7) 2 (by decide) (by decide) (by decide)).1

/-- C33: `Matrix_Set` changes only the addressed element.  On a well-formed
matrix and a valid index `(r,c)` the call returns `MATRIX_OK`; rows, cols,
descriptor and buffer length are unchanged; every valid index `(r2,c2)` other
than `(r,c)` addresses another cell, and its element has the value it had
before. -/
theorem Matrix_Set_changes_one_element {α : Type} [Zero α] (m : Matrix α) (hm : WellFormed m)
    (r c : Nat) (hr : r < m.rows) (hc : c < m.cols) (v : α) :
    ∃ m2, Matrix_Set (some m) r c (some v) = (MATRIX_OK, some m2) ∧ same_shape m m2 ∧
      ∀ r2 c2, r2 < m.rows → c2 < m.cols → ¬ (r2 = r ∧ c2 = c) →
        matrix_index m r2 c2 ≠ matrix_index m r c ∧
        matrix_element m2 r2 c2 = matrix_element m r2 c2 ∧
        ∀ o, Matrix_Get (some m2) r2 c2 (some o) = Matrix_Get (some m) r2 c2 (some o) :=
  Matrix_Set_frame m hm r c hr hc v

/-- Witness for C33: setting element `(0,1)` of the integer matrix
`[[1,2],[3,4]]` to 9. -/
theorem Matrix_Set_changes_one_element_witness :
    ∃ m2, Matrix_Set (some (Matrix.ofList GetIntFieldInfo 2 2 [1, 2, 3, 4])) 0 1 (some 9)
        = (MATRIX_OK, some m2) ∧
      same_shape (Matrix.ofList GetIntFieldInfo 2 2 [1, 2, 3, 4]) m2 ∧
      ∀ r2 c2, r2 < (Matrix.ofList GetIntFieldInfo 2 2 [1, 2, 3, 4]).rows →
        c2 < (Matrix.ofList GetIntFieldInfo 2 2 [1, 2, 3, 4]).cols → ¬ (r2 = 0 ∧ c2 = 1) →
        matrix_index (Matrix.ofList GetIntFieldInfo 2 2 [1, 2, 3, 4]) r2 c2
          ≠ matrix_index (Matrix.ofList GetIntFieldInfo 2 2 [1, 2, 3, 4]) 0 1 ∧
        matrix_element m2 r2 c2
          = matrix_element (Matrix.ofList GetIntFieldInfo 2 2 [1, 2, 3, 4]) r2 c2 ∧
        ∀ o, Matrix_Get (some m2) r2 c2 (some o)
          = Matrix_Get (some (Matrix.ofList GetIntFieldInfo 2 2 [1, 2, 3, 4])) r2 c2 (some o) :=
  Matrix_Set_changes_one_element (Matrix.ofList GetIntFieldInfo 2 2 [1, 2, 3, 4]) (by decide)
    0 1 (by decide) (by decide) 9

/-- C34: `Matrix_AddLinearCombination` ignores the coefficient at the target
row: for every matrix and `row_idx`, two coefficient arrays that agree at every
index `k != row_idx` below `rows` give the same returned matrix and the same
status. -/
theorem Matrix_AddLinearCombination_ignores_target {α : Type} [Zero α] (alloc : Bool)
    (m : Matrix α) (row_idx : Nat) (al al2 : List α)
    (hal : ∀ k, k < m.rows → k ≠ row_idx → peek al k = peek al2 k) :
    Matrix_AddLinearCombination alloc (some m) row_idx (some al) =
      Matrix_AddLinearCombination alloc (some m) row_idx (some al2) :=
  Matrix_AddLinearCombination_congr alloc m row_idx al al2 hal

/-- Witness for C34: the integer matrix `[[1,2],[3,4]]`, target row 0, and the
coefficient arrays `[5,7]` and `[-8,7]`. -/
theorem Matrix_AddLinearCombination_ignores_target_witness :
    Matrix_AddLinearCombination true (some (Matrix.ofList GetIntFieldInfo 2 2 [1, 2, 3, 4])) 0
        (some [5, 7]) =
      Matrix_AddLinearCombination true (some (Matrix.ofList GetIntFieldInfo 2 2 [1, 2, 3, 4])) 0
        (some [-8, 7]) :=
  Matrix_AddLinearCombination_ignores_target true
    (Matrix.ofList GetIntFieldInfo 2 2 [1, 2, 3, 4]) 0 [5, 7] [-8, 7]
    (fun k hk hne => by
      have hk2 : k < 2 := hk
      have e : k = 1 := by omega
      rw [e]
      rfl)

/-- C35: the identity matrix is neutral for `Matrix_Multiply`.  For every
well-formed integer matrix `a` of shape `r x c` (built-in integer descriptor,
cells holding `int` values), with `ir` and `ic` the matrices `Matrix_Identity`
produces from an `r x r` and a `c x c` integer matrix, `Matrix_Multiply(a, ic)`
and `Matrix_Multiply(ir, a)` succeed (allocation succeeding) and return `r x c`
matrices whose elements are those of `a`. -/
theorem Matrix_Multiply_identity_neutral (a mr mc : Matrix Int) (ha : WellFormed a)
    (hta : a.type = some GetIntFieldInfo) (hcells : int_cells a.buf)
    (hmr : WellFormed mr) (htr : mr.type = some GetIntFieldInfo)
    (hrr : mr.rows = a.rows) (hrc : mr.cols = a.rows)
    (hmc : WellFormed mc) (htc : mc.type = some GetIntFieldInfo)
    (hcr : mc.rows = a.cols) (hcc : mc.cols = a.cols) :
    ∃ ir ic, Matrix_Identity (some mr) = (MATRIX_OK, some ir) ∧
      Matrix_Identity (some mc) = (MATRIX_OK, some ic) ∧
      (∃ p, Matrix_Multiply true (some a) (some ic) = (some p, MATRIX_OK) ∧
        p.rows = a.rows ∧ p.cols = a.cols ∧
        ∀ i j o, i < a.rows → j < a.cols →
          Matrix_Get (some p) i j (some o) = (MATRIX_OK, some (matrix_element a i j))) ∧
      (∃ p, Matrix_Multiply true (some ir) (some a) = (some p, MATRIX_OK) ∧
        p.rows = a.rows ∧ p.cols = a.cols ∧
        ∀ i j o, i < a.rows → j < a.cols →
          Matrix_Get (some p) i j (some o) = (MATRIX_OK, some (matrix_element a i j))) := by
  obtain ⟨ir, r1, r2, r3, r4, r5, r6⟩ := Matrix_Identity_int mr hmr htr (by rw [hrr, hrc])
  obtain ⟨ic, c1, c2, c3, c4, c5, c6⟩ := Matrix_Identity_int mc hmc htc (by rw [hcr, hcc])
  refine ⟨ir, ic, r1, c1, ?_⟩
  exact Matrix_Multiply_identity_int a ir ic ha hta hcells r2 r5 (by rw [r3, hrr])
    (by rw [r4, hrc]) c2 c5 (by rw [c3, hcr]) (by rw [c4, hcc])
    (fun i j hi hj => r6 i j (by omega) (by omega))
    (fun i j hi hj => c6 i j (by omega) (by omega))

/-- Witness for C35: the 1x2 integer matrix `[[3,-4]]`, with the identities
written over a 1x1 and a 2x2 integer matrix. -/
theorem Matrix_Multiply_identity_neutral_witness :
    ∃ ir ic, Matrix_Identity (some (Matrix.ofList GetIntFieldInfo 1 1 [7]))
        = (MATRIX_OK, some ir) ∧
      Matrix_Identity (some (Matrix.ofList GetIntFieldInfo 2 2 [9, 9, 9, 9]))
        = (MATRIX_OK, some ic) ∧
      (∃ p, Matrix_Multiply true (some (Matrix.ofList GetIntFieldInfo 1 2 [3, -4])) (some ic)
          = (some p, MATRIX_OK) ∧
        p.rows = (Matrix.ofList GetIntFieldInfo 1 2 [3, -4]).rows ∧
        p.cols = (Matrix.ofList GetIntFieldInfo 1 2 [3, -4]).cols ∧
        ∀ i j o, i < (Matrix.ofList GetIntFieldInfo 1 2 [3, -4]).rows →
          j < (Matrix.ofList GetIntFieldInfo 1 2 [3, -4]).cols →
          Matrix_Get (some p) i j (some o) =
            (MATRIX_OK, some (matrix_element (Matrix.ofList GetIntFieldInfo 1 2 [3, -4]) i j))) ∧
      (∃ p, Matrix_Multiply true (some ir) (some (Matrix.ofList GetIntFieldInfo 1 2 [3, -4]))
          = (some p, MATRIX_OK) ∧
        p.rows = (Matrix.ofList GetIntFieldInfo 1 2 [3, -4]).rows ∧
        p.cols = (Matrix.ofList GetIntFieldInfo 1 2 [3, -4]).cols ∧
        ∀ i j o, i < (Matrix.ofList GetIntFieldInfo 1 2 [3, -4]).rows →
          j < (Matrix.ofList GetIntFieldInfo 1 2 [3, -4]).cols →
          Matrix_Get (some p) i j (some o) =
            (MATRIX_OK, some (matrix_element (Matrix.ofList GetIntFieldInfo 1 2 [3, -4]) i j))) :=
  Matrix_Multiply_identity_neutral (Matrix.ofList GetIntFieldInfo 1 2 [3, -4])
    (Matrix.ofList GetIntFieldInfo 1 1 [7]) (Matrix.ofList GetIntFieldInfo 2 2 [9, 9, 9, 9])
    (by decide) rfl (by decide) (by decide) rfl rfl rfl (by decide) rfl rfl rfl

/-- C36: back substitution never divides by zero.  Integer kind (built-in
integer descriptor): in every step of the forward loop that does not report a
singular matrix, the pivot read as divisor for the factor of each row `i > k` is
non-zero; when the forward loop completes, every diagonal entry of the working
matrix, the divisors of back substitution, is non-zero; a call that returns
`MATRIX_OK` back-substitutes from such a working matrix; and with a non-zero
divisor `div` writes the truncated quotient of an `int` dividend (the
overflowing `INT_MIN / -1` apart), so the no-op on a zero divisor is never
taken. -/
theorem Matrix_GaussSolve_int_divisors_nonzero (alloc : Bool) (a b x : Matrix Int)
    (hta : a.type = some GetIntFieldInfo) :
    (∀ k W U, k < a.rows →
      gauss_forward_upto GetIntFieldInfo a.rows (a.rows + 1) k (gauss_start a b) = some W →
      gauss_forward_step GetIntFieldInfo a.rows (a.rows + 1) k W = some U →
      ∀ i, k < i → i < a.rows →
        load (a.rows + 1) (gauss_row_state GetIntFieldInfo a.rows (a.rows + 1) k i W) k k ≠ 0) ∧
    (∀ U, gauss_forward GetIntFieldInfo a.rows (a.rows + 1) (gauss_start a b) = some U →
      ∀ i, i < a.rows → load (a.rows + 1) U i i ≠ 0) ∧
    ((Matrix_GaussSolve alloc (some a) (some b) (some x)).1 = MATRIX_OK →
      ∃ U, gauss_forward GetIntFieldInfo a.rows (a.rows + 1) (gauss_start a b) = some U ∧
        Matrix_GaussSolve alloc (some a) (some b) (some x) =
          (MATRIX_OK, some (Matrix.mk
            (Option.map (gauss_back_substitute GetIntFieldInfo a.rows (a.rows + 1) 1 U) x.data)
            x.rows x.cols x.type)) ∧
        ∀ i, i < a.rows → load (a.rows + 1) U i i ≠ 0) ∧
    (∀ result v p : Int, int_range v → p ≠ 0 → ¬ (v = -2 ^ 31 ∧ p = -1) →
      GetIntFieldInfo.div result v p = Int.tdiv v p) := by
  refine ⟨(gauss_int_divisors a b).1, (gauss_int_divisors a b).2, ?_, ?_⟩
  · intro hok
    obtain ⟨U, h1, h2⟩ := Matrix_GaussSolve_ok_start alloc a b x GetIntFieldInfo hta hok
    exact ⟨U, h1, h2, (gauss_int_divisors a b).2 U h1⟩
  · intro result v p hv hp hov
    exact IntDivider_tdiv result v p hv hp hov

/-- Witness for C36: `A = [[0,1],[2,0]]`, `b = [3,4]`: the forward loop swaps the
rows and leaves `[[2,0,4],[0,1,3]]`, with diagonal entries 2 and 1. -/
theorem Matrix_GaussSolve_int_divisors_nonzero_witness :
    gauss_forward GetIntFieldInfo 2 3
        (gauss_start (Matrix.ofList GetIntFieldInfo 2 2 [0, 1, 2, 0])
          (Matrix.ofList GetIntFieldInfo 2 1 [3, 4])) = some [2, 0, 4, 0, 1, 3] ∧
      ∀ i, i < 2 → load 3 ([2, 0, 4, 0, 1, 3] : List Int) i i ≠ 0 :=
  ⟨by decide,
    (Matrix_GaussSolve_int_divisors_nonzero true (Matrix.ofList GetIntFieldInfo 2 2 [0, 1, 2, 0])
      (Matrix.ofList GetIntFieldInfo 2 1 [3, 4]) (Matrix.ofList GetIntFieldInfo 2 1 [0, 0])
      rfl).2.1 [2, 0, 4, 0, 1, 3] (by decide)⟩

/-- C38: solving against the identity returns the right-hand side.  For every
`n >= 1`, with `e` the matrix `Matrix_Identity` writes over a well-formed `n x n`
integer matrix, every well-formed integer `n x 1` vector `b` (cells holding `int`
values) and every well-formed integer `n x 1` vector `x`, `Matrix_GaussSolve(e,
b, x)` returns `MATRIX_OK` (allocation succeeding) and leaves `x[i] == b[i]` for
every `i`, whatever `x` held before the call. -/
theorem Matrix_GaussSolve_identity (m b x : Matrix Int)
    (hm : WellFormed m) (hb : WellFormed b) (hx : WellFormed x)
    (htm : m.type = some GetIntFieldInfo) (htb : b.type = some GetIntFieldInfo)
    (htx : x.type = some GetIntFieldInfo)
    (hsq : m.rows = m.cols) (hbc : b.cols = 1) (hbr : b.rows = m.rows)
    (hxr : x.rows = m.rows) (hxc : x.cols = 1) (hcells : int_cells b.buf) :
    ∃ e x2, Matrix_Identity (some m) = (MATRIX_OK, some e) ∧
      Matrix_GaussSolve true (some e) (some b) (some x) = (MATRIX_OK, some x2) ∧
      x2.rows = x.rows ∧ x2.cols = x.cols ∧
      ∀ i o, i < m.rows →
        Matrix_Get (some x2) i 0 (some o) = (MATRIX_OK, some (matrix_element b i 0)) ∧
        Matrix_Get (some x2) i 0 (some o) = Matrix_Get (some b) i 0 (some o) := by
  obtain ⟨e, e1, e2, e3, e4, e5, e6⟩ := Matrix_Identity_int m hm htm hsq
  have hab : types_compatible e b = true := by
    simp [types_compatible, e5, htb, FieldInfo_Equals]
  have hax : types_compatible e x = true := by
    simp [types_compatible, e5, htx, FieldInfo_Equals]
  obtain ⟨x2, g1, g2, g3, _, g5⟩ := gauss_int_identity e b x e2 hb hx e5 hab hax
    (by rw [e3, e4, hsq]) hbc (by rw [hbr, e3]) (by rw [hxr, e3]) hxc
    (fun i j hi hj => e6 i j (by omega) (by omega)) hcells
  refine ⟨e, x2, e1, g1, g2, g3, ?_⟩
  intro i o hi
  have h1 := g5 i o (by omega)
  refine ⟨h1, ?_⟩
  rw [h1, Matrix_Get_ok b hb i 0 (by omega) (by omega) o]

/-- Witness for C38: `n = 2`, the identity written over `[[9,9],[9,9]]`,
`b = [5,-7]`, `x` holding `[1,1]` before the call. -/
theorem Matrix_GaussSolve_identity_witness :
    ∃ e x2, Matrix_Identity (some (Matrix.ofList GetIntFieldInfo 2 2 [9, 9, 9, 9]))
        = (MATRIX_OK, some e) ∧
      Matrix_GaussSolve true (some e) (some (Matrix.ofList GetIntFieldInfo 2 1 [5, -7]))
        (some (Matrix.ofList GetIntFieldInfo 2 1 [1, 1])) = (MATRIX_OK, some x2) ∧
      x2.rows = (Matrix.ofList GetIntFieldInfo 2 1 [1, 1]).rows ∧
      x2.cols = (Matrix.ofList GetIntFieldInfo 2 1 [1, 1]).cols ∧
      ∀ i o, i < (Matrix.ofList GetIntFieldInfo 2 2 [9, 9, 9, 9]).rows →
        Matrix_Get (some x2) i 0 (some o) =
          (MATRIX_OK, some (matrix_element (Matrix.ofList GetIntFieldInfo 2 1 [5, -7]) i 0)) ∧
        Matrix_Get (some x2) i 0 (some o) =
          Matrix_Get (some (Matrix.ofList GetIntFieldInfo 2 1 [5, -7])) i 0 (some o) :=
  Matrix_GaussSolve_identity (Matrix.ofList GetIntFieldInfo 2 2 [9, 9, 9, 9])
    (Matrix.ofList GetIntFieldInfo 2 1 [5, -7]) (Matrix.ofList GetIntFieldInfo 2 1 [1, 1])
    (by decide) (by decide) (by decide) rfl rfl rfl rfl rfl rfl rfl rfl (by decide)

/-! ## Forward elimination in which every step is an exact row reduction -/

/-- A forward step that does not report a singular matrix: the pivot the search
selected passed the singularity test, and the working matrix afterwards is the
elimination of column `k` applied to the matrix with rows `k` and `max_row`
swapped. -/
theorem gauss_forward_step_run {α : Type} [Zero α] (t : FieldInfo α) (n k : Nat)
    (aug aug2 : List α) (hlen : aug.length = n * (n + 1)) (hk : k < n)
    (h : gauss_forward_step t n (n + 1) k aug = some aug2) :
    pivot_is_singular t.ptr (load (n + 1) aug (gauss_find_pivot t n (n + 1) k aug) k) = false ∧
      aug2.length = n * (n + 1) ∧
      ∀ i j, i < n → j ≤ n →
        load (n + 1) aug2 i j =
          eliminated t k (load (n + 1)
            (gauss_swap_rows n (n + 1) k (gauss_find_pivot t n (n + 1) k aug) aug)) i j := by
  unfold gauss_forward_step at h
  obtain ⟨_, hm2⟩ := gauss_find_pivot_range t n (n + 1) k aug hk
  by_cases hs : pivot_is_singular t.ptr
      (load (n + 1) aug (gauss_find_pivot t n (n + 1) k aug) k) = true
  · simp [hs] at h
  · have hs2 : pivot_is_singular t.ptr
        (load (n + 1) aug (gauss_find_pivot t n (n + 1) k aug) k) = false := by
      simpa using hs
    simp only [hs2, Bool.false_eq_true, if_false, Option.some.injEq] at h
    obtain ⟨s1, _⟩ := gauss_swap_rows_spec n k (gauss_find_pivot t n (n + 1) k aug) aug hlen hk hm2
    obtain ⟨e1, e2⟩ := gauss_eliminate_spec t n k _ s1 hk
    subst h
    exact ⟨hs2, e1, e2⟩

/-- One forward step, the cell in column `j` read as the rational `ι j`: when
the singularity test lets only non-zero pivots pass and the step subtracts from
every row `i > k` exactly `elem_i_k / pivot` times row `k`, the step keeps the
zeros below the diagonal, extends them to column `k`, keeps the diagonal
non-zero and keeps the solution set of the system. -/
theorem gauss_forward_step_exact {α : Type} [Zero α] (t : FieldInfo α) (ι : Nat → α → ℚ)
    (n k : Nat) (V U : List α) (hlen : V.length = n * (n + 1)) (hk : k < n)
    (hz : ∀ i j, j < k → j < i → i < n → ι j (load (n + 1) V i j) = 0)
    (hd : ∀ j, j < k → ι j (load (n + 1) V j j) ≠ 0)
    (hpiv : ∀ j p, j < n → pivot_is_singular t.ptr p = false → ι j p ≠ 0)
    (hex : ∀ i j, k < i → i < n → k ≤ j → j ≤ n →
      ι j (eliminated t k (load (n + 1)
          (gauss_swap_rows n (n + 1) k (gauss_find_pivot t n (n + 1) k V) V)) i j) =
        ι j (load (n + 1)
            (gauss_swap_rows n (n + 1) k (gauss_find_pivot t n (n + 1) k V) V) i j) -
          ι k (load (n + 1)
              (gauss_swap_rows n (n + 1) k (gauss_find_pivot t n (n + 1) k V) V) i k) /
            ι k (load (n + 1)
              (gauss_swap_rows n (n + 1) k (gauss_find_pivot t n (n + 1) k V) V) k k) *
            ι j (load (n + 1)
              (gauss_swap_rows n (n + 1) k (gauss_find_pivot t n (n + 1) k V) V) k j))
    (h : gauss_forward_step t n (n + 1) k V = some U) :
    U.length = n * (n + 1) ∧
      (∀ i j, j < k + 1 → j < i → i < n → ι j (load (n + 1) U i j) = 0) ∧
      (∀ j, j < k + 1 → ι j (load (n + 1) U j j) ≠ 0) ∧
      (∀ β x, Solves β n (fun i j => ι j (load (n + 1) U i j)) x ↔
        Solves β n (fun i j => ι j (load (n + 1) V i j)) x) := by
  obtain ⟨hns, hlenU, hU⟩ := gauss_forward_step_run t n k V U hlen hk h
  obtain ⟨hm1, hm2⟩ := gauss_find_pivot_range t n (n + 1) k V hk
  obtain ⟨_, hS⟩ := gauss_swap_rows_spec n k (gauss_find_pivot t n (n + 1) k V) V hlen hk hm2
  generalize gauss_swap_rows n (n + 1) k (gauss_find_pivot t n (n + 1) k V) V = S at hU hS hex
  generalize gauss_find_pivot t n (n + 1) k V = m at hns hm1 hm2 hS
  have hpivE : ι k (load (n + 1) S k k) ≠ 0 := by
    rw [hS k k hk (by omega), swap_index_self]
    exact hpiv k _ hk hns
  have hzs : ∀ i j, j < k → k ≤ i → i < n → ι j (load (n + 1) S i j) = 0 := by
    intro i j hj hi hin
    rw [hS i j hin (by omega)]
    exact hz _ j hj (by have := swap_index_ge k m i hi hm1; omega)
      (swap_index_lt n k m i hk hm2 hin)
  have hU2 : ∀ i j, i < n → j ≤ n →
      (fun i j => ι j (load (n + 1) U i j)) i j =
        row_reduced (fun i => ι k (load (n + 1) S i k) / ι k (load (n + 1) S k k)) k
          (fun i j => ι j (load (n + 1) S i j)) i j := by
    intro i j hi hj
    show ι j (load (n + 1) U i j) = _
    rw [hU i j hi hj]
    unfold row_reduced
    by_cases c1 : k < i
    · rw [if_pos c1]
      by_cases c2 : k ≤ j
      · exact hex i j c1 hi c2 hj
      · have c3 : ¬ (k < i ∧ k ≤ j ∧ skip_zero_entry t.ptr (load (n + 1) S i k) = false) := by
          omega
        unfold eliminated
        rw [if_neg c3]
        show ι j (load (n + 1) S i j) = ι j (load (n + 1) S i j) -
          ι k (load (n + 1) S i k) / ι k (load (n + 1) S k k) * ι j (load (n + 1) S k j)
        rw [hzs k j (by omega) (Nat.le_refl k) hk]
        ring
    · rw [if_neg c1]
      have c3 : ¬ (k < i ∧ k ≤ j ∧ skip_zero_entry t.ptr (load (n + 1) S i k) = false) := by
        omega
      unfold eliminated
      rw [if_neg c3]
  refine ⟨hlenU, ?_, ?_, ?_⟩
  · intro i j hj hji hi
    have e := hU2 i j hi (by omega)
    simp only [] at e
    rw [e]
    unfold row_reduced
    by_cases c : k < i
    · simp only [c, if_true]
      by_cases e2 : j = k
      · rw [e2]
        field_simp
      · have hjk : j < k := by omega
        rw [hzs i j hjk (by omega) hi, hzs k j hjk (Nat.le_refl k) hk]
        ring
    · simp only [c, if_false]
      have hjk : j < k := by omega
      by_cases e2 : i = k
      · rw [e2]; exact hzs k j hjk (Nat.le_refl k) hk
      · rw [hS i j hi (by omega), swap_index_of_lt k m i (by omega) hm1]
        exact hz i j hjk hji hi
  · intro j hj
    have e := hU2 j j (by omega) (by omega)
    simp only [] at e
    rw [e]
    unfold row_reduced
    have c : ¬ k < j := by omega
    simp only [c, if_false]
    by_cases e2 : j = k
    · rw [e2]; exact hpivE
    · rw [hS j j (by omega) (by omega), swap_index_of_lt k m j (by omega) hm1]
      exact hd j (by omega)
  · intro β x
    rw [solves_congr β n _ _ x hU2, solves_row_reduced β n k _ _ x hk,
      solves_congr β n (fun i j => ι j (load (n + 1) S i j))
        (fun i j => (fun i j => ι j (load (n + 1) V i j)) (swap_index k m i) j) x
        (fun i j hi hj => by show ι j (load (n + 1) S i j) = _; rw [hS i j hi hj]),
      solves_swap β n k m (fun i j => ι j (load (n + 1) V i j)) x hk hm2]

/-- The forward loop, the cell in column `j` read as the rational `ι j`: when
every step that eliminates is an exact row reduction, the working matrix at the
start of step `k` has zeros below the diagonal in the columns before `k`, a
non-zero diagonal in the rows before `k`, and the solutions of the system the
loop started from. -/
theorem gauss_forward_exact_spec {α : Type} [Zero α] (t : FieldInfo α) (ι : Nat → α → ℚ)
    (n : Nat) (aug0 : List α) (hlen : aug0.length = n * (n + 1))
    (hpiv : ∀ j p, j < n → pivot_is_singular t.ptr p = false → ι j p ≠ 0)
    (hex : ∀ k V U, k < n → gauss_forward_upto t n (n + 1) k aug0 = some V →
      gauss_forward_step t n (n + 1) k V = some U →
      ∀ i j, k < i → i < n → k ≤ j → j ≤ n →
        ι j (eliminated t k (load (n + 1)
            (gauss_swap_rows n (n + 1) k (gauss_find_pivot t n (n + 1) k V) V)) i j) =
          ι j (load (n + 1)
              (gauss_swap_rows n (n + 1) k (gauss_find_pivot t n (n + 1) k V) V) i j) -
            ι k (load (n + 1)
                (gauss_swap_rows n (n + 1) k (gauss_find_pivot t n (n + 1) k V) V) i k) /
              ι k (load (n + 1)
                (gauss_swap_rows n (n + 1) k (gauss_find_pivot t n (n + 1) k V) V) k k) *
              ι j (load (n + 1)
                (gauss_swap_rows n (n + 1) k (gauss_find_pivot t n (n + 1) k V) V) k j)) :
    ∀ k, k ≤ n → ∀ W, gauss_forward_upto t n (n + 1) k aug0 = some W →
      W.length = n * (n + 1) ∧
      (∀ i j, j < k → j < i → i < n → ι j (load (n + 1) W i j) = 0) ∧
      (∀ j, j < k → ι j (load (n + 1) W j j) ≠ 0) ∧
      (∀ β x, Solves β n (fun i j => ι j (load (n + 1) W i j)) x ↔
        Solves β n (fun i j => ι j (load (n + 1) aug0 i j)) x) := by
  intro k
  induction k with
  | zero =>
    intro _ W hW
    rw [gauss_forward_upto_zero] at hW
    rw [← Option.some.inj hW]
    exact ⟨hlen, fun i j hj => absurd hj (Nat.not_lt_zero j),
      fun j hj => absurd hj (Nat.not_lt_zero j), fun β x => Iff.rfl⟩
  | succ k ih =>
    intro hk W hW
    rw [gauss_forward_upto_succ] at hW
    cases hV : gauss_forward_upto t n (n + 1) k aug0 with
    | none => rw [hV] at hW; simp at hW
    | some V =>
      rw [hV] at hW
      have hstep : gauss_forward_step t n (n + 1) k V = some W := by simpa using hW
      obtain ⟨l1, z1, d1, s1⟩ := ih (by omega) V hV
      obtain ⟨l2, z2, d2, s2⟩ := gauss_forward_step_exact t ι n k V W l1 (by omega) z1 d1 hpiv
        (hex k V W (by omega) hV hstep) hstep
      exact ⟨l2, z2, d2, fun β x => (s2 β x).trans (s1 β x)⟩

theorem binary32_pivot_nonzero (p : ℚ)
    (h : pivot_is_singular GetFloatFieldInfo_binary32.ptr p = false) : p ≠ 0 := by
  intro e
  subst e
  have := EPS_1e_10f_pos
  simp [pivot_is_singular, GetFloatFieldInfo_binary32] at h
  linarith

/-- Float kind in binary32: a row eliminated without rounding on the columns
before `c` is reduced there by exactly `elem_i_k / pivot` times the pivot row. -/
theorem float_row_exact_eliminated (n c k i : Nat) (V U : List ℚ)
    (hlen : V.length = n * (n + 1)) (hk : k < n)
    (hstep : gauss_forward_step GetFloatFieldInfo_binary32 n (n + 1) k V = some U)
    (hki : k < i) (hin : i < n) (hrow : float_row_exact n c k i V)
    (j : Nat) (hkj : k ≤ j) (hjc : j < c) (hj : j ≤ n) :
    eliminated GetFloatFieldInfo_binary32 k (load (n + 1)
        (gauss_swap_rows n (n + 1) k
          (gauss_find_pivot GetFloatFieldInfo_binary32 n (n + 1) k V) V)) i j =
      load (n + 1) (gauss_swap_rows n (n + 1) k
          (gauss_find_pivot GetFloatFieldInfo_binary32 n (n + 1) k V) V) i j -
        load (n + 1) (gauss_swap_rows n (n + 1) k
            (gauss_find_pivot GetFloatFieldInfo_binary32 n (n + 1) k V) V) i k /
          load (n + 1) (gauss_swap_rows n (n + 1) k
            (gauss_find_pivot GetFloatFieldInfo_binary32 n (n + 1) k V) V) k k *
          load (n + 1) (gauss_swap_rows n (n + 1) k
            (gauss_find_pivot GetFloatFieldInfo_binary32 n (n + 1) k V) V) k j := by
  obtain ⟨hns, _, _⟩ := gauss_forward_step_run GetFloatFieldInfo_binary32 n k V U hlen hk hstep
  obtain ⟨_, hm2⟩ := gauss_find_pivot_range GetFloatFieldInfo_binary32 n (n + 1) k V hk
  obtain ⟨s1, s2⟩ := gauss_swap_rows_spec n k
    (gauss_find_pivot GetFloatFieldInfo_binary32 n (n + 1) k V) V hlen hk hm2
  obtain ⟨_, u2⟩ := gauss_eliminate_upto_rows GetFloatFieldInfo_binary32 n k i _ s1 hk hki
    (by omega)
  have hp : load (n + 1) (gauss_swap_rows n (n + 1) k
      (gauss_find_pivot GetFloatFieldInfo_binary32 n (n + 1) k V) V) k k ≠ 0 := by
    rw [s2 k k hk (by omega), swap_index_self]
    exact binary32_pivot_nonzero _ hns
  unfold float_row_exact gauss_row_state at hrow
  rw [u2 i k hin (by omega) (Or.inr (Nat.le_refl i)),
    u2 k k hk (by omega) (Or.inl (Nat.le_refl k))] at hrow
  generalize gauss_swap_rows n (n + 1) k
    (gauss_find_pivot GetFloatFieldInfo_binary32 n (n + 1) k V) V = S at hrow hp u2 ⊢
  by_cases he : load (n + 1) S i k = 0
  · simp [eliminated, skip_zero_entry, GetFloatFieldInfo_binary32, he]
  · obtain ⟨h1, h2⟩ := hrow he
    obtain ⟨h3, h4⟩ := h2 j hjc hkj
    rw [u2 k j hk hj (Or.inl (Nat.le_refl k))] at h3 h4
    rw [u2 i j hin hj (Or.inr (Nat.le_refl i))] at h4
    have c : k < i ∧ k ≤ j ∧
        skip_zero_entry GetFloatFieldInfo_binary32.ptr (load (n + 1) S i k) = false :=
      ⟨hki, hkj, by simp [skip_zero_entry, GetFloatFieldInfo_binary32, he]⟩
    unfold eliminated
    rw [if_pos c]
    show FloatSubtractor_binary32 (load (n + 1) S i j)
      (FloatMultiplier_binary32
        (FloatDivider_binary32 (load (n + 1) S i k) (load (n + 1) S i k) (load (n + 1) S k k))
        (load (n + 1) S k j)) = _
    unfold FloatSubtractor_binary32 FloatMultiplier_binary32 FloatDivider_binary32
    rw [if_pos hp, h1.1, h3.1, h4.1]

/-- Float kind in binary32, forward elimination without rounding: the working
matrix at the start of step `k`. -/
theorem gauss_forward_binary32_spec (n : Nat) (aug0 : List ℚ)
    (hlen : aug0.length = n * (n + 1)) (hfe : float_forward_exact n (n + 1) aug0) :
    ∀ k, k ≤ n → ∀ W, gauss_forward_upto GetFloatFieldInfo_binary32 n (n + 1) k aug0 = some W →
      W.length = n * (n + 1) ∧
      (∀ i j, j < k → j < i → i < n → load (n + 1) W i j = 0) ∧
      (∀ j, j < k → load (n + 1) W j j ≠ 0) ∧
      (∀ β x, Solves β n (load (n + 1) W) x ↔ Solves β n (load (n + 1) aug0) x) :=
  gauss_forward_exact_spec GetFloatFieldInfo_binary32 (fun _ q => q) n aug0 hlen
    (fun _ p _ hp => binary32_pivot_nonzero p hp)
    (fun k V U hk hV hU i j hki hin hkj hj =>
      float_row_exact_eliminated n (n + 1) k i V U
        ((gauss_forward_upto_length GetFloatFieldInfo_binary32 n aug0 hlen k (by omega) V hV))
        hk hU hki hin (hfe k hk V hV (by rw [hU]; rfl) i hin hki) j hkj (by omega) hj)

/-- Float kind in binary32, forward elimination without rounding on the columns
of `A`: the working matrix at the start of step `k`, its right-hand side column
read as zero. -/
theorem gauss_forward_binary32_spec_columns (n : Nat) (aug0 : List ℚ)
    (hlen : aug0.length = n * (n + 1)) (hfe : float_forward_exact n n aug0) :
    ∀ k, k ≤ n → ∀ W, gauss_forward_upto GetFloatFieldInfo_binary32 n (n + 1) k aug0 = some W →
      W.length = n * (n + 1) ∧
      (∀ i j, j < k → j < i → i < n → load (n + 1) W i j = 0) ∧
      (∀ j, j < k → load (n + 1) W j j ≠ 0) ∧
      (∀ x, Solves 0 n (load (n + 1) W) x ↔ Solves 0 n (load (n + 1) aug0) x) := by
  have key := gauss_forward_exact_spec GetFloatFieldInfo_binary32
    (fun j q => if j < n then q else 0) n aug0 hlen
    (fun j p hj hp => by
      show (if j < n then p else 0) ≠ 0
      rw [if_pos hj]
      exact binary32_pivot_nonzero p hp)
    (fun k V U hk hV hU i j hki hin hkj hj => by
      show (if j < n then _ else 0) = (if j < n then _ else 0) -
        (if k < n then _ else 0) / (if k < n then _ else 0) * (if j < n then _ else 0)
      by_cases c : j < n
      · simp only [if_pos hk, if_pos c]
        exact float_row_exact_eliminated n n k i V U
          ((gauss_forward_upto_length GetFloatFieldInfo_binary32 n aug0 hlen k (by omega) V hV))
          hk hU hki hin (hfe k hk V hV (by rw [hU]; rfl) i hin hki) j hkj c hj
      · simp only [if_neg c]
        ring)
  intro k hk W hW
  obtain ⟨l, z, d, s⟩ := key k hk W hW
  have hmask : ∀ (B : List ℚ) (x : Nat → ℚ),
      Solves 0 n (fun i j => (fun j q => if j < n then q else 0) j (load (n + 1) B i j)) x ↔
        Solves 0 n (load (n + 1) B) x := by
    intro B x
    have e : ∀ i, ∑ j in Finset.range n,
        (fun j q => if j < n then q else (0 : ℚ)) j (load (n + 1) B i j) * x j =
          ∑ j in Finset.range n, load (n + 1) B i j * x j := by
      intro i
      apply Finset.sum_congr rfl
      intro j hj
      show (if j < n then _ else 0) * x j = _
      rw [if_pos (Finset.mem_range.mp hj)]
    constructor
    · intro h i hi
      have := h i hi
      rw [e i] at this
      rw [this]
      ring
    · intro h i hi
      rw [e i, h i hi]
      ring
  refine ⟨l, ?_, ?_, ?_⟩
  · intro i j hj hji hi
    have := z i j hj hji hi
    have c : j < n := by omega
    simpa [c] using this
  · intro j hj
    have := d j hj
    have c : j < n := by omega
    simpa [c] using this
  · intro x
    exact ((hmask W x).symm.trans (s 0 x)).trans (hmask aug0 x)

/-- Integer kind: a row eliminated without truncation and without overflow on
the columns of `A` is reduced there, over the rationals, by exactly
`elem_i_k / pivot` times the pivot row. -/
theorem int_row_exact_eliminated (n k i : Nat) (V U : List Int)
    (hlen : V.length = n * (n + 1)) (hk : k < n)
    (hstep : gauss_forward_step GetIntFieldInfo n (n + 1) k V = some U)
    (hki : k < i) (hin : i < n) (hrow : int_row_exact n k i V)
    (j : Nat) (hkj : k ≤ j) (hj : j < n) :
    ((eliminated GetIntFieldInfo k (load (n + 1)
        (gauss_swap_rows n (n + 1) k
          (gauss_find_pivot GetIntFieldInfo n (n + 1) k V) V)) i j : Int) : ℚ) =
      ((load (n + 1) (gauss_swap_rows n (n + 1) k
          (gauss_find_pivot GetIntFieldInfo n (n + 1) k V) V) i j : Int) : ℚ) -
        ((load (n + 1) (gauss_swap_rows n (n + 1) k
            (gauss_find_pivot GetIntFieldInfo n (n + 1) k V) V) i k : Int) : ℚ) /
          ((load (n + 1) (gauss_swap_rows n (n + 1) k
            (gauss_find_pivot GetIntFieldInfo n (n + 1) k V) V) k k : Int) : ℚ) *
          ((load (n + 1) (gauss_swap_rows n (n + 1) k
            (gauss_find_pivot GetIntFieldInfo n (n + 1) k V) V) k j : Int) : ℚ) := by
  obtain ⟨hns, _, _⟩ := gauss_forward_step_run GetIntFieldInfo n k V U hlen hk hstep
  obtain ⟨_, hm2⟩ := gauss_find_pivot_range GetIntFieldInfo n (n + 1) k V hk
  obtain ⟨s1, s2⟩ := gauss_swap_rows_spec n k
    (gauss_find_pivot GetIntFieldInfo n (n + 1) k V) V hlen hk hm2
  obtain ⟨_, u2⟩ := gauss_eliminate_upto_rows GetIntFieldInfo n k i _ s1 hk hki (by omega)
  have hp : load (n + 1) (gauss_swap_rows n (n + 1) k
      (gauss_find_pivot GetIntFieldInfo n (n + 1) k V) V) k k ≠ 0 := by
    rw [s2 k k hk (by omega), swap_index_self]
    exact int_pivot_nonzero _ hns
  unfold int_row_exact gauss_row_state at hrow
  rw [u2 i k hin (by omega) (Or.inr (Nat.le_refl i)),
    u2 k k hk (by omega) (Or.inl (Nat.le_refl k))] at hrow
  generalize gauss_swap_rows n (n + 1) k
    (gauss_find_pivot GetIntFieldInfo n (n + 1) k V) V = S at hrow hp u2 ⊢
  obtain ⟨h0, h1, h2⟩ := hrow
  obtain ⟨h3, h4⟩ := h2 j hj hkj
  rw [u2 k j hk (by omega) (Or.inl (Nat.le_refl k))] at h3 h4
  rw [u2 i j hin (by omega) (Or.inr (Nat.le_refl i))] at h4
  have c : k < i ∧ k ≤ j ∧
      skip_zero_entry GetIntFieldInfo.ptr (load (n + 1) S i k) = false :=
    ⟨hki, hkj, rfl⟩
  unfold eliminated
  rw [if_pos c]
  show ((IntSubtractor (load (n + 1) S i j)
    (IntMultiplier
      (IntDivider (load (n + 1) S i k) (load (n + 1) S i k) (load (n + 1) S k k))
      (load (n + 1) S k j)) : Int) : ℚ) = _
  unfold IntSubtractor IntMultiplier IntDivider
  rw [if_pos hp, wrap32_id _ h1, wrap32_id _ h3, wrap32_id _ h4]
  have hpq : ((load (n + 1) S k k : Int) : ℚ) ≠ 0 := by exact_mod_cast hp
  have hf : ((Int.tdiv (load (n + 1) S i k) (load (n + 1) S k k) : Int) : ℚ) =
      ((load (n + 1) S i k : Int) : ℚ) / ((load (n + 1) S k k : Int) : ℚ) := by
    rw [eq_div_iff hpq]
    exact_mod_cast h0
  push_cast
  rw [hf]

/-- Integer kind, forward elimination without truncation and without overflow on
the columns of `A`: the working matrix at the start of step `k`, its cells read
as rationals and its right-hand side column read as zero. -/
theorem gauss_forward_int_exact_spec (n : Nat) (aug0 : List Int)
    (hlen : aug0.length = n * (n + 1)) (hfe : int_forward_exact n aug0) :
    ∀ k, k ≤ n → ∀ W, gauss_forward_upto GetIntFieldInfo n (n + 1) k aug0 = some W →
      W.length = n * (n + 1) ∧
      (∀ i j, j < k → j < i → i < n → ((load (n + 1) W i j : Int) : ℚ) = 0) ∧
      (∀ j, j < k → ((load (n + 1) W j j : Int) : ℚ) ≠ 0) ∧
      (∀ x, Solves 0 n (fun i j => ((load (n + 1) W i j : Int) : ℚ)) x ↔
        Solves 0 n (fun i j => ((load (n + 1) aug0 i j : Int) : ℚ)) x) := by
  have key := gauss_forward_exact_spec GetIntFieldInfo
    (fun j v => if j < n then ((v : Int) : ℚ) else 0) n aug0 hlen
    (fun j p hj hp => by
      show (if j < n then ((p : Int) : ℚ) else 0) ≠ 0
      rw [if_pos hj]
      have := int_pivot_nonzero p hp
      exact_mod_cast this)
    (fun k V U hk hV hU i j hki hin hkj hj => by
      show (if j < n then _ else 0) = (if j < n then _ else 0) -
        (if k < n then _ else 0) / (if k < n then _ else 0) * (if j < n then _ else 0)
      by_cases c : j < n
      · simp only [if_pos hk, if_pos c]
        exact int_row_exact_eliminated n k i V U
          ((gauss_forward_upto_length GetIntFieldInfo n aug0 hlen k (by omega) V hV))
          hk hU hki hin (hfe k hk V hV (by rw [hU]; rfl) i hin hki) j hkj c
      · simp only [if_neg c]
        ring)
  intro k hk W hW
  obtain ⟨l, z, d, s⟩ := key k hk W hW
  have hmask : ∀ (B : List Int) (x : Nat → ℚ),
      Solves 0 n (fun i j =>
          (fun j v => if j < n then ((v : Int) : ℚ) else 0) j (load (n + 1) B i j)) x ↔
        Solves 0 n (fun i j => ((load (n + 1) B i j : Int) : ℚ)) x := by
    intro B x
    have e : ∀ i, ∑ j in Finset.range n,
        (fun j v => if j < n then ((v : Int) : ℚ) else (0 : ℚ)) j (load (n + 1) B i j) * x j =
          ∑ j in Finset.range n, ((load (n + 1) B i j : Int) : ℚ) * x j := by
      intro i
      apply Finset.sum_congr rfl
      intro j hj
      show (if j < n then _ else 0) * x j = _
      rw [if_pos (Finset.mem_range.mp hj)]
    constructor
    · intro h i hi
      have := h i hi
      rw [e i] at this
      show ∑ j in Finset.range n, ((load (n + 1) B i j : Int) : ℚ) * x j = _
      rw [this]
      ring
    · intro h i hi
      have := h i hi
      rw [e i]
      simp only [] at this
      rw [this]
      ring
  refine ⟨l, ?_, ?_, ?_⟩
  · intro i j hj hji hi
    have := z i j hj hji hi
    have c : j < n := by omega
    simpa [c] using this
  · intro j hj
    have := d j hj
    have c : j < n := by omega
    simpa [c] using this
  · intro x
    exact ((hmask W x).symm.trans (s 0 x)).trans (hmask aug0 x)

/-! ## Loops that agree along the run of the first -/

theorem forLoop_succ_from {σ : Type} (body : Nat → σ → σ) (lo j : Nat) (s : σ) (h : lo ≤ j) :
    forLoop lo (j + 1) body s = body j (forLoop lo j body s) := by
  unfold forLoop
  have e : j + 1 - lo = (j - lo) + 1 := by omega
  have e2 : lo + (j - lo) = j := by omega
  rw [e, loopFrom_succ, e2]

/-- Two loops whose bodies agree on every state the first one reaches compute the
same state. -/
theorem forLoop_congr_run {σ : Type} (body body2 : Nat → σ → σ) (lo : Nat) (s : σ) :
    ∀ hi, (∀ j, lo ≤ j → j < hi →
        body j (forLoop lo j body s) = body2 j (forLoop lo j body s)) →
      forLoop lo hi body s = forLoop lo hi body2 s := by
  intro hi
  induction hi with
  | zero =>
    intro _
    rw [forLoop_empty body lo 0 s (Nat.zero_le lo), forLoop_empty body2 lo 0 s (Nat.zero_le lo)]
  | succ hi ih =>
    intro he
    by_cases hle : lo ≤ hi
    · rw [forLoop_succ_from body lo hi s hle, forLoop_succ_from body2 lo hi s hle,
        he hi hle (by omega), ih (fun j h1 h2 => he j h1 (by omega))]
    · rw [forLoop_empty body lo (hi + 1) s (by omega),
        forLoop_empty body2 lo (hi + 1) s (by omega)]

theorem downLoopTo_ge {σ : Type} (body : Nat → σ → σ) (lo : Nat) :
    ∀ (n : Nat) (s : σ), n ≤ lo → downLoopTo body lo n s = s := by
  intro n s h
  cases n with
  | zero => rfl
  | succ n =>
    have c : n < lo := by omega
    simp [downLoopTo, c]

theorem downLoopTo_zero {σ : Type} (body : Nat → σ → σ) :
    ∀ (n : Nat) (s : σ), downLoopTo body 0 n s = downLoop body n s := by
  intro n
  induction n with
  | zero => intro s; rfl
  | succ n ih =>
    intro s
    simp [downLoopTo, downLoop, ih]

theorem downLoopTo_step {σ : Type} (body : Nat → σ → σ) (lo : Nat) :
    ∀ (n : Nat) (s : σ), lo < n →
      downLoopTo body lo n s = body lo (downLoopTo body (lo + 1) n s) := by
  intro n
  induction n with
  | zero => intro s h; omega
  | succ n ih =>
    intro s h
    have c1 : ¬ n < lo := by omega
    by_cases e : n = lo
    · subst e
      have c2 : n < n + 1 := by omega
      simp [downLoopTo, c2, downLoopTo_ge body n n (body n s) (Nat.le_refl n)]
    · have c2 : ¬ n < lo + 1 := by omega
      simp only [downLoopTo, c1, c2, if_false]
      exact ih (body n s) (by omega)

/-- Two downward loops whose bodies agree on every state the first one reaches
compute the same state. -/
theorem downLoop_congr_run {σ : Type} (body body2 : Nat → σ → σ) (n : Nat) (s : σ)
    (he : ∀ i, i < n →
      body i (downLoopTo body (i + 1) n s) = body2 i (downLoopTo body (i + 1) n s)) :
    downLoop body n s = downLoop body2 n s := by
  have key : ∀ d i, i + d = n → downLoopTo body i n s = downLoopTo body2 i n s := by
    intro d
    induction d with
    | zero =>
      intro i hi
      rw [downLoopTo_ge body i n s (by omega), downLoopTo_ge body2 i n s (by omega)]
    | succ d ih =>
      intro i hi
      rw [downLoopTo_step body i n s (by omega), downLoopTo_step body2 i n s (by omega),
        he i (by omega), ih (i + 1) (by omega)]
  rw [← downLoopTo_zero body n s, ← downLoopTo_zero body2 n s]
  exact key n 0 (by omega)

/-! ## Back substitution in binary32 without rounding -/

theorem gauss_back_row_binary32_exact (n i : Nat) (U r : List ℚ)
    (h : ∀ j, j < n → i < j →
      is_binary32
        (load (n + 1) U i j *
          load 1 (gauss_back_row_upto GetFloatFieldInfo_binary32 (n + 1) 1 i j U r) j 0) ∧
      is_binary32
        (load 1 (gauss_back_row_upto GetFloatFieldInfo_binary32 (n + 1) 1 i j U r) i 0 -
          load (n + 1) U i j *
            load 1 (gauss_back_row_upto GetFloatFieldInfo_binary32 (n + 1) 1 i j U r) j 0)) :
    gauss_back_row GetFloatFieldInfo_binary32 n (n + 1) 1 i U r =
      gauss_back_row GetFloatFieldInfo n (n + 1) 1 i U r := by
  unfold gauss_back_row
  apply forLoop_congr_run
  intro j hlo hhi
  obtain ⟨h1, h2⟩ := h j hhi (by omega)
  unfold gauss_back_row_upto at h1 h2
  show store 1 _ i 0 (FloatSubtractor_binary32 _ (FloatMultiplier_binary32 _ _)) =
    store 1 _ i 0 (FloatSubtractor _ (FloatMultiplier _ _))
  unfold FloatSubtractor_binary32 FloatMultiplier_binary32 FloatSubtractor FloatMultiplier
  rw [h1.1, h2.1]

/-- Float kind in binary32: a back substitution in which no operation rounds
writes what the back substitution over exact arithmetic writes. -/
theorem gauss_back_substitute_binary32_exact (n : Nat) (U xb : List ℚ)
    (h : ∀ i, i < n → float_back_row_exact n i U xb) :
    gauss_back_substitute GetFloatFieldInfo_binary32 n (n + 1) 1 U xb =
      gauss_back_substitute GetFloatFieldInfo n (n + 1) 1 U xb := by
  unfold gauss_back_substitute
  apply downLoop_congr_run
  intro i hi
  obtain ⟨h1, h2⟩ := h i hi
  unfold gauss_back_upto at h1 h2
  have hrow := gauss_back_row_binary32_exact n i U _ h1
  simp only []
  rw [← hrow]
  congr 1
  show FloatDivider_binary32 _ _ _ = FloatDivider _ _ _
  unfold FloatDivider_binary32 FloatDivider
  rw [h2.1]

/-! ## Matrix_GaussSolve in binary32 and on integers, when no operation loses precision -/

theorem gauss_binary32_exact_solution (alloc : Bool) (a b x : Matrix ℚ)
    (hx : WellFormed x) (hta : a.type = some GetFloatFieldInfo_binary32)
    (h : (Matrix_GaussSolve alloc (some a) (some b) (some x)).1 = MATRIX_OK)
    (hex : float_run_exact a b x) :
    ∃ x2, (Matrix_GaussSolve alloc (some a) (some b) (some x)).2 = some x2 ∧
      ∀ i, i < a.rows →
        ∑ j in Finset.range a.rows, matrix_element a i j * matrix_element x2 j 0
          = matrix_element b i 0 := by
  obtain ⟨_, hxr, hxc, U, hf, hrun⟩ := Matrix_GaussSolve_ok_inv alloc a b x _ hta h
  obtain ⟨c1, c2⟩ := gauss_copy_spec a b a.rows
    (List.replicate (a.rows * (a.rows + 1)) (0 : ℚ)) (by simp)
  obtain ⟨_, z, d, s⟩ := gauss_forward_binary32_spec a.rows (gauss_start a b)
    (gauss_start_length a b) hex.1 a.rows (Nat.le_refl _) U hf
  obtain ⟨xb, hxb, hxlen⟩ := wellFormed_data hx
  have hxlen2 : xb.length = a.rows := by rw [hxlen, hxr, hxc]; omega
  have hbuf : x.buf = xb := by simp [Matrix.buf, hxb]
  have hback := gauss_back_substitute_binary32_exact a.rows U xb
    (fun i hi => by have := hex.2 U hf i hi; rw [hbuf] at this; exact this)
  obtain ⟨_, bv⟩ := gauss_back_substitute_float a.rows U xb hxlen2
    (fun j hj => d j hj)
  rw [← hback] at bv
  have hsol := (s 1 (fun j => load 1
    (gauss_back_substitute GetFloatFieldInfo_binary32 a.rows (a.rows + 1) 1 U xb) j 0)).mp
    (upper_solves a.rows (load (a.rows + 1) U) _ (fun i j hji hi => z i j (by omega) hji hi) bv)
  rw [hrun]
  refine ⟨_, rfl, ?_⟩
  intro i hi
  have hrow := hsol i hi
  unfold gauss_start at hrow
  rw [c2 i a.rows hi (by omega), if_neg (Nat.lt_irrefl _), one_mul] at hrow
  rw [← hrow]
  apply Finset.sum_congr rfl
  intro j hj
  have hj2 := Finset.mem_range.mp hj
  rw [c2 i j hi (by omega), if_pos hj2]
  simp [matrix_element, Matrix.buf, matrix_index, hxb, hxc, load]

theorem gauss_binary32_exact_singular (a b x : Matrix ℚ)
    (ha : WellFormed a) (hb : WellFormed b) (hx : WellFormed x)
    (hta : a.type = some GetFloatFieldInfo_binary32)
    (hab : types_compatible a b = true) (hax : types_compatible a x = true)
    (hsq : a.rows = a.cols) (hbc : b.cols = 1) (hbr : b.rows = a.rows)
    (hxr : x.rows = a.rows) (hxc : x.cols = 1)
    (c : Nat → ℚ) (hc : ∃ i, i < a.rows ∧ c i ≠ 0)
    (hdep : ∀ j, j < a.rows → ∑ i in Finset.range a.rows, c i * matrix_element a i j = 0)
    (hfe : float_forward_exact a.rows a.rows (gauss_start a b)) :
    Matrix_GaussSolve true (some a) (some b) (some x) =
      (MATRIX_ERROR_SINGULAR_MATRIX, some x) := by
  obtain ⟨tb, htb⟩ := wellFormed_type hb
  obtain ⟨tx, htx⟩ := wellFormed_type hx
  apply Matrix_GaussSolve_run_singular a b x GetFloatFieldInfo_binary32 tb tx hta htb htx hab hax
    ha.1 hsq hbc hbr.symm hxr hxc
  obtain ⟨c1, c2⟩ := gauss_copy_spec a b a.rows
    (List.replicate (a.rows * (a.rows + 1)) (0 : ℚ)) (by simp)
  cases hf : gauss_forward GetFloatFieldInfo_binary32 a.rows (a.rows + 1)
      (gauss_copy a b a.rows (a.rows + 1) (List.replicate (a.rows * (a.rows + 1)) 0)) with
  | none => rfl
  | some U =>
    exfalso
    obtain ⟨_, z, d, s⟩ := gauss_forward_binary32_spec_columns a.rows (gauss_start a b)
      (gauss_start_length a b) hfe a.rows (Nat.le_refl _) U hf
    obtain ⟨v, ⟨j0, hj0, hv0⟩, hker⟩ :=
      exists_kernel_of_row_dependent a.rows (fun i j => matrix_element a i j) c hc hdep
    have h0 : Solves 0 a.rows (load (a.rows + 1) (gauss_start a b)) v := by
      intro i hi
      rw [zero_mul]
      refine Eq.trans ?_ (hker i hi)
      apply Finset.sum_congr rfl
      intro j hj
      have hj2 := Finset.mem_range.mp hj
      unfold gauss_start
      rw [c2 i j hi (by omega), if_pos hj2]
    exact hv0 (upper_kernel_trivial a.rows _ v (fun i j hji hi => z i j (by omega) hji hi) d
      ((s v).mpr h0) j0 hj0)

theorem gauss_int_exact_singular (a b x : Matrix Int)
    (ha : WellFormed a) (hb : WellFormed b) (hx : WellFormed x)
    (hta : a.type = some GetIntFieldInfo)
    (hab : types_compatible a b = true) (hax : types_compatible a x = true)
    (hsq : a.rows = a.cols) (hbc : b.cols = 1) (hbr : b.rows = a.rows)
    (hxr : x.rows = a.rows) (hxc : x.cols = 1)
    (c : Nat → ℚ) (hc : ∃ i, i < a.rows ∧ c i ≠ 0)
    (hdep : ∀ j, j < a.rows →
      ∑ i in Finset.range a.rows, c i * ((matrix_element a i j : Int) : ℚ) = 0)
    (hfe : int_forward_exact a.rows (gauss_start a b)) :
    Matrix_GaussSolve true (some a) (some b) (some x) =
      (MATRIX_ERROR_SINGULAR_MATRIX, some x) := by
  obtain ⟨tb, htb⟩ := wellFormed_type hb
  obtain ⟨tx, htx⟩ := wellFormed_type hx
  apply Matrix_GaussSolve_run_singular a b x GetIntFieldInfo tb tx hta htb htx hab hax
    ha.1 hsq hbc hbr.symm hxr hxc
  obtain ⟨c1, c2⟩ := gauss_copy_spec a b a.rows
    (List.replicate (a.rows * (a.rows + 1)) (0 : Int)) (by simp)
  cases hf : gauss_forward GetIntFieldInfo a.rows (a.rows + 1)
      (gauss_copy a b a.rows (a.rows + 1) (List.replicate (a.rows * (a.rows + 1)) 0)) with
  | none => rfl
  | some U =>
    exfalso
    obtain ⟨_, z, d, s⟩ := gauss_forward_int_exact_spec a.rows (gauss_start a b)
      (gauss_start_length a b) hfe a.rows (Nat.le_refl _) U hf
    obtain ⟨v, ⟨j0, hj0, hv0⟩, hker⟩ :=
      exists_kernel_of_row_dependent a.rows (fun i j => ((matrix_element a i j : Int) : ℚ))
        c hc hdep
    have h0 : Solves 0 a.rows
        (fun i j => ((load (a.rows + 1) (gauss_start a b) i j : Int) : ℚ)) v := by
      intro i hi
      rw [zero_mul]
      refine Eq.trans ?_ (hker i hi)
      apply Finset.sum_congr rfl
      intro j hj
      have hj2 := Finset.mem_range.mp hj
      show ((load (a.rows + 1) (gauss_start a b) i j : Int) : ℚ) * v j = _
      unfold gauss_start
      rw [c2 i j hi (by omega), if_pos hj2]
    exact hv0 (upper_kernel_trivial a.rows _ v (fun i j hji hi => z i j (by omega) hji hi) d
      ((s v).mpr h0) j0 hj0)

/-! ## Matrix_GaussSolve, rounding and truncation: the claims -/

section
attribute [local semireducible] Rat.add Rat.mul Rat.inv Rat.sub
set_option maxRecDepth 8192

/-- Counterexample to C1 as stated: with the float callbacks rounding to
binary32 as `float_field.c` does, the claim's own system
`A = [[2,1,-1],[1,3,2],[3,2,-3]]`, `b = [7,11,9]` returns `MATRIX_OK` with
`x = [3.5, 1.5 - 2^-23, 1.5 + 2^-23]`, not `[3.5, 1.5, 1.5]`, and row 0 of `A * x`
is `7 - 2^-22`, not `b[0] = 7`. -/
theorem Matrix_GaussSolve_float_rounded_residual :
    (Matrix_GaussSolve true
      (some (Matrix.ofList GetFloatFieldInfo_binary32 3 3 [2, 1, -1, 1, 3, 2, 3, 2, -3]))
      (some (Matrix.ofList GetFloatFieldInfo_binary32 3 1 [7, 11, 9]))
      (some (Matrix.ofList GetFloatFieldInfo_binary32 3 1 [0, 0, 0]))).1 = MATRIX_OK ∧
    (Matrix_GaussSolve true
      (some (Matrix.ofList GetFloatFieldInfo_binary32 3 3 [2, 1, -1, 1, 3, 2, 3, 2, -3]))
      (some (Matrix.ofList GetFloatFieldInfo_binary32 3 1 [7, 11, 9]))
      (some (Matrix.ofList GetFloatFieldInfo_binary32 3 1 [0, 0, 0]))).2.map Matrix.buf
      = some [7 / 2, 3 / 2 - 1 / 2 ^ 23, 3 / 2 + 1 / 2 ^ 23] ∧
    (Matrix_GaussSolve true
      (some (Matrix.ofList GetFloatFieldInfo_binary32 3 3 [2, 1, -1, 1, 3, 2, 3, 2, -3]))
      (some (Matrix.ofList GetFloatFieldInfo_binary32 3 1 [7, 11, 9]))
      (some (Matrix.ofList GetFloatFieldInfo_binary32 3 1 [0, 0, 0]))).2.map
        (fun x2 =>
          matrix_element
              (Matrix.ofList GetFloatFieldInfo_binary32 3 3 [2, 1, -1, 1, 3, 2, 3, 2, -3]) 0 0
              * matrix_element x2 0 0
            + matrix_element
              (Matrix.ofList GetFloatFieldInfo_binary32 3 3 [2, 1, -1, 1, 3, 2, 3, 2, -3]) 0 1
              * matrix_element x2 1 0
            + matrix_element
              (Matrix.ofList GetFloatFieldInfo_binary32 3 3 [2, 1, -1, 1, 3, 2, 3, 2, -3]) 0 2
              * matrix_element x2 2 0)
      = some (7 - 1 / 2 ^ 22) ∧
    matrix_element (Matrix.ofList GetFloatFieldInfo_binary32 3 1 [7, 11, 9]) 0 0 = 7 ∧
    ¬ float_run_exact
      (Matrix.ofList GetFloatFieldInfo_binary32 3 3 [2, 1, -1, 1, 3, 2, 3, 2, -3])
      (Matrix.ofList GetFloatFieldInfo_binary32 3 1 [7, 11, 9])
      (Matrix.ofList GetFloatFieldInfo_binary32 3 1 [0, 0, 0]) := by
  decide

/-- Counterexample to C2 as stated: the rows of `A = [[3,15],[5,25]]` are
linearly dependent (five times row 0 minus three times row 1 is zero), yet with
the float callbacks rounding to binary32 the call with `b = [1,1]` returns
`MATRIX_OK`: the factor `3/5` is rounded, and the forward elimination leaves the
second pivot at `-2^-20`, whose magnitude is not below `1e-10f`. -/
theorem Matrix_GaussSolve_float_dependent_rows_ok :
    (∀ j, j < 2 →
        5 * matrix_element (Matrix.ofList GetFloatFieldInfo_binary32 2 2 [3, 15, 5, 25]) 0 j
          - 3 * matrix_element (Matrix.ofList GetFloatFieldInfo_binary32 2 2 [3, 15, 5, 25]) 1 j
          = 0) ∧
    (Matrix_GaussSolve true
      (some (Matrix.ofList GetFloatFieldInfo_binary32 2 2 [3, 15, 5, 25]))
      (some (Matrix.ofList GetFloatFieldInfo_binary32 2 1 [1, 1]))
      (some (Matrix.ofList GetFloatFieldInfo_binary32 2 1 [0, 0]))).1 = MATRIX_OK ∧
    gauss_forward GetFloatFieldInfo_binary32 2 3
      (gauss_start (Matrix.ofList GetFloatFieldInfo_binary32 2 2 [3, 15, 5, 25])
        (Matrix.ofList GetFloatFieldInfo_binary32 2 1 [1, 1]))
      = some [5, 25, 1, 0, -1 / 2 ^ 20, 6710886 / 2 ^ 24] := by
  decide

end

/-- C1 (amended): float kind, every operation rounding to binary32.  For
well-formed `a`, `b`, `x`: whenever `Matrix_GaussSolve` returns `MATRIX_OK` and
no operation of the run rounded its result (every quotient, product and
difference of the forward elimination and of the back substitution is a binary32
number), the vector it wrote into `x` satisfies `A * x = b`: for every row `i`,
the sum over `j` of `A[i][j] * x[j]` equals `b[i]`. -/
theorem Matrix_GaussSolve_float_exact_run_solves (alloc : Bool) (a b x : Matrix ℚ)
    (ha : WellFormed a) (hb : WellFormed b) (hx : WellFormed x)
    (hta : a.type = some GetFloatFieldInfo_binary32)
    (h : (Matrix_GaussSolve alloc (some a) (some b) (some x)).1 = MATRIX_OK)
    (hex : float_run_exact a b x) :
    ∃ x2, (Matrix_GaussSolve alloc (some a) (some b) (some x)).2 = some x2 ∧
      ∀ i, i < a.rows →
        ∑ j in Finset.range a.rows, matrix_element a i j * matrix_element x2 j 0
          = matrix_element b i 0 :=
  have _ := ha
  have _ := hb
  gauss_binary32_exact_solution alloc a b x hx hta h hex

/-- C2 (amended): float kind, every operation rounding to binary32.  For a
square `A` whose rows are linearly dependent (some combination of the rows with
coefficients `c`, not all zero, vanishes) and any `b`, `x` of matching shape and
type (allocation succeeding), when no operation of the forward elimination on
the columns of `A` rounded its result, `Matrix_GaussSolve` returns
`MATRIX_ERROR_SINGULAR_MATRIX`, not `MATRIX_OK`, and leaves `x` as it was.  The
operations on the right-hand side column may round. -/
theorem Matrix_GaussSolve_float_exact_run_singular (a b x : Matrix ℚ)
    (ha : WellFormed a) (hb : WellFormed b) (hx : WellFormed x)
    (hta : a.type = some GetFloatFieldInfo_binary32)
    (hab : types_compatible a b = true) (hax : types_compatible a x = true)
    (hsq : a.rows = a.cols) (hbc : b.cols = 1) (hbr : b.rows = a.rows)
    (hxr : x.rows = a.rows) (hxc : x.cols = 1)
    (c : Nat → ℚ) (hc : ∃ i, i < a.rows ∧ c i ≠ 0)
    (hdep : ∀ j, j < a.rows → ∑ i in Finset.range a.rows, c i * matrix_element a i j = 0)
    (hfe : float_forward_exact a.rows a.rows (gauss_start a b)) :
    Matrix_GaussSolve true (some a) (some b) (some x) =
      (MATRIX_ERROR_SINGULAR_MATRIX, some x) :=
  gauss_binary32_exact_singular a b x ha hb hx hta hab hax hsq hbc hbr hxr hxc c hc hdep hfe

/-- C3 (amended): integer kind.  For a square integer `A` whose rows are
linearly dependent (some combination of the rows with rational coefficients `c`,
not all zero, vanishes) and any integer `b`, `x` of matching shape and type
(allocation succeeding), when no elimination factor is a truncated quotient and
no factor, product or difference of the forward elimination on the columns of
`A` leaves the range of `int`, `Matrix_GaussSolve` returns
`MATRIX_ERROR_SINGULAR_MATRIX` and leaves `x` as it was. -/
theorem Matrix_GaussSolve_int_exact_run_singular (a b x : Matrix Int)
    (ha : WellFormed a) (hb : WellFormed b) (hx : WellFormed x)
    (hta : a.type = some GetIntFieldInfo)
    (hab : types_compatible a b = true) (hax : types_compatible a x = true)
    (hsq : a.rows = a.cols) (hbc : b.cols = 1) (hbr : b.rows = a.rows)
    (hxr : x.rows = a.rows) (hxc : x.cols = 1)
    (c : Nat → ℚ) (hc : ∃ i, i < a.rows ∧ c i ≠ 0)
    (hdep : ∀ j, j < a.rows →
      ∑ i in Finset.range a.rows, c i * ((matrix_element a i j : Int) : ℚ) = 0)
    (hfe : int_forward_exact a.rows (gauss_start a b)) :
    Matrix_GaussSolve true (some a) (some b) (some x) =
      (MATRIX_ERROR_SINGULAR_MATRIX, some x) :=
  gauss_int_exact_singular a b x ha hb hx hta hab hax hsq hbc hbr hxr hxc c hc hdep hfe

section
attribute [local semireducible] Rat.add Rat.mul Rat.inv Rat.sub
set_option maxRecDepth 8192

/-- Witness for C1 (amended): `A = [[2,1],[1,1]]`, `b = [4,3]`: the factor `1/2`
and every later result are binary32 numbers, and the call writes `x = [1,2]`. -/
theorem Matrix_GaussSolve_float_exact_run_solves_witness :
    (∃ x2, (Matrix_GaussSolve true
          (some (Matrix.ofList GetFloatFieldInfo_binary32 2 2 [2, 1, 1, 1]))
          (some (Matrix.ofList GetFloatFieldInfo_binary32 2 1 [4, 3]))
          (some (Matrix.ofList GetFloatFieldInfo_binary32 2 1 [0, 0]))).2 = some x2 ∧
        ∀ i, i < 2 →
          ∑ j in Finset.range 2,
            matrix_element (Matrix.ofList GetFloatFieldInfo_binary32 2 2 [2, 1, 1, 1]) i j
              * matrix_element x2 j 0
            = matrix_element (Matrix.ofList GetFloatFieldInfo_binary32 2 1 [4, 3]) i 0) ∧
      (Matrix_GaussSolve true
          (some (Matrix.ofList GetFloatFieldInfo_binary32 2 2 [2, 1, 1, 1]))
          (some (Matrix.ofList GetFloatFieldInfo_binary32 2 1 [4, 3]))
          (some (Matrix.ofList GetFloatFieldInfo_binary32 2 1 [0, 0]))).2.map Matrix.buf
        = some [1, 2] :=
  ⟨Matrix_GaussSolve_float_exact_run_solves true
      (Matrix.ofList GetFloatFieldInfo_binary32 2 2 [2, 1, 1, 1])
      (Matrix.ofList GetFloatFieldInfo_binary32 2 1 [4, 3])
      (Matrix.ofList GetFloatFieldInfo_binary32 2 1 [0, 0])
      (by decide) (by decide) (by decide) rfl (by decide) (by decide), by decide⟩

/-- Witness for C2 (amended): `A = [[1,2],[2,4]]` (twice row 0 minus row 1
vanishes), `b = [16777218, 2]`: the factor `1/2` is a binary32 number and the
second row of `A` is eliminated to zero without rounding, the new right-hand
side `16777217` is rounded, and the call reports a singular matrix. -/
theorem Matrix_GaussSolve_float_exact_run_singular_witness :
    Matrix_GaussSolve true
        (some (Matrix.ofList GetFloatFieldInfo_binary32 2 2 [1, 2, 2, 4]))
        (some (Matrix.ofList GetFloatFieldInfo_binary32 2 1 [16777218, 2]))
        (some (Matrix.ofList GetFloatFieldInfo_binary32 2 1 [0, 0])) =
      (MATRIX_ERROR_SINGULAR_MATRIX,
        some (Matrix.ofList GetFloatFieldInfo_binary32 2 1 [0, 0])) :=
  Matrix_GaussSolve_float_exact_run_singular
    (Matrix.ofList GetFloatFieldInfo_binary32 2 2 [1, 2, 2, 4])
    (Matrix.ofList GetFloatFieldInfo_binary32 2 1 [16777218, 2])
    (Matrix.ofList GetFloatFieldInfo_binary32 2 1 [0, 0])
    (by decide) (by decide) (by decide) rfl rfl rfl rfl rfl rfl rfl rfl
    (fun i => if i = 0 then 2 else -1) ⟨0, by decide, by decide⟩ (by decide) (by decide)

/-- Witness for C3 (amended): `A = [[1,2],[1,2]]` (row 0 minus row 1 vanishes),
`b = [3,4]`: the factor `1/1 = 1` is exact, the second row is eliminated to zero
and the call reports a singular matrix. -/
theorem Matrix_GaussSolve_int_exact_run_singular_witness :
    Matrix_GaussSolve true
        (some (Matrix.ofList GetIntFieldInfo 2 2 [1, 2, 1, 2]))
        (some (Matrix.ofList GetIntFieldInfo 2 1 [3, 4]))
        (some (Matrix.ofList GetIntFieldInfo 2 1 [0, 0])) =
      (MATRIX_ERROR_SINGULAR_MATRIX, some (Matrix.ofList GetIntFieldInfo 2 1 [0, 0])) :=
  Matrix_GaussSolve_int_exact_run_singular
    (Matrix.ofList GetIntFieldInfo 2 2 [1, 2, 1, 2])
    (Matrix.ofList GetIntFieldInfo 2 1 [3, 4])
    (Matrix.ofList GetIntFieldInfo 2 1 [0, 0])
    (by decide) (by decide) (by decide) rfl rfl rfl rfl rfl rfl rfl rfl
    (fun i => if i = 0 then 1 else -1) ⟨0, by decide, by decide⟩ (by decide) (by decide)

end

/-! ## Allocation with the byte count in `size_t` -/

/-- When `rows * cols * type->size` fits `size_t`, the allocation is the one of
`Matrix_Create`: a buffer of `rows * cols` zero cells. -/
theorem Matrix_Create_sized_eq {α : Type} [Zero α] (alloc : Bool) (rows cols : Nat)
    (t : FieldInfo α) (hs : 0 < t.size) (hfit : rows * cols * t.size < 2 ^ 64) :
    Matrix_Create_sized alloc rows cols (some t) = Matrix_Create alloc rows cols (some t) := by
  have e : matrix_total_bytes rows cols t.size / t.size = rows * cols := by
    unfold matrix_total_bytes
    rw [Nat.mod_eq_of_lt hfit]
    exact Nat.mul_div_cancel _ hs
  simp only [Matrix_Create_sized, Matrix_Create, e]

/-- When the byte count of the product fits `size_t`, `Matrix_Multiply_sized` is
`Matrix_Multiply`. -/
theorem Matrix_Multiply_sized_eq {α : Type} [Zero α] (alloc : Bool) (a b : Matrix α)
    (t : FieldInfo α) (hta : a.type = some t) (hs : 0 < t.size)
    (hfit : a.rows * b.cols * t.size < 2 ^ 64) :
    Matrix_Multiply_sized alloc (some a) (some b) = Matrix_Multiply alloc (some a) (some b) := by
  have hc := Matrix_Create_sized_eq alloc a.rows b.cols t hs hfit
  by_cases c0 : types_compatible a b = false
  · simp [Matrix_Multiply_sized, Matrix_Multiply, c0]
  · by_cases c1 : a.cols ≠ b.rows
    · simp [Matrix_Multiply_sized, Matrix_Multiply, c0, c1]
    · cases hm : Matrix_Create alloc a.rows b.cols (some t) with
      | none => simp [Matrix_Multiply_sized, Matrix_Multiply, c0, c1, hta, hc, hm]
      | some r => simp [Matrix_Multiply_sized, Matrix_Multiply, c0, c1, hta, hc, hm]

/-- A created matrix whose byte count fits `size_t` is well formed, and every
cell of it is zero. -/
theorem Matrix_Create_sized_fits {α : Type} [Zero α] (rows cols : Nat) (t : FieldInfo α)
    (hr : 0 < rows) (hc : 0 < cols) (hs : 0 < t.size) (hfit : rows * cols * t.size < 2 ^ 64) :
    ∃ m, Matrix_Create_sized true rows cols (some t) = some m ∧ WellFormed m ∧
      m.rows = rows ∧ m.cols = cols ∧
      ∀ r c o, r < rows → c < cols → Matrix_Get (some m) r c (some o) = (MATRIX_OK, some 0) := by
  rw [Matrix_Create_sized_eq true rows cols t hs hfit]
  obtain ⟨m, hm, h1, h2, h3⟩ := Matrix_Create_zero_get rows cols hr hc t
  exact ⟨m, hm, (Matrix_Create_wellFormed true rows cols (some t) m hm).1, h1, h2, h3⟩

/-- What `Matrix_Multiply_sized` returns on operands of compatible type and
matching inner dimension: a matrix of the product's shape whose buffer holds the
cells that fit in the bytes allocated. -/
theorem Matrix_Multiply_sized_run {α : Type} [Zero α] (a b : Matrix α) (t : FieldInfo α)
    (hta : a.type = some t) (hab : types_compatible a b = true) (hdim : a.cols = b.rows)
    (hr : 0 < a.rows) (hc : 0 < b.cols) :
    ∃ p, Matrix_Multiply_sized true (some a) (some b) = (some p, MATRIX_OK) ∧
      p.rows = a.rows ∧ p.cols = b.cols ∧ p.type = some t ∧
      p.data.map List.length = some (matrix_total_bytes a.rows b.cols t.size / t.size) := by
  have h1 : ¬ (a.cols ≠ b.rows) := by simp [hdim]
  have h2 : ¬ (a.rows = 0 ∨ b.cols = 0) := by omega
  refine ⟨Matrix.mk (some (multiply_loops t a b b.cols
      (List.replicate (matrix_total_bytes a.rows b.cols t.size / t.size) 0)))
    a.rows b.cols (some t), ?_, rfl, rfl, rfl, ?_⟩
  · simp only [Matrix_Multiply_sized, hab, Bool.true_eq_false, if_false, hta,
      Matrix_Create_sized, Matrix.buf, Option.getD_some]
    rw [if_neg h1, if_neg h2]
    rfl
  · simp [multiply_loops_length]

/-- A matrix whose buffer is `rows * cols` copies of one value is well formed. -/
theorem wellFormed_replicate {α : Type} (t : FieldInfo α) (rows cols n : Nat) (v : α)
    (hr : 0 < rows) (hc : 0 < cols) (hn : n = rows * cols) :
    WellFormed (Matrix.ofList t rows cols (List.replicate n v)) := by
  refine ⟨hr, hc, rfl, ?_⟩
  show Option.map List.length (some (List.replicate n v)) = some (rows * cols)
  rw [Option.map_some', List.length_replicate, hn]

/-! ## Allocation size, aliasing, elimination factors: the claims -/

/-- C10, the code at the failing input `Matrix_Create(2^62 + 1, 1,
GetIntFieldInfo())` with a 64-bit `size_t`: the byte count
`(2^62 + 1) * 1 * 4` wraps to 4, so the matrix returned records
`rows = 2^62 + 1`, `cols = 1` and owns a buffer of one cell; `Matrix_Get` at the
in-range index `(1, 0)` passes every check and reads position 1, which is
outside that buffer. -/
theorem Matrix_Create_size_overflow :
    matrix_total_bytes (2 ^ 62 + 1) 1 GetIntFieldInfo.size = 4 ∧
    (Matrix_Create_sized true (2 ^ 62 + 1) 1 (some GetIntFieldInfo)).map
      (fun m => (m.rows, m.cols, m.buf.length)) = some (2 ^ 62 + 1, 1, 1) ∧
    (Matrix_Get (Matrix_Create_sized true (2 ^ 62 + 1) 1 (some GetIntFieldInfo)) 1 0
      (some 7)).1 = MATRIX_OK ∧
    (Matrix_Create_sized true (2 ^ 62 + 1) 1 (some GetIntFieldInfo)).map
      (fun m => decide (matrix_index m 1 0 < m.buf.length)) = some false := by
  decide

/-- C4, the code at the failing input, with a 64-bit `size_t`: `a` is a
well-formed `2^31 x 1` integer matrix and `b` a well-formed `1 x (2^31 + 1)`
integer matrix.  The byte count of the product, `2^31 * (2^31 + 1) * 4`, wraps to
`2^33`, so `Matrix_Multiply` returns `MATRIX_OK` and a matrix that records
`rows = 2^31`, `cols = 2^31 + 1` and owns a buffer of `2^31` cells, fewer than
`rows * cols`: the elements of every row but the first lie outside the buffer. -/
theorem Matrix_Multiply_size_overflow :
    WellFormed (Matrix.ofList GetIntFieldInfo (2 ^ 31) 1 (List.replicate (2 ^ 31) 1)) ∧
    WellFormed
      (Matrix.ofList GetIntFieldInfo 1 (2 ^ 31 + 1) (List.replicate (2 ^ 31 + 1) 1)) ∧
    ∃ p, Matrix_Multiply_sized true
        (some (Matrix.ofList GetIntFieldInfo (2 ^ 31) 1 (List.replicate (2 ^ 31) 1)))
        (some (Matrix.ofList GetIntFieldInfo 1 (2 ^ 31 + 1) (List.replicate (2 ^ 31 + 1) 1)))
        = (some p, MATRIX_OK) ∧
      p.rows = 2 ^ 31 ∧ p.cols = 2 ^ 31 + 1 ∧
      p.data.map List.length = some (2 ^ 31) ∧
      matrix_index p 1 0 = 2 ^ 31 + 1 ∧ ¬ WellFormed p := by
  refine ⟨wellFormed_replicate _ _ _ _ _ (by decide) (by decide) (by decide),
    wellFormed_replicate _ _ _ _ _ (by decide) (by decide) (by decide), ?_⟩
  obtain ⟨p, h1, h2, h3, _, h5⟩ := Matrix_Multiply_sized_run
    (Matrix.ofList GetIntFieldInfo (2 ^ 31) 1 (List.replicate (2 ^ 31) 1))
    (Matrix.ofList GetIntFieldInfo 1 (2 ^ 31 + 1) (List.replicate (2 ^ 31 + 1) 1))
    GetIntFieldInfo rfl rfl rfl (by decide) (by decide)
  have e : matrix_total_bytes (2 ^ 31) (2 ^ 31 + 1) GetIntFieldInfo.size
      / GetIntFieldInfo.size = 2 ^ 31 := by decide
  have h2b : p.rows = 2 ^ 31 := h2
  have h3b : p.cols = 2 ^ 31 + 1 := h3
  have h5b : p.data.map List.length = some (2 ^ 31) := by
    rw [h5]
    exact congrArg some e
  refine ⟨p, h1, h2b, h3b, h5b, ?_, ?_⟩
  · simp [matrix_index, h3b]
  · intro hw
    have := hw.2.2.2
    rw [h5b, h2b, h3b] at this
    exact absurd (Option.some.inj this) (by decide)

/-- C27, the code at the failing input `Matrix_Create(2^61 + 1, 2,
GetFloatFieldInfo())` with a 64-bit `size_t`: the byte count
`(2^61 + 1) * 2 * 4` wraps to 8, and the matrix returned has `rows = 2^61 + 1`,
`cols = 2` and a buffer of 2 cells, not `rows * cols = 2^62 + 2`: it is not well
formed. -/
theorem Matrix_Create_not_wellFormed :
    matrix_total_bytes (2 ^ 61 + 1) 2 GetFloatFieldInfo_binary32.size = 8 ∧
    (Matrix_Create_sized true (2 ^ 61 + 1) 2 (some GetFloatFieldInfo_binary32)).map
      (fun m => (m.rows, m.cols, m.buf.length, decide (WellFormed m)))
      = some (2 ^ 61 + 1, 2, 2, false) := by
  decide

/-- Counterexample to C22 as stated: `Matrix_GaussSolve` accepts the same matrix
as `b` and as `x`.  Heap `[[2,0,0,2], [4,6]]`, `a = [[2,0],[0,2]]` at block 0,
`b = x = [4,6]` at block 1: the call returns `MATRIX_OK` and `b` holds `[2,3]`
afterwards, not `[4,6]`. -/
theorem Matrix_GaussSolve_aliased_rhs_overwritten :
    (Matrix_GaussSolve_heap true [[2, 0, 0, 2], [4, 6]]
        (some (MatrixObj.mk (some 0) 2 2 (some GetIntFieldInfo)))
        (some (MatrixObj.mk (some 1) 2 1 (some GetIntFieldInfo)))
        (some (MatrixObj.mk (some 1) 2 1 (some GetIntFieldInfo)))).2 = MATRIX_OK ∧
      ((MatrixObj.mk (some 1) 2 1 (some GetIntFieldInfo)).deref
        [[2, 0, 0, 2], [4, 6]]).buf = [4, 6] ∧
      ((MatrixObj.mk (some 1) 2 1 (some GetIntFieldInfo)).deref
        (Matrix_GaussSolve_heap true [[2, 0, 0, 2], [4, 6]]
          (some (MatrixObj.mk (some 0) 2 2 (some GetIntFieldInfo)))
          (some (MatrixObj.mk (some 1) 2 1 (some GetIntFieldInfo)))
          (some (MatrixObj.mk (some 1) 2 1 (some GetIntFieldInfo)))).1).buf = [2, 3] := by
  decide

/-- C37, the code at the failing input: `A = [[1,1,0],[0,1,0],[1,-2147483647,1]]`,
`b = [0,0,0]`, no entry of which is `INT_MIN`.  The call returns `MATRIX_OK`.
Step 0 subtracts row 0 from row 2 and leaves `-2147483647 - 1 = INT_MIN` in
position `(2,1)`; at step 1 the pivot search keeps row 1 with pivot 1 (the
negation of `INT_MIN` wraps to `INT_MIN`, which is not greater than 1), and the
factor computed for row 2 is `INT_MIN / 1 = -2147483648`, not -1, 0 or 1. -/
theorem Matrix_GaussSolve_int_factor_unbounded :
    (∀ v, v ∈ ([1, 1, 0, 0, 1, 0, 1, -2147483647, 1] : List Int) → negatable v) ∧
    (Matrix_GaussSolve true
      (some (Matrix.ofList GetIntFieldInfo 3 3 [1, 1, 0, 0, 1, 0, 1, -2147483647, 1]))
      (some (Matrix.ofList GetIntFieldInfo 3 1 [0, 0, 0]))
      (some (Matrix.ofList GetIntFieldInfo 3 1 [0, 0, 0]))).1 = MATRIX_OK ∧
    gauss_forward_upto GetIntFieldInfo 3 4 1
      (gauss_start (Matrix.ofList GetIntFieldInfo 3 3 [1, 1, 0, 0, 1, 0, 1, -2147483647, 1])
        (Matrix.ofList GetIntFieldInfo 3 1 [0, 0, 0]))
      = some [1, 1, 0, 0, 0, 1, 0, 0, 0, -2147483648, 1, 0] ∧
    gauss_find_pivot GetIntFieldInfo 3 4 1 [1, 1, 0, 0, 0, 1, 0, 0, 0, -2147483648, 1, 0] = 1 ∧
    |load 4 (gauss_row_state GetIntFieldInfo 3 4 1 2
        [1, 1, 0, 0, 0, 1, 0, 0, 0, -2147483648, 1, 0]) 1 1|
      < |load 4 (gauss_row_state GetIntFieldInfo 3 4 1 2
        [1, 1, 0, 0, 0, 1, 0, 0, 0, -2147483648, 1, 0]) 2 1| ∧
    gauss_factor GetIntFieldInfo 3 4 1 2 [1, 1, 0, 0, 0, 1, 0, 0, 0, -2147483648, 1, 0]
      = -2147483648 := by
  decide

/-! ## A descriptor object other than the built-in singleton: the claim -/

/-- `Matrix_Add` never inspects the descriptor pointer: on integer matrices it
returns the same status and the same cells whether they are tagged with the
built-in integer descriptor or with another descriptor object of the integer
kind. -/
theorem Matrix_Add_int_instance (alloc : Bool) (a b : Matrix Int) (addr : Nat)
    (hta : a.type = some GetIntFieldInfo) (htb : b.type = some GetIntFieldInfo) :
    (Matrix_Add alloc (some (Matrix.mk a.data a.rows a.cols (some (IntFieldInfo_at addr))))
        (some (Matrix.mk b.data b.rows b.cols (some (IntFieldInfo_at addr))))).2
      = (Matrix_Add alloc (some a) (some b)).2 ∧
    (Matrix_Add alloc (some (Matrix.mk a.data a.rows a.cols (some (IntFieldInfo_at addr))))
        (some (Matrix.mk b.data b.rows b.cols (some (IntFieldInfo_at addr))))).1.map Matrix.buf
      = (Matrix_Add alloc (some a) (some b)).1.map Matrix.buf := by
  have c : types_compatible a b = true := by
    simp [types_compatible, hta, htb, FieldInfo_Equals]
  have c2 : types_compatible (Matrix.mk a.data a.rows a.cols (some (IntFieldInfo_at addr)))
      (Matrix.mk b.data b.rows b.cols (some (IntFieldInfo_at addr))) = true := by
    simp [types_compatible, FieldInfo_Equals]
  by_cases hd : a.rows ≠ b.rows ∨ a.cols ≠ b.cols
  · simp [Matrix_Add, c, c2, hd]
  · by_cases hz : a.rows = 0 ∨ a.cols = 0
    · simp [Matrix_Add, c, c2, hd, hta, Matrix_Create, hz]
    · cases alloc with
      | false => simp [Matrix_Add, c, c2, hd, hta, Matrix_Create, hz]
      | true =>
        have e : (IntFieldInfo_at addr).add = GetIntFieldInfo.add := rfl
        simp [Matrix_Add, c, c2, hd, hta, Matrix_Create, hz, Matrix.buf, e]

/-- `Matrix_Multiply` never inspects the descriptor pointer either. -/
theorem Matrix_Multiply_int_instance (alloc : Bool) (a b : Matrix Int) (addr : Nat)
    (hta : a.type = some GetIntFieldInfo) (htb : b.type = some GetIntFieldInfo) :
    (Matrix_Multiply alloc (some (Matrix.mk a.data a.rows a.cols (some (IntFieldInfo_at addr))))
        (some (Matrix.mk b.data b.rows b.cols (some (IntFieldInfo_at addr))))).2
      = (Matrix_Multiply alloc (some a) (some b)).2 ∧
    (Matrix_Multiply alloc
        (some (Matrix.mk a.data a.rows a.cols (some (IntFieldInfo_at addr))))
        (some (Matrix.mk b.data b.rows b.cols (some (IntFieldInfo_at addr))))).1.map Matrix.buf
      = (Matrix_Multiply alloc (some a) (some b)).1.map Matrix.buf := by
  have c : types_compatible a b = true := by
    simp [types_compatible, hta, htb, FieldInfo_Equals]
  have c2 : types_compatible (Matrix.mk a.data a.rows a.cols (some (IntFieldInfo_at addr)))
      (Matrix.mk b.data b.rows b.cols (some (IntFieldInfo_at addr))) = true := by
    simp [types_compatible, FieldInfo_Equals]
  by_cases hd : a.cols ≠ b.rows
  · simp [Matrix_Multiply, c, c2, hd]
  · by_cases hz : a.rows = 0 ∨ b.cols = 0
    · simp [Matrix_Multiply, c, c2, hd, hta, Matrix_Create, hz]
    · cases alloc with
      | false => simp [Matrix_Multiply, c, c2, hd, hta, Matrix_Create, hz]
      | true =>
        have e : (IntFieldInfo_at addr).add = GetIntFieldInfo.add := rfl
        have e2 : (IntFieldInfo_at addr).mul = GetIntFieldInfo.mul := rfl
        simp [Matrix_Multiply, c, c2, hd, hta, Matrix_Create, hz, Matrix.buf, multiply_loops,
          matrix_index, e, e2]

/-- With a descriptor object other than the two singletons the pivot search of
`Matrix_GaussSolve` keeps row `k` and the singularity test lets every pivot
pass. -/
theorem gauss_forward_step_other_instance (addr n w k : Nat) (aug : List Int) :
    gauss_find_pivot (IntFieldInfo_at addr) n w k aug = k ∧
      (gauss_forward_step (IntFieldInfo_at addr) n w k aug).isSome = true := by
  have h1 : gauss_find_pivot (IntFieldInfo_at addr) n w k aug = k := by
    unfold gauss_find_pivot
    exact forLoop_preserves (fun m => m = k) _
      (fun i s hs => by
        subst hs
        simp [pivot_exceeds, IntFieldInfo_at]) (k + 1) n k rfl
  refine ⟨h1, ?_⟩
  simp [gauss_forward_step, pivot_is_singular, IntFieldInfo_at]

/-- C24 (amended): descriptors with matching size and name are interchangeable
for the type check and for the operations that never inspect the descriptor
pointer.  A descriptor object of the integer kind at any address compares equal
(`FieldInfo_Equals`) to the built-in integer descriptor, and `Matrix_Add` and
`Matrix_Multiply` return the same status and the same cells for matrices tagged
with either.  `Matrix_Identity` and `Matrix_GaussSolve` identify the kind by the
descriptor pointer: on a well-formed square matrix tagged with the built-in
integer descriptor `Matrix_Identity` writes integer 1 on the diagonal and 0
elsewhere, on one tagged with the other object it writes the bytes of `1.0f`
(1065353216) on the diagonal; and with the other object the pivot search of
`Matrix_GaussSolve` keeps row `k` and no step reports a singular matrix. -/
theorem Matrix_descriptor_instance_interchange (alloc : Bool) (a b m : Matrix Int) (addr : Nat)
    (hta : a.type = some GetIntFieldInfo) (htb : b.type = some GetIntFieldInfo)
    (hm : WellFormed m) (hsq : m.rows = m.cols) :
    FieldInfo_Equals (some GetIntFieldInfo) (some (IntFieldInfo_at addr)) = true ∧
    ((Matrix_Add alloc (some (Matrix.mk a.data a.rows a.cols (some (IntFieldInfo_at addr))))
        (some (Matrix.mk b.data b.rows b.cols (some (IntFieldInfo_at addr))))).2
      = (Matrix_Add alloc (some a) (some b)).2 ∧
    (Matrix_Add alloc (some (Matrix.mk a.data a.rows a.cols (some (IntFieldInfo_at addr))))
        (some (Matrix.mk b.data b.rows b.cols (some (IntFieldInfo_at addr))))).1.map Matrix.buf
      = (Matrix_Add alloc (some a) (some b)).1.map Matrix.buf) ∧
    ((Matrix_Multiply alloc (some (Matrix.mk a.data a.rows a.cols (some (IntFieldInfo_at addr))))
        (some (Matrix.mk b.data b.rows b.cols (some (IntFieldInfo_at addr))))).2
      = (Matrix_Multiply alloc (some a) (some b)).2 ∧
    (Matrix_Multiply alloc
        (some (Matrix.mk a.data a.rows a.cols (some (IntFieldInfo_at addr))))
        (some (Matrix.mk b.data b.rows b.cols (some (IntFieldInfo_at addr))))).1.map Matrix.buf
      = (Matrix_Multiply alloc (some a) (some b)).1.map Matrix.buf) ∧
    (m.type = some GetIntFieldInfo →
      ∃ e, Matrix_Identity (some m) = (MATRIX_OK, some e) ∧
        ∀ i j o, i < m.rows → j < m.rows →
          Matrix_Get (some e) i j (some o) = (MATRIX_OK, some (if i = j then 1 else 0))) ∧
    (m.type = some (IntFieldInfo_at addr) →
      ∃ e, Matrix_Identity (some m) = (MATRIX_OK, some e) ∧
        ∀ i j o, i < m.rows → j < m.rows →
          Matrix_Get (some e) i j (some o) =
            (MATRIX_OK, some (if i = j then 1065353216 else 0))) ∧
    (∀ n w k aug, gauss_find_pivot (IntFieldInfo_at addr) n w k aug = k ∧
      (gauss_forward_step (IntFieldInfo_at addr) n w k aug).isSome = true) := by
  refine ⟨rfl, Matrix_Add_int_instance alloc a b addr hta htb,
    Matrix_Multiply_int_instance alloc a b addr hta htb, ?_, ?_,
    fun n w k aug => gauss_forward_step_other_instance addr n w k aug⟩
  · intro ht
    obtain ⟨m2, h1, _, _, h4⟩ := Matrix_Identity_spec m hm hsq
    refine ⟨m2, h1, ?_⟩
    intro i j o hi hj
    rw [h4 i j o hi hj, ht]
    rfl
  · intro ht
    obtain ⟨m2, h1, _, _, h4⟩ := Matrix_Identity_spec m hm hsq
    refine ⟨m2, h1, ?_⟩
    intro i j o hi hj
    rw [h4 i j o hi hj, ht]
    rfl

/-- Witness for C24 (amended): the integer matrices `[[1,2]]` and `[[3,4]]`
tagged with the descriptor object `IntFieldInfo_at 1` add up to `[[4,6]]`, as
they do when tagged with the built-in integer descriptor. -/
theorem Matrix_descriptor_instance_interchange_witness :
    (Matrix_Add true (some (Matrix.ofList (IntFieldInfo_at 1) 1 2 [1, 2]))
        (some (Matrix.ofList (IntFieldInfo_at 1) 1 2 [3, 4]))).1.map Matrix.buf
      = some [4, 6] :=
  ((Matrix_descriptor_instance_interchange true (Matrix.ofList GetIntFieldInfo 1 2 [1, 2])
    (Matrix.ofList GetIntFieldInfo 1 2 [3, 4]) (Matrix.ofList GetIntFieldInfo 1 1 [0]) 1
    rfl rfl (by decide) rfl).2.1.2).trans (by decide)

end SquareMatrix
